import Mathlib

/-!
Anvil containers: iteration protocol, BST traversal engine and combinators

A shallow embedding of `src/containers/binarysearchtree.c` and
`src/containers/iterator.c`.

Conventions of the embedding.

* A C pointer that may be `NULL` is an `Option`; a `void*` element is an
  `Option α` (`none` is `NULL`).
* Mutable state reached through `it->data_state` is passed explicitly: every
  protocol function takes the `data_state` of the iterator it is called on and
  returns its result together with the new `data_state`.
* `int` status codes are `Int` (`0` success, `-1` failure); `int` used as a
  truth value is `Bool`.
* `size_t` counters are `Nat`.
* A call that runs a loop with no bound of its own (the seek loop of the
  filter combinator, and every call that reaches it through an upstream
  iterator) may not return in C. The three protocol functions `get`,
  `has_next` and `next` therefore return an `Option`: `none` means that the
  call did not return (within the fuel given to the unbounded loop).
-/

set_option autoImplicit false

namespace Anvil

/-! ## Iterator core protocol (`ANVIterator`) -/

/-- The `ANVIterator` record: the state blob `data_state` (a `void*`, `NULL`
for a structurally invalid iterator) and the function pointers. Each function
pointer receives the iterator, of which it reads and writes `data_state`
only; the functions here therefore take and return that field. -/
structure ANVIterator (σ α : Type) where
  data_state : Option σ
  get : Option σ → Option (Option α × Option σ)
  has_next : Option σ → Option (Bool × Option σ)
  next : Option σ → Option (Int × Option σ)
  has_prev : Option σ → Bool × Option σ
  prev : Option σ → Int × Option σ
  reset : Option σ → Option σ
  is_valid : Option σ → Bool
  destroy : Option σ → Option σ

namespace ANVIterator

variable {σ α : Type}

/-- The call `it->get(it)`: result and the iterator afterwards (`none`: the
call did not return). -/
def callGet (it : ANVIterator σ α) : Option (Option α × ANVIterator σ α) :=
  (it.get it.data_state).map fun r => (r.1, { it with data_state := r.2 })

/-- The call `it->has_next(it)`. -/
def callHasNext (it : ANVIterator σ α) : Option (Bool × ANVIterator σ α) :=
  (it.has_next it.data_state).map fun r => (r.1, { it with data_state := r.2 })

/-- The call `it->next(it)`. -/
def callNext (it : ANVIterator σ α) : Option (Int × ANVIterator σ α) :=
  (it.next it.data_state).map fun r => (r.1, { it with data_state := r.2 })

/-- The call `it->has_prev(it)`. -/
def callHasPrev (it : ANVIterator σ α) : Bool × ANVIterator σ α :=
  ((it.has_prev it.data_state).1, { it with data_state := (it.has_prev it.data_state).2 })

/-- The call `it->prev(it)`. -/
def callPrev (it : ANVIterator σ α) : Int × ANVIterator σ α :=
  ((it.prev it.data_state).1, { it with data_state := (it.prev it.data_state).2 })

/-- The call `it->reset(it)`. -/
def callReset (it : ANVIterator σ α) : ANVIterator σ α :=
  { it with data_state := it.reset it.data_state }

/-- The call `it->is_valid(it)`. -/
def callIsValid (it : ANVIterator σ α) : Bool :=
  it.is_valid it.data_state

/-- The call `it->destroy(it)`. -/
def callDestroy (it : ANVIterator σ α) : ANVIterator σ α :=
  { it with data_state := it.destroy it.data_state }

/-- The consumer loop `while (it->has_next(it)) { x = it->get(it); it->next(it); }`,
collecting the values of `get`. The fuel bounds the number of `has_next`
calls; `none` means the loop was still running when the fuel ran out (or a
call did not return), and `some (out, it')` means the loop ended, because
`has_next` returned false, having collected `out` and left the iterator as
`it'`. -/
def drive : Nat → ANVIterator σ α → Option (List (Option α) × ANVIterator σ α)
  | 0, _ => none
  | fuel + 1, it =>
    match it.callHasNext with
    | none => none
    | some (false, it1) => some ([], it1)
    | some (true, it1) =>
      match it1.callGet with
      | none => none
      | some (x, it2) =>
        match it2.callNext with
        | none => none
        | some (_, it3) =>
          match drive fuel it3 with
          | some (out, it') => some (x :: out, it')
          | none => none

end ANVIterator

/-- Embeds `invalid_has_prev`. -/
def invalid_has_prev {σ : Type} (s : Option σ) : Bool × Option σ := (false, s)

/-- Embeds `invalid_prev`. -/
def invalid_prev {σ : Type} (s : Option σ) : Int × Option σ := (-1, s)

/-- Embeds `invalid_reset`. -/
def invalid_reset {σ : Type} (s : Option σ) : Option σ := s

/-! ## Stack used by the traversal engine -/

/-- Modelled from the spec: `stack.h` (`ANVStack`) is not among the sources;
the traversal engine uses it as the "explicit stack of pending nodes", a
last-in first-out store. The top of the stack is the head of `items`.
Allocation failure inside a push is not modelled. -/
structure ANVStack (β : Type) where
  items : List β

/-- Modelled from the spec: `anv_stack_push` puts an element on top. -/
def anv_stack_push {β : Type} (s : ANVStack β) (x : β) : ANVStack β := ⟨x :: s.items⟩

/-- Modelled from the spec: `anv_stack_peek` returns the top element, `NULL`
on an empty stack. -/
def anv_stack_peek {β : Type} (s : ANVStack β) : Option β := s.items.head?

/-- Modelled from the spec: `anv_stack_pop` removes the top element (nothing
happens on an empty stack). -/
def anv_stack_pop {β : Type} (s : ANVStack β) : ANVStack β := ⟨s.items.tail⟩

/-- Modelled from the spec: `anv_stack_is_empty`. -/
def anv_stack_is_empty {β : Type} (s : ANVStack β) : Bool := s.items.isEmpty

/-- Modelled from the spec: `anv_stack_clear` removes every element. -/
def anv_stack_clear {β : Type} (_s : ANVStack β) : ANVStack β := ⟨[]⟩

/-- Modelled from the spec: `anv_stack_create` returns an empty stack. -/
def anv_stack_create {β : Type} : ANVStack β := ⟨[]⟩

/-! ## Binary search tree -/

/-- A pointer to an `ANVBinarySearchTreeNode`: `null` is `NULL`; `node` is a
pointer to a node, given by the address `addr` of the node and the contents
of the node: `data`, the subtrees that `left` and `right` point to, and the
address `parent` of the parent node. Two pointers are the same pointer when
their addresses agree. -/
inductive ANVBinarySearchTreeNode (α : Type) where
  | null : ANVBinarySearchTreeNode α
  | node (addr : Nat) (data : α) (left right : ANVBinarySearchTreeNode α)
      (parent : Option Nat) : ANVBinarySearchTreeNode α

namespace ANVBinarySearchTreeNode

variable {α : Type}

/-- The pointer value: `none` for `NULL`, the address otherwise. -/
def ptr : ANVBinarySearchTreeNode α → Option Nat
  | null => none
  | node a _ _ _ _ => some a

/-- The pointer is `NULL`. -/
def isNull : ANVBinarySearchTreeNode α → Bool
  | null => true
  | node _ _ _ _ _ => false

/-- Pointer equality `p == q`. -/
def ptrEq (p q : ANVBinarySearchTreeNode α) : Bool := p.ptr == q.ptr

/-- The field `node->left` (of a non-null pointer). -/
def left : ANVBinarySearchTreeNode α → ANVBinarySearchTreeNode α
  | null => null
  | node _ _ l _ _ => l

/-- The field `node->right` (of a non-null pointer). -/
def right : ANVBinarySearchTreeNode α → ANVBinarySearchTreeNode α
  | null => null
  | node _ _ _ r _ => r

/-- The field `node->data`; `NULL` is returned for a null pointer, as
`bst_iterator_get` does. -/
def data? : ANVBinarySearchTreeNode α → Option α
  | null => none
  | node _ d _ _ _ => some d

/-- Number of nodes below a pointer. -/
def count : ANVBinarySearchTreeNode α → Nat
  | null => 0
  | node _ _ l r _ => l.count + 1 + r.count

/-- Addresses of the nodes below a pointer (in-order). -/
def addrs : ANVBinarySearchTreeNode α → List Nat
  | null => []
  | node a _ l r _ => l.addrs ++ a :: r.addrs

end ANVBinarySearchTreeNode

/-- Embeds `anv_bst_node_inorder`: the sequence of `action(node->data)` calls. -/
def anv_bst_node_inorder {α : Type} : ANVBinarySearchTreeNode α → List α
  | .null => []
  | .node _ d l r _ => anv_bst_node_inorder l ++ d :: anv_bst_node_inorder r

/-- Embeds `anv_bst_node_preorder`: the sequence of `action(node->data)` calls. -/
def anv_bst_node_preorder {α : Type} : ANVBinarySearchTreeNode α → List α
  | .null => []
  | .node _ d l r _ => d :: (anv_bst_node_preorder l ++ anv_bst_node_preorder r)

/-- Embeds `anv_bst_node_postorder`: the sequence of `action(node->data)` calls. -/
def anv_bst_node_postorder {α : Type} : ANVBinarySearchTreeNode α → List α
  | .null => []
  | .node _ d l r _ => anv_bst_node_postorder l ++ (anv_bst_node_postorder r ++ [d])

/-- The `ANVBinarySearchTree` record (the allocator field is left out: the
result of each allocation is an explicit argument of the function that
allocates). -/
structure ANVBinarySearchTree (α : Type) where
  root : ANVBinarySearchTreeNode α
  size : Nat
  compare : α → α → Int

/-! ## BST traversal engine -/

/-- Embeds `BSTTraversalType`. -/
inductive BSTTraversalType where
  | BST_TRAVERSAL_INORDER
  | BST_TRAVERSAL_PREORDER
  | BST_TRAVERSAL_POSTORDER
  deriving DecidableEq, Repr

/-- Embeds `BSTIteratorState`. The fields `tree` and `stack` are non-null in every
state that `bst_create_iterator` stores. -/
structure BSTIteratorState (α : Type) where
  tree : ANVBinarySearchTree α
  stack : ANVStack (ANVBinarySearchTreeNode α)
  current : ANVBinarySearchTreeNode α
  traversal_type : BSTTraversalType
  finished : Bool

/-- The value of `anv_stack_peek` as a node pointer (`NULL` on an empty stack). -/
def bst_stack_peek {α : Type} (s : ANVStack (ANVBinarySearchTreeNode α)) :
    ANVBinarySearchTreeNode α :=
  (anv_stack_peek s).getD .null

/-- The loop `while (node) { anv_stack_push(stack, node); node = node->left; }`
of `bst_setup_inorder` and of the in-order case of `bst_iterator_next`. -/
def bst_push_left_spine {α : Type} :
    ANVBinarySearchTreeNode α → ANVStack (ANVBinarySearchTreeNode α) →
      ANVStack (ANVBinarySearchTreeNode α)
  | .null, s => s
  | .node a d l r p, s => bst_push_left_spine l (anv_stack_push s (.node a d l r p))

/-- The loop of `bst_setup_postorder` and of the post-order case of
`bst_iterator_next`: push `node`, go to the left child if there is one, else
to the right child if there is one, else (a leaf) take the top of the stack as
the current node, pop it and leave the loop. `some (stack, current)` is the
leaf exit; `none` is the exit through the loop condition (`node == NULL`),
together with the stack at that point. -/
def bst_postorder_descend {α : Type} :
    ANVBinarySearchTreeNode α → ANVStack (ANVBinarySearchTreeNode α) →
      Option (ANVStack (ANVBinarySearchTreeNode α) × ANVBinarySearchTreeNode α)
  | .null, _ => none
  | .node a d l r p, s =>
    match l with
    | .node la ld ll lr lp =>
      bst_postorder_descend (.node la ld ll lr lp) (anv_stack_push s (.node a d l r p))
    | .null =>
      match r with
      | .node ra rd rl rr rp =>
        bst_postorder_descend (.node ra rd rl rr rp) (anv_stack_push s (.node a d l r p))
      | .null =>
        some (anv_stack_pop (anv_stack_push s (.node a d l r p)),
              bst_stack_peek (anv_stack_push s (.node a d l r p)))

/-- Embeds `bst_setup_inorder`. -/
def bst_setup_inorder {α : Type} (state : BSTIteratorState α) : BSTIteratorState α :=
  let stack := bst_push_left_spine state.tree.root state.stack
  if !anv_stack_is_empty stack then
    { state with current := bst_stack_peek stack, stack := anv_stack_pop stack }
  else
    { state with current := .null, stack := stack }

/-- Embeds `bst_setup_preorder`. -/
def bst_setup_preorder {α : Type} (state : BSTIteratorState α) : BSTIteratorState α :=
  if !state.tree.root.isNull then
    let stack := anv_stack_push state.stack state.tree.root
    { state with current := bst_stack_peek stack, stack := anv_stack_pop stack }
  else
    { state with current := .null }

/-- Embeds `bst_setup_postorder`. When the loop ends through its condition
(`node == NULL`, which happens for an empty tree only) `current` is set to
`NULL`. -/
def bst_setup_postorder {α : Type} (state : BSTIteratorState α) : BSTIteratorState α :=
  match bst_postorder_descend state.tree.root state.stack with
  | some (stack, cur) => { state with current := cur, stack := stack }
  | none => { state with current := .null }

/-- Embeds `bst_iterator_get`. -/
def bst_iterator_get {α : Type} :
    Option (BSTIteratorState α) → Option α × Option (BSTIteratorState α)
  | none => (none, none)
  | some state => (state.current.data?, some state)

/-- Embeds `bst_iterator_has_next`. -/
def bst_iterator_has_next {α : Type} :
    Option (BSTIteratorState α) → Bool × Option (BSTIteratorState α)
  | none => (false, none)
  | some state =>
    (!state.finished && (!state.current.isNull || !anv_stack_is_empty state.stack), some state)

/-- The in-order case of `bst_iterator_next`. -/
def bst_iterator_next_inorder {α : Type} (state : BSTIteratorState α) :
    Int × Option (BSTIteratorState α) :=
  if state.current.isNull then (0, some { state with finished := true })
  else
    let stack := bst_push_left_spine state.current.right state.stack
    if !anv_stack_is_empty stack then
      (0, some { state with current := bst_stack_peek stack, stack := anv_stack_pop stack })
    else
      (0, some { state with stack := stack, current := .null, finished := true })

/-- The pre-order case of `bst_iterator_next`. -/
def bst_iterator_next_preorder {α : Type} (state : BSTIteratorState α) :
    Int × Option (BSTIteratorState α) :=
  if state.current.isNull then (0, some { state with finished := true })
  else
    let stack1 :=
      if !state.current.right.isNull then anv_stack_push state.stack state.current.right
      else state.stack
    let stack2 :=
      if !state.current.left.isNull then anv_stack_push stack1 state.current.left
      else stack1
    if !anv_stack_is_empty stack2 then
      (0, some { state with current := bst_stack_peek stack2, stack := anv_stack_pop stack2 })
    else
      (0, some { state with stack := stack2, current := .null, finished := true })

/-- The post-order case of `bst_iterator_next`. -/
def bst_iterator_next_postorder {α : Type} (state : BSTIteratorState α) :
    Int × Option (BSTIteratorState α) :=
  if state.current.isNull then (0, some { state with finished := true })
  else if anv_stack_is_empty state.stack then
    (0, some { state with current := .null, finished := true })
  else
    let top := bst_stack_peek state.stack
    if top.left.ptrEq state.current && !top.right.isNull then
      match bst_postorder_descend top.right state.stack with
      | some (stack, cur) => (0, some { state with current := cur, stack := stack })
      | none =>
        (0, some { state with current := bst_stack_peek state.stack,
                              stack := anv_stack_pop state.stack })
    else
      (0, some { state with current := bst_stack_peek state.stack,
                            stack := anv_stack_pop state.stack })

/-- Embeds `bst_iterator_next`. -/
def bst_iterator_next {α : Type} :
    Option (BSTIteratorState α) → Int × Option (BSTIteratorState α)
  | none => (-1, none)
  | some state =>
    if state.finished then (0, some state)
    else
      match state.traversal_type with
      | .BST_TRAVERSAL_INORDER => bst_iterator_next_inorder state
      | .BST_TRAVERSAL_PREORDER => bst_iterator_next_preorder state
      | .BST_TRAVERSAL_POSTORDER => bst_iterator_next_postorder state

/-- Embeds `bst_iterator_has_prev`. -/
def bst_iterator_has_prev {α : Type} (s : Option (BSTIteratorState α)) :
    Bool × Option (BSTIteratorState α) := (false, s)

/-- Embeds `bst_iterator_prev`. -/
def bst_iterator_prev {α : Type} (s : Option (BSTIteratorState α)) :
    Int × Option (BSTIteratorState α) := (-1, s)

/-- Embeds `bst_iterator_reset`. -/
def bst_iterator_reset {α : Type} :
    Option (BSTIteratorState α) → Option (BSTIteratorState α)
  | none => none
  | some state =>
    let state1 : BSTIteratorState α :=
      { state with stack := anv_stack_clear state.stack, finished := false, current := .null }
    match state1.traversal_type with
    | .BST_TRAVERSAL_INORDER => some (bst_setup_inorder state1)
    | .BST_TRAVERSAL_PREORDER => some (bst_setup_preorder state1)
    | .BST_TRAVERSAL_POSTORDER => some (bst_setup_postorder state1)

/-- Embeds `bst_iterator_is_valid` (`state->tree` and `state->stack` are non-null in
every stored state). -/
def bst_iterator_is_valid {α : Type} : Option (BSTIteratorState α) → Bool
  | none => false
  | some _ => true

/-- Embeds `bst_iterator_destroy`. -/
def bst_iterator_destroy {α : Type} (_s : Option (BSTIteratorState α)) :
    Option (BSTIteratorState α) := none

/-- The iterator `it` of `bst_create_iterator` with the given `data_state`. -/
def bst_iterator_with {α : Type} (ds : Option (BSTIteratorState α)) :
    ANVIterator (BSTIteratorState α) α where
  data_state := ds
  get := fun s => some (bst_iterator_get s)
  has_next := fun s => some (bst_iterator_has_next s)
  next := fun s => some (bst_iterator_next s)
  has_prev := bst_iterator_has_prev
  prev := bst_iterator_prev
  reset := bst_iterator_reset
  is_valid := bst_iterator_is_valid
  destroy := bst_iterator_destroy

/-- Embeds `bst_create_iterator`. The two allocations (the state, the stack) are
represented by `alloc_ok` and `stack_ok`: whether each returns non-null. -/
def bst_create_iterator {α : Type} (tree : Option (ANVBinarySearchTree α))
    (traversal_type : BSTTraversalType) (alloc_ok stack_ok : Bool) :
    ANVIterator (BSTIteratorState α) α :=
  match tree with
  | none => bst_iterator_with none
  | some t =>
    if !alloc_ok then bst_iterator_with none
    else if !stack_ok then bst_iterator_with none
    else
      let state0 : BSTIteratorState α :=
        { tree := t, traversal_type := traversal_type, current := .null, finished := false,
          stack := anv_stack_create }
      let state1 :=
        match traversal_type with
        | .BST_TRAVERSAL_INORDER => bst_setup_inorder state0
        | .BST_TRAVERSAL_PREORDER => bst_setup_preorder state0
        | .BST_TRAVERSAL_POSTORDER => bst_setup_postorder state0
      let state2 := if state1.tree.size = 0 then { state1 with finished := true } else state1
      bst_iterator_with (some state2)

/-- Embeds `anv_bst_iterator` (allocations succeeding). -/
def anv_bst_iterator {α : Type} (tree : Option (ANVBinarySearchTree α)) :
    ANVIterator (BSTIteratorState α) α :=
  bst_create_iterator tree .BST_TRAVERSAL_INORDER true true

/-- Embeds `anv_bst_iterator_preorder` (allocations succeeding). -/
def anv_bst_iterator_preorder {α : Type} (tree : Option (ANVBinarySearchTree α)) :
    ANVIterator (BSTIteratorState α) α :=
  bst_create_iterator tree .BST_TRAVERSAL_PREORDER true true

/-- Embeds `anv_bst_iterator_postorder` (allocations succeeding). -/
def anv_bst_iterator_postorder {α : Type} (tree : Option (ANVBinarySearchTree α)) :
    ANVIterator (BSTIteratorState α) α :=
  bst_create_iterator tree .BST_TRAVERSAL_POSTORDER true true

/-- Embeds `anv_bst_node_create`: `p` is the result of the allocation. -/
def anv_bst_node_create {α : Type} (p : Option Nat) (data : α) : ANVBinarySearchTreeNode α :=
  match p with
  | none => .null
  | some a => .node a data .null .null none

/-- The search loop of `anv_bst_insert` together with the linking of the new
node below the `parent` it ends at: descends from `current` comparing `data`
with the node's data. `none` is the early `return 1` (duplicate); otherwise
the subtree with `new_node` linked in as the left child (`cmp < 0`) or the
right child of the last node visited, with `new_node->parent` set to it. -/
def bst_insert_descend {α : Type} (compare : α → α → Int) (data : α) (newp : Nat) :
    ANVBinarySearchTreeNode α → Option Nat → Option (ANVBinarySearchTreeNode α)
  | .null, parent => some (.node newp data .null .null parent)
  | .node a d l r p, _ =>
    if compare data d = 0 then none
    else if compare data d < 0 then
      (bst_insert_descend compare data newp l (some a)).map fun l1 => .node a d l1 r p
    else
      (bst_insert_descend compare data newp r (some a)).map fun r1 => .node a d l r1 p

/-- The search loop of `anv_bst_insert` alone: does it end by `return 1`? -/
def bst_insert_finds {α : Type} (compare : α → α → Int) (data : α) :
    ANVBinarySearchTreeNode α → Bool
  | .null => false
  | .node _ d l r _ =>
    if compare data d = 0 then true
    else if compare data d < 0 then bst_insert_finds compare data l
    else bst_insert_finds compare data r

/-- Embeds `anv_bst_insert`. `newp` is the result of the allocation made by
`anv_bst_node_create`, should the call get that far. The result is the
return code and the tree afterwards. -/
def anv_bst_insert {α : Type} (tree : Option (ANVBinarySearchTree α)) (data : Option α)
    (newp : Option Nat) : Int × Option (ANVBinarySearchTree α) :=
  match tree, data with
  | none, _ => (-1, none)
  | some t, none => (-1, some t)
  | some t, some d =>
    if t.root.isNull then
      match newp with
      | none => (-1, some t)
      | some a => (0, some { t with root := anv_bst_node_create (some a) d, size := t.size + 1 })
    else if bst_insert_finds t.compare d t.root then (1, some t)
    else
      match newp with
      | none => (-1, some t)
      | some a =>
        match bst_insert_descend t.compare d a t.root none with
        | none => (1, some t)
        | some root1 => (0, some { t with root := root1, size := t.size + 1 })

/-- Embeds `anv_bst_create` (allocation succeeding, `compare` non-null). -/
def anv_bst_create {α : Type} (compare : α → α → Int) : ANVBinarySearchTree α :=
  { root := .null, size := 0, compare := compare }

/-- An integer three-way comparison, the comparator of the integer examples. -/
def int_compare (a b : Int) : Int :=
  if a < b then -1 else if a > b then 1 else 0

/-- Insert the keys one after the other, the i-th new node being allocated at
address `base + i`; return codes are dropped. -/
def bst_insert_all {α : Type} : List α → Nat → Option (ANVBinarySearchTree α) →
    Option (ANVBinarySearchTree α)
  | [], _, t => t
  | k :: ks, base, t => bst_insert_all ks (base + 1) (anv_bst_insert t (some k) (some base)).2


/-! ## Allocator -/

/-- The `ANVAllocator` record: for each of the four function pointers,
whether it is set. What the functions do when called is given to the
embedded functions as explicit arguments. -/
structure ANVAllocator where
  allocate : Bool
  deallocate : Bool
  data_free : Bool
  copy : Bool

/-- Embeds `anv_alloc_allocate`: is the result non-null? `result` says whether the
call `alloc->allocate(size)` returns non-null. -/
def anv_alloc_allocate (alloc : Option ANVAllocator) (result : Bool) : Bool :=
  match alloc with
  | none => false
  | some a => if !a.allocate then false else result

/-- Embeds `anv_alloc_default`. -/
def anv_alloc_default : ANVAllocator :=
  { allocate := true, deallocate := true, data_free := true, copy := true }

/-! ## Combinators (`iterator.c`)

In every state that a constructor stores, `base_iterator` (or `iter1`,
`iter2`, `iterators`) and the function pointers of the upstream iterators are
non-null, as are `transform` and `filter`; the checks of these fields at the
head of the protocol functions therefore always pass and are not repeated
here. -/

/-- Embeds `TransformState`. -/
structure TransformState (σ α β : Type) where
  base_iterator : ANVIterator σ α
  transform : α → Option β
  cached_result : Option β
  transform_allocates : Bool

/-- Embeds `transform_get`. -/
def transform_get {σ α β : Type} :
    Option (TransformState σ α β) → Option (Option β × Option (TransformState σ α β))
  | none => some (none, none)
  | some state =>
    match state.cached_result with
    | some c => some (some c, some state)
    | none =>
      match state.base_iterator.callGet with
      | none => none
      | some (none, base) => some (none, some { state with base_iterator := base })
      | some (some element, base) =>
        some (state.transform element,
          some { state with base_iterator := base, cached_result := state.transform element })

/-- Embeds `transform_get` once more, with the calls of `state->transform`
counted: `calls` is the number of calls made before, and the result carries
the number of calls made after. -/
def transform_get_counted {σ α β : Type} :
    Option (TransformState σ α β) → Nat →
      Option ((Option β × Option (TransformState σ α β)) × Nat)
  | none, calls => some ((none, none), calls)
  | some state, calls =>
    match state.cached_result with
    | some c => some ((some c, some state), calls)
    | none =>
      match state.base_iterator.callGet with
      | none => none
      | some (none, base) => some ((none, some { state with base_iterator := base }), calls)
      | some (some element, base) =>
        some ((state.transform element,
          some { state with base_iterator := base, cached_result := state.transform element }),
          calls + 1)

/-- Embeds `transform_has_next`. -/
def transform_has_next {σ α β : Type} :
    Option (TransformState σ α β) → Option (Bool × Option (TransformState σ α β))
  | none => some (false, none)
  | some state =>
    match state.base_iterator.callHasNext with
    | none => none
    | some (b, base) => some (b, some { state with base_iterator := base })

/-- Embeds `transform_next` (the release of an allocated cached result leaves no
trace in the state). -/
def transform_next {σ α β : Type} :
    Option (TransformState σ α β) → Option (Int × Option (TransformState σ α β))
  | none => some (-1, none)
  | some state =>
    match state.base_iterator.callGet with
    | none => none
    | some (none, base) => some (-1, some { state with base_iterator := base })
    | some (some _, base) =>
      match base.callNext with
      | none => none
      | some (rc, base2) =>
        some (rc, some { state with base_iterator := base2, cached_result := none })

/-- Embeds `transform_is_valid`. -/
def transform_is_valid {σ α β : Type} : Option (TransformState σ α β) → Bool
  | none => false
  | some state => state.base_iterator.callIsValid

/-- Embeds `transform_destroy`. -/
def transform_destroy {σ α β : Type} (_s : Option (TransformState σ α β)) :
    Option (TransformState σ α β) := none

/-- The iterator `new_it` of `anv_iterator_transform` with the given `data_state`. -/
def transform_with {σ α β : Type} (ds : Option (TransformState σ α β)) :
    ANVIterator (TransformState σ α β) β where
  data_state := ds
  get := transform_get
  has_next := transform_has_next
  next := transform_next
  has_prev := fun s => invalid_has_prev s
  prev := fun s => invalid_prev s
  reset := invalid_reset
  is_valid := transform_is_valid
  destroy := transform_destroy

/-- Embeds `anv_iterator_transform`; `mem` says whether the allocation of the state
returns non-null. -/
def anv_iterator_transform {σ α β : Type} (it : Option (ANVIterator σ α))
    (alloc : Option ANVAllocator) (transform : Option (α → Option β))
    (transform_allocates : Bool) (mem : Bool) : ANVIterator (TransformState σ α β) β :=
  match it, transform, alloc with
  | some base, some f, some a =>
    if !anv_alloc_allocate (some a) mem then transform_with none
    else
      transform_with (some { base_iterator := base, transform := f, cached_result := none,
                             transform_allocates := transform_allocates })
  | _, _, _ => transform_with none

/-- Embeds `FilterState`. -/
structure FilterState (σ α : Type) where
  base_iterator : ANVIterator σ α
  filter : α → Bool
  current_element : Option α
  has_current : Bool
  current_matches : Bool

/-- The condition `element && state->filter(element)` of
`position_at_next_match`: the element is non-null and satisfies the
predicate. -/
def filter_keeps {α : Type} (p : α → Bool) : Option α → Bool
  | some e => p e
  | none => false

/-- The `while` loop of `position_at_next_match` followed by the three
assignments after it; `fuel` bounds the number of iterations and `none` means
that the loop did not end within it (or that an upstream call did not return). -/
def filter_seek {σ α : Type} : Nat → FilterState σ α → Option (FilterState σ α)
  | 0, _ => none
  | fuel + 1, state =>
    match state.base_iterator.callHasNext with
    | none => none
    | some (false, base) =>
      some { state with base_iterator := base, has_current := false, current_matches := false,
                        current_element := none }
    | some (true, base) =>
      match base.callGet with
      | none => none
      | some (element, base1) =>
        if filter_keeps state.filter element then
          some { state with base_iterator := base1, current_element := element,
                            has_current := true, current_matches := true }
        else
          match base1.callNext with
          | none => none
          | some (rc, base2) =>
            if rc != 0 then
              some { state with base_iterator := base2, has_current := false,
                                current_matches := false, current_element := none }
            else filter_seek fuel { state with base_iterator := base2 }

/-- Embeds `position_at_next_match`. -/
def position_at_next_match {σ α : Type} (fuel : Nat) (state : FilterState σ α) :
    Option (FilterState σ α) :=
  if state.has_current && state.current_matches then some state
  else filter_seek fuel state

/-- Embeds `filter_get`. -/
def filter_get {σ α : Type} (fuel : Nat) :
    Option (FilterState σ α) → Option (Option α × Option (FilterState σ α))
  | none => some (none, none)
  | some state =>
    match position_at_next_match fuel state with
    | none => none
    | some st => some (if st.current_matches then st.current_element else none, some st)

/-- Embeds `filter_has_next`. -/
def filter_has_next {σ α : Type} (fuel : Nat) :
    Option (FilterState σ α) → Option (Bool × Option (FilterState σ α))
  | none => some (false, none)
  | some state =>
    match position_at_next_match fuel state with
    | none => none
    | some st => some (st.current_matches, some st)

/-- Embeds `filter_next`; `it->has_next` is `filter_has_next`. -/
def filter_next {σ α : Type} (fuel : Nat) :
    Option (FilterState σ α) → Option (Int × Option (FilterState σ α))
  | none => some (-1, none)
  | some state =>
    match filter_has_next fuel (some state) with
    | none => none
    | some (_, none) => some (-1, none)
    | some (false, some st) => some (-1, some st)
    | some (true, some st) =>
      match st.base_iterator.callNext with
      | none => none
      | some (rc, base) =>
        if rc != 0 then some (-1, some { st with base_iterator := base })
        else
          some (0, some { st with base_iterator := base, has_current := false,
                                  current_matches := false, current_element := none })

/-- Embeds `filter_is_valid`. -/
def filter_is_valid {σ α : Type} : Option (FilterState σ α) → Bool
  | none => false
  | some state => state.base_iterator.callIsValid

/-- Embeds `filter_destroy`. -/
def filter_destroy {σ α : Type} (_s : Option (FilterState σ α)) : Option (FilterState σ α) :=
  none

/-- The iterator `new_it` of `anv_iterator_filter` with the given `data_state`. -/
def filter_with {σ α : Type} (fuel : Nat) (ds : Option (FilterState σ α)) :
    ANVIterator (FilterState σ α) α where
  data_state := ds
  get := filter_get fuel
  has_next := filter_has_next fuel
  next := filter_next fuel
  has_prev := fun s => invalid_has_prev s
  prev := fun s => invalid_prev s
  reset := invalid_reset
  is_valid := filter_is_valid
  destroy := filter_destroy

/-- Embeds `anv_iterator_filter`; `mem` says whether the allocation of the state
returns non-null, `garbage` is the value that the field `current_matches`,
which the constructor does not set, happens to hold in the fresh state, and
`fuel` is the bound given to the seek loop of the iterator. -/
def anv_iterator_filter {σ α : Type} (it : Option (ANVIterator σ α))
    (alloc : Option ANVAllocator) (filter : Option (α → Bool)) (mem : Bool) (garbage : Bool)
    (fuel : Nat) : ANVIterator (FilterState σ α) α :=
  match it, filter, alloc with
  | some base, some f, some a =>
    if !anv_alloc_allocate (some a) mem then filter_with fuel none
    else
      filter_with fuel (some { base_iterator := base, filter := f, current_element := none,
                               has_current := false, current_matches := garbage })
  | _, _, _ => filter_with fuel none

/-- Embeds `TakeState`. -/
structure TakeState (σ α : Type) where
  base_iterator : ANVIterator σ α
  max_count : Nat
  current_count : Nat

/-- Embeds `take_get`. -/
def take_get {σ α : Type} :
    Option (TakeState σ α) → Option (Option α × Option (TakeState σ α))
  | none => some (none, none)
  | some state =>
    if state.current_count < state.max_count then
      match state.base_iterator.callGet with
      | none => none
      | some (e, base) => some (e, some { state with base_iterator := base })
    else some (none, some state)

/-- Embeds `take_has_next`. -/
def take_has_next {σ α : Type} :
    Option (TakeState σ α) → Option (Bool × Option (TakeState σ α))
  | none => some (false, none)
  | some state =>
    if state.current_count ≥ state.max_count then some (false, some state)
    else
      match state.base_iterator.callHasNext with
      | none => none
      | some (b, base) => some (b, some { state with base_iterator := base })

/-- Embeds `take_next`. -/
def take_next {σ α : Type} :
    Option (TakeState σ α) → Option (Int × Option (TakeState σ α))
  | none => some (-1, none)
  | some state =>
    if state.current_count ≥ state.max_count then some (-1, some state)
    else
      match state.base_iterator.callNext with
      | none => none
      | some (result, base) =>
        some (result,
          some { state with base_iterator := base,
                            current_count :=
                              if result = 0 then state.current_count + 1
                              else state.current_count })

/-- Embeds `take_is_valid`. -/
def take_is_valid {σ α : Type} : Option (TakeState σ α) → Bool
  | none => false
  | some state => state.base_iterator.callIsValid

/-- Embeds `take_destroy`. -/
def take_destroy {σ α : Type} (_s : Option (TakeState σ α)) : Option (TakeState σ α) := none

/-- The iterator `new_it` of `anv_iterator_take` with the given `data_state`. -/
def take_with {σ α : Type} (ds : Option (TakeState σ α)) : ANVIterator (TakeState σ α) α where
  data_state := ds
  get := take_get
  has_next := take_has_next
  next := take_next
  has_prev := fun s => invalid_has_prev s
  prev := fun s => invalid_prev s
  reset := invalid_reset
  is_valid := take_is_valid
  destroy := take_destroy

/-- Embeds `anv_iterator_take`; `mem` says whether the allocation of the state
returns non-null. -/
def anv_iterator_take {σ α : Type} (it : Option (ANVIterator σ α))
    (alloc : Option ANVAllocator) (count : Nat) (mem : Bool) : ANVIterator (TakeState σ α) α :=
  match it, alloc with
  | some base, some a =>
    if !anv_alloc_allocate (some a) mem then take_with none
    else take_with (some { base_iterator := base, max_count := count, current_count := 0 })
  | _, _ => take_with none

/-- Embeds `SkipState`. -/
structure SkipState (σ α : Type) where
  base_iterator : ANVIterator σ α
  skip_count : Nat
  has_skipped : Bool

/-- The `for` loop of `perform_skip` with `n` iterations left before `i`
reaches `skip_count`: the upstream iterator after the loop. -/
def skip_loop {σ α : Type} : Nat → ANVIterator σ α → Option (ANVIterator σ α)
  | 0, base => some base
  | n + 1, base =>
    match base.callHasNext with
    | none => none
    | some (false, base1) => some base1
    | some (true, base1) =>
      match base1.callNext with
      | none => none
      | some (rc, base2) => if rc != 0 then some base2 else skip_loop n base2

/-- Embeds `perform_skip`. -/
def perform_skip {σ α : Type} (state : SkipState σ α) : Option (SkipState σ α) :=
  if state.has_skipped then some state
  else
    (skip_loop state.skip_count state.base_iterator).map fun base =>
      { state with base_iterator := base, has_skipped := true }

/-- Embeds `skip_get`. -/
def skip_get {σ α : Type} :
    Option (SkipState σ α) → Option (Option α × Option (SkipState σ α))
  | none => some (none, none)
  | some state =>
    match perform_skip state with
    | none => none
    | some st =>
      match st.base_iterator.callGet with
      | none => none
      | some (e, base) => some (e, some { st with base_iterator := base })

/-- Embeds `skip_has_next`. -/
def skip_has_next {σ α : Type} :
    Option (SkipState σ α) → Option (Bool × Option (SkipState σ α))
  | none => some (false, none)
  | some state =>
    match perform_skip state with
    | none => none
    | some st =>
      match st.base_iterator.callHasNext with
      | none => none
      | some (b, base) => some (b, some { st with base_iterator := base })

/-- Embeds `skip_next`. -/
def skip_next {σ α : Type} :
    Option (SkipState σ α) → Option (Int × Option (SkipState σ α))
  | none => some (-1, none)
  | some state =>
    match perform_skip state with
    | none => none
    | some st =>
      match st.base_iterator.callNext with
      | none => none
      | some (rc, base) => some (rc, some { st with base_iterator := base })

/-- Embeds `skip_is_valid`. -/
def skip_is_valid {σ α : Type} : Option (SkipState σ α) → Bool
  | none => false
  | some state => state.base_iterator.callIsValid

/-- Embeds `skip_destroy`. -/
def skip_destroy {σ α : Type} (_s : Option (SkipState σ α)) : Option (SkipState σ α) := none

/-- The iterator `new_it` of `anv_iterator_skip` with the given `data_state`. -/
def skip_with {σ α : Type} (ds : Option (SkipState σ α)) : ANVIterator (SkipState σ α) α where
  data_state := ds
  get := skip_get
  has_next := skip_has_next
  next := skip_next
  has_prev := fun s => invalid_has_prev s
  prev := fun s => invalid_prev s
  reset := invalid_reset
  is_valid := skip_is_valid
  destroy := skip_destroy

/-- Embeds `anv_iterator_skip`; `mem` says whether the allocation of the state
returns non-null. -/
def anv_iterator_skip {σ α : Type} (it : Option (ANVIterator σ α))
    (alloc : Option ANVAllocator) (count : Nat) (mem : Bool) : ANVIterator (SkipState σ α) α :=
  match it, alloc with
  | some base, some a =>
    if !anv_alloc_allocate (some a) mem then skip_with none
    else skip_with (some { base_iterator := base, skip_count := count, has_skipped := false })
  | _, _ => skip_with none

/-- The two slots of an `ANVPair` (`pair.c`); the value that `zip_get`
returns is the content of the cached pair at the time of the call. -/
structure ANVPair (α β : Type) where
  first : Option α
  second : Option β

/-- Embeds `ZipState`. -/
structure ZipState (σ τ α β : Type) where
  iter1 : ANVIterator σ α
  iter2 : ANVIterator τ β
  cached_pair : ANVPair α β
  has_cached_pair : Bool

/-- Embeds `zip_get`. -/
def zip_get {σ τ α β : Type} :
    Option (ZipState σ τ α β) → Option (Option (ANVPair α β) × Option (ZipState σ τ α β))
  | none => some (none, none)
  | some state =>
    match state.iter1.callHasNext with
    | none => none
    | some (false, i1) => some (none, some { state with iter1 := i1 })
    | some (true, i1) =>
      match state.iter2.callHasNext with
      | none => none
      | some (false, i2) => some (none, some { state with iter1 := i1, iter2 := i2 })
      | some (true, i2) =>
        if !state.has_cached_pair then
          match i1.callGet with
          | none => none
          | some (elem1, j1) =>
            match i2.callGet with
            | none => none
            | some (elem2, j2) =>
              some (some { first := elem1, second := elem2 },
                some { state with iter1 := j1, iter2 := j2,
                                  cached_pair := { first := elem1, second := elem2 },
                                  has_cached_pair := true })
        else some (some state.cached_pair, some { state with iter1 := i1, iter2 := i2 })

/-- Embeds `zip_has_next`. -/
def zip_has_next {σ τ α β : Type} :
    Option (ZipState σ τ α β) → Option (Bool × Option (ZipState σ τ α β))
  | none => some (false, none)
  | some state =>
    match state.iter1.callHasNext with
    | none => none
    | some (false, i1) => some (false, some { state with iter1 := i1 })
    | some (true, i1) =>
      match state.iter2.callHasNext with
      | none => none
      | some (b, i2) => some (b, some { state with iter1 := i1, iter2 := i2 })

/-- Embeds `zip_next`. -/
def zip_next {σ τ α β : Type} :
    Option (ZipState σ τ α β) → Option (Int × Option (ZipState σ τ α β))
  | none => some (-1, none)
  | some state =>
    match zip_has_next (some state) with
    | none => none
    | some (_, none) => some (-1, none)
    | some (false, some st) => some (-1, some st)
    | some (true, some st) =>
      match st.iter1.callNext with
      | none => none
      | some (result1, i1) =>
        match st.iter2.callNext with
        | none => none
        | some (result2, i2) =>
          if result1 != 0 || result2 != 0 then
            some (-1, some { st with iter1 := i1, iter2 := i2 })
          else
            some (0, some { st with iter1 := i1, iter2 := i2,
                                    cached_pair := { first := none, second := none },
                                    has_cached_pair := false })

/-- Embeds `zip_is_valid`. -/
def zip_is_valid {σ τ α β : Type} : Option (ZipState σ τ α β) → Bool
  | none => false
  | some state => state.iter1.callIsValid && state.iter2.callIsValid

/-- Embeds `zip_destroy`. -/
def zip_destroy {σ τ α β : Type} (_s : Option (ZipState σ τ α β)) :
    Option (ZipState σ τ α β) := none

/-- The iterator `new_it` of `anv_iterator_zip` with the given `data_state`. -/
def zip_with {σ τ α β : Type} (ds : Option (ZipState σ τ α β)) :
    ANVIterator (ZipState σ τ α β) (ANVPair α β) where
  data_state := ds
  get := zip_get
  has_next := zip_has_next
  next := zip_next
  has_prev := fun s => invalid_has_prev s
  prev := fun s => invalid_prev s
  reset := invalid_reset
  is_valid := zip_is_valid
  destroy := zip_destroy

/-- Embeds `anv_iterator_zip`; `mem` and `mem_pair` say whether the allocation of
the state and the one inside `anv_pair_create` return non-null. -/
def anv_iterator_zip {σ τ α β : Type} (it1 : Option (ANVIterator σ α))
    (it2 : Option (ANVIterator τ β)) (alloc : Option ANVAllocator) (mem mem_pair : Bool) :
    ANVIterator (ZipState σ τ α β) (ANVPair α β) :=
  match it1, it2, alloc with
  | some i1, some i2, some a =>
    if !anv_alloc_allocate (some a) mem then zip_with none
    else if !anv_alloc_allocate (some a) mem_pair then zip_with none
    else
      zip_with (some { iter1 := i1, iter2 := i2,
                       cached_pair := { first := none, second := none },
                       has_cached_pair := false })
  | _, _, _ => zip_with none

/-- Embeds `ChainState`. The array `iterators` is a list and `iterator_count` is
its length. -/
structure ChainState (σ α : Type) where
  iterators : List (ANVIterator σ α)
  current_iterator_index : Nat

/-- Embeds `state->iterator_count`. -/
def ChainState.iterator_count {σ α : Type} (state : ChainState σ α) : Nat :=
  state.iterators.length

/-- Embeds `chain_get`. -/
def chain_get {σ α : Type} :
    Option (ChainState σ α) → Option (Option α × Option (ChainState σ α))
  | none => some (none, none)
  | some state =>
    if state.current_iterator_index ≥ state.iterator_count then some (none, some state)
    else
      match state.iterators[state.current_iterator_index]? with
      | none => some (none, some state)
      | some current_it =>
        match current_it.callGet with
        | none => none
        | some (e, cur) =>
          some (e, some { state with
            iterators := state.iterators.set state.current_iterator_index cur })

/-- The `for` loop of `chain_has_next`, with `n` iterations left before `i`
reaches `iterator_count`. -/
def chain_has_next_loop {σ α : Type} :
    Nat → Nat → ChainState σ α → Option (Bool × ChainState σ α)
  | 0, _, state => some (false, state)
  | n + 1, i, state =>
    match state.iterators[i]? with
    | none => some (false, state)
    | some current_it =>
      match current_it.callHasNext with
      | none => none
      | some (true, cur) => some (true, { state with iterators := state.iterators.set i cur })
      | some (false, cur) =>
        chain_has_next_loop n (i + 1)
          { state with iterators := state.iterators.set i cur,
                       current_iterator_index := state.current_iterator_index + 1 }

/-- Embeds `chain_has_next`. -/
def chain_has_next {σ α : Type} :
    Option (ChainState σ α) → Option (Bool × Option (ChainState σ α))
  | none => some (false, none)
  | some state =>
    (chain_has_next_loop (state.iterator_count - state.current_iterator_index)
      state.current_iterator_index state).map fun r => (r.1, some r.2)

/-- Embeds `chain_next`. -/
def chain_next {σ α : Type} :
    Option (ChainState σ α) → Option (Int × Option (ChainState σ α))
  | none => some (-1, none)
  | some state =>
    if state.current_iterator_index ≥ state.iterator_count then some (-1, some state)
    else
      match state.iterators[state.current_iterator_index]? with
      | none => some (-1, some state)
      | some current_it =>
        match current_it.callNext with
        | none => none
        | some (rc, cur) =>
          if rc = 0 then
            some (0, some { state with
              iterators := state.iterators.set state.current_iterator_index cur })
          else if state.current_iterator_index + 1 ≥ state.iterator_count then
            some (-1, some { state with
              iterators := state.iterators.set state.current_iterator_index cur,
              current_iterator_index := state.current_iterator_index + 1 })
          else
            some (0, some { state with
              iterators := state.iterators.set state.current_iterator_index cur,
              current_iterator_index := state.current_iterator_index + 1 })

/-- Embeds `chain_is_valid`. -/
def chain_is_valid {σ α : Type} : Option (ChainState σ α) → Bool
  | none => false
  | some state =>
    if state.iterator_count = 0 then false
    else state.iterators.any fun current_it => current_it.callIsValid

/-- Embeds `chain_destroy`. -/
def chain_destroy {σ α : Type} (_s : Option (ChainState σ α)) : Option (ChainState σ α) :=
  none

/-- The iterator `new_it` of `anv_iterator_chain` with the given `data_state`. -/
def chain_with {σ α : Type} (ds : Option (ChainState σ α)) :
    ANVIterator (ChainState σ α) α where
  data_state := ds
  get := chain_get
  has_next := chain_has_next
  next := chain_next
  has_prev := fun s => invalid_has_prev s
  prev := fun s => invalid_prev s
  reset := invalid_reset
  is_valid := chain_is_valid
  destroy := chain_destroy

/-- Embeds `anv_iterator_chain`; the array `iterators` comes with its length
`iterator_count`; `mem` and `mem_array` say whether the allocation of the
state and that of the array copy return non-null. -/
def anv_iterator_chain {σ α : Type} (iterators : Option (List (ANVIterator σ α)))
    (alloc : Option ANVAllocator) (mem mem_array : Bool) : ANVIterator (ChainState σ α) α :=
  match iterators, alloc with
  | some its, some a =>
    if its.length = 0 then chain_with none
    else if !anv_alloc_allocate (some a) mem then chain_with none
    else if !anv_alloc_allocate (some a) mem_array then chain_with none
    else chain_with (some { iterators := its, current_iterator_index := 0 })
  | _, _ => chain_with none

/-- Embeds `RepeatState`; `value` is non-null in every stored state. -/
structure RepeatState (α : Type) where
  value : α
  total_count : Nat
  current_count : Nat

/-- Embeds `repeat_get`. -/
def repeat_get {α : Type} : Option (RepeatState α) → Option α × Option (RepeatState α)
  | none => (none, none)
  | some state =>
    if state.current_count < state.total_count then (some state.value, some state)
    else (none, some state)

/-- Embeds `repeat_has_next`. -/
def repeat_has_next {α : Type} : Option (RepeatState α) → Bool × Option (RepeatState α)
  | none => (false, none)
  | some state => (decide (state.current_count < state.total_count), some state)

/-- Embeds `repeat_next`. -/
def repeat_next {α : Type} : Option (RepeatState α) → Int × Option (RepeatState α)
  | none => (-1, none)
  | some state =>
    if state.current_count ≥ state.total_count then (-1, some state)
    else (0, some { state with current_count := state.current_count + 1 })

/-- Embeds `repeat_reset`. -/
def repeat_reset {α : Type} : Option (RepeatState α) → Option (RepeatState α)
  | none => none
  | some state => some { state with current_count := 0 }

/-- Embeds `repeat_is_valid` (`state->value` is non-null in every stored state). -/
def repeat_is_valid {α : Type} : Option (RepeatState α) → Bool
  | none => false
  | some _ => true

/-- Embeds `repeat_destroy`. -/
def repeat_destroy {α : Type} (_s : Option (RepeatState α)) : Option (RepeatState α) := none

/-- The iterator `new_it` of `anv_iterator_repeat` with the given `data_state`. -/
def repeat_with {α : Type} (ds : Option (RepeatState α)) : ANVIterator (RepeatState α) α where
  data_state := ds
  get := fun s => some (repeat_get s)
  has_next := fun s => some (repeat_has_next s)
  next := fun s => some (repeat_next s)
  has_prev := fun s => invalid_has_prev s
  prev := fun s => invalid_prev s
  reset := repeat_reset
  is_valid := repeat_is_valid
  destroy := repeat_destroy

/-- Embeds `anv_iterator_repeat`; `mem` says whether the allocation of the state
returns non-null. -/
def anv_iterator_repeat {α : Type} (value : Option α) (alloc : Option ANVAllocator)
    (count : Nat) (mem : Bool) : ANVIterator (RepeatState α) α :=
  match value, alloc with
  | some v, some a =>
    if !anv_alloc_allocate (some a) mem then repeat_with none
    else repeat_with (some { value := v, total_count := count, current_count := 0 })
  | _, _ => repeat_with none

/-! ## Range iterator (`iterator.c`) -/

/-- The value of an `int` computation: the mathematical result reduced modulo
2^32 into the range of a 32-bit two's-complement `int`. -/
def int_wrap (x : Int) : Int := (x + 2147483648) % 4294967296 - 2147483648

/-- The value is representable as a 32-bit `int`. -/
def is_int (x : Int) : Prop := -2147483648 ≤ x ∧ x < 2147483648

instance is_int_decidable (x : Int) : Decidable (is_int x) :=
  inferInstanceAs (Decidable (-2147483648 ≤ x ∧ x < 2147483648))

/-- Embeds `RangeState` (the field `end` is written `end_`). -/
structure RangeState where
  start : Int
  current : Int
  end_ : Int
  step : Int
  cached_value : Int

/-- Embeds `range_get`; the element returned is the content of
`cached_value`, to which the returned pointer points. -/
def range_get : Option RangeState → Option Int × Option RangeState
  | none => (none, none)
  | some state =>
    if (state.step > 0 ∧ state.current < state.end_) ∨
        (state.step < 0 ∧ state.current > state.end_) then
      (some state.current, some { state with cached_value := state.current })
    else (none, some state)

/-- Embeds `range_has_next`. -/
def range_has_next : Option RangeState → Bool × Option RangeState
  | none => (false, none)
  | some state =>
    if state.step > 0 then (decide (state.current < state.end_), some state)
    else if state.step < 0 then (decide (state.current > state.end_), some state)
    else (false, some state)

/-- Embeds `range_next`. -/
def range_next : Option RangeState → Int × Option RangeState
  | none => (-1, none)
  | some state =>
    if !(range_has_next (some state)).1 then (-1, some state)
    else (0, some { state with current := int_wrap (state.current + state.step) })

/-- Embeds `range_has_prev`. -/
def range_has_prev : Option RangeState → Bool × Option RangeState
  | none => (false, none)
  | some state =>
    if state.step > 0 then (decide (state.current > state.start), some state)
    else if state.step < 0 then (decide (state.current < state.start), some state)
    else (false, some state)

/-- Embeds `range_prev`. -/
def range_prev : Option RangeState → Int × Option RangeState
  | none => (-1, none)
  | some state =>
    if !(range_has_prev (some state)).1 then (-1, some state)
    else (0, some { state with current := int_wrap (state.current - state.step) })

/-- Embeds `range_reset`. -/
def range_reset : Option RangeState → Option RangeState
  | none => none
  | some state => some { state with current := state.start }

/-- Embeds `range_is_valid`. -/
def range_is_valid : Option RangeState → Bool
  | none => false
  | some _ => true

/-- Embeds `range_destroy`. -/
def range_destroy (_s : Option RangeState) : Option RangeState := none

/-- The iterator `it` of `anv_iterator_range` with the given `data_state`. -/
def range_with (ds : Option RangeState) : ANVIterator RangeState Int where
  data_state := ds
  get := fun s => some (range_get s)
  has_next := fun s => some (range_has_next s)
  next := fun s => some (range_next s)
  has_prev := range_has_prev
  prev := range_prev
  reset := range_reset
  is_valid := range_is_valid
  destroy := range_destroy

/-- Embeds `anv_iterator_range`; `mem` says whether the allocation of the
state returns non-null. -/
def anv_iterator_range (alloc : Option ANVAllocator) (start end_ step : Int) (mem : Bool) :
    ANVIterator RangeState Int :=
  match alloc with
  | none => range_with none
  | some a =>
    if step = 0 ∨ (start < end_ ∧ step < 0) ∨ (start > end_ ∧ step > 0) then range_with none
    else if !anv_alloc_allocate (some a) mem then range_with none
    else
      range_with (some { start := start, current := start, end_ := end_, step := step,
                         cached_value := start })

/-! ## Copy and enumerate combinators (`iterator.c`) -/

/-- Embeds `CopyState`. -/
structure CopyState (σ α : Type) where
  base_iterator : ANVIterator σ α
  copy : α → Option α
  cached_copy : Option α

/-- Embeds `copy_get`. -/
def copy_get {σ α : Type} :
    Option (CopyState σ α) → Option (Option α × Option (CopyState σ α))
  | none => some (none, none)
  | some state =>
    match state.cached_copy with
    | some c => some (some c, some state)
    | none =>
      match state.base_iterator.callGet with
      | none => none
      | some (none, base) => some (none, some { state with base_iterator := base })
      | some (some element, base) =>
        some (state.copy element,
          some { state with base_iterator := base, cached_copy := state.copy element })

/-- Embeds `copy_has_next`. -/
def copy_has_next {σ α : Type} :
    Option (CopyState σ α) → Option (Bool × Option (CopyState σ α))
  | none => some (false, none)
  | some state =>
    match state.base_iterator.callHasNext with
    | none => none
    | some (b, base) => some (b, some { state with base_iterator := base })

/-- Embeds `copy_next`. -/
def copy_next {σ α : Type} :
    Option (CopyState σ α) → Option (Int × Option (CopyState σ α))
  | none => some (-1, none)
  | some state =>
    match state.base_iterator.callNext with
    | none => none
    | some (rc, base) => some (rc, some { state with base_iterator := base, cached_copy := none })

/-- Embeds `copy_is_valid` (`state->copy` is non-null in every stored state). -/
def copy_is_valid {σ α : Type} : Option (CopyState σ α) → Bool
  | none => false
  | some state => state.base_iterator.callIsValid

/-- Embeds `copy_destroy`. -/
def copy_destroy {σ α : Type} (_s : Option (CopyState σ α)) : Option (CopyState σ α) := none

/-- The iterator `new_it` of `anv_iterator_copy` with the given `data_state`. -/
def copy_with {σ α : Type} (ds : Option (CopyState σ α)) : ANVIterator (CopyState σ α) α where
  data_state := ds
  get := copy_get
  has_next := copy_has_next
  next := copy_next
  has_prev := fun s => invalid_has_prev s
  prev := fun s => invalid_prev s
  reset := invalid_reset
  is_valid := copy_is_valid
  destroy := copy_destroy

/-- Embeds `anv_iterator_copy`; `mem` says whether the allocation of the
state returns non-null. -/
def anv_iterator_copy {σ α : Type} (it : Option (ANVIterator σ α))
    (alloc : Option ANVAllocator) (copy : Option (α → Option α)) (mem : Bool) :
    ANVIterator (CopyState σ α) α :=
  match it, copy, alloc with
  | some base, some f, some a =>
    if !anv_alloc_allocate (some a) mem then copy_with none
    else copy_with (some { base_iterator := base, copy := f, cached_copy := none })
  | _, _, _ => copy_with none

/-- Embeds `ANVIndexedElement` (without its allocator field); the value that
`enumerate_get` returns is the content of the cached element at the time of
the call. -/
structure ANVIndexedElement (α : Type) where
  index : Nat
  element : Option α

/-- Embeds `EnumerateState`. -/
structure EnumerateState (σ α : Type) where
  base_iterator : ANVIterator σ α
  current_index : Nat
  cached_element : ANVIndexedElement α

/-- Embeds `enumerate_get`. -/
def enumerate_get {σ α : Type} :
    Option (EnumerateState σ α) →
      Option (Option (ANVIndexedElement α) × Option (EnumerateState σ α))
  | none => some (none, none)
  | some state =>
    match state.base_iterator.callHasNext with
    | none => none
    | some (false, base) => some (none, some { state with base_iterator := base })
    | some (true, base) =>
      match base.callGet with
      | none => none
      | some (element, base1) =>
        some (some { index := state.current_index, element := element },
          some { state with base_iterator := base1,
                            cached_element :=
                              { index := state.current_index, element := element } })

/-- Embeds `enumerate_has_next`. -/
def enumerate_has_next {σ α : Type} :
    Option (EnumerateState σ α) → Option (Bool × Option (EnumerateState σ α))
  | none => some (false, none)
  | some state =>
    match state.base_iterator.callHasNext with
    | none => none
    | some (b, base) => some (b, some { state with base_iterator := base })

/-- Embeds `enumerate_next`; the `size_t` increment of `current_index` is
taken modulo 2^64. -/
def enumerate_next {σ α : Type} :
    Option (EnumerateState σ α) → Option (Int × Option (EnumerateState σ α))
  | none => some (-1, none)
  | some state =>
    match enumerate_has_next (some state) with
    | none => none
    | some (_, none) => some (-1, none)
    | some (false, some st) => some (-1, some st)
    | some (true, some st) =>
      match st.base_iterator.callNext with
      | none => none
      | some (result, base) =>
        some (result,
          some { st with base_iterator := base,
                         current_index :=
                           if result = 0 then (st.current_index + 1) % 18446744073709551616
                           else st.current_index })

/-- Embeds `enumerate_is_valid`. -/
def enumerate_is_valid {σ α : Type} : Option (EnumerateState σ α) → Bool
  | none => false
  | some state => state.base_iterator.callIsValid

/-- Embeds `enumerate_destroy`. -/
def enumerate_destroy {σ α : Type} (_s : Option (EnumerateState σ α)) :
    Option (EnumerateState σ α) := none

/-- The iterator `new_it` of `anv_iterator_enumerate` with the given
`data_state`. -/
def enumerate_with {σ α : Type} (ds : Option (EnumerateState σ α)) :
    ANVIterator (EnumerateState σ α) (ANVIndexedElement α) where
  data_state := ds
  get := enumerate_get
  has_next := enumerate_has_next
  next := enumerate_next
  has_prev := fun s => invalid_has_prev s
  prev := fun s => invalid_prev s
  reset := invalid_reset
  is_valid := enumerate_is_valid
  destroy := enumerate_destroy

/-- Embeds `anv_iterator_enumerate`; `mem` says whether the allocation of the
state returns non-null. -/
def anv_iterator_enumerate {σ α : Type} (it : Option (ANVIterator σ α))
    (alloc : Option ANVAllocator) (start_index : Nat) (mem : Bool) :
    ANVIterator (EnumerateState σ α) (ANVIndexedElement α) :=
  match it, alloc with
  | some base, some a =>
    if !anv_alloc_allocate (some a) mem then enumerate_with none
    else
      enumerate_with (some { base_iterator := base, current_index := start_index,
                             cached_element := { index := start_index, element := none } })
  | _, _ => enumerate_with none

/-! ## Doubly-linked list (`doublylinkedlist.c`)

Nodes live in a memory that maps every address to the contents of an
`ANVDoublyLinkedNode`; a node pointer is an `Option Nat`, `none` being `NULL`.
An `ANVDoublyLinkedList` carries the memory its node pointers refer to. The
loops that follow pointers take a `fuel`; the result `none` says that the call
did not return within the fuel or dereferenced `NULL`. The `size_t` field
`size` is a `Nat`. -/

/-- Embeds `ANVDoublyLinkedNode`. -/
structure ANVDoublyLinkedNode (α : Type) where
  data : Option α
  next : Option Nat
  prev : Option Nat

/-- The node memory. -/
abbrev DllMem (α : Type) := Nat → ANVDoublyLinkedNode α

/-- The assignment `p->next = v`. -/
def set_next {α : Type} (m : DllMem α) (p : Nat) (v : Option Nat) : DllMem α :=
  fun a => if a = p then { m a with next := v } else m a

/-- The assignment `p->prev = v`. -/
def set_prev {α : Type} (m : DllMem α) (p : Nat) (v : Option Nat) : DllMem α :=
  fun a => if a = p then { m a with prev := v } else m a

/-- Embeds `ANVDoublyLinkedList`. -/
structure ANVDoublyLinkedList (α : Type) where
  mem : DllMem α
  head : Option Nat
  tail : Option Nat
  size : Nat
  alloc : ANVAllocator

/-- The loop of `anv_dll_split`, from the state `(fast, slow, prev)`; the
result is `(slow, prev)` at the exit. -/
def anv_dll_split_loop {α : Type} (m : DllMem α) :
    Nat → Option Nat → Option Nat → Option Nat → Option (Option Nat × Option Nat)
  | 0, _, _, _ => none
  | fuel + 1, fast, slow, prev =>
    match fast with
    | none => some (slow, prev)
    | some f =>
      match (m f).next with
      | none => some (slow, prev)
      | some fn =>
        match slow with
        | none => none
        | some s => anv_dll_split_loop m fuel (m fn).next (m s).next (some s)

/-- Embeds `anv_dll_split`: the memory afterwards and the returned pointer. -/
def anv_dll_split {α : Type} (fuel : Nat) (m : DllMem α) (head : Option Nat) :
    Option (DllMem α × Option Nat) :=
  match head with
  | none => some (m, none)
  | some h =>
    match (m h).next with
    | none => some (m, none)
    | some _ =>
      match anv_dll_split_loop m fuel head head none with
      | none => none
      | some (slow, prev) =>
        let m1 :=
          match prev with
          | some p => set_next m p none
          | none => m
        match slow with
        | none => none
        | some s => some (set_prev m1 s none, some s)

/-- The loop of `anv_dll_sort_helper_merge`, from the state
`(left, right, current)`; the result is the memory and the state at the exit. -/
def anv_dll_sort_helper_merge_loop {α : Type} (compare : Option α → Option α → Int) :
    Nat → DllMem α → Option Nat → Option Nat → Nat →
      Option (DllMem α × Option Nat × Option Nat × Nat)
  | 0, _, _, _, _ => none
  | fuel + 1, m, left, right, current =>
    match left, right with
    | some l, some r =>
      if compare (m l).data (m r).data ≤ 0 then
        let m1 := set_prev (set_next m current (some l)) l (some current)
        match (m1 current).next with
        | none => none
        | some c => anv_dll_sort_helper_merge_loop compare fuel m1 (m1 l).next (some r) c
      else
        let m1 := set_prev (set_next m current (some r)) r (some current)
        match (m1 current).next with
        | none => none
        | some c => anv_dll_sort_helper_merge_loop compare fuel m1 (some l) (m1 r).next c
    | _, _ => some (m, left, right, current)

/-- The statements of `anv_dll_sort_helper_merge` after its loop, which link
what is left of `left` or `right` behind `current`. -/
def anv_dll_sort_helper_merge_link {α : Type} (m : DllMem α) (left right : Option Nat)
    (current : Nat) : DllMem α :=
  match left, right with
  | some l, _ => set_prev (set_next m current (some l)) l (some current)
  | none, some r => set_prev (set_next m current (some r)) r (some current)
  | none, none => set_next m current none

/-- Embeds `anv_dll_sort_helper_merge`: the memory afterwards and the returned
pointer. -/
def anv_dll_sort_helper_merge {α : Type} (fuel : Nat) (compare : Option α → Option α → Int)
    (m : DllMem α) (left right : Option Nat) : Option (DllMem α × Option Nat) :=
  match left, right with
  | none, _ => some (m, right)
  | some _, none => some (m, left)
  | some l, some r =>
    let first : Nat × Option Nat × Option Nat :=
      if compare (m l).data (m r).data ≤ 0 then (l, (m l).next, some r)
      else (r, some l, (m r).next)
    let result := first.1
    let m1 := set_prev m result none
    match anv_dll_sort_helper_merge_loop compare fuel m1 first.2.1 first.2.2 result with
    | none => none
    | some (m2, left2, right2, current) =>
      some (anv_dll_sort_helper_merge_link m2 left2 right2 current, some result)

/-- Embeds `anv_dll_merge_sort`; the fuel bounds the depth of the recursion
and the length of the loops below it. -/
def anv_dll_merge_sort {α : Type} (compare : Option α → Option α → Int) :
    Nat → DllMem α → Option Nat → Option (DllMem α × Option Nat)
  | 0, _, _ => none
  | fuel + 1, m, head =>
    match head with
    | none => some (m, none)
    | some h =>
      match (m h).next with
      | none => some (m, some h)
      | some _ =>
        match anv_dll_split fuel m head with
        | none => none
        | some (m1, right) =>
          match anv_dll_merge_sort compare fuel m1 head with
          | none => none
          | some (m2, left_sorted) =>
            match anv_dll_merge_sort compare fuel m2 right with
            | none => none
            | some (m3, right_sorted) =>
              anv_dll_sort_helper_merge fuel compare m3 left_sorted right_sorted

/-- The loop of `anv_dll_sort` that walks from `current` to the last node. -/
def anv_dll_sort_tail_loop {α : Type} (m : DllMem α) : Nat → Option Nat → Option (Option Nat)
  | 0, _ => none
  | fuel + 1, current =>
    match current with
    | none => some none
    | some c =>
      match (m c).next with
      | none => some (some c)
      | some n => anv_dll_sort_tail_loop m fuel (some n)

/-- Embeds `anv_dll_sort`: the return code and the list afterwards. -/
def anv_dll_sort {α : Type} (fuel : Nat) (list : Option (ANVDoublyLinkedList α))
    (compare : Option (Option α → Option α → Int)) :
    Option (Int × Option (ANVDoublyLinkedList α)) :=
  match list, compare with
  | some l, some cmp =>
    if l.size ≤ 1 then some (0, some l)
    else
      match anv_dll_merge_sort cmp fuel l.mem l.head with
      | none => none
      | some (m, head) =>
        match anv_dll_sort_tail_loop m fuel head with
        | none => none
        | some tail => some (0, some { l with mem := m, head := head, tail := tail })
  | _, _ => some (-1, list)

/-- The loop of `anv_dll_reverse`, from `current`. -/
def anv_dll_reverse_loop {α : Type} : Nat → DllMem α → Option Nat → Option (DllMem α)
  | 0, _, _ => none
  | fuel + 1, m, current =>
    match current with
    | none => some m
    | some c =>
      let temp := (m c).prev
      let m1 := set_prev m c (m c).next
      let m2 := set_next m1 c temp
      anv_dll_reverse_loop fuel m2 (m2 c).prev

/-- Embeds `anv_dll_reverse`: the return code and the list afterwards. -/
def anv_dll_reverse {α : Type} (fuel : Nat) (list : Option (ANVDoublyLinkedList α)) :
    Option (Int × Option (ANVDoublyLinkedList α)) :=
  match list with
  | none => some (-1, none)
  | some l =>
    if l.size ≤ 1 then some (0, some l)
    else
      match anv_dll_reverse_loop fuel l.mem l.head with
      | none => none
      | some m => some (0, some { l with mem := m, head := l.tail, tail := l.head })

/-- Embeds `anv_dll_create`; `mem` says whether the allocation of the list
returns non-null. The node memory of the new list holds no list node yet. -/
def anv_dll_create {α : Type} (alloc : Option ANVAllocator) (mem : Bool) :
    Option (ANVDoublyLinkedList α) :=
  match alloc with
  | none => none
  | some a =>
    if !anv_alloc_allocate (some a) mem then none
    else
      some { mem := fun _ => { data := none, next := none, prev := none },
             head := none, tail := none, size := 0, alloc := a }

/-- Embeds `anv_dll_push_back`: the return code and the list afterwards.
`newp` is the result of the allocation of the node. -/
def anv_dll_push_back {α : Type} (list : Option (ANVDoublyLinkedList α)) (data : Option α)
    (newp : Option Nat) : Int × Option (ANVDoublyLinkedList α) :=
  match list with
  | none => (-1, none)
  | some l =>
    match (if anv_alloc_allocate (some l.alloc) newp.isSome then newp else none) with
    | none => (-1, some l)
    | some node =>
      let m1 : DllMem α :=
        fun a => if a = node then { data := data, next := none, prev := l.tail } else l.mem a
      match l.tail with
      | some t =>
        (0, some { l with mem := set_next m1 t (some node), tail := some node,
                          size := l.size + 1 })
      | none =>
        (0, some { l with mem := m1, head := some node, tail := some node, size := l.size + 1 })

/-- The loop of `anv_dll_from_iterator`: the returned list (`none` for `NULL`)
and the source iterator afterwards. `copy` is `alloc->copy`, and `new_node k`
is the result of the node allocation made while the list holds `k` nodes. -/
def anv_dll_from_iterator_loop {σ α : Type} (should_copy : Bool) (copy : α → Option α)
    (new_node : Nat → Option Nat) :
    Nat → ANVIterator σ α → ANVDoublyLinkedList α →
      Option (Option (ANVDoublyLinkedList α) × ANVIterator σ α)
  | 0, _, _ => none
  | fuel + 1, it, list =>
    match it.callHasNext with
    | none => none
    | some (false, it1) => some (some list, it1)
    | some (true, it1) =>
      match it1.callGet with
      | none => none
      | some (none, it2) =>
        match it2.callNext with
        | none => none
        | some (rc, it3) =>
          if rc ≠ 0 then some (some list, it3)
          else anv_dll_from_iterator_loop should_copy copy new_node fuel it3 list
      | some (some element, it2) =>
        match (if should_copy then copy element else some element) with
        | none => some (none, it2)
        | some element_to_insert =>
          match anv_dll_push_back (some list) (some element_to_insert) (new_node list.size) with
          | (_, none) => some (none, it2)
          | (rc, some list1) =>
            if rc ≠ 0 then some (none, it2)
            else
              match it2.callNext with
              | none => none
              | some (rc2, it3) =>
                if rc2 ≠ 0 then some (some list1, it3)
                else anv_dll_from_iterator_loop should_copy copy new_node fuel it3 list1

/-- Embeds `anv_dll_from_iterator`: the returned list (`none` for `NULL`) and
the source iterator afterwards. `mem` says whether the allocation of the list
returns non-null. -/
def anv_dll_from_iterator {σ α : Type} (fuel : Nat) (it : Option (ANVIterator σ α))
    (alloc : Option ANVAllocator) (should_copy : Bool) (copy : α → Option α) (mem : Bool)
    (new_node : Nat → Option Nat) :
    Option (Option (ANVDoublyLinkedList α) × Option (ANVIterator σ α)) :=
  match it, alloc with
  | some i, some a =>
    if should_copy && !a.copy then some (none, it)
    else if !i.callIsValid then some (none, it)
    else
      match anv_dll_create (some a) mem with
      | none => some (none, it)
      | some list =>
        (anv_dll_from_iterator_loop should_copy copy new_node fuel i list).map
          fun r => (r.1, some r.2)
  | _, _ => some (none, it)

/-- Embeds `ListIteratorState`; `list` is the list as it is when the iterator
is made (it is non-null in every state the constructors store). -/
structure ListIteratorState (α : Type) where
  current : Option Nat
  start : Option Nat
  list : ANVDoublyLinkedList α

/-- Embeds `anv_dll_iterator_has_next`. -/
def anv_dll_iterator_has_next {α : Type} :
    Option (ListIteratorState α) → Bool × Option (ListIteratorState α)
  | none => (false, none)
  | some state => (state.current.isSome, some state)

/-- Embeds `anv_dll_iterator_get`. -/
def anv_dll_iterator_get {α : Type} :
    Option (ListIteratorState α) → Option α × Option (ListIteratorState α)
  | none => (none, none)
  | some state =>
    match state.current with
    | none => (none, some state)
    | some c => ((state.list.mem c).data, some state)

/-- Embeds `anv_dll_iterator_next`. -/
def anv_dll_iterator_next {α : Type} :
    Option (ListIteratorState α) → Int × Option (ListIteratorState α)
  | none => (-1, none)
  | some state =>
    match state.current with
    | none => (-1, some state)
    | some c =>
      if state.start = state.list.head then
        (0, some { state with current := (state.list.mem c).next })
      else
        (0, some { state with current := (state.list.mem c).prev })

/-- Embeds `anv_dll_iterator_has_prev`. -/
def anv_dll_iterator_has_prev {α : Type} :
    Option (ListIteratorState α) → Bool × Option (ListIteratorState α)
  | none => (false, none)
  | some state =>
    match state.current with
    | none => (state.start.isSome, some state)
    | some c => (decide (some c ≠ state.start), some state)

/-- Embeds `anv_dll_iterator_prev`. -/
def anv_dll_iterator_prev {α : Type} :
    Option (ListIteratorState α) → Int × Option (ListIteratorState α)
  | none => (-1, none)
  | some state =>
    match state.current with
    | none => (-1, some state)
    | some c =>
      if state.start = state.list.head then
        (0, some { state with current := (state.list.mem c).prev })
      else
        (0, some { state with current := (state.list.mem c).next })

/-- Embeds `anv_dll_iterator_reset`. -/
def anv_dll_iterator_reset {α : Type} :
    Option (ListIteratorState α) → Option (ListIteratorState α)
  | none => none
  | some state => some { state with current := state.start }

/-- Embeds `anv_dll_iterator_is_valid`. -/
def anv_dll_iterator_is_valid {α : Type} : Option (ListIteratorState α) → Bool
  | none => false
  | some _ => true

/-- Embeds `anv_dll_iterator_destroy`. -/
def anv_dll_iterator_destroy {α : Type} (_s : Option (ListIteratorState α)) :
    Option (ListIteratorState α) := none

/-- The iterator `it` of `anv_dll_iterator` and `anv_dll_iterator_reverse`
with the given `data_state`. -/
def dll_iterator_with {α : Type} (ds : Option (ListIteratorState α)) :
    ANVIterator (ListIteratorState α) α where
  data_state := ds
  get := fun s => some (anv_dll_iterator_get s)
  has_next := fun s => some (anv_dll_iterator_has_next s)
  next := fun s => some (anv_dll_iterator_next s)
  has_prev := anv_dll_iterator_has_prev
  prev := anv_dll_iterator_prev
  reset := anv_dll_iterator_reset
  is_valid := anv_dll_iterator_is_valid
  destroy := anv_dll_iterator_destroy

/-- Embeds `anv_dll_iterator`; `mem` says whether the allocation of the state
returns non-null. -/
def anv_dll_iterator {α : Type} (list : Option (ANVDoublyLinkedList α)) (mem : Bool) :
    ANVIterator (ListIteratorState α) α :=
  match list with
  | none => dll_iterator_with none
  | some l =>
    if !anv_alloc_allocate (some l.alloc) mem then dll_iterator_with none
    else dll_iterator_with (some { current := l.head, start := l.head, list := l })

/-- Embeds `anv_dll_iterator_reverse`; `mem` says whether the allocation of
the state returns non-null. -/
def anv_dll_iterator_reverse {α : Type} (list : Option (ANVDoublyLinkedList α)) (mem : Bool) :
    ANVIterator (ListIteratorState α) α :=
  match list with
  | none => dll_iterator_with none
  | some l =>
    if !anv_alloc_allocate (some l.alloc) mem then dll_iterator_with none
    else dll_iterator_with (some { current := l.tail, start := l.tail, list := l })

/-- Append the elements one after the other with `anv_dll_push_back`, the
i-th new node being allocated at address `base + i`; return codes are
dropped. -/
def dll_push_all {α : Type} : List (Option α) → Nat → Option (ANVDoublyLinkedList α) →
    Option (ANVDoublyLinkedList α)
  | [], _, l => l
  | x :: xs, base, l => dll_push_all xs (base + 1) (anv_dll_push_back l x (some base)).2

/-- An integer three-way comparison on element pointers, the comparator of the
integer list examples; a null element is read as 0. -/
def int_compare_ptr (a b : Option Int) : Int :=
  int_compare (a.getD 0) (b.getD 0)

/-- A three-way comparison of pairs on their first component only. -/
def key_compare_ptr (a b : Option (Int × Nat)) : Int :=
  int_compare ((a.map Prod.fst).getD 0) ((b.map Prod.fst).getD 0)

/-- The list that `anv_dll_create` and one `anv_dll_push_back` per element of
`xs` build with the default allocator, the i-th node being allocated at
address `base + i`. -/
def dll_from_list {α : Type} (xs : List (Option α)) (base : Nat) : ANVDoublyLinkedList α :=
  match dll_push_all xs base (anv_dll_create (some anv_alloc_default) true) with
  | some l => l
  | none =>
    { mem := fun _ => { data := none, next := none, prev := none },
      head := none, tail := none, size := 0, alloc := anv_alloc_default }

/-! ## Materialisation into a tree (`binarysearchtree.c`) -/

/-- The loop of `anv_bst_from_iterator`: the returned tree (`none` for `NULL`)
and the source iterator afterwards. `copy_set` says whether `alloc->copy` is
set, `copy` is that function, and `new_node k` is the result of the node
allocation made while the tree holds `k` nodes. -/
def anv_bst_from_iterator_loop {σ α : Type} (should_copy : Bool) (copy_set : Bool)
    (copy : α → Option α) (new_node : Nat → Option Nat) :
    Nat → ANVIterator σ α → ANVBinarySearchTree α →
      Option (Option (ANVBinarySearchTree α) × ANVIterator σ α)
  | 0, _, _ => none
  | fuel + 1, it, tree =>
    match it.callHasNext with
    | none => none
    | some (false, it1) => some (some tree, it1)
    | some (true, it1) =>
      match it1.callGet with
      | none => none
      | some (none, it2) =>
        match it2.callNext with
        | none => none
        | some (rc, it3) =>
          if rc ≠ 0 then some (some tree, it3)
          else anv_bst_from_iterator_loop should_copy copy_set copy new_node fuel it3 tree
      | some (some data, it2) =>
        match (if should_copy && copy_set then copy data else some data) with
        | none => some (none, it2)
        | some insert_data =>
          match anv_bst_insert (some tree) (some insert_data) (new_node tree.size) with
          | (_, none) => some (none, it2)
          | (result, some tree1) =>
            if result < 0 then some (none, it2)
            else
              match it2.callNext with
              | none => none
              | some (rc, it3) =>
                if rc ≠ 0 then some (some tree1, it3)
                else anv_bst_from_iterator_loop should_copy copy_set copy new_node fuel it3 tree1

/-- Embeds `anv_bst_from_iterator`: the returned tree (`none` for `NULL`) and
the source iterator afterwards. `mem` says whether the allocation of the
tree returns non-null. -/
def anv_bst_from_iterator {σ α : Type} (fuel : Nat) (it : Option (ANVIterator σ α))
    (alloc : Option ANVAllocator) (compare : Option (α → α → Int)) (should_copy : Bool)
    (copy : α → Option α) (mem : Bool) (new_node : Nat → Option Nat) :
    Option (Option (ANVBinarySearchTree α) × Option (ANVIterator σ α)) :=
  match it, compare, alloc with
  | some i, some cmp, some a =>
    if !anv_alloc_allocate (some a) mem then some (none, it)
    else
      (anv_bst_from_iterator_loop should_copy a.copy copy new_node fuel i
        (anv_bst_create cmp)).map fun r => (r.1, some r.2)
  | _, _, _ => some (none, it)

/-! ## Hash map and hash set (`hashset.c`)

The functions of `hashset.c` are embedded as they are written; the hash map
that they call is not among the sources and is modelled from the spec. -/

/-- Modelled from the spec: the `ANVHashMap` of `hashmap.c`, which is not
among the sources. The spec gives the hash map as an external collaborator
known by its interface only: a collection of key-value bindings with at most
one binding per key (keys compared with `key_equals`), walked by an iterator
of the core protocol. The bindings are held in the order in which the
iterator yields them; `hash` does not enter the model. -/
structure ANVHashMap (κ : Type) where
  alloc : ANVAllocator
  hash : κ → Nat
  key_equals : κ → κ → Bool
  entries : List (κ × Nat)

/-- Modelled from the spec: `anv_hashmap_create` of `hashmap.c` (not among
the sources); `mem` says whether its allocations return non-null. -/
def anv_hashmap_create {κ : Type} (alloc : Option ANVAllocator) (hash : Option (κ → Nat))
    (key_equals : Option (κ → κ → Bool)) (mem : Bool) : Option (ANVHashMap κ) :=
  match alloc, hash, key_equals with
  | some a, some h, some e =>
    if !anv_alloc_allocate (some a) mem then none
    else some { alloc := a, hash := h, key_equals := e, entries := [] }
  | _, _, _ => none

/-- Modelled from the spec: `anv_hashmap_contains_key` of `hashmap.c` (not
among the sources): is some key of the map equal to `key`? -/
def anv_hashmap_contains_key {κ : Type} (map : ANVHashMap κ) (key : κ) : Bool :=
  map.entries.any fun e => map.key_equals e.1 key

/-- Modelled from the spec: `anv_hashmap_put` of `hashmap.c` (not among the
sources): the value of the binding whose key equals `key` is replaced, or, if
there is none, a binding is added (`mem` says whether its allocation returns
non-null; the call returns `-1` otherwise, `0` when the binding is added).
The spec does not say what the call returns when it replaces a value: that
return code is the argument `rc_bound`. -/
def anv_hashmap_put {κ : Type} (map : ANVHashMap κ) (key : κ) (value : Nat) (mem : Bool)
    (rc_bound : Int) : Int × ANVHashMap κ :=
  if anv_hashmap_contains_key map key then
    (rc_bound, { map with
      entries := map.entries.map fun e => if map.key_equals e.1 key then (e.1, value) else e })
  else if !anv_alloc_allocate (some map.alloc) mem then (-1, map)
  else (0, { map with entries := map.entries ++ [(key, value)] })

/-- Modelled from the spec: `anv_hashmap_size` of `hashmap.c` (not among the
sources). -/
def anv_hashmap_size {κ : Type} (map : ANVHashMap κ) : Nat := map.entries.length

/-- Modelled from the spec: `anv_hashmap_is_empty` of `hashmap.c` (not among
the sources). -/
def anv_hashmap_is_empty {κ : Type} (map : ANVHashMap κ) : Bool := map.entries.isEmpty

/-- Modelled from the spec: the state of the iterator of `hashmap.c` (not
among the sources): the bindings of the map and those not yet passed. -/
structure HashMapIteratorState (κ : Type) where
  all : List (κ × Nat)
  rest : List (κ × Nat)

/-- Modelled from the spec: the iterator that `anv_hashmap_iterator` of
`hashmap.c` (not among the sources) returns, with the given `data_state`. It
follows the core protocol: `get` returns the pair of the current binding,
`has_next` says whether there is one, `next` passes it or returns `-1`, and
there is no way back. -/
def hashmap_iterator_with {κ : Type} (ds : Option (HashMapIteratorState κ)) :
    ANVIterator (HashMapIteratorState κ) (ANVPair κ Nat) where
  data_state := ds
  get := fun s =>
    some (match s with
      | none => (none, none)
      | some st =>
        (st.rest.head?.map fun e => { first := some e.1, second := some e.2 }, some st))
  has_next := fun s =>
    some (match s with
      | none => (false, none)
      | some st => (!st.rest.isEmpty, some st))
  next := fun s =>
    some (match s with
      | none => (-1, none)
      | some st =>
        match st.rest with
        | [] => (-1, some st)
        | _ :: rest => (0, some { st with rest := rest }))
  has_prev := fun s => invalid_has_prev s
  prev := fun s => invalid_prev s
  reset := fun s => s.map fun st => { st with rest := st.all }
  is_valid := fun s => s.isSome
  destroy := fun _ => none

/-- Modelled from the spec: `anv_hashmap_iterator` of `hashmap.c` (not among
the sources); `mem` says whether the allocation of the state returns
non-null. -/
def anv_hashmap_iterator {κ : Type} (map : Option (ANVHashMap κ)) (mem : Bool) :
    ANVIterator (HashMapIteratorState κ) (ANVPair κ Nat) :=
  match map with
  | none => hashmap_iterator_with none
  | some m =>
    if !anv_alloc_allocate (some m.alloc) mem then hashmap_iterator_with none
    else hashmap_iterator_with (some { all := m.entries, rest := m.entries })

/-- Embeds `ANVHashSet`. -/
structure ANVHashSet (κ : Type) where
  map : Option (ANVHashMap κ)

/-- The sentinel `HASHSET_PRESENT`. -/
def HASHSET_PRESENT : Nat := 1

/-- Embeds `anv_hashset_create`; `mem` and `mem_map` say whether the
allocation of the set and those of the map return non-null. -/
def anv_hashset_create {κ : Type} (alloc : Option ANVAllocator) (hash : Option (κ → Nat))
    (key_equals : Option (κ → κ → Bool)) (mem mem_map : Bool) : Option (ANVHashSet κ) :=
  match alloc, hash, key_equals with
  | some a, some h, some e =>
    if !anv_alloc_allocate (some a) mem then none
    else
      match anv_hashmap_create (some a) (some h) (some e) mem_map with
      | none => none
      | some m => some { map := some m }
  | _, _, _ => none

/-- Embeds `anv_hashset_size`. -/
def anv_hashset_size {κ : Type} (set : Option (ANVHashSet κ)) : Nat :=
  match set with
  | some { map := some m } => anv_hashmap_size m
  | _ => 0

/-- Embeds `anv_hashset_is_empty`. -/
def anv_hashset_is_empty {κ : Type} (set : Option (ANVHashSet κ)) : Bool :=
  match set with
  | some { map := some m } => anv_hashmap_is_empty m
  | _ => true

/-- Embeds `anv_hashset_add`: the return code and the set afterwards; `mem`
says whether the allocation of a new binding returns non-null, and `rc_bound`
is what `anv_hashmap_put` returns for a key that is bound already. -/
def anv_hashset_add {κ : Type} (set : Option (ANVHashSet κ)) (key : Option κ) (mem : Bool)
    (rc_bound : Int) : Int × Option (ANVHashSet κ) :=
  match set, key with
  | some { map := some m }, some k =>
    ((anv_hashmap_put m k HASHSET_PRESENT mem rc_bound).1,
      some { map := some (anv_hashmap_put m k HASHSET_PRESENT mem rc_bound).2 })
  | _, _ => (-1, set)

/-- Embeds `anv_hashset_contains`. -/
def anv_hashset_contains {κ : Type} (set : Option (ANVHashSet κ)) (key : Option κ) : Bool :=
  match set, key with
  | some { map := some m }, some k => anv_hashmap_contains_key m k
  | _, _ => false

/-- The allocation results and the unspecified return code that the set
operations depend on: `set` and `map` for the two allocations of
`anv_hashset_create`, `iterator` for the state of each hash map iterator,
`entry k` for the binding added while the result holds `k` keys, and
`rc_bound` for what `anv_hashmap_put` returns for a key that is bound
already. -/
structure HashSetEnv where
  set : Bool
  map : Bool
  iterator : Bool
  entry : Nat → Bool
  rc_bound : Int

/-- The environment in which every allocation succeeds. -/
def hashset_env_ok (rc_bound : Int) : HashSetEnv :=
  { set := true, map := true, iterator := true, entry := fun _ => true, rc_bound := rc_bound }

/-- The first loop of `anv_hashset_union` (over `it1`): every key is added to
`result`; a failing `add` ends the call with `NULL`, here `some none`. -/
def anv_hashset_union_loop1 {σ κ : Type} (env : HashSetEnv) :
    Nat → ANVIterator σ (ANVPair κ Nat) → Option (ANVHashSet κ) →
      Option (Option (ANVHashSet κ))
  | 0, _, _ => none
  | fuel + 1, it1, result =>
    match it1.callHasNext with
    | none => none
    | some (false, _) => some result
    | some (true, it1a) =>
      match it1a.callGet with
      | none => none
      | some (pair, it1b) =>
        let r : Int × Option (ANVHashSet κ) :=
          match pair with
          | some p => anv_hashset_add result p.first (env.entry (anv_hashset_size result))
              env.rc_bound
          | none => (0, result)
        if pair.isSome && r.1 ≠ 0 then some none
        else
          match it1b.callNext with
          | none => none
          | some (_, it1c) => anv_hashset_union_loop1 env fuel it1c r.2

/-- The second loop of `anv_hashset_union` (over `it2`): every key is added
to `result`, the return code of `add` being ignored. -/
def anv_hashset_union_loop2 {σ κ : Type} (env : HashSetEnv) :
    Nat → ANVIterator σ (ANVPair κ Nat) → Option (ANVHashSet κ) →
      Option (Option (ANVHashSet κ))
  | 0, _, _ => none
  | fuel + 1, it2, result =>
    match it2.callHasNext with
    | none => none
    | some (false, _) => some result
    | some (true, it2a) =>
      match it2a.callGet with
      | none => none
      | some (pair, it2b) =>
        let result1 : Option (ANVHashSet κ) :=
          match pair with
          | some p => (anv_hashset_add result p.first (env.entry (anv_hashset_size result))
              env.rc_bound).2
          | none => result
        match it2b.callNext with
        | none => none
        | some (_, it2c) => anv_hashset_union_loop2 env fuel it2c result1

/-- Embeds `anv_hashset_union`: the returned set (`none` for `NULL`); the
outer `none` says that the call did not return within the fuel. -/
def anv_hashset_union {κ : Type} (env : HashSetEnv) (fuel : Nat)
    (set1 set2 : Option (ANVHashSet κ)) : Option (Option (ANVHashSet κ)) :=
  match set1, set2 with
  | some { map := some m1 }, some { map := some m2 } =>
    match anv_hashset_create (some m1.alloc) (some m1.hash) (some m1.key_equals)
        env.set env.map with
    | none => some none
    | some result =>
      match anv_hashset_union_loop1 env fuel (anv_hashmap_iterator (some m1) env.iterator)
          (some result) with
      | none => none
      | some none => some none
      | some (some result1) =>
        anv_hashset_union_loop2 env fuel (anv_hashmap_iterator (some m2) env.iterator)
          (some result1)
  | _, _ => some none

/-- The loop of `anv_hashset_intersection` and of `anv_hashset_difference`:
every key of the iterator for which `keep` holds is added to `result`; a
failing `add` ends the call with `NULL`, here `some none`. -/
def anv_hashset_select_loop {σ κ : Type} (env : HashSetEnv) (keep : Option κ → Bool) :
    Nat → ANVIterator σ (ANVPair κ Nat) → Option (ANVHashSet κ) →
      Option (Option (ANVHashSet κ))
  | 0, _, _ => none
  | fuel + 1, it, result =>
    match it.callHasNext with
    | none => none
    | some (false, _) => some result
    | some (true, ita) =>
      match ita.callGet with
      | none => none
      | some (pair, itb) =>
        let r : Int × Option (ANVHashSet κ) :=
          match pair with
          | some p =>
            if keep p.first then
              anv_hashset_add result p.first (env.entry (anv_hashset_size result)) env.rc_bound
            else (0, result)
          | none => (0, result)
        if r.1 ≠ 0 then some none
        else
          match itb.callNext with
          | none => none
          | some (_, itc) => anv_hashset_select_loop env keep fuel itc r.2

/-- Embeds `anv_hashset_intersection`. The test `smaller == set1` that picks
`larger` compares pointers; it is true when `set1` was picked as `smaller`,
and when `set2` was picked the sizes differ, so that the two are not the same
set and the test is false. -/
def anv_hashset_intersection {κ : Type} (env : HashSetEnv) (fuel : Nat)
    (set1 set2 : Option (ANVHashSet κ)) : Option (Option (ANVHashSet κ)) :=
  match set1, set2 with
  | some { map := some m1 }, some { map := some m2 } =>
    match anv_hashset_create (some m1.alloc) (some m1.hash) (some m1.key_equals)
        env.set env.map with
    | none => some none
    | some result =>
      let smaller : ANVHashMap κ :=
        if anv_hashset_size set1 ≤ anv_hashset_size set2 then m1 else m2
      let larger : Option (ANVHashSet κ) :=
        if anv_hashset_size set1 ≤ anv_hashset_size set2 then set2 else set1
      anv_hashset_select_loop env (fun k => anv_hashset_contains larger k) fuel
        (anv_hashmap_iterator (some smaller) env.iterator) (some result)
  | _, _ => some none

/-- Embeds `anv_hashset_difference`. -/
def anv_hashset_difference {κ : Type} (env : HashSetEnv) (fuel : Nat)
    (set1 set2 : Option (ANVHashSet κ)) : Option (Option (ANVHashSet κ)) :=
  match set1 with
  | some { map := some m1 } =>
    match anv_hashset_create (some m1.alloc) (some m1.hash) (some m1.key_equals)
        env.set env.map with
    | none => some none
    | some result =>
      anv_hashset_select_loop env
        (fun k =>
          match set2 with
          | some { map := some _ } => !anv_hashset_contains set2 k
          | _ => true)
        fuel (anv_hashmap_iterator (some m1) env.iterator) (some result)
  | _ => some none

/-- The loop of `anv_hashset_is_subset`. -/
def anv_hashset_is_subset_loop {σ κ : Type} (superset : Option (ANVHashSet κ)) :
    Nat → ANVIterator σ (ANVPair κ Nat) → Option Int
  | 0, _ => none
  | fuel + 1, it =>
    match it.callHasNext with
    | none => none
    | some (false, _) => some 1
    | some (true, ita) =>
      match ita.callGet with
      | none => none
      | some (pair, itb) =>
        if (match pair with
            | some p => !anv_hashset_contains superset p.first
            | none => false) then some 0
        else
          match itb.callNext with
          | none => none
          | some (_, itc) => anv_hashset_is_subset_loop superset fuel itc

/-- Embeds `anv_hashset_is_subset`; `none` says that the call did not return
within the fuel. -/
def anv_hashset_is_subset {κ : Type} (env : HashSetEnv) (fuel : Nat)
    (subset superset : Option (ANVHashSet κ)) : Option Int :=
  match subset, superset with
  | some { map := some m1 }, some { map := some _ } =>
    if anv_hashset_is_empty subset then some 1
    else anv_hashset_is_subset_loop superset fuel (anv_hashmap_iterator (some m1) env.iterator)
  | _, _ => some 0

/-- The loop of `anv_hashset_from_iterator`: the returned set (`none` for
`NULL`) and the source iterator afterwards; `copy` is `alloc->copy`. -/
def anv_hashset_from_iterator_loop {σ κ : Type} (env : HashSetEnv) (should_copy : Bool)
    (copy : κ → Option κ) :
    Nat → ANVIterator σ κ → Option (ANVHashSet κ) →
      Option (Option (ANVHashSet κ) × ANVIterator σ κ)
  | 0, _, _ => none
  | fuel + 1, it, set =>
    match it.callHasNext with
    | none => none
    | some (false, it1) => some (set, it1)
    | some (true, it1) =>
      match it1.callGet with
      | none => none
      | some (none, it2) =>
        match it2.callNext with
        | none => none
        | some (rc, it3) =>
          if rc ≠ 0 then some (set, it3)
          else anv_hashset_from_iterator_loop env should_copy copy fuel it3 set
      | some (some key, it2) =>
        match (if should_copy then copy key else some key) with
        | none => some (none, it2)
        | some key_to_insert =>
          if (anv_hashset_add set (some key_to_insert) (env.entry (anv_hashset_size set))
              env.rc_bound).1 ≠ 0 then some (none, it2)
          else
            match it2.callNext with
            | none => none
            | some (rc, it3) =>
              if rc ≠ 0 then
                some ((anv_hashset_add set (some key_to_insert)
                  (env.entry (anv_hashset_size set)) env.rc_bound).2, it3)
              else
                anv_hashset_from_iterator_loop env should_copy copy fuel it3
                  (anv_hashset_add set (some key_to_insert) (env.entry (anv_hashset_size set))
                    env.rc_bound).2

/-- Embeds `anv_hashset_from_iterator`: the returned set (`none` for `NULL`)
and the source iterator afterwards. -/
def anv_hashset_from_iterator {σ κ : Type} (env : HashSetEnv) (fuel : Nat)
    (it : Option (ANVIterator σ κ)) (alloc : Option ANVAllocator) (hash : Option (κ → Nat))
    (key_equals : Option (κ → κ → Bool)) (should_copy : Bool) (copy : κ → Option κ) :
    Option (Option (ANVHashSet κ) × Option (ANVIterator σ κ)) :=
  match it, alloc, hash, key_equals with
  | some i, some a, some h, some e =>
    if should_copy && !a.copy then some (none, it)
    else if !i.callIsValid then some (none, it)
    else
      match anv_hashset_create (some a) (some h) (some e) env.set env.map with
      | none => some (none, it)
      | some set =>
        (anv_hashset_from_iterator_loop env should_copy copy fuel i (some set)).map
          fun r => (r.1, some r.2)
  | _, _, _, _ => some (none, it)

/-- The set built by `anv_hashset_create` and one `anv_hashset_add` per key
with the default allocator, integer keys compared with `==`. -/
def hashset_of_list (keys : List Int) : Option (ANVHashSet Int) :=
  keys.foldl (fun s k => (anv_hashset_add s (some k) true 0).2)
    (anv_hashset_create (some anv_alloc_default) (some fun k => k.toNat)
      (some fun a b => a == b) true true)

/-- The hash map with the given integer keys, compared with `==`, each bound
to the sentinel. -/
def hashmap_of_keys (keys : List Int) : ANVHashMap Int :=
  { alloc := anv_alloc_default, hash := fun k => k.toNat, key_equals := fun a b => a == b,
    entries := keys.map fun k => (k, HASHSET_PRESENT) }

/-! ## Lookup in the tree (`binarysearchtree.c`) -/

/-- The loop of `anv_bst_contains`, from `current`. -/
def anv_bst_contains_loop {α : Type} (compare : α → α → Int) (data : α) :
    ANVBinarySearchTreeNode α → Int
  | .null => 0
  | .node _ d l r _ =>
    if compare data d = 0 then 1
    else if compare data d < 0 then anv_bst_contains_loop compare data l
    else anv_bst_contains_loop compare data r

/-- Embeds `anv_bst_contains`. -/
def anv_bst_contains {α : Type} (tree : Option (ANVBinarySearchTree α)) (data : Option α) :
    Int :=
  match tree, data with
  | some t, some d => anv_bst_contains_loop t.compare d t.root
  | _, _ => 0

/-! ## Removal from the tree (`binarysearchtree.c`)

The removal follows the `parent` pointers and rewrites the links of nodes
that it reaches through them, so it is embedded over a node memory that maps
every address to the contents of an `ANVBinarySearchTreeNode`; a node pointer
is an `Option Nat`, `none` being `NULL`. The loops take a `fuel`; the result
`none` says that the call did not return within the fuel or dereferenced
`NULL`. The deallocation of the removed node is not represented. -/

/-- The contents of an `ANVBinarySearchTreeNode` in the node memory. -/
structure BstCell (α : Type) where
  data : α
  left : Option Nat
  right : Option Nat
  parent : Option Nat

/-- The node memory. -/
abbrev BstMem (α : Type) := Nat → BstCell α

/-- The assignment `p->left = v`. -/
def bst_set_left {α : Type} (m : BstMem α) (p : Nat) (v : Option Nat) : BstMem α :=
  fun a => if a = p then { m a with left := v } else m a

/-- The assignment `p->right = v`. -/
def bst_set_right {α : Type} (m : BstMem α) (p : Nat) (v : Option Nat) : BstMem α :=
  fun a => if a = p then { m a with right := v } else m a

/-- The assignment `p->parent = v`. -/
def bst_set_parent {α : Type} (m : BstMem α) (p : Nat) (v : Option Nat) : BstMem α :=
  fun a => if a = p then { m a with parent := v } else m a

/-- The `ANVBinarySearchTree` record over the node memory that its node
pointers refer to (the `size_t` field `size` is a `Nat`). -/
structure BstStore (α : Type) where
  mem : BstMem α
  root : Option Nat
  size : Nat
  compare : α → α → Int

/-- Embeds `anv_bst_node_min` for a non-null `node`. -/
def anv_bst_node_min {α : Type} (m : BstMem α) : Nat → Nat → Option Nat
  | 0, _ => none
  | fuel + 1, node =>
    match (m node).left with
    | none => some node
    | some l => anv_bst_node_min m fuel l

/-- Embeds `anv_bst_transplant`. -/
def anv_bst_transplant {α : Type} (tree : BstStore α) (u : Nat) (v : Option Nat) :
    BstStore α :=
  let tree1 : BstStore α :=
    match (tree.mem u).parent with
    | none => { tree with root := v }
    | some p =>
      if (tree.mem p).left = some u then { tree with mem := bst_set_left tree.mem p v }
      else { tree with mem := bst_set_right tree.mem p v }
  match v with
  | none => tree1
  | some vn => { tree1 with mem := bst_set_parent tree1.mem vn (tree1.mem u).parent }

/-- Embeds `anv_bst_node_remove_with_parent`. -/
def anv_bst_node_remove_with_parent {α : Type} (fuel : Nat) (tree : BstStore α) (node : Nat) :
    Option (BstStore α) :=
  match (tree.mem node).left with
  | none => some (anv_bst_transplant tree node (tree.mem node).right)
  | some _ =>
    match (tree.mem node).right with
    | none => some (anv_bst_transplant tree node (tree.mem node).left)
    | some r =>
      match anv_bst_node_min tree.mem fuel r with
      | none => none
      | some successor =>
        let tree1 : Option (BstStore α) :=
          if (tree.mem successor).parent ≠ some node then
            let t1 := anv_bst_transplant tree successor (tree.mem successor).right
            let m2 := bst_set_right t1.mem successor (t1.mem node).right
            match (m2 successor).right with
            | none => none
            | some sr => some { t1 with mem := bst_set_parent m2 sr (some successor) }
          else some tree
        match tree1 with
        | none => none
        | some t1 =>
          let t2 := anv_bst_transplant t1 node (some successor)
          let m3 := bst_set_left t2.mem successor (t2.mem node).left
          match (m3 successor).left with
          | none => none
          | some sl => some { t2 with mem := bst_set_parent m3 sl (some successor) }

/-- The loop of `anv_bst_remove`, from `current`: the return code and the
tree afterwards. -/
def anv_bst_remove_loop {α : Type} (data : α) :
    Nat → BstStore α → Option Nat → Option (Int × BstStore α)
  | 0, _, _ => none
  | fuel + 1, tree, current =>
    match current with
    | none => some (-1, tree)
    | some c =>
      if tree.compare data (tree.mem c).data = 0 then
        match anv_bst_node_remove_with_parent fuel tree c with
        | none => none
        | some t1 => some (0, { t1 with size := t1.size - 1 })
      else if tree.compare data (tree.mem c).data < 0 then
        anv_bst_remove_loop data fuel tree (tree.mem c).left
      else anv_bst_remove_loop data fuel tree (tree.mem c).right

/-- Embeds `anv_bst_remove`: the return code and the tree afterwards. -/
def anv_bst_remove {α : Type} (fuel : Nat) (tree : Option (BstStore α)) (data : Option α) :
    Option (Int × Option (BstStore α)) :=
  match tree, data with
  | some t, some d => (anv_bst_remove_loop d fuel t t.root).map fun r => (r.1, some r.2)
  | _, _ => some (-1, tree)

/-- The loop of `anv_bst_contains` over the node memory, from `current`. -/
def anv_bst_store_contains_loop {α : Type} (compare : α → α → Int) (data : α) (m : BstMem α) :
    Nat → Option Nat → Option Int
  | 0, _ => none
  | fuel + 1, current =>
    match current with
    | none => some 0
    | some c =>
      if compare data (m c).data = 0 then some 1
      else if compare data (m c).data < 0 then
        anv_bst_store_contains_loop compare data m fuel (m c).left
      else anv_bst_store_contains_loop compare data m fuel (m c).right

/-- Embeds `anv_bst_contains` over the node memory. -/
def anv_bst_store_contains {α : Type} (fuel : Nat) (tree : Option (BstStore α))
    (data : Option α) : Option Int :=
  match tree, data with
  | some t, some d => anv_bst_store_contains_loop t.compare d t.mem fuel t.root
  | _, _ => some 0

/-- The contents of the node at address `a` of the tree below a pointer. -/
def bst_cell_at {α : Type} (a : Nat) : ANVBinarySearchTreeNode α → Option (BstCell α)
  | .null => none
  | .node b d l r p =>
    if a = b then some { data := d, left := l.ptr, right := r.ptr, parent := p }
    else (bst_cell_at a l).orElse fun _ => bst_cell_at a r

/-- The tree held in a node memory: every node of the tree is stored at its
address, and every other address holds `dflt` and no links. -/
def bst_store_of {α : Type} (t : ANVBinarySearchTree α) (dflt : α) : BstStore α :=
  { mem := fun a =>
      (bst_cell_at a t.root).getD { data := dflt, left := none, right := none, parent := none },
    root := t.root.ptr, size := t.size, compare := t.compare }

/-- The tree found in the node memory below the pointer `p`, down to the
depth `fuel`. -/
def bst_load {α : Type} (m : BstMem α) : Nat → Option Nat → ANVBinarySearchTreeNode α
  | 0, _ => .null
  | _ + 1, none => .null
  | fuel + 1, some a =>
    .node a (m a).data (bst_load m fuel (m a).left) (bst_load m fuel (m a).right) (m a).parent

/-! ## Copy combinator with its allocations (`iterator.c`)

The protocol functions of the copy combinator once more, this time with
the allocations they make and release as explicit state next to the
iterator state: the copies that `state->copy` has returned and that have not
been released, and the number of `CopyState` blocks that are allocated. The
allocations of the upstream iterator are its own and are not tracked. -/

/-- The outstanding allocations of a copy iterator. -/
structure CopyLedger (α : Type) where
  copies : List α
  states : Nat
  deriving DecidableEq

/-- Embeds `copy_get` with its allocations: the copy that `state->copy`
returns, when it is non-null, is a new allocation. -/
def copy_get_tracked {σ α : Type} (s : Option (CopyState σ α)) (led : CopyLedger α) :
    Option ((Option α × Option (CopyState σ α)) × CopyLedger α) :=
  match s with
  | none => some ((none, none), led)
  | some state =>
    match state.cached_copy with
    | some c => some ((some c, some state), led)
    | none =>
      match state.base_iterator.callGet with
      | none => none
      | some (none, base) => some ((none, some { state with base_iterator := base }), led)
      | some (some element, base) =>
        some ((state.copy element,
            some { state with base_iterator := base, cached_copy := state.copy element }),
          match state.copy element with
          | some c => { led with copies := led.copies ++ [c] }
          | none => led)

/-- Embeds `copy_has_next` with its allocations: there are none. -/
def copy_has_next_tracked {σ α : Type} (s : Option (CopyState σ α)) (led : CopyLedger α) :
    Option ((Bool × Option (CopyState σ α)) × CopyLedger α) :=
  match s with
  | none => some ((false, none), led)
  | some state =>
    match state.base_iterator.callHasNext with
    | none => none
    | some (b, base) => some ((b, some { state with base_iterator := base }), led)

/-- Embeds `copy_next` with its allocations: `state->cached_copy = NULL`
overwrites the pointer to the cached copy and releases nothing. -/
def copy_next_tracked {σ α : Type} (s : Option (CopyState σ α)) (led : CopyLedger α) :
    Option ((Int × Option (CopyState σ α)) × CopyLedger α) :=
  match s with
  | none => some ((-1, none), led)
  | some state =>
    match state.base_iterator.callNext with
    | none => none
    | some (rc, base) =>
      some ((rc, some { state with base_iterator := base, cached_copy := none }), led)

/-- Embeds `copy_destroy` with its allocations: the upstream iterator is
destroyed and `anv_alloc_deallocate(&it->alloc, state)` releases the state
block when the allocator has a `deallocate` function; `alloc` is `it->alloc`,
the allocator that was given to the constructor. -/
def copy_destroy_tracked {σ α : Type} (alloc : ANVAllocator) (s : Option (CopyState σ α))
    (led : CopyLedger α) : Option (CopyState σ α) × CopyLedger α :=
  match s with
  | none => (none, led)
  | some _ => (none, if alloc.deallocate then { led with states := led.states - 1 } else led)

/-- Embeds `anv_iterator_copy` with its allocations: the `data_state` of the
iterator returned and the ledger; `mem` says whether the allocation of the
state returns non-null. -/
def anv_iterator_copy_tracked {σ α : Type} (it : Option (ANVIterator σ α))
    (alloc : Option ANVAllocator) (copy : Option (α → Option α)) (mem : Bool)
    (led : CopyLedger α) : Option (CopyState σ α) × CopyLedger α :=
  match it, copy, alloc with
  | some base, some f, some a =>
    if !anv_alloc_allocate (some a) mem then (none, led)
    else (some { base_iterator := base, copy := f, cached_copy := none },
      { led with states := led.states + 1 })
  | _, _, _ => (none, led)

/-! ## Hash set iterator (`hashset.c`) -/

/-- Embeds `HashSetIteratorState` (without its allocator field). -/
structure HashSetIteratorState (κ : Type) where
  map_iterator : ANVIterator (HashMapIteratorState κ) (ANVPair κ Nat)
  current_key : Option κ

/-- Embeds `hashset_iterator_get`. -/
def hashset_iterator_get {κ : Type} :
    Option (HashSetIteratorState κ) → Option (Option κ × Option (HashSetIteratorState κ))
  | none => some (none, none)
  | some state =>
    match state.current_key with
    | some k => some (some k, some state)
    | none =>
      match state.map_iterator.callHasNext with
      | none => none
      | some (false, mi) => some (none, some { state with map_iterator := mi })
      | some (true, mi) =>
        match mi.callGet with
        | none => none
        | some (none, mi1) => some (none, some { state with map_iterator := mi1 })
        | some (some pair, mi1) =>
          some (pair.first, some { map_iterator := mi1, current_key := pair.first })

/-- Embeds `hashset_iterator_has_next`. -/
def hashset_iterator_has_next {κ : Type} :
    Option (HashSetIteratorState κ) → Option (Bool × Option (HashSetIteratorState κ))
  | none => some (false, none)
  | some state =>
    match state.map_iterator.callHasNext with
    | none => none
    | some (b, mi) => some (b, some { state with map_iterator := mi })

/-- Embeds `hashset_iterator_next`. -/
def hashset_iterator_next {κ : Type} :
    Option (HashSetIteratorState κ) → Option (Int × Option (HashSetIteratorState κ))
  | none => some (-1, none)
  | some state =>
    match state.map_iterator.callNext with
    | none => none
    | some (rc, mi) => some (rc, some { map_iterator := mi, current_key := none })

/-- Embeds `hashset_iterator_has_prev`. -/
def hashset_iterator_has_prev {κ : Type} (s : Option (HashSetIteratorState κ)) :
    Bool × Option (HashSetIteratorState κ) := (false, s)

/-- Embeds `hashset_iterator_prev`. -/
def hashset_iterator_prev {κ : Type} (s : Option (HashSetIteratorState κ)) :
    Int × Option (HashSetIteratorState κ) := (-1, s)

/-- Embeds `hashset_iterator_reset`. -/
def hashset_iterator_reset {κ : Type} :
    Option (HashSetIteratorState κ) → Option (HashSetIteratorState κ)
  | none => none
  | some state => some { map_iterator := state.map_iterator.callReset, current_key := none }

/-- Embeds `hashset_iterator_is_valid`. -/
def hashset_iterator_is_valid {κ : Type} : Option (HashSetIteratorState κ) → Bool
  | none => false
  | some state => state.map_iterator.callIsValid

/-- Embeds `hashset_iterator_destroy`. -/
def hashset_iterator_destroy {κ : Type} (_s : Option (HashSetIteratorState κ)) :
    Option (HashSetIteratorState κ) := none

/-- The iterator `it` of `anv_hashset_iterator` with the given `data_state`. -/
def hashset_iterator_with {κ : Type} (ds : Option (HashSetIteratorState κ)) :
    ANVIterator (HashSetIteratorState κ) κ where
  data_state := ds
  get := hashset_iterator_get
  has_next := hashset_iterator_has_next
  next := hashset_iterator_next
  has_prev := hashset_iterator_has_prev
  prev := hashset_iterator_prev
  reset := hashset_iterator_reset
  is_valid := hashset_iterator_is_valid
  destroy := hashset_iterator_destroy

/-- Embeds `anv_hashset_iterator`; `mem` and `mem_map` say whether the
allocation of the state and that of the state of the hash map iterator
return non-null. The function checks neither `set` nor `set->map`: its first
statement passes `&set->map->alloc` to `anv_alloc_allocate`, which reads
through `set`, and through `set->map`, before anything else. For a null `set`
or a null `set->map` the call therefore reads through a null pointer and has
no result: that is `none`. -/
def anv_hashset_iterator {κ : Type} (set : Option (ANVHashSet κ)) (mem mem_map : Bool) :
    Option (ANVIterator (HashSetIteratorState κ) κ) :=
  match set with
  | none => none
  | some s =>
    match s.map with
    | none => none
    | some m =>
      if !anv_alloc_allocate (some m.alloc) mem then some (hashset_iterator_with none)
      else
        some (hashset_iterator_with
          (some { map_iterator := anv_hashmap_iterator (some m) mem_map, current_key := none }))

/-! ## Arena allocator (`arena.c`)

The fields `size` and `used` and the request size are `size_t` values:
natural numbers below `2^64`, with the arithmetic on them reduced modulo
`2^64`. `memory` is the address of the block, `none` for `NULL`. -/

/-- Embeds `ANVArena`. -/
structure ANVArena where
  memory : Option Nat
  size : Nat
  used : Nat
  deriving DecidableEq

/-- The value of a `size_t` computation: the result modulo `2^64`. -/
def size_wrap (x : Nat) : Nat := x % 18446744073709551616

/-- The `size_t` value `~7`, that is `2^64 - 8`. -/
def SIZE_NOT_7 : Nat := 18446744073709551608

/-- Embeds `anv_arena_allocate`: the pointer returned (`none` for `NULL`) and
the arena afterwards. -/
def anv_arena_allocate (arena : Option ANVArena) (size : Nat) : Option Nat × Option ANVArena :=
  match arena with
  | none => (none, none)
  | some a =>
    match a.memory with
    | none => (none, some a)
    | some memory =>
      if size = 0 then (none, some a)
      else
        let aligned_size := size_wrap (size + 7) &&& SIZE_NOT_7
        if size_wrap (a.used + aligned_size) > a.size then (none, some a)
        else (some (memory + a.used), some { a with used := size_wrap (a.used + aligned_size) })

/-! ## Insertion and clearing over the node memory (`binarysearchtree.c`)

The functions `anv_bst_create`, `anv_bst_insert` and `anv_bst_clear` over the
node memory of the removal, so that sequences of insertions, removals and
clearings act on one tree. The result of the allocation made by
`anv_bst_node_create` is an explicit argument; the increment of the `size_t`
field `size` wraps at `2 ^ 64`. -/

/-- Embeds `anv_bst_create` over the node memory `m` (allocator and `compare`
non-null, the allocation of the tree succeeding). -/
def anv_bst_store_create {α : Type} (compare : α → α → Int) (m : BstMem α) : BstStore α :=
  { mem := m, root := none, size := 0, compare := compare }

/-- Embeds `anv_bst_node_create` over the node memory, for an allocation that
returned the address `a`: the four assignments to the fields of the node. -/
def anv_bst_store_node_create {α : Type} (m : BstMem α) (a : Nat) (data : α) : BstMem α :=
  fun x => if x = a then { data := data, left := none, right := none, parent := none } else m x

/-- The search loop of `anv_bst_insert` over the node memory, from `current`
with the `parent` recorded so far: `(true, _)` is the early `return 1`
(duplicate), `(false, parent)` the end of the loop with the last node
visited. -/
def anv_bst_insert_loop {α : Type} (compare : α → α → Int) (data : α) (m : BstMem α) :
    Nat → Option Nat → Option Nat → Option (Bool × Option Nat)
  | 0, _, _ => none
  | fuel + 1, current, parent =>
    match current with
    | none => some (false, parent)
    | some c =>
      if compare data (m c).data = 0 then some (true, some c)
      else if compare data (m c).data < 0 then
        anv_bst_insert_loop compare data m fuel (m c).left (some c)
      else anv_bst_insert_loop compare data m fuel (m c).right (some c)

/-- The statements of `anv_bst_insert` from the creation of `new_node` at the
address `a` to its linking below `parent`: the node memory afterwards. -/
def anv_bst_insert_link {α : Type} (compare : α → α → Int) (data : α) (a : Nat)
    (m : BstMem α) (parent : Nat) : BstMem α :=
  let m1 := bst_set_parent (anv_bst_store_node_create m a data) a (some parent)
  if compare data (m1 parent).data < 0 then bst_set_left m1 parent (some a)
  else bst_set_right m1 parent (some a)

/-- Embeds `anv_bst_insert` over the node memory. `newp` is the result of the
allocation made by `anv_bst_node_create`, should the call get that far. The
result is the return code and the tree afterwards. -/
def anv_bst_store_insert {α : Type} (fuel : Nat) (tree : Option (BstStore α))
    (data : Option α) (newp : Option Nat) : Option (Int × Option (BstStore α)) :=
  match tree, data with
  | none, _ => some (-1, none)
  | some t, none => some (-1, some t)
  | some t, some d =>
    match t.root with
    | none =>
      match newp with
      | none => some (-1, some t)
      | some a =>
        some (0, some { t with mem := anv_bst_store_node_create t.mem a d, root := some a,
                               size := size_wrap (t.size + 1) })
    | some r =>
      match anv_bst_insert_loop t.compare d t.mem fuel (some r) none with
      | none => none
      | some (true, _) => some (1, some t)
      | some (false, parent) =>
        match newp, parent with
        | none, _ => some (-1, some t)
        | some a, none => some (-1, some { t with mem := anv_bst_store_node_create t.mem a d })
        | some a, some p =>
          some (0, some { t with mem := anv_bst_insert_link t.compare d a t.mem p,
                                 size := size_wrap (t.size + 1) })

/-- Embeds `anv_bst_node_destroy_recursive` over the node memory: the
addresses of the nodes in the order in which they are deallocated. -/
def anv_bst_store_node_destroy_recursive {α : Type} (m : BstMem α) :
    Nat → Option Nat → Option (List Nat)
  | 0, _ => none
  | _ + 1, none => some []
  | fuel + 1, some a =>
    match anv_bst_store_node_destroy_recursive m fuel (m a).left with
    | none => none
    | some xs =>
      match anv_bst_store_node_destroy_recursive m fuel (m a).right with
      | none => none
      | some ys => some (xs ++ ys ++ [a])

/-- Embeds `anv_bst_clear` over the node memory. -/
def anv_bst_store_clear {α : Type} (fuel : Nat) (tree : Option (BstStore α)) :
    Option (Option (BstStore α)) :=
  match tree with
  | none => some none
  | some t =>
    (anv_bst_store_node_destroy_recursive t.mem fuel t.root).map fun _ =>
      some { t with root := none, size := 0 }

/-! ## Specification-side notions used by the theorems -/

/-- An invariant `I it xs` ("`it` still has to yield `xs`") that is kept by
one round of the consumer loop. -/
structure DriveInv {σ α : Type} (I : ANVIterator σ α → List (Option α) → Prop) : Prop where
  done : ∀ it, I it [] → ∃ it1, it.callHasNext = some (false, it1) ∧ I it1 []
  step : ∀ it x xs, I it (x :: xs) →
    ∃ it1 it2 rc it3, it.callHasNext = some (true, it1) ∧ it1.callGet = some (x, it2) ∧
      it2.callNext = some (rc, it3) ∧ I it3 xs

/-- What the in-order engine still has to yield for the nodes on its stack
(top first): each node, then the in-order sequence of its right subtree. -/
def bst_inorder_pending {α : Type} : List (ANVBinarySearchTreeNode α) → List α
  | [] => []
  | n :: s => n.data?.toList ++ anv_bst_node_inorder n.right ++ bst_inorder_pending s

/-- What the pre-order engine still has to yield for the nodes on its stack
(top first): the pre-order sequence of each. -/
def bst_preorder_pending {α : Type} : List (ANVBinarySearchTreeNode α) → List α
  | [] => []
  | n :: s => anv_bst_node_preorder n ++ bst_preorder_pending s

/-- Invariant of the in-order engine: the iterator is a BST iterator in
in-order mode whose stack holds node pointers only; it is either finished
with nothing left to yield, or positioned on a node with `xs` being the data
of that node followed by what is pending for it and for the stack. -/
def BstInorderInv {α : Type} (it : ANVIterator (BSTIteratorState α) α)
    (xs : List (Option α)) : Prop :=
  ∃ st : BSTIteratorState α, it = bst_iterator_with (some st) ∧
    st.traversal_type = .BST_TRAVERSAL_INORDER ∧
    (∀ n ∈ st.stack.items, n.isNull = false) ∧
    ((st.finished = true ∧ xs = []) ∨
     (st.finished = false ∧ st.current.isNull = false ∧
        xs = (bst_inorder_pending (st.current :: st.stack.items)).map some))

/-- Invariant of the pre-order engine, as `BstInorderInv`. -/
def BstPreorderInv {α : Type} (it : ANVIterator (BSTIteratorState α) α)
    (xs : List (Option α)) : Prop :=
  ∃ st : BSTIteratorState α, it = bst_iterator_with (some st) ∧
    st.traversal_type = .BST_TRAVERSAL_PREORDER ∧
    (∀ n ∈ st.stack.items, n.isNull = false) ∧
    ((st.finished = true ∧ xs = []) ∨
     (st.finished = false ∧ st.current.isNull = false ∧
        xs = (bst_preorder_pending (st.current :: st.stack.items)).map some))

/-- The tree that inserting 5, 3, 8, 1, 4 (in this order, nodes allocated at
addresses 100, 101, ...) into an empty tree builds. -/
def bst_example_tree : ANVBinarySearchTree Int where
  root :=
    .node 100 5
      (.node 101 3 (.node 103 1 .null .null (some 101)) (.node 104 4 .null .null (some 101))
        (some 100))
      (.node 102 8 .null .null (some 100))
      none
  size := 5
  compare := int_compare

/-- The stack of the pre-order case of `bst_iterator_next` after its two
conditional pushes (right child, then left child). -/
def bst_preorder_pushed {α : Type} (cur : ANVBinarySearchTreeNode α)
    (stack : ANVStack (ANVBinarySearchTreeNode α)) : ANVStack (ANVBinarySearchTreeNode α) :=
  let stack1 := if !cur.right.isNull then anv_stack_push stack cur.right else stack
  if !cur.left.isNull then anv_stack_push stack1 cur.left else stack1

/-- Sibling pointers differ: at every node below the pointer that has two
children, the addresses of the two children are different. -/
def bst_siblings_distinct {α : Type} : ANVBinarySearchTreeNode α → Bool
  | .null => true
  | .node _ _ l r _ =>
    (l.isNull || r.isNull || l.ptr != r.ptr) && bst_siblings_distinct l &&
      bst_siblings_distinct r

/-- What the post-order engine still has to yield after the node with pointer
`c` for the nodes on its stack (top first): for each stack node, its right
subtree when the node just finished is its left child and a right child
exists, then the node itself. -/
def bst_postorder_pending {α : Type} :
    Option Nat → List (ANVBinarySearchTreeNode α) → List α
  | _, [] => []
  | c, top :: s =>
    (if top.left.ptr == c && !top.right.isNull then anv_bst_node_postorder top.right else []) ++
      (top.data?.toList ++ bst_postorder_pending top.ptr s)

/-- Invariant of the post-order engine, as `BstInorderInv`; the nodes on the
stack have distinct sibling pointers throughout. -/
def BstPostorderInv {α : Type} (it : ANVIterator (BSTIteratorState α) α)
    (xs : List (Option α)) : Prop :=
  ∃ st : BSTIteratorState α, it = bst_iterator_with (some st) ∧
    st.traversal_type = .BST_TRAVERSAL_POSTORDER ∧
    (∀ n ∈ st.stack.items, n.isNull = false ∧ bst_siblings_distinct n = true) ∧
    ((st.finished = true ∧ xs = []) ∨
     (st.finished = false ∧ st.current.isNull = false ∧
        xs = (st.current.data?.toList ++
          bst_postorder_pending st.current.ptr st.stack.items).map some))

/-- A relation `R it xs` ("`it` is positioned before the elements `xs`") that
the protocol functions respect the way a well-behaved producer does:
`has_next` tells whether an element is left, `get` returns the current
element (`NULL` when none is left, or when the element itself is `NULL`),
neither of the two moves the position, and `next` moves past exactly one
element with status `0`, or returns `-1` when none is left. The calls may
change the state of the iterator as long as the relation is kept. -/
structure IsProducer {σ α : Type} (R : ANVIterator σ α → List (Option α) → Prop) : Prop where
  has_next : ∀ it xs, R it xs → ∃ it1, it.callHasNext = some (!xs.isEmpty, it1) ∧ R it1 xs
  get : ∀ it xs, R it xs → ∃ it1, it.callGet = some (xs.head?.join, it1) ∧ R it1 xs
  next_cons : ∀ it x xs, R it (x :: xs) → ∃ it1, it.callNext = some (0, it1) ∧ R it1 xs
  next_nil : ∀ it, R it [] → ∃ it1, it.callNext = some (-1, it1) ∧ R it1 []

/-- The iterator `it` is a well-behaved producer with element sequence `xs`
(the elements from its current position on). -/
def Produces {σ α : Type} (it : ANVIterator σ α) (xs : List (Option α)) : Prop :=
  ∃ R : ANVIterator σ α → List (Option α) → Prop, IsProducer R ∧ R it xs

/-- The iterator after `n` rounds `has_next; get; next` of the consumer loop
(`none` when `has_next` returns false before, or a call does not return). -/
def ANVIterator.rounds {σ α : Type} : Nat → ANVIterator σ α → Option (ANVIterator σ α)
  | 0, it => some it
  | n + 1, it =>
    match it.callHasNext with
    | some (true, it1) =>
      match it1.callGet with
      | some (_, it2) =>
        match it2.callNext with
        | some (_, it3) => ANVIterator.rounds n it3
        | none => none
      | none => none
    | _ => none

/-- The take iterator is positioned before `ys`: its upstream is a
well-behaved producer positioned before some `xs`, and `ys` are the first
`max_count - current_count` elements of `xs`. -/
def TakeRel {σ α : Type} (it : ANVIterator (TakeState σ α) α) (ys : List (Option α)) : Prop :=
  ∃ (st : TakeState σ α) (xs : List (Option α)), it = take_with (some st) ∧
    Produces st.base_iterator xs ∧ ys = xs.take (st.max_count - st.current_count)

/-- The skip iterator is positioned before `ys`: either the skip is still to
be performed and `ys` is what follows the first `skip_count` elements of the
upstream, or it has been performed and the upstream is positioned before
`ys`. -/
def SkipRel {σ α : Type} (it : ANVIterator (SkipState σ α) α) (ys : List (Option α)) : Prop :=
  ∃ st : SkipState σ α, it = skip_with (some st) ∧
    ((st.has_skipped = false ∧
        ∃ xs, Produces st.base_iterator xs ∧ ys = xs.drop st.skip_count) ∨
     (st.has_skipped = true ∧ Produces st.base_iterator ys))

/-- The filter state is positioned on the upstream sequence `zs`: either `zs`
is empty and no current element is recorded, or `zs` starts with an element
that is kept and that is recorded as the current, matching element. -/
def FilterPos {σ α : Type} (st : FilterState σ α) (zs : List (Option α)) : Prop :=
  (zs = [] ∧ st.has_current = false ∧ st.current_matches = false ∧
      st.current_element = none) ∨
  (∃ e rest, zs = some e :: rest ∧ st.filter e = true ∧ st.has_current = true ∧
      st.current_matches = true ∧ st.current_element = some e)

/-- The filter iterator (with seek fuel `fuel`) is positioned before `ys`:
its upstream is a well-behaved producer positioned before some `xs` shorter
than the fuel, `ys` are the elements of `xs` that are kept, and a recorded
matching element is the head of `xs`. -/
def FilterRel {σ α : Type} (fuel : Nat) (p : α → Bool) (it : ANVIterator (FilterState σ α) α)
    (ys : List (Option α)) : Prop :=
  ∃ (st : FilterState σ α) (xs : List (Option α)), it = filter_with fuel (some st) ∧
    st.filter = p ∧ Produces st.base_iterator xs ∧ xs.length < fuel ∧
    ys = xs.filter (filter_keeps p) ∧
    ((st.has_current && st.current_matches) = true → FilterPos st xs)

/-- The transform iterator is positioned before `ys`: its upstream is a
well-behaved producer positioned before the non-null elements `as`, `ys` are
the results of the transform function on `as`, and a cached result is the
result for the current element. -/
def TransformRel {σ α β : Type} (f : α → Option β)
    (it : ANVIterator (TransformState σ α β) β) (ys : List (Option β)) : Prop :=
  ∃ (st : TransformState σ α β) (as : List α), it = transform_with (some st) ∧
    st.transform = f ∧ Produces st.base_iterator (as.map some) ∧ ys = as.map f ∧
    (∀ c, st.cached_result = some c → ys.head?.join = some c)

/-- Invariant of the consumer loop over a chain iterator: the sources from
the current index on (`post`) are well-behaved producers positioned before
the sequences `xss`, and `ys` is the concatenation of these sequences. -/
def ChainInv {σ α : Type} (it : ANVIterator (ChainState σ α) α) (ys : List (Option α)) :
    Prop :=
  ∃ (st : ChainState σ α) (pre post : List (ANVIterator σ α))
    (xss : List (List (Option α))), it = chain_with (some st) ∧
    st.iterators = pre ++ post ∧ st.current_iterator_index = pre.length ∧
    List.Forall₂ Produces post xss ∧ ys = xss.flatten

/-- The arithmetic progression `start, start + step, ...` of `n` values. -/
def range_values (start step : Int) (n : Nat) : List Int :=
  (List.range n).map fun (i : Nat) => start + (i : Int) * step

/-- The value `v` lies strictly before `end_` in the direction of `step`. -/
def range_before (end_ step v : Int) : Prop :=
  (step > 0 ∧ v < end_) ∨ (step < 0 ∧ v > end_)

instance range_before_decidable (end_ step v : Int) : Decidable (range_before end_ step v) :=
  inferInstanceAs (Decidable ((step > 0 ∧ v < end_) ∨ (step < 0 ∧ v > end_)))

/-- The range iterator with bound `end_` and step `step` is positioned before
`xs`: `xs` is the progression of the `n` values from `current` on that lie
before `end_`, the value after them does not, and none of these values
leaves the range of `int`. -/
def RangeRel (end_ step : Int) (it : ANVIterator RangeState Int) (xs : List (Option Int)) :
    Prop :=
  ∃ (st : RangeState) (n : Nat), it = range_with (some st) ∧ st.end_ = end_ ∧
    st.step = step ∧ xs = (range_values st.current step n).map some ∧
    (∀ i : Nat, i < n → range_before end_ step (st.current + (i : Int) * step)) ∧
    ¬ range_before end_ step (st.current + (n : Int) * step) ∧
    (∀ i : Nat, i ≤ n → is_int (st.current + (i : Int) * step))

/-- The iterator is structurally invalid: its state blob is `NULL`,
`is_valid` and `has_next` are false, `get` returns `NULL`, `next` returns
`-1`, `has_prev` is false, `prev` returns `-1`, and none of these calls, nor
`reset`, nor `destroy`, changes the iterator. -/
def ANVIterator.IsInvalid {σ α : Type} (it : ANVIterator σ α) : Prop :=
  it.data_state = none ∧ it.callIsValid = false ∧ it.callHasNext = some (false, it) ∧
    it.callGet = some (none, it) ∧ it.callNext = some (-1, it) ∧
    it.callHasPrev = (false, it) ∧ it.callPrev = (-1, it) ∧
    it.callReset = it ∧ it.callDestroy = it

/-- The nodes `as`, in this order, form a doubly-linked segment of the memory
`m`: `p` points to the first of them, whose `prev` is `q`, each node's `next`
points to the following node, whose `prev` points back, and the `next` of the
last node is `e` (for no node at all, `p` is `e`). -/
def DSeg {α : Type} (m : DllMem α) : Option Nat → Option Nat → List Nat → Option Nat → Prop
  | _, p, [], e => p = e
  | q, p, a :: as, e => p = some a ∧ (m a).prev = q ∧ DSeg m (some a) (m a).next as e

instance DSeg.instDecidable {α : Type} (m : DllMem α) :
    ∀ (as : List Nat) (q p e : Option Nat), Decidable (DSeg m q p as e)
  | [], _, p, e => inferInstanceAs (Decidable (p = e))
  | a :: as, q, p, e =>
    have := DSeg.instDecidable m as (some a) (m a).next e
    inferInstanceAs (Decidable (p = some a ∧ (m a).prev = q ∧ DSeg m (some a) (m a).next as e))

/-- The pointer to the last node of `as`, or `q` when there is none. -/
def dlast : Option Nat → List Nat → Option Nat
  | q, [] => q
  | _, a :: as => dlast (some a) as

/-- The list `l` is a well-formed doubly-linked list with the node sequence
`as`: the nodes are distinct, they form a doubly-linked segment from `head`
whose first `prev` and last `next` are `NULL`, `tail` points to the last of
them, and `size` is their number. -/
def DllWF {α : Type} (l : ANVDoublyLinkedList α) (as : List Nat) : Prop :=
  as.Nodup ∧ DSeg l.mem none l.head as none ∧ l.tail = dlast none as ∧ l.size = as.length

instance DllWF.instDecidable {α : Type} (l : ANVDoublyLinkedList α) (as : List Nat) :
    Decidable (DllWF l as) :=
  inferInstanceAs
    (Decidable (as.Nodup ∧ DSeg l.mem none l.head as none ∧ l.tail = dlast none as ∧
      l.size = as.length))

/-- The nodes met from `p` following `next`, at most `n` of them. -/
def dll_nodes {α : Type} (m : DllMem α) : Nat → Option Nat → List Nat
  | 0, _ => []
  | _ + 1, none => []
  | n + 1, some a => a :: dll_nodes m n (m a).next

/-- The forward node sequence of the list. -/
def dll_node_seq {α : Type} (l : ANVDoublyLinkedList α) : List Nat :=
  dll_nodes l.mem l.size l.head

/-- The forward element sequence of the list: the `data` of its nodes from
`head` following `next`. -/
def dll_elements {α : Type} (l : ANVDoublyLinkedList α) : List (Option α) :=
  (dll_node_seq l).map fun a => (l.mem a).data

/-- The order `compare(a->data, b->data) <= 0` on nodes. -/
def dll_le {α : Type} (compare : Option α → Option α → Int) (m : DllMem α) (a b : Nat) : Bool :=
  decide (compare (m a).data (m b).data ≤ 0)

/-- Merge sort on a sequence of nodes as `anv_dll_merge_sort` performs it: the
first `length / 2` nodes and the remaining ones are sorted, then merged, the
left node winning ties. -/
def merge_sort_seq (le : Nat → Nat → Bool) : Nat → List Nat → List Nat
  | 0, as => as
  | fuel + 1, as =>
    if as.length ≤ 1 then as
    else
      List.merge (merge_sort_seq le fuel (as.take (as.length / 2)))
        (merge_sort_seq le fuel (as.drop (as.length / 2))) le

/-- The node with `next` and `prev` exchanged. -/
def mirror_node {α : Type} (n : ANVDoublyLinkedNode α) : ANVDoublyLinkedNode α :=
  { data := n.data, next := n.prev, prev := n.next }

/-- The forward list iterator is positioned before the elements `xs`. -/
def DllForwardRel {α : Type} (it : ANVIterator (ListIteratorState α) α)
    (xs : List (Option α)) : Prop :=
  ∃ (st : ListIteratorState α) (as : List Nat) (q : Option Nat),
    it = dll_iterator_with (some st) ∧ st.start = st.list.head ∧
    DSeg st.list.mem q st.current as none ∧ xs = as.map fun a => (st.list.mem a).data

/-- The backward list iterator is positioned before the elements `xs`, which
it reaches following `prev`. -/
def DllBackwardRel {α : Type} (it : ANVIterator (ListIteratorState α) α)
    (xs : List (Option α)) : Prop :=
  ∃ (st : ListIteratorState α) (as : List Nat) (q : Option Nat),
    it = dll_iterator_with (some st) ∧ st.start ≠ st.list.head ∧
    DSeg (fun a => mirror_node (st.list.mem a)) q st.current as none ∧
    xs = as.map fun a => (st.list.mem a).data

/-- The keys of the hash map, in the order of its iterator. -/
def hashmap_keys {κ : Type} (m : ANVHashMap κ) : List κ := m.entries.map Prod.fst

/-- The function `eq` is an equivalence on keys. -/
structure IsKeyEquivalence {κ : Type} (eq : κ → κ → Bool) : Prop where
  refl : ∀ a, eq a a = true
  symm : ∀ a b, eq a b = true → eq b a = true
  trans : ∀ a b c, eq a b = true → eq b c = true → eq a c = true

/-- No two keys of the hash map are equal under its `key_equals`. -/
def HashMapWF {κ : Type} (m : ANVHashMap κ) : Prop :=
  (hashmap_keys m).Pairwise fun a b => m.key_equals a b = false

instance HashMapWF.instDecidable {κ : Type} (m : ANVHashMap κ) : Decidable (HashMapWF m) :=
  inferInstanceAs (Decidable ((hashmap_keys m).Pairwise fun a b => m.key_equals a b = false))

/-- The pair that the hash map iterator yields for a binding. -/
def hashmap_pair {κ : Type} (e : κ × Nat) : Option (ANVPair κ Nat) :=
  some { first := some e.1, second := some e.2 }

/-- The hash map iterator is positioned before the pairs `xs`. -/
def HashMapIterRel {κ : Type} (it : ANVIterator (HashMapIteratorState κ) (ANVPair κ Nat))
    (xs : List (Option (ANVPair κ Nat))) : Prop :=
  ∃ st : HashMapIteratorState κ, it = hashmap_iterator_with (some st) ∧
    xs = st.rest.map hashmap_pair

/-- The three-way comparison `cmp` is that of a total preorder: exchanging
the arguments exchanges negative and positive results, and `<= 0` is
transitive. -/
structure IsTotalCompare {α : Type} (cmp : α → α → Int) : Prop where
  anti : ∀ a b, cmp a b < 0 ↔ 0 < cmp b a
  trans : ∀ a b c, cmp a b ≤ 0 → cmp b c ≤ 0 → cmp a c ≤ 0

/-- The BST ordering: every key in the left subtree of a node compares less
than the key of the node, and every key in its right subtree greater. -/
def BstOrdered {α : Type} (cmp : α → α → Int) : ANVBinarySearchTreeNode α → Prop
  | .null => True
  | .node _ d l r _ =>
    (∀ x ∈ anv_bst_node_inorder l, cmp x d < 0) ∧ (∀ y ∈ anv_bst_node_inorder r, 0 < cmp y d) ∧
      BstOrdered cmp l ∧ BstOrdered cmp r

/-! ### Trees in the node memory

The notions that relate the node memory of `anv_bst_remove` to the tree it
holds, and the tree that the removal is to leave behind. -/

/-- The node memory `m` holds the tree `t` below the pointer `p`, with
consistent parent pointers: the `parent` field of the root of `t` is `par`,
and the `parent` field of every other node is the node above it. -/
def BstRep {α : Type} (m : BstMem α) :
    Option Nat → Option Nat → ANVBinarySearchTreeNode α → Prop
  | p, _, .null => p = none
  | p, par, .node a d l r pp =>
    p = some a ∧ pp = par ∧ (m a).data = d ∧ (m a).parent = par ∧
      BstRep m (m a).left (some a) l ∧ BstRep m (m a).right (some a) r

instance BstRep.instDecidable {α : Type} [DecidableEq α] (m : BstMem α) :
    ∀ (t : ANVBinarySearchTreeNode α) (p par : Option Nat), Decidable (BstRep m p par t)
  | .null, p, _ => inferInstanceAs (Decidable (p = none))
  | .node a d l r pp, p, par =>
    have := BstRep.instDecidable m l (m a).left (some a)
    have := BstRep.instDecidable m r (m a).right (some a)
    inferInstanceAs (Decidable (p = some a ∧ pp = par ∧ (m a).data = d ∧ (m a).parent = par ∧
      BstRep m (m a).left (some a) l ∧ BstRep m (m a).right (some a) r))

/-- A place that holds the pointer to a subtree: the `root` field of the
tree, or the `left` or `right` field of the node at an address. -/
inductive BstSlot where
  | root : BstSlot
  | left (q : Nat) : BstSlot
  | right (q : Nat) : BstSlot

/-- The node that a place belongs to, `none` for the `root` field. -/
def BstSlot.owner : BstSlot → Option Nat
  | .root => none
  | .left q => some q
  | .right q => some q

/-- The pointer held in a place. -/
def BstSlot.get {α : Type} (st : BstStore α) : BstSlot → Option Nat
  | .root => st.root
  | .left q => (st.mem q).left
  | .right q => (st.mem q).right

/-- The tree after a pointer is stored in a place. -/
def BstSlot.set {α : Type} (st : BstStore α) (s : BstSlot) (v : Option Nat) : BstStore α :=
  match s with
  | .root => { st with root := v }
  | .left q => { st with mem := bst_set_left st.mem q v }
  | .right q => { st with mem := bst_set_right st.mem q v }

/-- The subtree with the parent pointer of its root replaced. -/
def bst_reparent {α : Type} (par : Option Nat) :
    ANVBinarySearchTreeNode α → ANVBinarySearchTreeNode α
  | .null => .null
  | .node a d l r _ => .node a d l r par

/-- The leftmost node below a pointer: its address and its key. -/
def bst_min_node {α : Type} : ANVBinarySearchTreeNode α → Option (Nat × α)
  | .null => none
  | .node a d l _ _ => if l.isNull then some (a, d) else bst_min_node l

/-- The subtree without its leftmost node, whose right subtree takes its
place. -/
def bst_delete_min {α : Type} : ANVBinarySearchTreeNode α → ANVBinarySearchTreeNode α
  | .null => .null
  | .node a d l r p => if l.isNull then bst_reparent p r else .node a d (bst_delete_min l) r p

/-- The subtree without its root: a single child takes the place of the
root, and of two children the leftmost node of the right one does. -/
def bst_remove_root {α : Type} : ANVBinarySearchTreeNode α → ANVBinarySearchTreeNode α
  | .null => .null
  | .node _ _ l r p =>
    if l.isNull then bst_reparent p r
    else if r.isNull then bst_reparent p l
    else
      match bst_min_node r with
      | none => .null
      | some (x, xd) =>
        .node x xd (bst_reparent (some x) l) (bst_reparent (some x) (bst_delete_min r)) p

/-- The tree without the first node on the search path of `d` whose key
compares equal to `d`. -/
def bst_remove_key {α : Type} (cmp : α → α → Int) (d : α) :
    ANVBinarySearchTreeNode α → ANVBinarySearchTreeNode α
  | .null => .null
  | .node a e l r p =>
    if cmp d e = 0 then bst_remove_root (.node a e l r p)
    else if cmp d e < 0 then .node a e (bst_remove_key cmp d l) r p
    else .node a e l (bst_remove_key cmp d r) p

/-- The assignment `v->parent = par` guarded by `if (v)`. -/
def bst_link_parent {α : Type} (m : BstMem α) (v par : Option Nat) : BstMem α :=
  match v with
  | none => m
  | some vn => bst_set_parent m vn par

/-- The iterator after `k` calls of `next`, whatever they return (`none` when
a call does not return). -/
def ANVIterator.advance {σ α : Type} : Nat → ANVIterator σ α → Option (ANVIterator σ α)
  | 0, it => some it
  | k + 1, it =>
    match it.callNext with
    | some (_, it1) => ANVIterator.advance k it1
    | none => none

/-- The copy iterator and its ledger after `n` rounds `has_next; get; next` of
the consumer loop (`none` when `has_next` returns false before, or a call does
not return). -/
def copy_rounds_tracked {σ α : Type} :
    Nat → Option (CopyState σ α) → CopyLedger α →
      Option (Option (CopyState σ α) × CopyLedger α)
  | 0, s, led => some (s, led)
  | n + 1, s, led =>
    match copy_has_next_tracked s led with
    | some ((true, s1), led1) =>
      match copy_get_tracked s1 led1 with
      | some ((_, s2), led2) =>
        match copy_next_tracked s2 led2 with
        | some ((_, s3), led3) => copy_rounds_tracked n s3 led3
        | none => none
      | none => none
    | _ => none

/-- The consumer loop `while (has_next) { get; next; }` over the copy
iterator with its ledger: the values of `get`, the iterator state and the
ledger when the loop has ended (`none` when the fuel runs out before). -/
def copy_drive_tracked {σ α : Type} :
    Nat → Option (CopyState σ α) → CopyLedger α →
      Option (List (Option α) × Option (CopyState σ α) × CopyLedger α)
  | 0, _, _ => none
  | fuel + 1, s, led =>
    match copy_has_next_tracked s led with
    | none => none
    | some ((false, s1), led1) => some ([], s1, led1)
    | some ((true, s1), led1) =>
      match copy_get_tracked s1 led1 with
      | none => none
      | some ((x, s2), led2) =>
        match copy_next_tracked s2 led2 with
        | none => none
        | some ((_, s3), led3) =>
          match copy_drive_tracked fuel s3 led3 with
          | some (out, r) => some (x :: out, r)
          | none => none

/-- The ledger after the whole life of a copy iterator over `base`: it is
constructed with an empty ledger, the consumer loop runs to its end, and
`destroy` is called. -/
def copy_lifecycle {σ α : Type} (fuel : Nat) (base : ANVIterator σ α) (alloc : ANVAllocator)
    (copy : α → Option α) : Option (CopyLedger α) :=
  match copy_drive_tracked fuel
      (anv_iterator_copy_tracked (some base) (some alloc) (some copy) true ⟨[], 0⟩).1
      (anv_iterator_copy_tracked (some base) (some alloc) (some copy) true ⟨[], 0⟩).2 with
  | none => none
  | some (_, s, led) => some (copy_destroy_tracked alloc s led).2

/-- The copies that `get` creates over the elements `xs`: one for every
non-null element whose copy is non-null. -/
def copies_of {α : Type} (copy : α → Option α) (xs : List (Option α)) : List α :=
  xs.filterMap fun x => x.bind copy

/-- The backward consumer loop
`while (it->has_prev(it)) { it->prev(it); x = it->get(it); }`, collecting the
values of `get`; `none` means that the loop was still running when the fuel
ran out, or that a call did not return. -/
def ANVIterator.drive_back {σ α : Type} :
    Nat → ANVIterator σ α → Option (List (Option α) × ANVIterator σ α)
  | 0, _ => none
  | fuel + 1, it =>
    if it.callHasPrev.1 then
      match it.callHasPrev.2.callPrev.2.callGet with
      | none => none
      | some (x, it3) =>
        match ANVIterator.drive_back fuel it3 with
        | some (out, it') => some (x :: out, it')
        | none => none
    else some ([], it.callHasPrev.2)

/-- The state of a range iterator at position `i`: `current` is
`start + i * step`; `c` is the content of `cached_value`. -/
def range_state (start end_ step : Int) (i : Nat) (c : Int) : RangeState :=
  { start := start, current := start + (i : Int) * step, end_ := end_, step := step,
    cached_value := c }

/-- The result of `n + 1` successive `has_next` calls on the iterator: the
value that the last call returns and the iterator after it (`none` when a
call does not return). -/
def ANVIterator.has_next_calls {σ α : Type} :
    Nat → ANVIterator σ α → Option (Bool × ANVIterator σ α)
  | 0, it => it.callHasNext
  | n + 1, it =>
    match it.callHasNext with
    | none => none
    | some (_, it1) => ANVIterator.has_next_calls n it1

/-- Repeating `has_next` changes nothing for the iterators that `R` relates:
the iterator that a `has_next` call leaves answers a further `has_next` with
the same value and stays as it is. -/
def HasNextSettles {σ α : Type} (R : ANVIterator σ α → List (Option α) → Prop) : Prop :=
  ∀ it xs b it1, R it xs → it.callHasNext = some (b, it1) → it1.callHasNext = some (b, it1)

/-- The repeat iterator is positioned before `xs`: `xs` are the copies of the
value that are still to come. -/
def RepeatRel {α : Type} (it : ANVIterator (RepeatState α) α) (xs : List (Option α)) : Prop :=
  ∃ st : RepeatState α, it = repeat_with (some st) ∧
    xs = List.replicate (st.total_count - st.current_count) (some st.value)

/-- The tree in the node memory is well formed: the memory holds a tree below
`root` with consistent parent pointers (the parent pointer of each child is
the address of its parent, that of the root is null) and distinct nodes at
non-null addresses that fit a pointer; every key in the left subtree of a
node compares less than the key of the node and every key in its right
subtree greater; and `size` is the number of nodes. -/
def BstWellFormed {α : Type} (st : BstStore α) : Prop :=
  ∃ t : ANVBinarySearchTreeNode α, BstRep st.mem st.root none t ∧ t.addrs.Nodup ∧
    (∀ a ∈ t.addrs, 0 < a ∧ a < 18446744073709551616) ∧
    BstOrdered st.compare t ∧ st.size = t.count

/-- The result `newp` of an allocation is acceptable for the tree: when it is
not null it is an address that fits a pointer and is not the address of a
node of the tree (the nodes of the tree are allocated). -/
def bst_alloc_fresh {α : Type} (st : BstStore α) (newp : Option Nat) : Prop :=
  ∀ a, newp = some a → (0 < a ∧ a < 18446744073709551616) ∧
    ∀ t : ANVBinarySearchTreeNode α, BstRep st.mem st.root none t → a ∉ t.addrs

/-- The trees that `anv_bst_create` with the comparator `compare` followed by
any sequence of returning `anv_bst_insert`, `anv_bst_remove` and
`anv_bst_clear` calls leads to, with any arguments and any acceptable
allocation results. -/
inductive BstReachable {α : Type} (compare : α → α → Int) : BstStore α → Prop
  | create (m : BstMem α) : BstReachable compare (anv_bst_store_create compare m)
  | insert (st st1 : BstStore α) (fuel : Nat) (data : Option α) (newp : Option Nat) (rc : Int) :
      BstReachable compare st → bst_alloc_fresh st newp →
      anv_bst_store_insert fuel (some st) data newp = some (rc, some st1) →
      BstReachable compare st1
  | remove (st st1 : BstStore α) (fuel : Nat) (data : Option α) (rc : Int) :
      BstReachable compare st →
      anv_bst_remove fuel (some st) data = some (rc, some st1) →
      BstReachable compare st1
  | clear (st st1 : BstStore α) (fuel : Nat) :
      BstReachable compare st →
      anv_bst_store_clear fuel (some st) = some (some st1) →
      BstReachable compare st1

/-- The tree after a call that returned `r`, and `dflt` when the call did not
return a tree. -/
def bst_store_after {α : Type} (r : Option (Int × Option (BstStore α))) (dflt : BstStore α) :
    BstStore α :=
  match r with
  | some (_, some s) => s
  | _ => dflt

/-- Example: the empty integer tree that `anv_bst_create` returns. -/
def bst_store_example_0 : BstStore Int :=
  anv_bst_store_create int_compare
    (fun _ => { data := 0, left := none, right := none, parent := none })

/-- Example: the tree after the key 5 is inserted, its node allocated at 100. -/
def bst_store_example_1 : BstStore Int :=
  bst_store_after (anv_bst_store_insert 5 (some bst_store_example_0) (some 5) (some 100))
    bst_store_example_0

/-- Example: the tree after the key 3 is inserted, its node allocated at 101. -/
def bst_store_example_2 : BstStore Int :=
  bst_store_after (anv_bst_store_insert 5 (some bst_store_example_1) (some 3) (some 101))
    bst_store_example_1

/-- Example: the tree after the key 8 is inserted, its node allocated at 102. -/
def bst_store_example_3 : BstStore Int :=
  bst_store_after (anv_bst_store_insert 5 (some bst_store_example_2) (some 8) (some 102))
    bst_store_example_2

/-- Example: the tree after the key 5, held by the root, is removed. -/
def bst_store_example_4 : BstStore Int :=
  bst_store_after (anv_bst_remove 5 (some bst_store_example_3) (some 5)) bst_store_example_3

/-- An invariant `I it xs` ("the source `it` still has to yield `xs`") of a
source iterator whose `next` succeeds while `has_next` is true: before the
empty sequence `has_next` is false; before `x :: xs`, `has_next` is true,
`get` then returns `x`, and `next` then returns `0` and leads to `xs`.
Nothing is asked of `next` once `has_next` is false. -/
structure SourceInv {σ α : Type} (I : ANVIterator σ α → List (Option α) → Prop) : Prop where
  done : ∀ it, I it [] → ∃ it1, it.callHasNext = some (false, it1)
  step : ∀ it x xs, I it (x :: xs) →
    ∃ it1 it2 it3, it.callHasNext = some (true, it1) ∧ it1.callGet = some (x, it2) ∧
      it2.callNext = some (0, it3) ∧ I it3 xs

/-- The source iterator `it` yields the sequence `xs`, its `next` succeeding
while `has_next` is true. -/
def Yields {σ α : Type} (it : ANVIterator σ α) (xs : List (Option α)) : Prop :=
  ∃ I : ANVIterator σ α → List (Option α) → Prop, SourceInv I ∧ I it xs

/-! # Theorems -/

section NodeFields

variable {α : Type}

@[simp] theorem node_ptr_null : (ANVBinarySearchTreeNode.null : ANVBinarySearchTreeNode α).ptr = none :=
  rfl

@[simp] theorem node_ptr_node (a : Nat) (d : α) (l r : ANVBinarySearchTreeNode α)
    (p : Option Nat) : (ANVBinarySearchTreeNode.node a d l r p).ptr = some a := rfl

@[simp] theorem node_isNull_null :
    (ANVBinarySearchTreeNode.null : ANVBinarySearchTreeNode α).isNull = true := rfl

@[simp] theorem node_isNull_node (a : Nat) (d : α) (l r : ANVBinarySearchTreeNode α)
    (p : Option Nat) : (ANVBinarySearchTreeNode.node a d l r p).isNull = false := rfl

@[simp] theorem node_left_node (a : Nat) (d : α) (l r : ANVBinarySearchTreeNode α)
    (p : Option Nat) : (ANVBinarySearchTreeNode.node a d l r p).left = l := rfl

@[simp] theorem node_right_node (a : Nat) (d : α) (l r : ANVBinarySearchTreeNode α)
    (p : Option Nat) : (ANVBinarySearchTreeNode.node a d l r p).right = r := rfl

@[simp] theorem node_data_null :
    (ANVBinarySearchTreeNode.null : ANVBinarySearchTreeNode α).data? = none := rfl

@[simp] theorem node_data_node (a : Nat) (d : α) (l r : ANVBinarySearchTreeNode α)
    (p : Option Nat) : (ANVBinarySearchTreeNode.node a d l r p).data? = some d := rfl

end NodeFields

section Drive

variable {σ α : Type}

theorem drive_of_inv {I : ANVIterator σ α → List (Option α) → Prop} (hI : DriveInv I) :
    ∀ (xs : List (Option α)) (it : ANVIterator σ α), I it xs →
      ∀ fuel, xs.length < fuel →
        ∃ it', it.drive fuel = some (xs, it') ∧ I it' [] := by
  intro xs
  induction xs with
  | nil =>
    intro it h fuel hf
    obtain ⟨it1, h1, h2⟩ := hI.done it h
    cases fuel with
    | zero => simp at hf
    | succ n => exact ⟨it1, by simp [ANVIterator.drive, h1], h2⟩
  | cons x xs ih =>
    intro it h fuel hf
    obtain ⟨it1, it2, rc, it3, h1, h2, h3, h4⟩ := hI.step it x xs h
    cases fuel with
    | zero => simp at hf
    | succ n =>
      have hn : xs.length < n := by simpa using hf
      obtain ⟨it', hd, hfin⟩ := ih _ h4 n hn
      exact ⟨it', by simp [ANVIterator.drive, h1, h2, h3, hd], hfin⟩

theorem drive_of_inv_hasNext {I : ANVIterator σ α → List (Option α) → Prop}
    (hI : DriveInv I) (xs : List (Option α)) (it : ANVIterator σ α) (h : I it xs)
    (fuel : Nat) (hf : xs.length < fuel) :
    ∃ it', it.drive fuel = some (xs, it') ∧ it'.callHasNext.map Prod.fst = some false := by
  obtain ⟨it', h1, h2⟩ := drive_of_inv hI xs it h fuel hf
  obtain ⟨it1, h3, -⟩ := hI.done it' h2
  exact ⟨it', h1, by simp [h3]⟩

end Drive

section BstEngine

variable {α : Type}

@[simp] theorem bst_with_callHasNext (ds : Option (BSTIteratorState α)) :
    (bst_iterator_with ds).callHasNext =
      some ((bst_iterator_has_next ds).1, bst_iterator_with (bst_iterator_has_next ds).2) := rfl

@[simp] theorem bst_with_callGet (ds : Option (BSTIteratorState α)) :
    (bst_iterator_with ds).callGet =
      some ((bst_iterator_get ds).1, bst_iterator_with (bst_iterator_get ds).2) := rfl

@[simp] theorem bst_with_callNext (ds : Option (BSTIteratorState α)) :
    (bst_iterator_with ds).callNext =
      some ((bst_iterator_next ds).1, bst_iterator_with (bst_iterator_next ds).2) := rfl

theorem bst_stack_peek_pop (s : ANVStack (ANVBinarySearchTreeNode α)) (h : s.items ≠ []) :
    bst_stack_peek s :: (anv_stack_pop s).items = s.items := by
  obtain ⟨items⟩ := s
  cases items with
  | nil => exact absurd rfl h
  | cons x xs => rfl

theorem bst_stack_peek_mem (s : ANVStack (ANVBinarySearchTreeNode α)) (h : s.items ≠ []) :
    bst_stack_peek s ∈ s.items := by
  obtain ⟨items⟩ := s
  cases items with
  | nil => exact absurd rfl h
  | cons x xs => simp [bst_stack_peek, anv_stack_peek]

theorem bst_stack_pop_mem (s : ANVStack (ANVBinarySearchTreeNode α))
    (n : ANVBinarySearchTreeNode α) (h : n ∈ (anv_stack_pop s).items) : n ∈ s.items :=
  List.mem_of_mem_tail h

theorem bst_stack_is_empty_iff (s : ANVStack (ANVBinarySearchTreeNode α)) :
    anv_stack_is_empty s = true ↔ s.items = [] := by
  simp [anv_stack_is_empty]

theorem bst_push_left_spine_nonnull (t : ANVBinarySearchTreeNode α) :
    ∀ s : ANVStack (ANVBinarySearchTreeNode α), (∀ n ∈ s.items, n.isNull = false) →
      ∀ n ∈ (bst_push_left_spine t s).items, n.isNull = false := by
  induction t with
  | null => intro s hs; simpa [bst_push_left_spine] using hs
  | node a d l r p ihl _ =>
    intro s hs
    simp only [bst_push_left_spine]
    apply ihl
    intro n hn
    simp only [anv_stack_push, List.mem_cons] at hn
    rcases hn with rfl | hn
    · rfl
    · exact hs n hn

theorem bst_push_left_spine_pending (t : ANVBinarySearchTreeNode α) :
    ∀ s : ANVStack (ANVBinarySearchTreeNode α),
      bst_inorder_pending (bst_push_left_spine t s).items =
        anv_bst_node_inorder t ++ bst_inorder_pending s.items := by
  induction t with
  | null => intro s; simp [bst_push_left_spine, anv_bst_node_inorder]
  | node a d l r p ihl _ =>
    intro s
    simp [bst_push_left_spine, ihl, anv_stack_push, bst_inorder_pending, anv_bst_node_inorder,
      ANVBinarySearchTreeNode.data?, ANVBinarySearchTreeNode.right]

theorem bst_inorder_pending_nil_of_nonnull (l : List (ANVBinarySearchTreeNode α))
    (hl : ∀ n ∈ l, n.isNull = false) (h : bst_inorder_pending l = []) : l = [] := by
  cases l with
  | nil => rfl
  | cons n s =>
    have hn := hl n (List.mem_cons_self _ _)
    cases n with
    | null => simp [ANVBinarySearchTreeNode.isNull] at hn
    | node a d l r p => simp [bst_inorder_pending, ANVBinarySearchTreeNode.data?] at h

theorem bstInorderInv_driveInv : DriveInv (@BstInorderInv α) := by
  constructor
  · rintro it ⟨st, rfl, hty, hnn, h⟩
    refine ⟨bst_iterator_with (some st), ?_, ⟨st, rfl, hty, hnn, h⟩⟩
    rcases h with ⟨hf, -⟩ | ⟨-, hnull, hx⟩
    · simp [bst_iterator_has_next, hf]
    · cases hc : st.current with
      | null => simp [hc, ANVBinarySearchTreeNode.isNull] at hnull
      | node a d l r p =>
        simp [hc, bst_inorder_pending, ANVBinarySearchTreeNode.data?] at hx
  · rintro it x xs ⟨st, rfl, hty, hnn, h⟩
    rcases h with ⟨-, hx⟩ | ⟨hf, hc, hx⟩
    · simp at hx
    · cases hcur : st.current with
      | null => simp [hcur, ANVBinarySearchTreeNode.isNull] at hc
      | node a d l r p =>
        have hxs : x = some d ∧ xs =
            (anv_bst_node_inorder r ++ bst_inorder_pending st.stack.items).map some := by
          simpa [hcur, bst_inorder_pending, ANVBinarySearchTreeNode.data?,
            ANVBinarySearchTreeNode.right] using hx
        obtain ⟨hx1, hx2⟩ := hxs
        refine ⟨bst_iterator_with (some st), bst_iterator_with (some st),
          (bst_iterator_next (some st)).1, bst_iterator_with (bst_iterator_next (some st)).2,
          by simp [bst_iterator_has_next, hf, hcur],
          by simp [bst_iterator_get, hcur, hx1], rfl, ?_⟩
        have hnn2 := bst_push_left_spine_nonnull r st.stack hnn
        have hpend := bst_push_left_spine_pending r st.stack
        by_cases hemp : (bst_push_left_spine r st.stack).items = []
        · refine ⟨{ st with stack := bst_push_left_spine r st.stack, current := .null,
                            finished := true }, ?_, hty, hnn2, Or.inl ⟨rfl, ?_⟩⟩
          · simp [bst_iterator_next, hf, hty,
              bst_iterator_next_inorder, hcur, anv_stack_is_empty, hemp]
          · rw [hemp] at hpend
            simp only [bst_inorder_pending] at hpend
            rw [hx2, ← hpend]; rfl
        · refine ⟨{ st with current := bst_stack_peek (bst_push_left_spine r st.stack),
                            stack := anv_stack_pop (bst_push_left_spine r st.stack) },
            ?_, hty, ?_, Or.inr ⟨hf, ?_, ?_⟩⟩
          · simp [bst_iterator_next, hf, hty,
              bst_iterator_next_inorder, hcur, anv_stack_is_empty, hemp]
          · intro n hn
            exact hnn2 n (bst_stack_pop_mem _ n hn)
          · exact hnn2 _ (bst_stack_peek_mem _ hemp)
          · show xs = (bst_inorder_pending (bst_stack_peek _ :: (anv_stack_pop _).items)).map some
            rw [bst_stack_peek_pop _ hemp, hpend, hx2]

theorem bst_inorder_length (t : ANVBinarySearchTreeNode α) :
    (anv_bst_node_inorder t).length = t.count := by
  induction t with
  | null => rfl
  | node a d l r p ihl ihr =>
    simp [anv_bst_node_inorder, ANVBinarySearchTreeNode.count, ihl, ihr]; omega

theorem bst_preorder_length (t : ANVBinarySearchTreeNode α) :
    (anv_bst_node_preorder t).length = t.count := by
  induction t with
  | null => rfl
  | node a d l r p ihl ihr =>
    simp [anv_bst_node_preorder, ANVBinarySearchTreeNode.count, ihl, ihr]; omega

theorem bst_postorder_length (t : ANVBinarySearchTreeNode α) :
    (anv_bst_node_postorder t).length = t.count := by
  induction t with
  | null => rfl
  | node a d l r p ihl ihr =>
    simp [anv_bst_node_postorder, ANVBinarySearchTreeNode.count, ihl, ihr]; omega

theorem bst_inorder_init (t : ANVBinarySearchTree α) (hsize : t.size = t.root.count) :
    BstInorderInv (anv_bst_iterator (some t)) ((anv_bst_node_inorder t.root).map some) := by
  have hnn := bst_push_left_spine_nonnull t.root (anv_stack_create) (by simp [anv_stack_create])
  have hpend := bst_push_left_spine_pending t.root (anv_stack_create)
  simp only [anv_stack_create, bst_inorder_pending, List.append_nil] at hpend hnn
  by_cases hemp : (bst_push_left_spine t.root ⟨[]⟩).items = []
  · have hin : anv_bst_node_inorder t.root = [] := by rw [← hpend, hemp]; rfl
    have hz : t.size = 0 := by rw [hsize, ← bst_inorder_length, hin]; rfl
    refine ⟨_, rfl, ?_, ?_, Or.inl ⟨?_, by simp [hin]⟩⟩ <;>
      simp [bst_setup_inorder, anv_stack_create, anv_stack_is_empty, hemp, hz]
  · have hin : anv_bst_node_inorder t.root ≠ [] := by
      intro h
      rw [h] at hpend
      exact hemp (bst_inorder_pending_nil_of_nonnull _ hnn hpend)
    have hz : t.size ≠ 0 := by
      rw [hsize, ← bst_inorder_length]
      simpa using hin
    have hit : anv_bst_iterator (some t) = bst_iterator_with (some
        { tree := t, stack := anv_stack_pop (bst_push_left_spine t.root ⟨[]⟩),
          current := bst_stack_peek (bst_push_left_spine t.root ⟨[]⟩),
          traversal_type := .BST_TRAVERSAL_INORDER, finished := false }) := by
      simp [anv_bst_iterator, bst_create_iterator, bst_setup_inorder, anv_stack_create,
        anv_stack_is_empty, hemp, hz]
    refine ⟨_, hit, rfl, ?_, Or.inr ⟨rfl, ?_, ?_⟩⟩
    · intro n hn
      exact hnn n (bst_stack_pop_mem _ n hn)
    · exact hnn _ (bst_stack_peek_mem _ hemp)
    · show _ = (bst_inorder_pending (bst_stack_peek _ :: (anv_stack_pop _).items)).map some
      rw [bst_stack_peek_pop _ hemp, hpend]

theorem bst_inorder_drive (t : ANVBinarySearchTree α)
    (hsize : t.size = t.root.count) (fuel : Nat) (hfuel : t.size < fuel) :
    ∃ it', (anv_bst_iterator (some t)).drive fuel =
        some ((anv_bst_node_inorder t.root).map some, it') ∧
      it'.callHasNext.map Prod.fst = some false := by
  have hlen : ((anv_bst_node_inorder t.root).map some).length = t.size := by
    rw [List.length_map, bst_inorder_length, hsize]
  exact drive_of_inv_hasNext bstInorderInv_driveInv _ _ (bst_inorder_init t hsize) fuel (by omega)

/-- C1. For every tree whose size field is its number of nodes (any shape,
the empty tree included), the consumer loop over the iterator of
`anv_bst_iterator` ends, has yielded exactly the data sequence of the
recursive in-order traversal `anv_bst_node_inorder` (that is `size`
elements), and `has_next` is false afterwards. -/
theorem c1_inorder_iterator_refines_recursive (t : ANVBinarySearchTree α)
    (hsize : t.size = t.root.count) (fuel : Nat) (hfuel : t.size < fuel) :
    ∃ it', (anv_bst_iterator (some t)).drive fuel =
        some ((anv_bst_node_inorder t.root).map some, it') ∧
      it'.callHasNext.map Prod.fst = some false ∧
      ((anv_bst_node_inorder t.root).map some).length = t.size := by
  have hlen : ((anv_bst_node_inorder t.root).map some).length = t.size := by
    rw [List.length_map, bst_inorder_length, hsize]
  obtain ⟨it', h1, h2⟩ := bst_inorder_drive t hsize fuel hfuel
  exact ⟨it', h1, h2, hlen⟩

end BstEngine

theorem c1_inorder_iterator_refines_recursive_witness :
    ∃ it', (anv_bst_iterator (some bst_example_tree)).drive 6 =
        some ((anv_bst_node_inorder bst_example_tree.root).map some, it') ∧
      it'.callHasNext.map Prod.fst = some false ∧
      ((anv_bst_node_inorder bst_example_tree.root).map some).length = bst_example_tree.size :=
  c1_inorder_iterator_refines_recursive bst_example_tree (by decide) 6 (by decide)

section BstPreorder

variable {α : Type}

theorem bst_preorder_pushed_nonnull (cur : ANVBinarySearchTreeNode α)
    (s : ANVStack (ANVBinarySearchTreeNode α)) (hs : ∀ n ∈ s.items, n.isNull = false) :
    ∀ n ∈ (bst_preorder_pushed cur s).items, n.isNull = false := by
  intro n hn
  unfold bst_preorder_pushed at hn
  by_cases hl : cur.left.isNull = true <;> by_cases hr : cur.right.isNull = true <;>
    simp only [hl, hr, Bool.not_true, Bool.false_eq_true, if_false, Bool.not_eq_true,
      Bool.not_false, if_true, anv_stack_push, List.mem_cons] at hn
  · exact hs n hn
  · rcases hn with rfl | hn
    · simpa using hr
    · exact hs n hn
  · rcases hn with rfl | hn
    · simpa using hl
    · exact hs n hn
  · rcases hn with rfl | rfl | hn
    · simpa using hl
    · simpa using hr
    · exact hs n hn

theorem bst_preorder_of_isNull (n : ANVBinarySearchTreeNode α) (h : n.isNull = true) :
    anv_bst_node_preorder n = [] := by
  cases n with
  | null => rfl
  | node a d l r p => simp [ANVBinarySearchTreeNode.isNull] at h

theorem bst_preorder_pushed_pending (cur : ANVBinarySearchTreeNode α)
    (s : ANVStack (ANVBinarySearchTreeNode α)) :
    bst_preorder_pending (bst_preorder_pushed cur s).items =
      anv_bst_node_preorder cur.left ++ (anv_bst_node_preorder cur.right ++
        bst_preorder_pending s.items) := by
  unfold bst_preorder_pushed
  by_cases hl : cur.left.isNull = true <;> by_cases hr : cur.right.isNull = true <;>
    simp [hl, hr, anv_stack_push, bst_preorder_pending, bst_preorder_of_isNull]

theorem bst_preorder_pending_nil_of_nonnull (l : List (ANVBinarySearchTreeNode α))
    (hl : ∀ n ∈ l, n.isNull = false) (h : bst_preorder_pending l = []) : l = [] := by
  cases l with
  | nil => rfl
  | cons n s =>
    have hn := hl n (List.mem_cons_self _ _)
    cases n with
    | null => simp [ANVBinarySearchTreeNode.isNull] at hn
    | node a d l r p => simp [bst_preorder_pending, anv_bst_node_preorder] at h

theorem bst_next_preorder_eq (st : BSTIteratorState α) (h : st.current.isNull = false) :
    bst_iterator_next_preorder st =
      if !anv_stack_is_empty (bst_preorder_pushed st.current st.stack) then
        (0, some { st with current := bst_stack_peek (bst_preorder_pushed st.current st.stack),
                           stack := anv_stack_pop (bst_preorder_pushed st.current st.stack) })
      else
        (0, some { st with stack := bst_preorder_pushed st.current st.stack, current := .null,
                           finished := true }) := by
  simp [bst_iterator_next_preorder, h, bst_preorder_pushed]

theorem bstPreorderInv_driveInv : DriveInv (@BstPreorderInv α) := by
  constructor
  · rintro it ⟨st, rfl, hty, hnn, h⟩
    refine ⟨bst_iterator_with (some st), ?_, ⟨st, rfl, hty, hnn, h⟩⟩
    rcases h with ⟨hf, -⟩ | ⟨-, hnull, hx⟩
    · simp [bst_iterator_has_next, hf]
    · cases hc : st.current with
      | null => simp [hc, ANVBinarySearchTreeNode.isNull] at hnull
      | node a d l r p =>
        simp [hc, bst_preorder_pending, anv_bst_node_preorder] at hx
  · rintro it x xs ⟨st, rfl, hty, hnn, h⟩
    rcases h with ⟨-, hx⟩ | ⟨hf, hc, hx⟩
    · simp at hx
    · have hnext := bst_next_preorder_eq st hc
      have hnn2 := bst_preorder_pushed_nonnull st.current st.stack hnn
      have hpend := bst_preorder_pushed_pending st.current st.stack
      cases hcur : st.current with
      | null => simp [hcur, ANVBinarySearchTreeNode.isNull] at hc
      | node a d l r p =>
        rw [hcur] at hnext hnn2 hpend
        have hxs : x = some d ∧ xs =
            (bst_preorder_pending (bst_preorder_pushed (.node a d l r p) st.stack).items).map
              some := by
          rw [hpend]
          simpa [hcur, bst_preorder_pending, anv_bst_node_preorder,
            ANVBinarySearchTreeNode.left, ANVBinarySearchTreeNode.right] using hx
        obtain ⟨hx1, hx2⟩ := hxs
        refine ⟨bst_iterator_with (some st), bst_iterator_with (some st),
          (bst_iterator_next (some st)).1, bst_iterator_with (bst_iterator_next (some st)).2,
          by simp [bst_iterator_has_next, hf, hcur],
          by simp [bst_iterator_get, hcur, hx1], rfl, ?_⟩
        by_cases hemp : (bst_preorder_pushed (.node a d l r p) st.stack).items = []
        · refine ⟨{ st with stack := bst_preorder_pushed (.node a d l r p) st.stack,
                            current := .null, finished := true }, ?_, hty, hnn2,
            Or.inl ⟨rfl, ?_⟩⟩
          · simp [bst_iterator_next, hf, hty, hnext,
              anv_stack_is_empty, hemp]
          · rw [hx2, hemp]; rfl
        · refine ⟨{ st with
              current := bst_stack_peek (bst_preorder_pushed (.node a d l r p) st.stack),
              stack := anv_stack_pop (bst_preorder_pushed (.node a d l r p) st.stack) },
            ?_, hty, ?_, Or.inr ⟨hf, ?_, ?_⟩⟩
          · simp [bst_iterator_next, hf, hty, hnext,
              anv_stack_is_empty, hemp]
          · intro n hn
            exact hnn2 n (bst_stack_pop_mem _ n hn)
          · exact hnn2 _ (bst_stack_peek_mem _ hemp)
          · show xs = (bst_preorder_pending (bst_stack_peek _ :: (anv_stack_pop _).items)).map some
            rw [bst_stack_peek_pop _ hemp, hx2]

theorem bst_preorder_init (t : ANVBinarySearchTree α) (hsize : t.size = t.root.count) :
    BstPreorderInv (anv_bst_iterator_preorder (some t))
      ((anv_bst_node_preorder t.root).map some) := by
  cases hroot : t.root with
  | null =>
    have hz : t.size = 0 := by rw [hsize, hroot]; rfl
    refine ⟨_, rfl, ?_, ?_, Or.inl ⟨?_, by simp [anv_bst_node_preorder]⟩⟩ <;>
      simp [bst_setup_preorder, anv_stack_create, hroot, hz, ANVBinarySearchTreeNode.isNull]
  | node a d l r p =>
    have hz : t.size ≠ 0 := by
      rw [hsize, hroot]; simp [ANVBinarySearchTreeNode.count]
    have hit : anv_bst_iterator_preorder (some t) = bst_iterator_with (some
        { tree := t, stack := ⟨[]⟩, current := .node a d l r p,
          traversal_type := .BST_TRAVERSAL_PREORDER, finished := false }) := by
      simp [anv_bst_iterator_preorder, bst_create_iterator, bst_setup_preorder, anv_stack_create,
        hroot, hz, ANVBinarySearchTreeNode.isNull, anv_stack_push, anv_stack_pop,
        bst_stack_peek, anv_stack_peek]
    refine ⟨_, hit, rfl, ?_, Or.inr ⟨rfl, rfl, ?_⟩⟩
    · simp
    · simp [bst_preorder_pending]

/-- C3. For every tree whose size field is its number of nodes, the consumer
loop over the iterator of `anv_bst_iterator_preorder` ends, has yielded
exactly the data sequence of the recursive pre-order traversal
`anv_bst_node_preorder` (that is `size` elements), and `has_next` is false
afterwards. -/
theorem c3_preorder_iterator_refines_recursive (t : ANVBinarySearchTree α)
    (hsize : t.size = t.root.count) (fuel : Nat) (hfuel : t.size < fuel) :
    ∃ it', (anv_bst_iterator_preorder (some t)).drive fuel =
        some ((anv_bst_node_preorder t.root).map some, it') ∧
      it'.callHasNext.map Prod.fst = some false ∧
      ((anv_bst_node_preorder t.root).map some).length = t.size := by
  have hlen : ((anv_bst_node_preorder t.root).map some).length = t.size := by
    rw [List.length_map, bst_preorder_length, hsize]
  obtain ⟨it', h1, h2⟩ :=
    drive_of_inv_hasNext bstPreorderInv_driveInv _ _ (bst_preorder_init t hsize) fuel (by omega)
  exact ⟨it', h1, h2, hlen⟩

end BstPreorder

theorem c3_preorder_iterator_refines_recursive_witness :
    ∃ it', (anv_bst_iterator_preorder (some bst_example_tree)).drive 6 =
        some ((anv_bst_node_preorder bst_example_tree.root).map some, it') ∧
      it'.callHasNext.map Prod.fst = some false ∧
      ((anv_bst_node_preorder bst_example_tree.root).map some).length = bst_example_tree.size :=
  c3_preorder_iterator_refines_recursive bst_example_tree (by decide) 6 (by decide)

section BstPostorder

variable {α : Type}

theorem bst_postorder_descend_spec (t : ANVBinarySearchTreeNode α) :
    t.isNull = false → bst_siblings_distinct t = true →
    ∀ s : ANVStack (ANVBinarySearchTreeNode α),
      (∀ n ∈ s.items, n.isNull = false ∧ bst_siblings_distinct n = true) →
      ∃ s2 cur, bst_postorder_descend t s = some (s2, cur) ∧ cur.isNull = false ∧
        (∀ n ∈ s2.items, n.isNull = false ∧ bst_siblings_distinct n = true) ∧
        cur.data?.toList ++ bst_postorder_pending cur.ptr s2.items =
          anv_bst_node_postorder t ++ bst_postorder_pending t.ptr s.items := by
  induction t with
  | null => intro h; simp [ANVBinarySearchTreeNode.isNull] at h
  | node a d l r p ihl ihr =>
    intro _ hsd s hs
    have hsd2 : bst_siblings_distinct l = true ∧ bst_siblings_distinct r = true := by
      simp only [bst_siblings_distinct, Bool.and_eq_true] at hsd
      exact ⟨hsd.1.2, hsd.2⟩
    have hpush : ∀ n ∈ (anv_stack_push s (.node a d l r p)).items,
        n.isNull = false ∧ bst_siblings_distinct n = true := by
      intro n hn
      simp only [anv_stack_push, List.mem_cons] at hn
      rcases hn with rfl | hn
      · exact ⟨rfl, hsd⟩
      · exact hs n hn
    cases l with
    | node la ld ll lr lp =>
      obtain ⟨s2, cur, h1, h2, h3, h4⟩ := ihl rfl hsd2.1 _ hpush
      refine ⟨s2, cur, ?_, h2, h3, ?_⟩
      · simpa [bst_postorder_descend] using h1
      · rw [h4]
        cases r with
        | null =>
          simp [anv_stack_push, bst_postorder_pending, anv_bst_node_postorder,
            ANVBinarySearchTreeNode.left, ANVBinarySearchTreeNode.right,
            ANVBinarySearchTreeNode.isNull, ANVBinarySearchTreeNode.data?,
            ANVBinarySearchTreeNode.ptr]
        | node ra rd rl rr rp =>
          simp [anv_stack_push, bst_postorder_pending, anv_bst_node_postorder,
            ANVBinarySearchTreeNode.left, ANVBinarySearchTreeNode.right,
            ANVBinarySearchTreeNode.isNull, ANVBinarySearchTreeNode.data?,
            ANVBinarySearchTreeNode.ptr]
    | null =>
      cases r with
      | node ra rd rl rr rp =>
        obtain ⟨s2, cur, h1, h2, h3, h4⟩ := ihr rfl hsd2.2 _ hpush
        refine ⟨s2, cur, ?_, h2, h3, ?_⟩
        · simpa [bst_postorder_descend] using h1
        · rw [h4]
          simp [anv_stack_push, bst_postorder_pending, anv_bst_node_postorder,
            ANVBinarySearchTreeNode.left, ANVBinarySearchTreeNode.right,
            ANVBinarySearchTreeNode.isNull, ANVBinarySearchTreeNode.data?,
            ANVBinarySearchTreeNode.ptr]
      | null =>
        refine ⟨s, .node a d .null .null p, ?_, rfl, hs, ?_⟩
        · simp [bst_postorder_descend, anv_stack_push, anv_stack_pop, bst_stack_peek,
            anv_stack_peek]
        · simp [anv_bst_node_postorder, ANVBinarySearchTreeNode.data?]

theorem bst_siblings_distinct_children (a : Nat) (d : α) (l r : ANVBinarySearchTreeNode α)
    (p : Option Nat) (h : bst_siblings_distinct (.node a d l r p) = true) :
    bst_siblings_distinct l = true ∧ bst_siblings_distinct r = true ∧
      (l.isNull = false → r.isNull = false → l.ptr ≠ r.ptr) := by
  simp only [bst_siblings_distinct, Bool.and_eq_true, Bool.or_eq_true, bne_iff_ne] at h
  refine ⟨h.1.2, h.2, ?_⟩
  intro hl hr
  rcases h.1.1 with (h1 | h1) | h1
  · rw [hl] at h1; cases h1
  · rw [hr] at h1; cases h1
  · exact h1

theorem bstPostorderInv_driveInv : DriveInv (@BstPostorderInv α) := by
  constructor
  · rintro it ⟨st, rfl, hty, hnn, h⟩
    refine ⟨bst_iterator_with (some st), ?_, ⟨st, rfl, hty, hnn, h⟩⟩
    rcases h with ⟨hf, -⟩ | ⟨-, hnull, hx⟩
    · simp [bst_iterator_has_next, hf]
    · cases hc : st.current with
      | null => simp [hc] at hnull
      | node a d l r p => simp [hc] at hx
  · rintro it x xs ⟨st, rfl, hty, hnn, h⟩
    rcases h with ⟨-, hx⟩ | ⟨hf, hc, hx⟩
    · simp at hx
    · obtain ⟨tree, ⟨items⟩, current, ty, fin⟩ := st
      simp only at hty hnn hf hc hx
      subst hty hf
      cases current with
      | null => simp [ANVBinarySearchTreeNode.isNull] at hc
      | node a d l r p =>
        simp only [node_data_node, node_ptr_node, Option.toList, List.singleton_append,
          List.map_cons, List.cons.injEq] at hx
        obtain ⟨hx1, hx2⟩ := hx
        refine ⟨bst_iterator_with (some
            { tree := tree, stack := ⟨items⟩, current := .node a d l r p,
              traversal_type := .BST_TRAVERSAL_POSTORDER, finished := false }),
          bst_iterator_with (some
            { tree := tree, stack := ⟨items⟩, current := .node a d l r p,
              traversal_type := .BST_TRAVERSAL_POSTORDER, finished := false }),
          (bst_iterator_next (some
            { tree := tree, stack := ⟨items⟩, current := .node a d l r p,
              traversal_type := .BST_TRAVERSAL_POSTORDER, finished := false })).1,
          bst_iterator_with (bst_iterator_next (some
            { tree := tree, stack := ⟨items⟩, current := .node a d l r p,
              traversal_type := .BST_TRAVERSAL_POSTORDER, finished := false })).2,
          by simp [bst_iterator_has_next],
          by simp [bst_iterator_get, hx1], rfl, ?_⟩
        cases items with
        | nil =>
          refine ⟨{ tree := tree, stack := ⟨[]⟩, current := .null,
                    traversal_type := .BST_TRAVERSAL_POSTORDER, finished := true },
            ?_, rfl, by simp, Or.inl ⟨rfl, by simpa [bst_postorder_pending] using hx2⟩⟩
          simp [bst_iterator_has_next, bst_iterator_get, bst_iterator_next,
            bst_iterator_next_postorder, anv_stack_is_empty]
        | cons top rest =>
          have htop := hnn top (List.mem_cons_self _ _)
          have hrest : ∀ n ∈ rest, n.isNull = false ∧ bst_siblings_distinct n = true :=
            fun n hn => hnn n (List.mem_cons_of_mem _ hn)
          cases top with
          | null => simp [ANVBinarySearchTreeNode.isNull] at htop
          | node ta td tl tr tp =>
            obtain ⟨hsl, hsr, hne⟩ := bst_siblings_distinct_children ta td tl tr tp htop.2
            by_cases hcond : (tl.ptr == some a && !tr.isNull) = true
            · have hcond2 := hcond
              simp only [Bool.and_eq_true, beq_iff_eq, Bool.not_eq_true'] at hcond2
              obtain ⟨hl1, hr1⟩ := hcond2
              have hlnn : tl.isNull = false := by
                cases tl with
                | null => simp [ANVBinarySearchTreeNode.ptr] at hl1
                | node _ _ _ _ _ => rfl
              obtain ⟨s2, cur, h1, h2, h3, h4⟩ :=
                bst_postorder_descend_spec tr hr1 hsr ⟨.node ta td tl tr tp :: rest⟩ hnn
              refine ⟨{ tree := tree, stack := s2, current := cur,
                        traversal_type := .BST_TRAVERSAL_POSTORDER, finished := false },
                ?_, rfl, h3, Or.inr ⟨rfl, h2, ?_⟩⟩
              · simp [bst_iterator_has_next, bst_iterator_get, bst_iterator_next,
                  bst_iterator_next_postorder,
                  anv_stack_is_empty, bst_stack_peek, anv_stack_peek,
                  ANVBinarySearchTreeNode.ptrEq, hl1, hr1, h1]
              · show xs = (cur.data?.toList ++ bst_postorder_pending cur.ptr s2.items).map some
                rw [h4, hx2]
                have hne2 : some a ≠ tr.ptr := hl1 ▸ hne hlnn hr1
                simp [bst_postorder_pending, hl1, hr1, hne2]
            · refine ⟨{ tree := tree, stack := ⟨rest⟩, current := .node ta td tl tr tp,
                        traversal_type := .BST_TRAVERSAL_POSTORDER, finished := false },
                ?_, rfl, hrest, Or.inr ⟨rfl, rfl, ?_⟩⟩
              · have hcond3 : (tl.ptr == some a && !tr.isNull) = false := by simpa using hcond
                simp [bst_iterator_has_next, bst_iterator_get, bst_iterator_next,
                  bst_iterator_next_postorder,
                  anv_stack_is_empty, bst_stack_peek, anv_stack_peek, anv_stack_pop,
                  ANVBinarySearchTreeNode.ptrEq, hcond3]
              · have hcond3 : (tl.ptr == some a && !tr.isNull) = false := by simpa using hcond
                rw [hx2]
                simp [bst_postorder_pending, hcond3]

theorem bst_siblings_distinct_of_nodup (t : ANVBinarySearchTreeNode α) (h : t.addrs.Nodup) :
    bst_siblings_distinct t = true := by
  induction t with
  | null => rfl
  | node a d l r p ihl ihr =>
    simp only [ANVBinarySearchTreeNode.addrs] at h
    have hl : l.addrs.Nodup := (List.nodup_append.mp h).1
    have hr : r.addrs.Nodup := ((List.nodup_append.mp h).2.1).of_cons
    have hdis := (List.nodup_append.mp h).2.2
    simp only [bst_siblings_distinct, ihl hl, ihr hr, Bool.and_true, Bool.or_eq_true,
      bne_iff_ne]
    cases l with
    | null => left; left; rfl
    | node la ld ll lr lp =>
      cases r with
      | null => left; right; rfl
      | node ra rd rl rr rp =>
        right
        simp only [ANVBinarySearchTreeNode.ptr, ne_eq, Option.some.injEq]
        intro hEq
        subst hEq
        exact @hdis la (by simp [ANVBinarySearchTreeNode.addrs])
          (by simp [ANVBinarySearchTreeNode.addrs])

theorem bst_postorder_init (t : ANVBinarySearchTree α) (hsize : t.size = t.root.count)
    (hsd : bst_siblings_distinct t.root = true) :
    BstPostorderInv (anv_bst_iterator_postorder (some t))
      ((anv_bst_node_postorder t.root).map some) := by
  cases hroot : t.root with
  | null =>
    have hz : t.size = 0 := by rw [hsize, hroot]; rfl
    refine ⟨_, rfl, ?_, ?_, Or.inl ⟨?_, by simp [anv_bst_node_postorder]⟩⟩ <;>
      simp [bst_setup_postorder, anv_stack_create, hroot, hz, bst_postorder_descend]
  | node a d l r p =>
    have hz : t.size ≠ 0 := by
      rw [hsize, hroot]; simp [ANVBinarySearchTreeNode.count]
    rw [hroot] at hsd
    obtain ⟨s2, cur, h1, h2, h3, h4⟩ :=
      bst_postorder_descend_spec (.node a d l r p) rfl hsd ⟨[]⟩ (by simp)
    have hit : anv_bst_iterator_postorder (some t) = bst_iterator_with (some
        { tree := t, stack := s2, current := cur,
          traversal_type := .BST_TRAVERSAL_POSTORDER, finished := false }) := by
      simp [anv_bst_iterator_postorder, bst_create_iterator, bst_setup_postorder,
        anv_stack_create, hroot, hz, h1]
    refine ⟨_, hit, rfl, h3, Or.inr ⟨rfl, h2, ?_⟩⟩
    show _ = (cur.data?.toList ++ bst_postorder_pending cur.ptr s2.items).map some
    rw [h4]
    simp [bst_postorder_pending]

/-- C2. For every tree (any shape) whose nodes have pairwise distinct
addresses and whose size field is its number of nodes, the consumer loop over
the iterator of `anv_bst_iterator_postorder` ends and has yielded exactly the
data sequence of the recursive post-order traversal `anv_bst_node_postorder`
(left subtree, right subtree, node), one element per node, and `has_next` is
false afterwards. -/
theorem c2_postorder_iterator_refines_recursive (t : ANVBinarySearchTree α)
    (hsize : t.size = t.root.count) (haddr : t.root.addrs.Nodup)
    (fuel : Nat) (hfuel : t.size < fuel) :
    ∃ it', (anv_bst_iterator_postorder (some t)).drive fuel =
        some ((anv_bst_node_postorder t.root).map some, it') ∧
      it'.callHasNext.map Prod.fst = some false ∧
      ((anv_bst_node_postorder t.root).map some).length = t.root.count := by
  have hlen : ((anv_bst_node_postorder t.root).map some).length = t.root.count := by
    rw [List.length_map, bst_postorder_length]
  obtain ⟨it', h1, h2⟩ :=
    drive_of_inv_hasNext bstPostorderInv_driveInv _ _
      (bst_postorder_init t hsize (bst_siblings_distinct_of_nodup _ haddr)) fuel (by omega)
  exact ⟨it', h1, h2, hlen⟩

end BstPostorder

theorem c2_postorder_iterator_refines_recursive_witness :
    ∃ it', (anv_bst_iterator_postorder (some bst_example_tree)).drive 6 =
        some ((anv_bst_node_postorder bst_example_tree.root).map some, it') ∧
      it'.callHasNext.map Prod.fst = some false ∧
      ((anv_bst_node_postorder bst_example_tree.root).map some).length =
        bst_example_tree.root.count :=
  c2_postorder_iterator_refines_recursive bst_example_tree (by decide) (by decide) 6
    (by decide)

section BstInsert

theorem int_compare_eq_zero (a b : Int) : int_compare a b = 0 ↔ a = b := by
  unfold int_compare
  split_ifs <;> constructor <;> intro h <;> first | omega | exact h.elim

theorem int_compare_neg (a b : Int) : int_compare a b < 0 ↔ a < b := by
  unfold int_compare
  split_ifs <;> constructor <;> intro h <;> omega

theorem bst_insert_finds_mem (k : Int) (t : ANVBinarySearchTreeNode Int)
    (h : bst_insert_finds int_compare k t = true) : k ∈ anv_bst_node_inorder t := by
  induction t with
  | null => simp [bst_insert_finds] at h
  | node a d l r p ihl ihr =>
    simp only [bst_insert_finds, int_compare_eq_zero, int_compare_neg] at h
    simp only [anv_bst_node_inorder, List.mem_append, List.mem_cons]
    split_ifs at h with h1 h2
    · exact Or.inr (Or.inl h1)
    · exact Or.inl (ihl h)
    · exact Or.inr (Or.inr (ihr h))

theorem bst_insert_descend_spec (k : Int) (newp : Nat) (t : ANVBinarySearchTreeNode Int) :
    ∀ parent : Option Nat, (anv_bst_node_inorder t).Sorted (· < ·) →
      bst_insert_finds int_compare k t = false →
      ∃ t1, bst_insert_descend int_compare k newp t parent = some t1 ∧
        t1.isNull = false ∧
        (anv_bst_node_inorder t1).Sorted (· < ·) ∧
        (∀ x, x ∈ anv_bst_node_inorder t1 ↔ x = k ∨ x ∈ anv_bst_node_inorder t) ∧
        t1.count = t.count + 1 := by
  induction t with
  | null =>
    intro parent _ _
    exact ⟨.node newp k .null .null parent, rfl, rfl,
      by simp [anv_bst_node_inorder], by simp [anv_bst_node_inorder], rfl⟩
  | node a d l r p ihl ihr =>
    intro parent hs hf
    simp only [anv_bst_node_inorder, List.Sorted, List.pairwise_append, List.pairwise_cons,
      List.mem_cons, forall_eq_or_imp] at hs
    obtain ⟨hsl, ⟨hdr, hsr⟩, hlr⟩ := hs
    simp only [bst_insert_finds, int_compare_eq_zero, int_compare_neg] at hf
    by_cases h1 : k = d
    · simp [h1] at hf
    by_cases h2 : k < d
    · simp only [h1, h2, if_false, if_true] at hf
      obtain ⟨l1, e1, _, e2, e3, e4⟩ := ihl (some a) hsl hf
      refine ⟨.node a d l1 r p, ?_, rfl, ?_, ?_, ?_⟩
      · simp [bst_insert_descend, int_compare_eq_zero, int_compare_neg, h1, h2, e1]
      · simp only [anv_bst_node_inorder, List.Sorted, List.pairwise_append,
          List.pairwise_cons, List.mem_cons, forall_eq_or_imp]
        refine ⟨e2, ⟨hdr, hsr⟩, ?_⟩
        intro x hx
        rcases (e3 x).mp hx with rfl | hx
        · exact ⟨h2, fun y hy => lt_trans h2 (hdr y hy)⟩
        · exact hlr x hx
      · intro x
        simp only [anv_bst_node_inorder, List.mem_append, List.mem_cons, e3]
        tauto
      · simp only [ANVBinarySearchTreeNode.count, e4]; omega
    · simp only [h1, h2, if_false] at hf
      have h3 : d < k := by omega
      obtain ⟨r1, e1, _, e2, e3, e4⟩ := ihr (some a) hsr hf
      refine ⟨.node a d l r1 p, ?_, rfl, ?_, ?_, ?_⟩
      · simp [bst_insert_descend, int_compare_eq_zero, int_compare_neg, h1, h2, e1]
      · simp only [anv_bst_node_inorder, List.Sorted, List.pairwise_append,
          List.pairwise_cons, List.mem_cons, forall_eq_or_imp]
        refine ⟨hsl, ⟨?_, e2⟩, ?_⟩
        · intro y hy
          rcases (e3 y).mp hy with rfl | hy
          · exact h3
          · exact hdr y hy
        · intro x hx
          refine ⟨(hlr x hx).1, ?_⟩
          intro y hy
          rcases (e3 y).mp hy with rfl | hy
          · exact lt_trans (hlr x hx).1 h3
          · exact (hlr x hx).2 y hy
      · intro x
        simp only [anv_bst_node_inorder, List.mem_append, List.mem_cons, e3]
        tauto
      · simp only [ANVBinarySearchTreeNode.count, e4]; omega

theorem bst_insert_spec (t : ANVBinarySearchTree Int) (k : Int) (newp : Nat)
    (hc : t.compare = int_compare) (hsize : t.size = t.root.count)
    (hs : (anv_bst_node_inorder t.root).Sorted (· < ·)) :
    ∃ t1, (anv_bst_insert (some t) (some k) (some newp)).2 = some t1 ∧
      t1.compare = int_compare ∧ t1.size = t1.root.count ∧
      (anv_bst_node_inorder t1.root).Sorted (· < ·) ∧
      (∀ x, x ∈ anv_bst_node_inorder t1.root ↔ x = k ∨ x ∈ anv_bst_node_inorder t.root) ∧
      t1.size ≤ t.size + 1 := by
  by_cases hroot : t.root.isNull = true
  · have hr : t.root = .null := by
      cases h : t.root with
      | null => rfl
      | node _ _ _ _ _ => rw [h] at hroot; cases hroot
    refine ⟨{ t with root := anv_bst_node_create (some newp) k, size := t.size + 1 }, ?_, hc,
      ?_, ?_, ?_, le_refl _⟩
    · simp [anv_bst_insert, hroot]
    · simp [anv_bst_node_create, ANVBinarySearchTreeNode.count, hsize, hr]
    · simp [anv_bst_node_create, anv_bst_node_inorder]
    · simp [anv_bst_node_create, anv_bst_node_inorder, hr]
  · by_cases hf : bst_insert_finds int_compare k t.root = true
    · refine ⟨t, ?_, hc, hsize, hs, ?_, by omega⟩
      · simp [anv_bst_insert, hroot, hc, hf]
      · intro x
        constructor
        · exact Or.inr
        · rintro (rfl | h)
          · exact bst_insert_finds_mem _ _ hf
          · exact h
    · have hf2 : bst_insert_finds int_compare k t.root = false := by simpa using hf
      obtain ⟨r1, e1, _, e2, e3, e4⟩ := bst_insert_descend_spec k newp t.root none hs hf2
      refine ⟨{ t with root := r1, size := t.size + 1 }, ?_, hc, ?_, e2, e3, le_refl _⟩
      · simp [anv_bst_insert, hroot, hc, hf2, e1]
      · simp [e4, hsize]

theorem bst_insert_all_spec (keys : List Int) :
    ∀ (base : Nat) (t : ANVBinarySearchTree Int), t.compare = int_compare →
      t.size = t.root.count → (anv_bst_node_inorder t.root).Sorted (· < ·) →
      ∃ t1, bst_insert_all keys base (some t) = some t1 ∧
        t1.size = t1.root.count ∧
        (anv_bst_node_inorder t1.root).Sorted (· < ·) ∧
        (∀ x, x ∈ anv_bst_node_inorder t1.root ↔ x ∈ keys ∨ x ∈ anv_bst_node_inorder t.root) ∧
        t1.size ≤ t.size + keys.length := by
  induction keys with
  | nil =>
    intro base t _ hsize hs
    exact ⟨t, rfl, hsize, hs, by simp, by simp⟩
  | cons k ks ih =>
    intro base t hc hsize hs
    obtain ⟨t1, e1, c1, z1, s1, m1, l1⟩ := bst_insert_spec t k base hc hsize hs
    obtain ⟨t2, e2, z2, s2, m2, l2⟩ := ih (base + 1) t1 c1 z1 s1
    refine ⟨t2, ?_, z2, s2, ?_, ?_⟩
    · simp only [bst_insert_all, e1, e2]
    · intro x
      rw [m2, m1]
      simp only [List.mem_cons]
      tauto
    · simp only [List.length_cons]; omega

/-- C4. Inserting any finite sequence of integer keys with `anv_bst_insert`
into an empty tree (integer three-way comparator, allocations succeeding) and
driving `anv_bst_iterator` over the result yields a strictly ascending
sequence whose elements are exactly the inserted keys; for the sequence
5, 3, 8, 1, 4 in-order yields 1, 3, 4, 5, 8, pre-order yields 5, 3, 1, 4, 8
and post-order yields 1, 4, 3, 8, 5. -/
theorem c4_insert_then_iterate_sorted (keys : List Int) (base fuel : Nat)
    (hfuel : keys.length < fuel) :
    (∃ (t : ANVBinarySearchTree Int) (out : List Int) (it' : ANVIterator (BSTIteratorState Int) Int),
      bst_insert_all keys base (some (anv_bst_create int_compare)) = some t ∧
      (anv_bst_iterator (some t)).drive fuel = some (out.map some, it') ∧
      it'.callHasNext.map Prod.fst = some false ∧
      out.Sorted (· < ·) ∧ (∀ x, x ∈ out ↔ x ∈ keys)) ∧
    (((anv_bst_iterator
        (bst_insert_all [5, 3, 8, 1, 4] 100 (some (anv_bst_create int_compare)))).drive 6).map
          Prod.fst = some [some 1, some 3, some 4, some 5, some 8]) ∧
    (((anv_bst_iterator_preorder
        (bst_insert_all [5, 3, 8, 1, 4] 100 (some (anv_bst_create int_compare)))).drive 6).map
          Prod.fst = some [some 5, some 3, some 1, some 4, some 8]) ∧
    (((anv_bst_iterator_postorder
        (bst_insert_all [5, 3, 8, 1, 4] 100 (some (anv_bst_create int_compare)))).drive 6).map
          Prod.fst = some [some 1, some 4, some 3, some 8, some 5]) := by
  refine ⟨?_, by decide, by decide, by decide⟩
  obtain ⟨t, e, hz, hs, hm, hl⟩ :=
    bst_insert_all_spec keys base (anv_bst_create int_compare) rfl rfl
      (by simp [anv_bst_create, anv_bst_node_inorder])
  have hl2 : t.size < fuel := by
    simp only [anv_bst_create] at hl
    omega
  obtain ⟨it', h1, h2⟩ := bst_inorder_drive t hz fuel hl2
  refine ⟨t, anv_bst_node_inorder t.root, it', e, h1, h2, hs, ?_⟩
  intro x
  rw [hm]
  simp [anv_bst_create, anv_bst_node_inorder]

theorem c4_insert_then_iterate_sorted_witness :
    (∃ (t : ANVBinarySearchTree Int) (out : List Int) (it' : ANVIterator (BSTIteratorState Int) Int),
      bst_insert_all [5, 3, 8, 1, 4] 100 (some (anv_bst_create int_compare)) = some t ∧
      (anv_bst_iterator (some t)).drive 6 = some (out.map some, it') ∧
      it'.callHasNext.map Prod.fst = some false ∧
      out.Sorted (· < ·) ∧ (∀ x, x ∈ out ↔ x ∈ [5, 3, 8, 1, 4])) ∧
    (((anv_bst_iterator
        (bst_insert_all [5, 3, 8, 1, 4] 100 (some (anv_bst_create int_compare)))).drive 6).map
          Prod.fst = some [some 1, some 3, some 4, some 5, some 8]) ∧
    (((anv_bst_iterator_preorder
        (bst_insert_all [5, 3, 8, 1, 4] 100 (some (anv_bst_create int_compare)))).drive 6).map
          Prod.fst = some [some 5, some 3, some 1, some 4, some 8]) ∧
    (((anv_bst_iterator_postorder
        (bst_insert_all [5, 3, 8, 1, 4] 100 (some (anv_bst_create int_compare)))).drive 6).map
          Prod.fst = some [some 1, some 4, some 3, some 8, some 5]) :=
  c4_insert_then_iterate_sorted [5, 3, 8, 1, 4] 100 6 (by decide)

end BstInsert

section Producers

variable {σ α : Type}

theorem produces_isProducer : IsProducer (@Produces σ α) := by
  constructor
  · rintro it xs ⟨R, hR, h⟩
    obtain ⟨it1, e, h1⟩ := hR.has_next it xs h
    exact ⟨it1, e, R, hR, h1⟩
  · rintro it xs ⟨R, hR, h⟩
    obtain ⟨it1, e, h1⟩ := hR.get it xs h
    exact ⟨it1, e, R, hR, h1⟩
  · rintro it x xs ⟨R, hR, h⟩
    obtain ⟨it1, e, h1⟩ := hR.next_cons it x xs h
    exact ⟨it1, e, R, hR, h1⟩
  · rintro it ⟨R, hR, h⟩
    obtain ⟨it1, e, h1⟩ := hR.next_nil it h
    exact ⟨it1, e, R, hR, h1⟩

theorem isProducer_driveInv {R : ANVIterator σ α → List (Option α) → Prop}
    (hR : IsProducer R) : DriveInv R := by
  constructor
  · intro it h
    obtain ⟨it1, e, h1⟩ := hR.has_next it [] h
    exact ⟨it1, by simpa using e, h1⟩
  · intro it x xs h
    obtain ⟨it1, e1, h1⟩ := hR.has_next it _ h
    obtain ⟨it2, e2, h2⟩ := hR.get it1 _ h1
    obtain ⟨it3, e3, h3⟩ := hR.next_cons it2 x xs h2
    exact ⟨it1, it2, 0, it3, by simpa using e1, by simpa using e2, e3, h3⟩

theorem produces_drive (it : ANVIterator σ α) (xs : List (Option α)) (h : Produces it xs)
    (fuel : Nat) (hf : xs.length < fuel) :
    ∃ it', it.drive fuel = some (xs, it') ∧ Produces it' [] :=
  drive_of_inv (isProducer_driveInv produces_isProducer) xs it h fuel hf

theorem produces_nil_calls (it : ANVIterator σ α) (h : Produces it []) :
    it.callHasNext.map Prod.fst = some false ∧ it.callGet.map Prod.fst = some none ∧
      it.callNext.map Prod.fst = some (-1) := by
  obtain ⟨i1, e1, -⟩ := produces_isProducer.has_next it [] h
  obtain ⟨i2, e2, -⟩ := produces_isProducer.get it [] h
  obtain ⟨i3, e3, -⟩ := produces_isProducer.next_nil it h
  simp [e1, e2, e3]

theorem produces_rounds (n : Nat) :
    ∀ (it : ANVIterator σ α) (xs : List (Option α)), Produces it xs → n ≤ xs.length →
      ∃ itn, it.rounds n = some itn ∧ Produces itn (xs.drop n) := by
  induction n with
  | zero => intro it xs h _; exact ⟨it, rfl, by simpa using h⟩
  | succ n ih =>
    intro it xs h hn
    cases xs with
    | nil => simp at hn
    | cons x xs =>
      obtain ⟨it1, e1, h1⟩ := produces_isProducer.has_next it _ h
      obtain ⟨it2, e2, h2⟩ := produces_isProducer.get it1 _ h1
      obtain ⟨it3, e3, h3⟩ := produces_isProducer.next_cons it2 x xs h2
      obtain ⟨itn, e4, h4⟩ := ih it3 xs h3 (by simpa using hn)
      refine ⟨itn, ?_, by simpa using h4⟩
      simp only [List.isEmpty_cons, Bool.not_false] at e1
      simp [ANVIterator.rounds, e1, e2, e3, e4]

theorem produces_get_twice (it : ANVIterator σ α) (xs : List (Option α))
    (h : Produces it xs) :
    ∃ it1 it2, it.callGet = some (xs.head?.join, it1) ∧
      it1.callGet = some (xs.head?.join, it2) := by
  obtain ⟨it1, e1, h1⟩ := produces_isProducer.get it _ h
  obtain ⟨it2, e2, -⟩ := produces_isProducer.get it1 _ h1
  exact ⟨it1, it2, e1, e2⟩

end Producers

section Repeat

variable {α : Type}

@[simp] theorem repeat_with_callHasNext (ds : Option (RepeatState α)) :
    (repeat_with ds).callHasNext =
      some ((repeat_has_next ds).1, repeat_with (repeat_has_next ds).2) := rfl

@[simp] theorem repeat_with_callGet (ds : Option (RepeatState α)) :
    (repeat_with ds).callGet = some ((repeat_get ds).1, repeat_with (repeat_get ds).2) := rfl

@[simp] theorem repeat_with_callNext (ds : Option (RepeatState α)) :
    (repeat_with ds).callNext = some ((repeat_next ds).1, repeat_with (repeat_next ds).2) := rfl

theorem repeat_isProducer : IsProducer (fun (it : ANVIterator (RepeatState α) α) xs =>
    ∃ st : RepeatState α, it = repeat_with (some st) ∧
      xs = List.replicate (st.total_count - st.current_count) (some st.value)) := by
  constructor
  · rintro it xs ⟨st, rfl, rfl⟩
    refine ⟨repeat_with (some st), ?_, st, rfl, rfl⟩
    by_cases h : st.current_count < st.total_count
    · have : st.total_count - st.current_count ≠ 0 := by omega
      simp [repeat_has_next, h, List.isEmpty_iff, this]
    · have : st.total_count - st.current_count = 0 := by omega
      simp [repeat_has_next, h, this]
  · rintro it xs ⟨st, rfl, rfl⟩
    refine ⟨repeat_with (some st), ?_, st, rfl, rfl⟩
    by_cases h : st.current_count < st.total_count
    · obtain ⟨k, hk⟩ : ∃ k, st.total_count - st.current_count = k + 1 :=
      ⟨st.total_count - st.current_count - 1, by omega⟩
      simp [repeat_get, h, hk, List.replicate_succ]
    · have : st.total_count - st.current_count = 0 := by omega
      simp [repeat_get, h, this]
  · rintro it x xs ⟨st, rfl, hx⟩
    have h : st.current_count < st.total_count := by
      by_contra hc
      have : st.total_count - st.current_count = 0 := by omega
      simp [this] at hx
    obtain ⟨k, hk⟩ : ∃ k, st.total_count - st.current_count = k + 1 :=
      ⟨st.total_count - st.current_count - 1, by omega⟩
    rw [hk, List.replicate_succ] at hx
    refine ⟨repeat_with (some { st with current_count := st.current_count + 1 }), ?_,
      _, rfl, ?_⟩
    · have h2 : ¬ st.current_count ≥ st.total_count := by omega
      simp [repeat_next, h2]
    · have hk2 : st.total_count - (st.current_count + 1) = k := by omega
      simp only [hk2]
      exact (List.cons.inj hx).2
  · rintro it ⟨st, rfl, hx⟩
    have h : st.current_count ≥ st.total_count := by
      by_contra hc
      obtain ⟨k, hk⟩ : ∃ k, st.total_count - st.current_count = k + 1 :=
      ⟨st.total_count - st.current_count - 1, by omega⟩
      simp [hk, List.replicate_succ] at hx
    refine ⟨repeat_with (some st), ?_, st, rfl, hx⟩
    simp [repeat_next, h]

theorem repeat_produces (v : α) (alloc : ANVAllocator) (ha : alloc.allocate = true)
    (n : Nat) :
    Produces (anv_iterator_repeat (some v) (some alloc) n true)
      (List.replicate n (some v)) :=
  ⟨_, repeat_isProducer, { value := v, total_count := n, current_count := 0 },
    by simp [anv_iterator_repeat, anv_alloc_allocate, ha], rfl⟩

end Repeat

section Take

variable {σ α : Type}

@[simp] theorem take_with_callHasNext (ds : Option (TakeState σ α)) :
    (take_with ds).callHasNext =
      (take_has_next ds).map fun r => (r.1, take_with r.2) := rfl

@[simp] theorem take_with_callGet (ds : Option (TakeState σ α)) :
    (take_with ds).callGet = (take_get ds).map fun r => (r.1, take_with r.2) := rfl

@[simp] theorem take_with_callNext (ds : Option (TakeState σ α)) :
    (take_with ds).callNext = (take_next ds).map fun r => (r.1, take_with r.2) := rfl

theorem take_isProducer : IsProducer (@TakeRel σ α) := by
  constructor
  · rintro it ys ⟨st, xs, rfl, hp, rfl⟩
    by_cases h : st.current_count ≥ st.max_count
    · have h0 : st.max_count - st.current_count = 0 := by omega
      exact ⟨take_with (some st), by simp [take_has_next, h, h0], st, xs, rfl, hp, rfl⟩
    · obtain ⟨b1, e1, hb1⟩ := produces_isProducer.has_next _ _ hp
      obtain ⟨k, hk⟩ : ∃ k, st.max_count - st.current_count = k + 1 :=
        ⟨st.max_count - st.current_count - 1, by omega⟩
      refine ⟨take_with (some { st with base_iterator := b1 }), ?_, _, xs, rfl, hb1, rfl⟩
      cases xs <;> simp [take_has_next, h, e1, hk]
  · rintro it ys ⟨st, xs, rfl, hp, rfl⟩
    by_cases h : st.current_count < st.max_count
    · obtain ⟨b1, e1, hb1⟩ := produces_isProducer.get _ _ hp
      obtain ⟨k, hk⟩ : ∃ k, st.max_count - st.current_count = k + 1 :=
        ⟨st.max_count - st.current_count - 1, by omega⟩
      refine ⟨take_with (some { st with base_iterator := b1 }), ?_, _, xs, rfl, hb1, rfl⟩
      cases xs <;> simp [take_get, h, e1, hk]
    · have h0 : st.max_count - st.current_count = 0 := by omega
      exact ⟨take_with (some st), by simp [take_get, h, h0], st, xs, rfl, hp, rfl⟩
  · rintro it y ys ⟨st, xs, rfl, hp, hy⟩
    have h : ¬ st.current_count ≥ st.max_count := by
      intro hc
      have h0 : st.max_count - st.current_count = 0 := by omega
      simp [h0] at hy
    obtain ⟨k, hk⟩ : ∃ k, st.max_count - st.current_count = k + 1 :=
      ⟨st.max_count - st.current_count - 1, by omega⟩
    cases xs with
    | nil => simp at hy
    | cons x xs =>
      rw [hk, List.take_succ_cons] at hy
      obtain ⟨b1, e1, hb1⟩ := produces_isProducer.next_cons _ x xs hp
      refine ⟨take_with (some { st with base_iterator := b1,
                                         current_count := st.current_count + 1 }), ?_,
        _, xs, rfl, hb1, ?_⟩
      · simp [take_next, h, e1]
      · have hk2 : st.max_count - (st.current_count + 1) = k := by omega
        simp only [hk2]
        exact (List.cons.inj hy).2
  · rintro it ⟨st, xs, rfl, hp, hy⟩
    by_cases h : st.current_count ≥ st.max_count
    · exact ⟨take_with (some st), by simp [take_next, h], st, xs, rfl, hp, hy⟩
    · obtain ⟨k, hk⟩ : ∃ k, st.max_count - st.current_count = k + 1 :=
        ⟨st.max_count - st.current_count - 1, by omega⟩
      cases xs with
      | cons x xs => simp [hk] at hy
      | nil =>
        obtain ⟨b1, e1, hb1⟩ := produces_isProducer.next_nil _ hp
        refine ⟨take_with (some { st with base_iterator := b1 }), ?_, _, [], rfl, hb1, hy⟩
        simp [take_next, h, e1]

theorem take_produces (P : ANVIterator σ α) (xs : List (Option α)) (hP : Produces P xs)
    (alloc : ANVAllocator) (ha : alloc.allocate = true) (k : Nat) :
    Produces (anv_iterator_take (some P) (some alloc) k true) (xs.take k) :=
  ⟨_, take_isProducer, { base_iterator := P, max_count := k, current_count := 0 }, xs,
    by simp [anv_iterator_take, anv_alloc_allocate, ha], hP, rfl⟩

/-- C7. For every well-behaved producer `P` with element sequence `xs` and
every count `k` (zero and counts beyond the length included), the consumer
loop over `anv_iterator_take(P, k)` ends having yielded exactly the first
`min k (length xs)` elements of `xs` in order; afterwards `has_next` is false,
`get` returns `NULL` and `next` returns `-1`, whether or not `P` has
elements left. -/
theorem c7_take_yields_first_min (P : ANVIterator σ α) (xs : List (Option α))
    (hP : Produces P xs) (alloc : ANVAllocator) (ha : alloc.allocate = true) (k fuel : Nat)
    (hfuel : min k xs.length < fuel) :
    ∃ it', (anv_iterator_take (some P) (some alloc) k true).drive fuel =
        some (xs.take k, it') ∧
      (xs.take k).length = min k xs.length ∧
      it'.callHasNext.map Prod.fst = some false ∧
      it'.callGet.map Prod.fst = some none ∧
      it'.callNext.map Prod.fst = some (-1) := by
  have hlen : (xs.take k).length = min k xs.length := List.length_take k xs
  obtain ⟨it', h1, h2⟩ :=
    produces_drive _ _ (take_produces P xs hP alloc ha k) fuel (by omega)
  exact ⟨it', h1, hlen, produces_nil_calls it' h2⟩

end Take

theorem c7_take_yields_first_min_witness :
    ∃ it', (anv_iterator_take
        (some (anv_iterator_repeat (some (7 : Nat)) (some anv_alloc_default) 5 true))
        (some anv_alloc_default) 3 true).drive 4 =
        some ((List.replicate 5 (some 7)).take 3, it') ∧
      ((List.replicate 5 (some (7 : Nat))).take 3).length =
        min 3 (List.replicate 5 (some (7 : Nat))).length ∧
      it'.callHasNext.map Prod.fst = some false ∧
      it'.callGet.map Prod.fst = some none ∧
      it'.callNext.map Prod.fst = some (-1) :=
  c7_take_yields_first_min _ _ (repeat_produces 7 anv_alloc_default rfl 5) anv_alloc_default
    rfl 3 4 (by decide)

section Skip

variable {σ α : Type}

@[simp] theorem skip_with_callHasNext (ds : Option (SkipState σ α)) :
    (skip_with ds).callHasNext =
      (skip_has_next ds).map fun r => (r.1, skip_with r.2) := rfl

@[simp] theorem skip_with_callGet (ds : Option (SkipState σ α)) :
    (skip_with ds).callGet = (skip_get ds).map fun r => (r.1, skip_with r.2) := rfl

@[simp] theorem skip_with_callNext (ds : Option (SkipState σ α)) :
    (skip_with ds).callNext = (skip_next ds).map fun r => (r.1, skip_with r.2) := rfl

theorem skip_loop_spec (n : Nat) :
    ∀ (base : ANVIterator σ α) (xs : List (Option α)), Produces base xs →
      ∃ b, skip_loop n base = some b ∧ Produces b (xs.drop n) := by
  induction n with
  | zero => intro base xs h; exact ⟨base, rfl, by simpa using h⟩
  | succ n ih =>
    intro base xs h
    obtain ⟨b1, e1, h1⟩ := produces_isProducer.has_next base xs h
    cases xs with
    | nil =>
      refine ⟨b1, ?_, by simpa using h1⟩
      simp only [List.isEmpty_nil, Bool.not_true] at e1
      simp [skip_loop, e1]
    | cons x xs =>
      obtain ⟨b2, e2, h2⟩ := produces_isProducer.next_cons b1 x xs h1
      obtain ⟨b3, e3, h3⟩ := ih b2 xs h2
      refine ⟨b3, ?_, by simpa using h3⟩
      simp only [List.isEmpty_cons, Bool.not_false] at e1
      simp [skip_loop, e1, e2, e3]

theorem perform_skip_spec (st : SkipState σ α) (ys : List (Option α))
    (h : SkipRel (skip_with (some st)) ys) :
    ∃ st1, perform_skip st = some st1 ∧ st1.has_skipped = true ∧
      st1.skip_count = st.skip_count ∧ Produces st1.base_iterator ys ∧
      perform_skip st1 = some st1 := by
  obtain ⟨st0, e, h⟩ := h
  have hst : st = st0 := by
    have := congrArg ANVIterator.data_state e
    simpa [skip_with] using this
  subst hst
  rcases h with ⟨hs, xs, hp, rfl⟩ | ⟨hs, hp⟩
  · obtain ⟨b, e1, h1⟩ := skip_loop_spec st.skip_count st.base_iterator xs hp
    exact ⟨{ st with base_iterator := b, has_skipped := true },
      by simp [perform_skip, hs, e1], rfl, rfl, h1, by simp [perform_skip]⟩
  · exact ⟨st, by simp [perform_skip, hs], hs, rfl, hp, by simp [perform_skip, hs]⟩

theorem skip_isProducer : IsProducer (@SkipRel σ α) := by
  constructor
  · rintro it ys ⟨st, rfl, h⟩
    obtain ⟨st1, e1, hs1, -, hp1, -⟩ := perform_skip_spec st ys ⟨st, rfl, h⟩
    obtain ⟨b, e2, hb⟩ := produces_isProducer.has_next _ _ hp1
    exact ⟨skip_with (some { st1 with base_iterator := b }), by simp [skip_has_next, e1, e2],
      _, rfl, Or.inr ⟨hs1, hb⟩⟩
  · rintro it ys ⟨st, rfl, h⟩
    obtain ⟨st1, e1, hs1, -, hp1, -⟩ := perform_skip_spec st ys ⟨st, rfl, h⟩
    obtain ⟨b, e2, hb⟩ := produces_isProducer.get _ _ hp1
    exact ⟨skip_with (some { st1 with base_iterator := b }), by simp [skip_get, e1, e2],
      _, rfl, Or.inr ⟨hs1, hb⟩⟩
  · rintro it y ys ⟨st, rfl, h⟩
    obtain ⟨st1, e1, hs1, -, hp1, -⟩ := perform_skip_spec st (y :: ys) ⟨st, rfl, h⟩
    obtain ⟨b, e2, hb⟩ := produces_isProducer.next_cons _ _ _ hp1
    exact ⟨skip_with (some { st1 with base_iterator := b }), by simp [skip_next, e1, e2],
      _, rfl, Or.inr ⟨hs1, hb⟩⟩
  · rintro it ⟨st, rfl, h⟩
    obtain ⟨st1, e1, hs1, -, hp1, -⟩ := perform_skip_spec st [] ⟨st, rfl, h⟩
    obtain ⟨b, e2, hb⟩ := produces_isProducer.next_nil _ hp1
    exact ⟨skip_with (some { st1 with base_iterator := b }), by simp [skip_next, e1, e2],
      _, rfl, Or.inr ⟨hs1, hb⟩⟩

theorem skip_fresh_rel (P : ANVIterator σ α) (xs : List (Option α)) (hP : Produces P xs)
    (k : Nat) :
    SkipRel (skip_with (some { base_iterator := P, skip_count := k, has_skipped := false }))
      (xs.drop k) :=
  ⟨_, rfl, Or.inl ⟨rfl, xs, hP, rfl⟩⟩

/-- C8. For every well-behaved producer `P` with element sequence `xs` and
every count `k`: the state that `anv_iterator_skip(P, k)` stores holds `P` as
it was given, with `has_skipped` unset (the constructor calls nothing on
`P`); the first `has_next` or `get` call leaves the upstream positioned
after the first `min k (length xs)` elements, the first `next` call one
element further (the skip, then the advance of `next` itself), each with
`has_skipped` set, after which `perform_skip` changes nothing; and the
consumer loop over the fresh iterator ends having yielded `xs` without its
first `min k (length xs)` elements, in order. -/
theorem c8_skip_is_lazy_and_drops (P : ANVIterator σ α) (xs : List (Option α))
    (hP : Produces P xs) (alloc : ANVAllocator) (ha : alloc.allocate = true) (k fuel : Nat)
    (hfuel : xs.length - k < fuel) :
    (anv_iterator_skip (some P) (some alloc) k true).data_state =
        some { base_iterator := P, skip_count := k, has_skipped := false } ∧
    (∃ st, (anv_iterator_skip (some P) (some alloc) k true).callHasNext =
        some (!(xs.drop k).isEmpty, skip_with (some st)) ∧ st.has_skipped = true ∧
        Produces st.base_iterator (xs.drop (min k xs.length)) ∧ perform_skip st = some st) ∧
    (∃ st, (anv_iterator_skip (some P) (some alloc) k true).callGet =
        some ((xs.drop k).head?.join, skip_with (some st)) ∧ st.has_skipped = true ∧
        Produces st.base_iterator (xs.drop (min k xs.length)) ∧ perform_skip st = some st) ∧
    (∃ rc st, (anv_iterator_skip (some P) (some alloc) k true).callNext =
        some (rc, skip_with (some st)) ∧ st.has_skipped = true ∧
        Produces st.base_iterator (xs.drop (min k xs.length + 1)) ∧
        perform_skip st = some st) ∧
    (∃ it', (anv_iterator_skip (some P) (some alloc) k true).drive fuel =
        some (xs.drop (min k xs.length), it') ∧
      it'.callHasNext.map Prod.fst = some false) := by
  have hmin : xs.drop (min k xs.length) = xs.drop k := by
    rcases Nat.le_total k xs.length with h | h
    · rw [Nat.min_eq_left h]
    · rw [Nat.min_eq_right h, List.drop_length, List.drop_eq_nil_of_le h]
  have hmin1 : xs.drop (min k xs.length + 1) = (xs.drop k).tail := by
    rw [← List.drop_drop, hmin, List.drop_one]
  have hit : anv_iterator_skip (some P) (some alloc) k true =
      skip_with (some { base_iterator := P, skip_count := k, has_skipped := false }) := by
    simp [anv_iterator_skip, anv_alloc_allocate, ha]
  have hrel := skip_fresh_rel P xs hP k
  obtain ⟨st1, e1, hs1, -, hp1, hidem⟩ := perform_skip_spec _ _ hrel
  rw [hit, hmin, hmin1]
  refine ⟨rfl, ?_, ?_, ?_, ?_⟩
  · obtain ⟨b, e2, hb⟩ := produces_isProducer.has_next _ _ hp1
    refine ⟨{ st1 with base_iterator := b }, by simp [skip_has_next, e1, e2], hs1, hb, ?_⟩
    simp [perform_skip, hs1]
  · obtain ⟨b, e2, hb⟩ := produces_isProducer.get _ _ hp1
    refine ⟨{ st1 with base_iterator := b }, by simp [skip_get, e1, e2], hs1, hb, ?_⟩
    simp [perform_skip, hs1]
  · cases hd : xs.drop k with
    | nil =>
      rw [hd] at hp1
      obtain ⟨b, e2, hb⟩ := produces_isProducer.next_nil _ hp1
      refine ⟨-1, { st1 with base_iterator := b }, by simp [skip_next, e1, e2], hs1,
        by simpa using hb, ?_⟩
      simp [perform_skip, hs1]
    | cons y ys =>
      rw [hd] at hp1
      obtain ⟨b, e2, hb⟩ := produces_isProducer.next_cons _ _ _ hp1
      refine ⟨0, { st1 with base_iterator := b }, by simp [skip_next, e1, e2], hs1,
        by simpa using hb, ?_⟩
      simp [perform_skip, hs1]
  · have hlen : (xs.drop k).length < fuel := by
      rw [List.length_drop]; exact hfuel
    obtain ⟨it', h1, h2⟩ := produces_drive _ _ ⟨_, skip_isProducer, hrel⟩ fuel hlen
    exact ⟨it', h1, (produces_nil_calls it' h2).1⟩

end Skip

theorem c8_skip_is_lazy_and_drops_witness :
    (anv_iterator_skip
        (some (anv_iterator_repeat (some (7 : Nat)) (some anv_alloc_default) 5 true))
        (some anv_alloc_default) 2 true).data_state =
        some { base_iterator :=
                 anv_iterator_repeat (some (7 : Nat)) (some anv_alloc_default) 5 true,
               skip_count := 2, has_skipped := false } ∧
    (∃ st, (anv_iterator_skip
        (some (anv_iterator_repeat (some (7 : Nat)) (some anv_alloc_default) 5 true))
        (some anv_alloc_default) 2 true).callHasNext =
        some (!((List.replicate 5 (some 7)).drop 2).isEmpty, skip_with (some st)) ∧
        st.has_skipped = true ∧
        Produces st.base_iterator
          ((List.replicate 5 (some 7)).drop (min 2 (List.replicate 5 (some 7)).length)) ∧
        perform_skip st = some st) ∧
    (∃ st, (anv_iterator_skip
        (some (anv_iterator_repeat (some (7 : Nat)) (some anv_alloc_default) 5 true))
        (some anv_alloc_default) 2 true).callGet =
        some (((List.replicate 5 (some 7)).drop 2).head?.join, skip_with (some st)) ∧
        st.has_skipped = true ∧
        Produces st.base_iterator
          ((List.replicate 5 (some 7)).drop (min 2 (List.replicate 5 (some 7)).length)) ∧
        perform_skip st = some st) ∧
    (∃ rc st, (anv_iterator_skip
        (some (anv_iterator_repeat (some (7 : Nat)) (some anv_alloc_default) 5 true))
        (some anv_alloc_default) 2 true).callNext =
        some (rc, skip_with (some st)) ∧ st.has_skipped = true ∧
        Produces st.base_iterator
          ((List.replicate 5 (some 7)).drop
            (min 2 (List.replicate 5 (some 7)).length + 1)) ∧
        perform_skip st = some st) ∧
    (∃ it', (anv_iterator_skip
        (some (anv_iterator_repeat (some (7 : Nat)) (some anv_alloc_default) 5 true))
        (some anv_alloc_default) 2 true).drive 4 =
        some ((List.replicate 5 (some 7)).drop (min 2 (List.replicate 5 (some 7)).length),
          it') ∧
      it'.callHasNext.map Prod.fst = some false) :=
  c8_skip_is_lazy_and_drops _ _ (repeat_produces 7 anv_alloc_default rfl 5) anv_alloc_default
    rfl 2 4 (by decide)

section Zip

variable {σ τ α β : Type}

@[simp] theorem zip_with_callHasNext (ds : Option (ZipState σ τ α β)) :
    (zip_with ds).callHasNext =
      (zip_has_next ds).map fun r => (r.1, zip_with r.2) := rfl

@[simp] theorem zip_with_callGet (ds : Option (ZipState σ τ α β)) :
    (zip_with ds).callGet = (zip_get ds).map fun r => (r.1, zip_with r.2) := rfl

@[simp] theorem zip_with_callNext (ds : Option (ZipState σ τ α β)) :
    (zip_with ds).callNext = (zip_next ds).map fun r => (r.1, zip_with r.2) := rfl

end Zip

section Filter

variable {σ α : Type}

@[simp] theorem filter_with_callHasNext (fuel : Nat) (ds : Option (FilterState σ α)) :
    (filter_with fuel ds).callHasNext =
      (filter_has_next fuel ds).map fun r => (r.1, filter_with fuel r.2) := rfl

@[simp] theorem filter_with_callGet (fuel : Nat) (ds : Option (FilterState σ α)) :
    (filter_with fuel ds).callGet =
      (filter_get fuel ds).map fun r => (r.1, filter_with fuel r.2) := rfl

@[simp] theorem filter_with_callNext (fuel : Nat) (ds : Option (FilterState σ α)) :
    (filter_with fuel ds).callNext =
      (filter_next fuel ds).map fun r => (r.1, filter_with fuel r.2) := rfl

theorem filter_seek_spec (fuel : Nat) :
    ∀ (st : FilterState σ α) (xs : List (Option α)), Produces st.base_iterator xs →
      xs.length < fuel →
      ∃ st1 zs, filter_seek fuel st = some st1 ∧ st1.filter = st.filter ∧
        Produces st1.base_iterator zs ∧ zs.length ≤ xs.length ∧
        zs.filter (filter_keeps st.filter) = xs.filter (filter_keeps st.filter) ∧
        FilterPos st1 zs := by
  induction fuel with
  | zero => intro st xs _ h; simp at h
  | succ fuel ih =>
    intro st xs hp hlen
    obtain ⟨b1, e1, h1⟩ := produces_isProducer.has_next _ _ hp
    cases xs with
    | nil =>
      simp only [List.isEmpty_nil, Bool.not_true] at e1
      exact ⟨{ st with base_iterator := b1, has_current := false, current_matches := false,
                       current_element := none }, [],
        by simp [filter_seek, e1], rfl, h1, le_refl _, rfl, Or.inl ⟨rfl, rfl, rfl, rfl⟩⟩
    | cons x xs =>
      simp only [List.isEmpty_cons, Bool.not_false] at e1
      obtain ⟨b2, e2, h2⟩ := produces_isProducer.get _ _ h1
      simp only [List.head?_cons, Option.join] at e2
      have e2b : b1.callGet = some (x, b2) := e2
      by_cases hk : filter_keeps st.filter x = true
      · cases x with
        | none => simp [filter_keeps] at hk
        | some e =>
          exact ⟨{ st with base_iterator := b2, current_element := some e,
                           has_current := true, current_matches := true }, some e :: xs,
            by simp [filter_seek, e1, e2b, hk], rfl, h2, le_refl _, rfl,
            Or.inr ⟨e, xs, rfl, hk, rfl, rfl, rfl⟩⟩
      · obtain ⟨b3, e3, h3⟩ := produces_isProducer.next_cons _ _ _ h2
        obtain ⟨st1, zs, e4, hf, hz, hl, hfil, hpos⟩ :=
          ih { st with base_iterator := b3 } xs h3 (by simpa using hlen)
        refine ⟨st1, zs, ?_, hf, hz, by simp only [List.length_cons]; omega, ?_, hpos⟩
        · simp [filter_seek, e1, e2b, hk, e3, e4]
        · rw [List.filter_cons_of_neg hk]
          exact hfil

theorem position_at_next_match_spec (fuel : Nat) (p : α → Bool) (st : FilterState σ α)
    (ys : List (Option α)) (h : FilterRel fuel p (filter_with fuel (some st)) ys) :
    ∃ st1 zs, position_at_next_match fuel st = some st1 ∧ st1.filter = p ∧
      Produces st1.base_iterator zs ∧ zs.length < fuel ∧
      ys = zs.filter (filter_keeps p) ∧ FilterPos st1 zs := by
  obtain ⟨st0, xs, e, hf, hp, hlen, hy, hc⟩ := h
  have hst : st = st0 := by
    have := congrArg ANVIterator.data_state e
    simpa [filter_with] using this
  subst hst
  by_cases hcur : (st.has_current && st.current_matches) = true
  · exact ⟨st, xs, by simp [position_at_next_match, hcur], hf, hp, hlen, hy, hc hcur⟩
  · obtain ⟨st1, zs, e1, hf1, hz, hl, hfil, hpos⟩ := filter_seek_spec fuel st xs hp hlen
    refine ⟨st1, zs, ?_, hf1.trans hf, hz, by omega, ?_, hpos⟩
    · simp only [position_at_next_match, hcur]
      simpa using e1
    · rw [hy, ← hf, hfil]

theorem filterPos_rel (fuel : Nat) (p : α → Bool) (st : FilterState σ α)
    (zs : List (Option α)) (hf : st.filter = p) (hz : Produces st.base_iterator zs)
    (hl : zs.length < fuel) (hpos : FilterPos st zs) :
    FilterRel fuel p (filter_with fuel (some st)) (zs.filter (filter_keeps p)) :=
  ⟨st, zs, rfl, hf, hz, hl, rfl, fun _ => hpos⟩

theorem filterPos_matches (p : α → Bool) (st : FilterState σ α) (zs : List (Option α))
    (hf : st.filter = p) (hpos : FilterPos st zs) :
    st.current_matches = !(zs.filter (filter_keeps p)).isEmpty ∧
      (if st.current_matches then st.current_element else none) =
        (zs.filter (filter_keeps p)).head?.join := by
  rcases hpos with ⟨rfl, -, hm, -⟩ | ⟨e, rest, rfl, hk, -, hm, hc⟩
  · simp [hm]
  · rw [hf] at hk
    simp [hm, hc, filter_keeps, hk]

theorem filter_isProducer (fuel : Nat) (p : α → Bool) :
    IsProducer (@FilterRel σ α fuel p) := by
  constructor
  · rintro it ys ⟨st, xs, rfl, h⟩
    obtain ⟨st1, zs, e1, hf, hz, hl, rfl, hpos⟩ :=
      position_at_next_match_spec fuel p st ys ⟨st, xs, rfl, h⟩
    refine ⟨filter_with fuel (some st1), ?_, filterPos_rel fuel p st1 zs hf hz hl hpos⟩
    simp [filter_has_next, e1, (filterPos_matches p st1 zs hf hpos).1]
  · rintro it ys ⟨st, xs, rfl, h⟩
    obtain ⟨st1, zs, e1, hf, hz, hl, rfl, hpos⟩ :=
      position_at_next_match_spec fuel p st ys ⟨st, xs, rfl, h⟩
    refine ⟨filter_with fuel (some st1), ?_, filterPos_rel fuel p st1 zs hf hz hl hpos⟩
    simp [filter_get, e1, (filterPos_matches p st1 zs hf hpos).2]
  · rintro it y ys ⟨st, xs, rfl, h⟩
    obtain ⟨st1, zs, e1, hf, hz, hl, hy, hpos⟩ :=
      position_at_next_match_spec fuel p st (y :: ys) ⟨st, xs, rfl, h⟩
    rcases hpos with ⟨rfl, -, -, -⟩ | ⟨e, rest, rfl, hk, hh, hm, hc⟩
    · simp at hy
    · obtain ⟨b, e2, hb⟩ := produces_isProducer.next_cons _ _ _ hz
      rw [hf] at hk
      have hk2 : filter_keeps p (some e) = true := hk
      rw [List.filter_cons_of_pos hk2] at hy
      refine ⟨filter_with fuel (some
          { st1 with base_iterator := b, has_current := false, current_matches := false,
                     current_element := none }), ?_,
        _, rest, rfl, hf, hb, by simp only [List.length_cons] at hl; omega,
        (List.cons.inj hy).2, by simp⟩
      simp [filter_next, filter_has_next, e1, hm, e2]
  · rintro it ⟨st, xs, rfl, h⟩
    obtain ⟨st1, zs, e1, hf, hz, hl, hy, hpos⟩ :=
      position_at_next_match_spec fuel p st [] ⟨st, xs, rfl, h⟩
    have hm := (filterPos_matches p st1 zs hf hpos).1
    rw [← hy] at hm
    simp only [List.isEmpty_nil, Bool.not_true] at hm
    refine ⟨filter_with fuel (some st1), ?_, ?_⟩
    · simp [filter_next, filter_has_next, e1, hm]
    · have := filterPos_rel fuel p st1 zs hf hz hl hpos
      rwa [← hy] at this

/-- C9. For every well-behaved producer `P` with element sequence `xs` and
every predicate `p`, the consumer loop over `anv_iterator_filter(P, p)` (seek
loop given more iterations than `xs` has elements) ends having yielded
exactly the elements of `xs` that are non-null and satisfy `p`, in their
original order, and `has_next` is false afterwards; this covers the case in
which no element matches. -/
theorem c9_filter_yields_matching (P : ANVIterator σ α) (xs : List (Option α))
    (hP : Produces P xs) (p : α → Bool) (alloc : ANVAllocator) (ha : alloc.allocate = true)
    (garbage : Bool) (fuel : Nat) (hfuel : xs.length < fuel) :
    ∃ it', (anv_iterator_filter (some P) (some alloc) (some p) true garbage fuel).drive fuel =
        some (xs.filter (filter_keeps p), it') ∧
      it'.callHasNext.map Prod.fst = some false ∧
      (∀ x, x ∈ xs.filter (filter_keeps p) ↔ x ∈ xs ∧ ∃ e, x = some e ∧ p e = true) := by
  have hrel : FilterRel fuel p
      (anv_iterator_filter (some P) (some alloc) (some p) true garbage fuel)
      (xs.filter (filter_keeps p)) :=
    ⟨{ base_iterator := P, filter := p, current_element := none, has_current := false,
       current_matches := garbage }, xs,
      by simp [anv_iterator_filter, anv_alloc_allocate, ha], rfl, hP, hfuel, rfl, by simp⟩
  have hlen : (xs.filter (filter_keeps p)).length < fuel :=
    lt_of_le_of_lt (List.length_filter_le _ _) hfuel
  obtain ⟨it', h1, h2⟩ := produces_drive _ _ ⟨_, filter_isProducer fuel p, hrel⟩ fuel hlen
  refine ⟨it', h1, (produces_nil_calls it' h2).1, ?_⟩
  intro x
  rw [List.mem_filter]
  cases x with
  | none => simp [filter_keeps]
  | some e => simp [filter_keeps]

end Filter

theorem c9_filter_yields_matching_witness :
    ∃ it', (anv_iterator_filter
        (some (anv_iterator_repeat (some (7 : Nat)) (some anv_alloc_default) 3 true))
        (some anv_alloc_default) (some (fun n => n == 7)) true false 4).drive 4 =
        some ((List.replicate 3 (some 7)).filter (filter_keeps (fun n => n == 7)), it') ∧
      it'.callHasNext.map Prod.fst = some false ∧
      (∀ x, x ∈ (List.replicate 3 (some 7)).filter (filter_keeps (fun n => n == 7)) ↔
        x ∈ List.replicate 3 (some 7) ∧ ∃ e, x = some e ∧ (e == 7) = true) :=
  c9_filter_yields_matching _ _ (repeat_produces 7 anv_alloc_default rfl 3) (fun n => n == 7)
    anv_alloc_default rfl false 4 (by decide)

section Transform

variable {σ α β : Type}

@[simp] theorem transform_with_callHasNext (ds : Option (TransformState σ α β)) :
    (transform_with ds).callHasNext =
      (transform_has_next ds).map fun r => (r.1, transform_with r.2) := rfl

@[simp] theorem transform_with_callGet (ds : Option (TransformState σ α β)) :
    (transform_with ds).callGet =
      (transform_get ds).map fun r => (r.1, transform_with r.2) := rfl

@[simp] theorem transform_with_callNext (ds : Option (TransformState σ α β)) :
    (transform_with ds).callNext =
      (transform_next ds).map fun r => (r.1, transform_with r.2) := rfl

theorem transform_isProducer (f : α → Option β) : IsProducer (@TransformRel σ α β f) := by
  constructor
  · rintro it ys ⟨st, as, rfl, hf, hp, rfl, hc⟩
    obtain ⟨b, e, hb⟩ := produces_isProducer.has_next _ _ hp
    refine ⟨transform_with (some { st with base_iterator := b }), ?_,
      _, as, rfl, hf, hb, rfl, hc⟩
    cases as <;> simp [transform_has_next, e]
  · rintro it ys ⟨st, as, rfl, hf, hp, rfl, hc⟩
    cases hcr : st.cached_result with
    | some c =>
      refine ⟨transform_with (some st), ?_, _, as, rfl, hf, hp, rfl, hc⟩
      rw [hc c hcr]
      simp [transform_get, hcr]
    | none =>
      obtain ⟨b, e, hb⟩ := produces_isProducer.get _ _ hp
      cases as with
      | nil =>
        have e2 : st.base_iterator.callGet = some (none, b) := e
        refine ⟨transform_with (some { st with base_iterator := b }), ?_,
          _, [], rfl, hf, hb, rfl, by simp [hcr]⟩
        simp [transform_get, hcr, e2]
      | cons a as =>
        have e2 : st.base_iterator.callGet = some (some a, b) := e
        refine ⟨transform_with (some { st with base_iterator := b,
                                               cached_result := st.transform a }), ?_,
          _, a :: as, rfl, hf, hb, rfl, ?_⟩
        · simp [transform_get, hcr, e2, hf]
        · intro c hcc
          simpa [hf] using hcc
  · rintro it y ys ⟨st, as, rfl, hf, hp, hy, hc⟩
    cases as with
    | nil => simp at hy
    | cons a as =>
      obtain ⟨b, e, hb⟩ := produces_isProducer.get _ _ hp
      have e2 : st.base_iterator.callGet = some (some a, b) := e
      obtain ⟨b2, e3, hb2⟩ := produces_isProducer.next_cons _ _ _ hb
      refine ⟨transform_with (some { st with base_iterator := b2, cached_result := none }),
        ?_, _, as, rfl, hf, hb2, ?_, by simp⟩
      · simp [transform_next, e2, e3]
      · simp only [List.map_cons, List.cons.injEq] at hy
        exact hy.2
  · rintro it ⟨st, as, rfl, hf, hp, hy, hc⟩
    cases as with
    | cons a as => simp at hy
    | nil =>
      obtain ⟨b, e, hb⟩ := produces_isProducer.get _ _ hp
      have e2 : st.base_iterator.callGet = some (none, b) := e
      refine ⟨transform_with (some { st with base_iterator := b }), ?_,
        _, [], rfl, hf, hb, rfl, hc⟩
      simp [transform_next, e2]

theorem transform_get_counted_fst (s : Option (TransformState σ α β)) (k : Nat) :
    (transform_get_counted s k).map Prod.fst = transform_get s := by
  cases s with
  | none => rfl
  | some st =>
    simp only [transform_get_counted, transform_get]
    cases st.cached_result with
    | some c => rfl
    | none =>
      cases st.base_iterator.callGet with
      | none => rfl
      | some r =>
        obtain ⟨e, b⟩ := r
        cases e <;> rfl

theorem transform_rounds_fresh :
    ∀ (n : Nat) (st : TransformState σ α β) (as : List α), st.cached_result = none →
      Produces st.base_iterator (as.map some) → n ≤ as.length →
      ∃ stn : TransformState σ α β,
        (transform_with (some st)).rounds n = some (transform_with (some stn)) ∧
        stn.transform = st.transform ∧ stn.cached_result = none ∧
        Produces stn.base_iterator ((as.drop n).map some) := by
  intro n
  induction n with
  | zero => intro st as hc hp _; exact ⟨st, rfl, rfl, hc, by simpa using hp⟩
  | succ n ih =>
    intro st as hc hp hn
    cases as with
    | nil => simp at hn
    | cons a as =>
      obtain ⟨b1, e1, h1⟩ := produces_isProducer.has_next _ _ hp
      obtain ⟨b2, e2, h2⟩ := produces_isProducer.get _ _ h1
      obtain ⟨b3, e3, h3⟩ := produces_isProducer.get _ _ h2
      obtain ⟨b4, e4, h4⟩ := produces_isProducer.next_cons _ _ _ h3
      have e1b : st.base_iterator.callHasNext = some (true, b1) := by simpa using e1
      have e2b : b1.callGet = some (some a, b2) := e2
      have e3b : b2.callGet = some (some a, b3) := e3
      obtain ⟨stn, r1, r2, r3, r4⟩ :=
        ih { st with base_iterator := b4, cached_result := none } as rfl h4
          (by simpa using hn)
      refine ⟨stn, ?_, r2, r3, by simpa using r4⟩
      simp [ANVIterator.rounds, transform_has_next, e1b, transform_get, hc, e2b,
        transform_next, e3b, e4, r1]

theorem transform_get_caches (st : TransformState σ α β) (as : List α)
    (hc : st.cached_result = none) (hp : Produces st.base_iterator (as.map some)) :
    ∃ st1 : TransformState σ α β,
      transform_get (some st) = some (as.head?.bind st.transform, some st1) ∧
      st1.cached_result = as.head?.bind st.transform ∧ st1.transform = st.transform ∧
      Produces st1.base_iterator (as.map some) ∧
      ∀ k, transform_get_counted (some st) k =
        some ((as.head?.bind st.transform, some st1), if as.isEmpty then k else k + 1) := by
  obtain ⟨b, e, hb⟩ := produces_isProducer.get _ _ hp
  cases as with
  | nil =>
    have e2 : st.base_iterator.callGet = some (none, b) := e
    exact ⟨{ st with base_iterator := b }, by simp [transform_get, hc, e2], by simp [hc], rfl,
      hb, fun k => by simp [transform_get_counted, hc, e2]⟩
  | cons a as =>
    have e2 : st.base_iterator.callGet = some (some a, b) := e
    exact ⟨{ st with base_iterator := b, cached_result := st.transform a },
      by simp [transform_get, hc, e2], by simp, rfl, hb,
      fun k => by simp [transform_get_counted, hc, e2]⟩

theorem transform_get_cached (st : TransformState σ α β) (c : β)
    (h : st.cached_result = some c) :
    transform_get (some st) = some (some c, some st) ∧
      ∀ k, transform_get_counted (some st) k = some ((some c, some st), k) := by
  simp [transform_get, transform_get_counted, h]

theorem map_getElem?_join_eq (f : α → Option β) (as : List α) (n : Nat) :
    ((as.map f)[n]?).join = ((as.drop n).head?).bind f := by
  rw [List.head?_drop, List.getElem?_map]
  cases as[n]? <;> rfl

/-- C10. For every well-behaved producer `P` whose elements `as` are all
non-null and every transform function `f`, the consumer loop over
`anv_iterator_transform(P, f)` ends having yielded `f(as[0]), f(as[1]), ...`:
one result per upstream element, in order, `length as` in total; `has_next`
is false afterwards. At every position `n` of the loop the state holds no
cached result before the first `get`; the first `get` returns the result
for the element at that position and stores it in `cached_result`, calling
the transform function once (not at all at the end of the sequence); a
second `get` returns the same result, and when that result is non-null it is
the stored `cached_result` itself: the second `get` leaves the iterator
exactly as it is, upstream included, and calls the transform function no
further time. -/
theorem c10_transform_yields_images (P : ANVIterator σ α) (as : List α)
    (hP : Produces P (as.map some)) (f : α → Option β) (alloc : ANVAllocator)
    (ha : alloc.allocate = true) (transform_allocates : Bool) (fuel : Nat)
    (hfuel : as.length < fuel) :
    (∃ it', (anv_iterator_transform (some P) (some alloc) (some f) transform_allocates
          true).drive fuel = some (as.map f, it') ∧
      (as.map f).length = as.length ∧
      it'.callHasNext.map Prod.fst = some false) ∧
    (∀ n, n ≤ as.length → ∃ stn st1 : TransformState σ α β,
      (anv_iterator_transform (some P) (some alloc) (some f) transform_allocates
          true).rounds n = some (transform_with (some stn)) ∧
      stn.cached_result = none ∧
      (transform_with (some stn)).callGet =
        some (((as.map f)[n]?).join, transform_with (some st1)) ∧
      st1.cached_result = ((as.map f)[n]?).join ∧
      (∃ it2, (transform_with (some st1)).callGet = some (((as.map f)[n]?).join, it2)) ∧
      (∀ c, ((as.map f)[n]?).join = some c →
        (transform_with (some st1)).callGet = some (some c, transform_with (some st1))) ∧
      (∀ k, transform_get_counted (some stn) k =
        some ((((as.map f)[n]?).join, some st1), if n < as.length then k + 1 else k)) ∧
      (∀ k c, ((as.map f)[n]?).join = some c →
        transform_get_counted (some st1) k = some ((some c, some st1), k))) := by
  have hrel : TransformRel f
      (anv_iterator_transform (some P) (some alloc) (some f) transform_allocates true)
      (as.map f) :=
    ⟨{ base_iterator := P, transform := f, cached_result := none,
       transform_allocates := transform_allocates }, as,
      by simp [anv_iterator_transform, anv_alloc_allocate, ha], rfl, hP, rfl, by simp⟩
  have hprod : Produces
      (anv_iterator_transform (some P) (some alloc) (some f) transform_allocates true)
      (as.map f) := ⟨_, transform_isProducer f, hrel⟩
  constructor
  · obtain ⟨it', h1, h2⟩ := produces_drive _ _ hprod fuel (by simpa using hfuel)
    exact ⟨it', h1, List.length_map _ _, (produces_nil_calls it' h2).1⟩
  · intro n hn
    have hit : anv_iterator_transform (some P) (some alloc) (some f) transform_allocates true =
        transform_with (some { base_iterator := P, transform := f, cached_result := none,
                               transform_allocates := transform_allocates }) := by
      simp [anv_iterator_transform, anv_alloc_allocate, ha]
    obtain ⟨stn, r1, r2, r3, r4⟩ := transform_rounds_fresh n
      { base_iterator := P, transform := f, cached_result := none,
        transform_allocates := transform_allocates } as rfl hP hn
    have r2b : stn.transform = f := r2
    obtain ⟨st1, g1, g2, g3, g4, g5⟩ := transform_get_caches stn (as.drop n) r3 r4
    rw [r2b, ← map_getElem?_join_eq] at g1 g2
    have hemp : (as.drop n).isEmpty = !decide (n < as.length) := by
      cases hd : as.drop n with
      | nil =>
        have : as.length ≤ n := List.drop_eq_nil_iff.1 hd
        simp [this]
      | cons x xs =>
        have : n < as.length := by
          by_contra hc
          have h0 := List.drop_eq_nil_iff.2 (Nat.le_of_not_lt hc)
          rw [hd] at h0
          cases h0
        simp [this]
    have hsecond : ∃ it2, (transform_with (some st1)).callGet =
        some (((as.map f)[n]?).join, it2) := by
      cases hcr : st1.cached_result with
      | some c =>
        refine ⟨transform_with (some st1), ?_⟩
        rw [← g2, hcr]
        simp [(transform_get_cached st1 c hcr).1]
      | none =>
        obtain ⟨st2, k1, -, -, -, -⟩ := transform_get_caches st1 (as.drop n) hcr g4
        rw [g3, r2b, ← map_getElem?_join_eq] at k1
        exact ⟨transform_with (some st2), by simp [k1]⟩
    refine ⟨stn, st1, by rw [hit]; exact r1, r3, by simp [g1], g2, hsecond, ?_, ?_, ?_⟩
    · intro c hc
      have := (transform_get_cached st1 c (g2.trans hc)).1
      simp [this]
    · intro k
      rw [g5 k, r2b, ← map_getElem?_join_eq, hemp]
      by_cases hlt : n < as.length <;> simp [hlt]
    · intro k c hc
      exact (transform_get_cached st1 c (g2.trans hc)).2 k

end Transform

theorem c10_transform_yields_images_witness :
    (∃ it', (anv_iterator_transform
          (some (anv_iterator_repeat (some (7 : Nat)) (some anv_alloc_default) 3 true))
          (some anv_alloc_default) (some (fun n => some (n + 1))) false true).drive 4 =
        some ((List.replicate 3 7).map (fun n => some (n + 1)), it') ∧
      ((List.replicate 3 7).map (fun n => some (n + 1))).length = (List.replicate 3 7).length ∧
      it'.callHasNext.map Prod.fst = some false) ∧
    (∀ n, n ≤ (List.replicate 3 7).length →
      ∃ stn st1 : TransformState (RepeatState Nat) Nat Nat,
      (anv_iterator_transform
          (some (anv_iterator_repeat (some (7 : Nat)) (some anv_alloc_default) 3 true))
          (some anv_alloc_default) (some (fun n => some (n + 1))) false true).rounds n =
        some (transform_with (some stn)) ∧
      stn.cached_result = none ∧
      (transform_with (some stn)).callGet =
        some ((((List.replicate 3 7).map (fun n => some (n + 1)))[n]?).join,
          transform_with (some st1)) ∧
      st1.cached_result = (((List.replicate 3 7).map (fun n => some (n + 1)))[n]?).join ∧
      (∃ it2, (transform_with (some st1)).callGet =
        some ((((List.replicate 3 7).map (fun n => some (n + 1)))[n]?).join, it2)) ∧
      (∀ c, (((List.replicate 3 7).map (fun n => some (n + 1)))[n]?).join = some c →
        (transform_with (some st1)).callGet = some (some c, transform_with (some st1))) ∧
      (∀ k, transform_get_counted (some stn) k =
        some (((((List.replicate 3 7).map (fun n => some (n + 1)))[n]?).join, some st1),
          if n < (List.replicate 3 7).length then k + 1 else k)) ∧
      (∀ k c, (((List.replicate 3 7).map (fun n => some (n + 1)))[n]?).join = some c →
        transform_get_counted (some st1) k = some ((some c, some st1), k))) :=
  c10_transform_yields_images _ (List.replicate 3 7)
    (by simpa using repeat_produces 7 anv_alloc_default rfl 3) (fun n => some (n + 1))
    anv_alloc_default rfl false 4 (by decide)

section Chain

variable {σ α : Type}

@[simp] theorem chain_with_callHasNext (ds : Option (ChainState σ α)) :
    (chain_with ds).callHasNext =
      (chain_has_next ds).map fun r => (r.1, chain_with r.2) := rfl

@[simp] theorem chain_with_callGet (ds : Option (ChainState σ α)) :
    (chain_with ds).callGet = (chain_get ds).map fun r => (r.1, chain_with r.2) := rfl

@[simp] theorem chain_with_callNext (ds : Option (ChainState σ α)) :
    (chain_with ds).callNext = (chain_next ds).map fun r => (r.1, chain_with r.2) := rfl

theorem list_getElem?_append_cons {γ : Type} (pre : List γ) (c : γ) (rest : List γ) :
    (pre ++ c :: rest)[pre.length]? = some c := by
  induction pre with
  | nil => simp
  | cons a pre ih => simpa using ih

theorem list_set_append_cons {γ : Type} (pre : List γ) (c d : γ) (rest : List γ) :
    (pre ++ c :: rest).set pre.length d = pre ++ d :: rest := by
  induction pre with
  | nil => rfl
  | cons a pre ih => simp [ih]

theorem chain_has_next_loop_spec (post : List (ANVIterator σ α)) :
    ∀ (xss : List (List (Option α))) (pre : List (ANVIterator σ α)),
      List.Forall₂ Produces post xss →
      ∃ (pre1 post1 : List (ANVIterator σ α)) (xss1 : List (List (Option α))),
        chain_has_next_loop post.length pre.length
            { iterators := pre ++ post, current_iterator_index := pre.length } =
          some (!xss.flatten.isEmpty,
            { iterators := pre1 ++ post1, current_iterator_index := pre1.length }) ∧
        List.Forall₂ Produces post1 xss1 ∧ xss1.flatten = xss.flatten ∧
        (xss.flatten ≠ [] → ∃ cur rest x xs r, post1 = cur :: rest ∧ xss1 = (x :: xs) :: r) := by
  induction post with
  | nil =>
    intro xss pre h
    cases h
    exact ⟨pre, [], [], by simp [chain_has_next_loop], List.Forall₂.nil, rfl, by simp⟩
  | cons cur rest ih =>
    intro xss pre h
    cases h with
    | cons hcur hrest =>
      rename_i xs0 r
      obtain ⟨cur1, e1, h1⟩ := produces_isProducer.has_next _ _ hcur
      cases xs0 with
      | cons x xs =>
        refine ⟨pre, cur1 :: rest, (x :: xs) :: r, ?_, List.Forall₂.cons h1 hrest, rfl,
          fun _ => ⟨cur1, rest, x, xs, r, rfl, rfl⟩⟩
        simp only [List.isEmpty_cons, Bool.not_false] at e1
        simp only [chain_has_next_loop, List.length_cons, list_getElem?_append_cons, e1,
          list_set_append_cons, List.flatten_cons, List.cons_append, List.isEmpty_cons,
          Bool.not_false]
      | nil =>
        obtain ⟨pre1, post1, xss1, e2, h2, hj, hne⟩ := ih r (pre ++ [cur1]) hrest
        refine ⟨pre1, post1, xss1, ?_, h2, by simpa using hj, by simpa using hne⟩
        simp only [List.isEmpty_nil, Bool.not_true] at e1
        simp only [List.length_append, List.length_singleton, List.append_assoc,
          List.singleton_append] at e2
        simp only [chain_has_next_loop, List.length_cons, list_getElem?_append_cons, e1,
          list_set_append_cons, e2, List.flatten_cons, List.nil_append]

theorem chain_has_next_spec (st : ChainState σ α) (pre post : List (ANVIterator σ α))
    (xss : List (List (Option α))) (hi : st.iterators = pre ++ post)
    (hx : st.current_iterator_index = pre.length) (h : List.Forall₂ Produces post xss) :
    ∃ (pre1 post1 : List (ANVIterator σ α)) (xss1 : List (List (Option α))),
      chain_has_next (some st) =
        some (!xss.flatten.isEmpty,
          some { iterators := pre1 ++ post1, current_iterator_index := pre1.length }) ∧
      List.Forall₂ Produces post1 xss1 ∧ xss1.flatten = xss.flatten ∧
      (xss.flatten ≠ [] → ∃ cur rest x xs r, post1 = cur :: rest ∧ xss1 = (x :: xs) :: r) := by
  obtain ⟨its, idx⟩ := st
  simp only at hi hx
  subst hi hx
  obtain ⟨pre1, post1, xss1, e, h2, hj, hne⟩ := chain_has_next_loop_spec post xss pre h
  refine ⟨pre1, post1, xss1, ?_, h2, hj, hne⟩
  simp [chain_has_next, ChainState.iterator_count, e]

theorem chainInv_driveInv : DriveInv (@ChainInv σ α) := by
  constructor
  · rintro it ⟨st, pre, post, xss, rfl, hi, hx, h, hy⟩
    obtain ⟨pre1, post1, xss1, e, h2, hj, -⟩ := chain_has_next_spec st pre post xss hi hx h
    rw [← hy] at e
    exact ⟨chain_with (some
        { iterators := pre1 ++ post1, current_iterator_index := pre1.length }),
      by simp [e], _, pre1, post1, xss1, rfl, rfl, rfl, h2, by rw [hj, hy]⟩
  · rintro it y ys ⟨st, pre, post, xss, rfl, hi, hx, h, hy⟩
    obtain ⟨pre1, post1, xss1, e, h2, hj, hne⟩ := chain_has_next_spec st pre post xss hi hx h
    rw [← hy] at e
    obtain ⟨cur, rest, x, xs, r, rfl, rfl⟩ := hne (by rw [← hy]; simp)
    cases h2 with
    | cons hcur hrest =>
      have hxy : x = y ∧ xs ++ r.flatten = ys := by
        have : (x :: xs) ++ r.flatten = y :: ys := by rw [hy, ← hj]; simp
        simpa using this
      obtain ⟨cur1, g1, hc1⟩ := produces_isProducer.get _ _ hcur
      have g1b : cur.callGet = some (x, cur1) := g1
      obtain ⟨cur2, n1, hc2⟩ := produces_isProducer.next_cons _ _ _ hc1
      refine ⟨chain_with (some
          { iterators := pre1 ++ cur :: rest, current_iterator_index := pre1.length }),
        chain_with (some
          { iterators := pre1 ++ cur1 :: rest, current_iterator_index := pre1.length }),
        0,
        chain_with (some
          { iterators := pre1 ++ cur2 :: rest, current_iterator_index := pre1.length }),
        by simp [e], ?_, ?_,
        _, pre1, cur2 :: rest, xs :: r, rfl, rfl, rfl, List.Forall₂.cons hc2 hrest, ?_⟩
      · have hlt : ¬ pre1.length ≥ (pre1 ++ cur :: rest).length := by simp
        simp only [chain_with_callGet, chain_get, ChainState.iterator_count, hlt, if_false,
          list_getElem?_append_cons, g1b, list_set_append_cons, Option.map_some', hxy.1]
      · have hlt : ¬ pre1.length ≥ (pre1 ++ cur1 :: rest).length := by simp
        simp only [chain_with_callNext, chain_next, ChainState.iterator_count, hlt, if_false,
          list_getElem?_append_cons, n1, list_set_append_cons, Option.map_some', if_true]
      · simp [hxy.2]

/-- C5. For all well-behaved producers `A` and `B` (over one state type) with
element sequences `as` and `bs`, either possibly empty, the consumer loop over
the chain iterator built from the array `[A, B]` ends having yielded exactly
`as` followed by `bs`, in order, `length as + length bs` elements in total,
and `has_next` is false afterwards. -/
theorem c5_chain_yields_concatenation (A B : ANVIterator σ α) (as bs : List (Option α))
    (hA : Produces A as) (hB : Produces B bs) (alloc : ANVAllocator)
    (ha : alloc.allocate = true) (fuel : Nat) (hfuel : as.length + bs.length < fuel) :
    ∃ it', (anv_iterator_chain (some [A, B]) (some alloc) true true).drive fuel =
        some (as ++ bs, it') ∧
      (as ++ bs).length = as.length + bs.length ∧
      it'.callHasNext.map Prod.fst = some false := by
  have hinv : ChainInv (anv_iterator_chain (some [A, B]) (some alloc) true true) (as ++ bs) :=
    ⟨{ iterators := [A, B], current_iterator_index := 0 }, [], [A, B], [as, bs],
      by simp [anv_iterator_chain, anv_alloc_allocate, ha], rfl, rfl,
      List.Forall₂.cons hA (List.Forall₂.cons hB List.Forall₂.nil), by simp⟩
  obtain ⟨it', h1, h2⟩ :=
    drive_of_inv_hasNext chainInv_driveInv _ _ hinv fuel (by simpa using hfuel)
  exact ⟨it', h1, List.length_append _ _, h2⟩

end Chain

theorem c5_chain_yields_concatenation_witness :
    ∃ it', (anv_iterator_chain
        (some [anv_iterator_repeat (some (1 : Nat)) (some anv_alloc_default) 2 true,
               anv_iterator_repeat (some (2 : Nat)) (some anv_alloc_default) 3 true])
        (some anv_alloc_default) true true).drive 6 =
        some (List.replicate 2 (some 1) ++ List.replicate 3 (some 2), it') ∧
      (List.replicate 2 (some 1) ++ List.replicate 3 (some 2)).length =
        (List.replicate 2 (some 1)).length + (List.replicate 3 (some 2)).length ∧
      it'.callHasNext.map Prod.fst = some false :=
  c5_chain_yields_concatenation _ _ _ _ (repeat_produces 1 anv_alloc_default rfl 2)
    (repeat_produces 2 anv_alloc_default rfl 3) anv_alloc_default rfl 6 (by decide)

section Range

@[simp] theorem range_with_callHasNext (ds : Option RangeState) :
    (range_with ds).callHasNext =
      some ((range_has_next ds).1, range_with (range_has_next ds).2) := rfl

@[simp] theorem range_with_callGet (ds : Option RangeState) :
    (range_with ds).callGet = some ((range_get ds).1, range_with (range_get ds).2) := rfl

@[simp] theorem range_with_callNext (ds : Option RangeState) :
    (range_with ds).callNext = some ((range_next ds).1, range_with (range_next ds).2) := rfl

theorem int_wrap_of_is_int (x : Int) (h : is_int x) : int_wrap x = x := by
  unfold is_int at h
  unfold int_wrap
  omega

theorem range_values_succ (start step : Int) (n : Nat) :
    range_values start step (n + 1) = start :: range_values (start + step) step n := by
  unfold range_values
  rw [List.range_succ_eq_map]
  simp only [List.map_cons, List.map_map, Nat.cast_zero, zero_mul, add_zero, List.cons.injEq,
    true_and]
  apply List.map_congr_left
  intro i _
  simp only [Function.comp, Nat.succ_eq_add_one, Nat.cast_add, Nat.cast_one]
  ring

theorem range_has_next_eq (st : RangeState) :
    range_has_next (some st) =
      (decide (range_before st.end_ st.step st.current), some st) := by
  unfold range_has_next range_before
  by_cases h1 : st.step > 0
  · have h2 : ¬ st.step < 0 := by omega
    simp [h1, h2]
  · by_cases h2 : st.step < 0
    · simp [h1, h2]
    · simp [h1, h2]

theorem range_isProducer (end_ step : Int) : IsProducer (RangeRel end_ step) := by
  constructor
  · rintro it xs ⟨st, n, rfl, he, hs, rfl, hin, hout, hov⟩
    refine ⟨range_with (some st), ?_, st, n, rfl, he, hs, rfl, hin, hout, hov⟩
    rw [range_with_callHasNext, range_has_next_eq, he, hs]
    cases n with
    | zero =>
      have h0 : ¬ range_before end_ step st.current := by simpa using hout
      simp [h0, range_values]
    | succ m =>
      have h0 : range_before end_ step st.current := by simpa using hin 0 (by omega)
      simp [h0, range_values_succ]
  · rintro it xs ⟨st, n, rfl, he, hs, rfl, hin, hout, hov⟩
    cases n with
    | zero =>
      have h0 : ¬ range_before end_ step st.current := by simpa using hout
      refine ⟨range_with (some st), ?_, st, 0, rfl, he, hs, rfl, hin, hout, hov⟩
      unfold range_before at h0
      rw [← he, ← hs] at h0
      simp [range_get, h0, range_values]
    | succ m =>
      have h0 : range_before end_ step st.current := by simpa using hin 0 (by omega)
      refine ⟨range_with (some { st with cached_value := st.current }), ?_,
        _, m + 1, rfl, he, hs, rfl, hin, hout, hov⟩
      unfold range_before at h0
      rw [← he, ← hs] at h0
      simp [range_get, h0, range_values_succ]
  · rintro it x xs ⟨st, n, rfl, he, hs, hx, hin, hout, hov⟩
    cases n with
    | zero => simp [range_values] at hx
    | succ m =>
      rw [range_values_succ] at hx
      have h0 : range_before end_ step st.current := by simpa using hin 0 (by omega)
      have h1 : is_int (st.current + step) := by simpa using hov 1 (by omega)
      refine ⟨range_with (some { st with current := st.current + step }), ?_,
        _, m, rfl, he, hs, ?_, ?_, ?_, ?_⟩
      · rw [range_with_callNext]
        simp only [range_next, range_has_next_eq, he, hs, h0, decide_True, Bool.not_true,
          Bool.false_eq_true, if_false, int_wrap_of_is_int _ h1]
      · simp only [List.map_cons, List.cons.injEq] at hx
        exact hx.2
      · intro i hi
        have := hin (i + 1) (by omega)
        simp only [Nat.cast_add, Nat.cast_one] at this
        have e : st.current + step + (i : Int) * step = st.current + ((i : Int) + 1) * step := by
          ring
        simpa [e] using this
      · have e : st.current + step + (m : Int) * step =
            st.current + ((m + 1 : Nat) : Int) * step := by
          push_cast; ring
        simpa [e] using hout
      · intro i hi
        have := hov (i + 1) (by omega)
        have e : st.current + step + (i : Int) * step =
            st.current + ((i + 1 : Nat) : Int) * step := by
          push_cast; ring
        simpa [e] using this
  · rintro it ⟨st, n, rfl, he, hs, hx, hin, hout, hov⟩
    cases n with
    | succ m => simp [range_values_succ] at hx
    | zero =>
      have h0 : ¬ range_before end_ step st.current := by simpa using hout
      refine ⟨range_with (some st), ?_, st, 0, rfl, he, hs, hx, hin, hout, hov⟩
      rw [range_with_callNext]
      simp [range_next, range_has_next_eq, he, hs, h0]

theorem range_steps_is_int (start step : Int) (n : Nat) (hs : is_int start)
    (hov : is_int (start + (n : Int) * step)) :
    ∀ i : Nat, i ≤ n → is_int (start + (i : Int) * step) := by
  intro i hi
  unfold is_int at *
  have hi2 : (i : Int) ≤ (n : Int) := by exact_mod_cast hi
  have hi0 : (0 : Int) ≤ (i : Int) := by exact_mod_cast Nat.zero_le i
  rcases le_total 0 step with h | h
  · have h1 : 0 ≤ (i : Int) * step := mul_nonneg hi0 h
    have h2 : (i : Int) * step ≤ (n : Int) * step := mul_le_mul_of_nonneg_right hi2 h
    constructor <;> linarith
  · have h1 : (i : Int) * step ≤ 0 := mul_nonpos_of_nonneg_of_nonpos hi0 h
    have h2 : (n : Int) * step ≤ (i : Int) * step := mul_le_mul_of_nonpos_right hi2 h
    constructor <;> linarith

theorem range_produces (alloc : ANVAllocator) (ha : alloc.allocate = true)
    (start end_ step : Int) (hs : is_int start)
    (hacc : ¬ (step = 0 ∨ (start < end_ ∧ step < 0) ∨ (start > end_ ∧ step > 0)))
    (n : Nat) (hin : ∀ i : Nat, i < n → range_before end_ step (start + (i : Int) * step))
    (hout : ¬ range_before end_ step (start + (n : Int) * step))
    (hov : is_int (start + (n : Int) * step)) :
    Produces (anv_iterator_range (some alloc) start end_ step true)
      ((range_values start step n).map some) :=
  ⟨_, range_isProducer end_ step,
    { start := start, current := start, end_ := end_, step := step, cached_value := start }, n,
    by simp [anv_iterator_range, anv_alloc_allocate, ha, hacc], rfl, rfl, rfl, hin, hout,
    range_steps_is_int start step n hs hov⟩

/-- C11. For all values `start` (an `int`), `end`, `step` that
`anv_iterator_range` accepts, with `n` the number of values `start + i*step` lying strictly before
`end` in the direction of `step` and `start + n*step` not overflowing `int`,
the consumer loop over the range iterator ends having yielded exactly
`start, start + step, ..., start + (n-1)*step`, and `has_next` is false
afterwards; `start = end` gives `n = 0`, hence nothing; `range(0, 10, 2)`
yields 0, 2, 4, 6, 8 and `range(10, 0, -3)` yields 10, 7, 4, 1. -/
theorem c11_range_yields_progression (alloc : ANVAllocator) (ha : alloc.allocate = true)
    (start end_ step : Int) (hs : is_int start)
    (hacc : ¬ (step = 0 ∨ (start < end_ ∧ step < 0) ∨ (start > end_ ∧ step > 0)))
    (n : Nat) (hin : ∀ i : Nat, i < n → range_before end_ step (start + (i : Int) * step))
    (hout : ¬ range_before end_ step (start + (n : Int) * step))
    (hov : is_int (start + (n : Int) * step)) (fuel : Nat) (hfuel : n < fuel) :
    (∃ it', (anv_iterator_range (some alloc) start end_ step true).drive fuel =
        some ((range_values start step n).map some, it') ∧
      it'.callHasNext.map Prod.fst = some false) ∧
    (start = end_ → n = 0) ∧
    ((anv_iterator_range (some anv_alloc_default) 0 10 2 true).drive 6).map Prod.fst =
      some [some 0, some 2, some 4, some 6, some 8] ∧
    ((anv_iterator_range (some anv_alloc_default) 10 0 (-3) true).drive 5).map Prod.fst =
      some [some 10, some 7, some 4, some 1] ∧
    ((anv_iterator_range (some anv_alloc_default) 3 3 1 true).drive 1).map Prod.fst =
      some [] := by
  refine ⟨?_, ?_, by decide, by decide, by decide⟩
  · obtain ⟨it', h1, h2⟩ :=
      produces_drive _ _ (range_produces alloc ha start end_ step hs hacc n hin hout hov) fuel
        (by simpa [range_values] using hfuel)
    exact ⟨it', h1, (produces_nil_calls it' h2).1⟩
  · intro heq
    by_contra hn
    have h0 := hin 0 (by omega)
    unfold range_before at h0
    subst heq
    simp at h0

end Range

theorem c11_range_yields_progression_witness :
    (∃ it', (anv_iterator_range (some anv_alloc_default) 0 10 2 true).drive 6 =
        some ((range_values 0 2 5).map some, it') ∧
      it'.callHasNext.map Prod.fst = some false) ∧
    ((0 : Int) = 10 → 5 = 0) ∧
    ((anv_iterator_range (some anv_alloc_default) 0 10 2 true).drive 6).map Prod.fst =
      some [some 0, some 2, some 4, some 6, some 8] ∧
    ((anv_iterator_range (some anv_alloc_default) 10 0 (-3) true).drive 5).map Prod.fst =
      some [some 10, some 7, some 4, some 1] ∧
    ((anv_iterator_range (some anv_alloc_default) 3 3 1 true).drive 1).map Prod.fst =
      some [] :=
  c11_range_yields_progression anv_alloc_default rfl 0 10 2 (by decide)
    (by decide) 5 (by intro i hi; unfold range_before; omega)
    (by unfold range_before; omega) (by decide) 6 (by decide)

section RangeValidity

/-- C12. Given a non-null allocator whose allocation succeeds,
`anv_iterator_range(start, end, step)` returns an iterator with `is_valid`
false exactly when `step = 0`, or `start < end` with `step < 0`, or
`start > end` with `step > 0`; that iterator has `has_next` false, `get`
returning `NULL` and `next` returning `-1`; for every other argument triple
`is_valid` is true. -/
theorem c12_range_invalid_iff_rejected (alloc : ANVAllocator) (ha : alloc.allocate = true)
    (start end_ step : Int) :
    ((anv_iterator_range (some alloc) start end_ step true).callIsValid = false ↔
      (step = 0 ∨ (start < end_ ∧ step < 0) ∨ (start > end_ ∧ step > 0))) ∧
    ((step = 0 ∨ (start < end_ ∧ step < 0) ∨ (start > end_ ∧ step > 0)) →
      (anv_iterator_range (some alloc) start end_ step true).callHasNext.map Prod.fst =
        some false ∧
      (anv_iterator_range (some alloc) start end_ step true).callGet.map Prod.fst =
        some none ∧
      (anv_iterator_range (some alloc) start end_ step true).callNext.map Prod.fst =
        some (-1)) ∧
    (¬ (step = 0 ∨ (start < end_ ∧ step < 0) ∨ (start > end_ ∧ step > 0)) →
      (anv_iterator_range (some alloc) start end_ step true).callIsValid = true) := by
  by_cases h : step = 0 ∨ (start < end_ ∧ step < 0) ∨ (start > end_ ∧ step > 0)
  · have hit : anv_iterator_range (some alloc) start end_ step true = range_with none := by
      simp [anv_iterator_range, h]
    rw [hit]
    refine ⟨⟨fun _ => h, fun _ => rfl⟩, fun _ => ⟨rfl, rfl, rfl⟩, fun hn => absurd h hn⟩
  · have hit : anv_iterator_range (some alloc) start end_ step true =
        range_with (some { start := start, current := start, end_ := end_, step := step,
                           cached_value := start }) := by
      simp [anv_iterator_range, h, anv_alloc_allocate, ha]
    rw [hit]
    refine ⟨⟨fun hv => ?_, fun hc => absurd hc h⟩, fun hc => absurd hc h, fun _ => rfl⟩
    simp [ANVIterator.callIsValid, range_with, range_is_valid] at hv

end RangeValidity

theorem c12_range_invalid_iff_rejected_witness :
    ((anv_iterator_range (some anv_alloc_default) 0 10 (-1) true).callIsValid = false ↔
      ((-1 : Int) = 0 ∨ ((0 : Int) < 10 ∧ (-1 : Int) < 0) ∨ ((0 : Int) > 10 ∧ (-1 : Int) > 0))) ∧
    (((-1 : Int) = 0 ∨ ((0 : Int) < 10 ∧ (-1 : Int) < 0) ∨ ((0 : Int) > 10 ∧ (-1 : Int) > 0)) →
      (anv_iterator_range (some anv_alloc_default) 0 10 (-1) true).callHasNext.map Prod.fst =
        some false ∧
      (anv_iterator_range (some anv_alloc_default) 0 10 (-1) true).callGet.map Prod.fst =
        some none ∧
      (anv_iterator_range (some anv_alloc_default) 0 10 (-1) true).callNext.map Prod.fst =
        some (-1)) ∧
    (¬ ((-1 : Int) = 0 ∨ ((0 : Int) < 10 ∧ (-1 : Int) < 0) ∨
        ((0 : Int) > 10 ∧ (-1 : Int) > 0)) →
      (anv_iterator_range (some anv_alloc_default) 0 10 (-1) true).callIsValid = true) :=
  c12_range_invalid_iff_rejected anv_alloc_default rfl 0 10 (-1)

section Exhaustion

variable {α : Type}

theorem bst_next_when_exhausted (st : BSTIteratorState α)
    (h : (bst_iterator_has_next (some st)).1 = false) :
    (bst_iterator_next (some st)).1 = 0 := by
  by_cases hf : st.finished = true
  · simp [bst_iterator_next, hf]
  · have hf2 : st.finished = false := by simpa using hf
    simp only [bst_iterator_has_next, hf2, Bool.not_false, Bool.true_and, Bool.or_eq_false_iff,
      Bool.not_eq_false'] at h
    obtain ⟨hc, -⟩ := h
    cases hty : st.traversal_type <;>
      simp [bst_iterator_next, hf2, hty, bst_iterator_next_inorder, bst_iterator_next_preorder,
        bst_iterator_next_postorder, hc]

/-- C16 (the code departs from it). On an exhausted BST iterator `next`
returns `0`, the success code: shown for the three iterators over an empty
tree, where `has_next` is false from the start, and for the three iterators
over the tree built from 5, 3, 8, 1, 4 after the consumer loop has ended. -/
theorem c16_bst_next_on_exhausted_returns_zero :
    ((anv_bst_iterator (some (anv_bst_create int_compare))).callHasNext.map Prod.fst =
        some false ∧
      (anv_bst_iterator (some (anv_bst_create int_compare))).callNext.map Prod.fst =
        some 0) ∧
    ((anv_bst_iterator_preorder (some (anv_bst_create int_compare))).callHasNext.map Prod.fst =
        some false ∧
      (anv_bst_iterator_preorder (some (anv_bst_create int_compare))).callNext.map Prod.fst =
        some 0) ∧
    ((anv_bst_iterator_postorder (some (anv_bst_create int_compare))).callHasNext.map Prod.fst =
        some false ∧
      (anv_bst_iterator_postorder (some (anv_bst_create int_compare))).callNext.map Prod.fst =
        some 0) ∧
    (((anv_bst_iterator (some bst_example_tree)).drive 6).bind
        (fun r => r.2.callHasNext.map Prod.fst) = some false ∧
      ((anv_bst_iterator (some bst_example_tree)).drive 6).bind
        (fun r => r.2.callNext.map Prod.fst) = some 0) ∧
    (((anv_bst_iterator_preorder (some bst_example_tree)).drive 6).bind
        (fun r => r.2.callNext.map Prod.fst) = some 0) ∧
    (((anv_bst_iterator_postorder (some bst_example_tree)).drive 6).bind
        (fun r => r.2.callNext.map Prod.fst) = some 0) := by
  decide

/-- C17 (the code departs from it). On a fresh chain iterator over two empty
sources, which is valid and exhausted, `next` called without a preceding
`has_next` returns `0`: it only moves the source index from 0 to 1. Called
after `has_next` it returns `-1`. -/
theorem c17_chain_next_on_exhausted_returns_zero :
    (anv_iterator_chain
        (some [anv_iterator_repeat (some (1 : Nat)) (some anv_alloc_default) 0 true,
               anv_iterator_repeat (some (2 : Nat)) (some anv_alloc_default) 0 true])
        (some anv_alloc_default) true true).callIsValid = true ∧
    (anv_iterator_chain
        (some [anv_iterator_repeat (some (1 : Nat)) (some anv_alloc_default) 0 true,
               anv_iterator_repeat (some (2 : Nat)) (some anv_alloc_default) 0 true])
        (some anv_alloc_default) true true).callHasNext.map Prod.fst = some false ∧
    (anv_iterator_chain
        (some [anv_iterator_repeat (some (1 : Nat)) (some anv_alloc_default) 0 true,
               anv_iterator_repeat (some (2 : Nat)) (some anv_alloc_default) 0 true])
        (some anv_alloc_default) true true).callNext.map Prod.fst = some 0 ∧
    ((anv_iterator_chain
        (some [anv_iterator_repeat (some (1 : Nat)) (some anv_alloc_default) 0 true,
               anv_iterator_repeat (some (2 : Nat)) (some anv_alloc_default) 0 true])
        (some anv_alloc_default) true true).callHasNext.bind
      (fun r => r.2.callNext.map Prod.fst)) = some (-1) := by
  decide

/-- C18 (the code departs from it). On a fresh chain iterator whose first
source is empty and whose second source holds three elements, `has_next` is
true, yet `get` called without a preceding `has_next` returns `NULL`: it
reads the first source. Called after `has_next` it returns the element. -/
theorem c18_chain_get_before_has_next_is_null :
    (anv_iterator_chain
        (some [anv_iterator_repeat (some (1 : Nat)) (some anv_alloc_default) 0 true,
               anv_iterator_repeat (some (2 : Nat)) (some anv_alloc_default) 3 true])
        (some anv_alloc_default) true true).callIsValid = true ∧
    (anv_iterator_chain
        (some [anv_iterator_repeat (some (1 : Nat)) (some anv_alloc_default) 0 true,
               anv_iterator_repeat (some (2 : Nat)) (some anv_alloc_default) 3 true])
        (some anv_alloc_default) true true).callHasNext.map Prod.fst = some true ∧
    (anv_iterator_chain
        (some [anv_iterator_repeat (some (1 : Nat)) (some anv_alloc_default) 0 true,
               anv_iterator_repeat (some (2 : Nat)) (some anv_alloc_default) 3 true])
        (some anv_alloc_default) true true).callGet.map Prod.fst = some none ∧
    ((anv_iterator_chain
        (some [anv_iterator_repeat (some (1 : Nat)) (some anv_alloc_default) 0 true,
               anv_iterator_repeat (some (2 : Nat)) (some anv_alloc_default) 3 true])
        (some anv_alloc_default) true true).callHasNext.bind
      (fun r => r.2.callGet.map Prod.fst)) = some (some 2) := by
  decide

end Exhaustion

section InvalidConstruction

variable {σ τ α β : Type}

theorem transform_with_none_isInvalid :
    (transform_with (none : Option (TransformState σ α β))).IsInvalid :=
  ⟨rfl, rfl, rfl, rfl, rfl, rfl, rfl, rfl, rfl⟩

theorem filter_with_none_isInvalid (fuel : Nat) :
    (filter_with fuel (none : Option (FilterState σ α))).IsInvalid :=
  ⟨rfl, rfl, rfl, rfl, rfl, rfl, rfl, rfl, rfl⟩

theorem copy_with_none_isInvalid :
    (copy_with (none : Option (CopyState σ α))).IsInvalid :=
  ⟨rfl, rfl, rfl, rfl, rfl, rfl, rfl, rfl, rfl⟩

theorem take_with_none_isInvalid :
    (take_with (none : Option (TakeState σ α))).IsInvalid :=
  ⟨rfl, rfl, rfl, rfl, rfl, rfl, rfl, rfl, rfl⟩

theorem skip_with_none_isInvalid :
    (skip_with (none : Option (SkipState σ α))).IsInvalid :=
  ⟨rfl, rfl, rfl, rfl, rfl, rfl, rfl, rfl, rfl⟩

theorem zip_with_none_isInvalid :
    (zip_with (none : Option (ZipState σ τ α β))).IsInvalid :=
  ⟨rfl, rfl, rfl, rfl, rfl, rfl, rfl, rfl, rfl⟩

theorem enumerate_with_none_isInvalid :
    (enumerate_with (none : Option (EnumerateState σ α))).IsInvalid :=
  ⟨rfl, rfl, rfl, rfl, rfl, rfl, rfl, rfl, rfl⟩

theorem chain_with_none_isInvalid :
    (chain_with (none : Option (ChainState σ α))).IsInvalid :=
  ⟨rfl, rfl, rfl, rfl, rfl, rfl, rfl, rfl, rfl⟩

theorem repeat_with_none_isInvalid :
    (repeat_with (none : Option (RepeatState α))).IsInvalid :=
  ⟨rfl, rfl, rfl, rfl, rfl, rfl, rfl, rfl, rfl⟩

/-- C19. Each combinator constructor (transform, filter, copy, take, skip,
zip, enumerate, chain, repeat) returns a structurally invalid iterator when
its upstream iterator is null, when its allocator is null, when its function
is null (transform, filter, copy), when its array is null or of length zero
(chain), or when its value is null (repeat), whatever the other arguments
are: `is_valid` and `has_next` are false, `get` returns `NULL`, `next`
returns `-1`, `has_prev` is false, `prev` returns `-1`, and no call,
`reset` and `destroy` included, changes the iterator. -/
theorem c19_constructors_reject_null_arguments
    (it : Option (ANVIterator σ α)) (it2 : Option (ANVIterator τ β))
    (its : Option (List (ANVIterator σ α))) (alloc : Option ANVAllocator)
    (f : Option (α → Option β)) (p : Option (α → Bool)) (cp : Option (α → Option α))
    (v : Option α) (count fuel : Nat) (ta mem mem2 garbage : Bool) :
    ((anv_iterator_transform (none : Option (ANVIterator σ α)) alloc f ta mem).IsInvalid ∧
      (anv_iterator_transform it none f ta mem).IsInvalid ∧
      (anv_iterator_transform it alloc (none : Option (α → Option β)) ta mem).IsInvalid) ∧
    ((anv_iterator_filter (none : Option (ANVIterator σ α)) alloc p mem garbage fuel).IsInvalid ∧
      (anv_iterator_filter it none p mem garbage fuel).IsInvalid ∧
      (anv_iterator_filter it alloc none mem garbage fuel).IsInvalid) ∧
    ((anv_iterator_copy (none : Option (ANVIterator σ α)) alloc cp mem).IsInvalid ∧
      (anv_iterator_copy it none cp mem).IsInvalid ∧
      (anv_iterator_copy it alloc none mem).IsInvalid) ∧
    ((anv_iterator_take (none : Option (ANVIterator σ α)) alloc count mem).IsInvalid ∧
      (anv_iterator_take it none count mem).IsInvalid) ∧
    ((anv_iterator_skip (none : Option (ANVIterator σ α)) alloc count mem).IsInvalid ∧
      (anv_iterator_skip it none count mem).IsInvalid) ∧
    ((anv_iterator_zip (none : Option (ANVIterator σ α)) it2 alloc mem mem2).IsInvalid ∧
      (anv_iterator_zip it (none : Option (ANVIterator τ β)) alloc mem mem2).IsInvalid ∧
      (anv_iterator_zip it it2 none mem mem2).IsInvalid) ∧
    ((anv_iterator_enumerate (none : Option (ANVIterator σ α)) alloc count mem).IsInvalid ∧
      (anv_iterator_enumerate it none count mem).IsInvalid) ∧
    ((anv_iterator_chain (none : Option (List (ANVIterator σ α))) alloc mem mem2).IsInvalid ∧
      (anv_iterator_chain (some ([] : List (ANVIterator σ α))) alloc mem mem2).IsInvalid ∧
      (anv_iterator_chain its none mem mem2).IsInvalid) ∧
    ((anv_iterator_repeat (none : Option α) alloc count mem).IsInvalid ∧
      (anv_iterator_repeat v none count mem).IsInvalid) := by
  refine ⟨⟨?_, ?_, ?_⟩, ⟨?_, ?_, ?_⟩, ⟨?_, ?_, ?_⟩, ⟨?_, ?_⟩, ⟨?_, ?_⟩, ⟨?_, ?_, ?_⟩,
    ⟨?_, ?_⟩, ⟨?_, ?_, ?_⟩, ⟨?_, ?_⟩⟩
  · exact transform_with_none_isInvalid
  · cases it <;> cases f <;> exact transform_with_none_isInvalid
  · cases it <;> cases alloc <;> exact transform_with_none_isInvalid
  · exact filter_with_none_isInvalid fuel
  · cases it <;> cases p <;> exact filter_with_none_isInvalid fuel
  · cases it <;> cases alloc <;> exact filter_with_none_isInvalid fuel
  · exact copy_with_none_isInvalid
  · cases it <;> cases cp <;> exact copy_with_none_isInvalid
  · cases it <;> cases alloc <;> exact copy_with_none_isInvalid
  · exact take_with_none_isInvalid
  · cases it <;> exact take_with_none_isInvalid
  · exact skip_with_none_isInvalid
  · cases it <;> exact skip_with_none_isInvalid
  · exact zip_with_none_isInvalid
  · cases it <;> cases alloc <;> exact zip_with_none_isInvalid
  · cases it <;> cases it2 <;> exact zip_with_none_isInvalid
  · exact enumerate_with_none_isInvalid
  · cases it <;> exact enumerate_with_none_isInvalid
  · exact chain_with_none_isInvalid
  · cases alloc <;> exact chain_with_none_isInvalid
  · cases its <;> exact chain_with_none_isInvalid
  · exact repeat_with_none_isInvalid
  · cases v <;> exact repeat_with_none_isInvalid

end InvalidConstruction

section DllBasics

variable {α : Type}

@[simp] theorem set_next_same (m : DllMem α) (p : Nat) (v : Option Nat) :
    (set_next m p v p).next = v := by simp [set_next]

@[simp] theorem set_next_prev (m : DllMem α) (p : Nat) (v : Option Nat) (a : Nat) :
    (set_next m p v a).prev = (m a).prev := by
  unfold set_next; split <;> simp_all

@[simp] theorem set_next_data (m : DllMem α) (p : Nat) (v : Option Nat) (a : Nat) :
    (set_next m p v a).data = (m a).data := by
  unfold set_next; split <;> simp_all

theorem set_next_other (m : DllMem α) (p : Nat) (v : Option Nat) (a : Nat) (h : a ≠ p) :
    set_next m p v a = m a := by simp [set_next, h]

@[simp] theorem set_prev_same (m : DllMem α) (p : Nat) (v : Option Nat) :
    (set_prev m p v p).prev = v := by simp [set_prev]

@[simp] theorem set_prev_next (m : DllMem α) (p : Nat) (v : Option Nat) (a : Nat) :
    (set_prev m p v a).next = (m a).next := by
  unfold set_prev; split <;> simp_all

@[simp] theorem set_prev_data (m : DllMem α) (p : Nat) (v : Option Nat) (a : Nat) :
    (set_prev m p v a).data = (m a).data := by
  unfold set_prev; split <;> simp_all

theorem set_prev_other (m : DllMem α) (p : Nat) (v : Option Nat) (a : Nat) (h : a ≠ p) :
    set_prev m p v a = m a := by simp [set_prev, h]

theorem dll_le_congr (cmp : Option α → Option α → Int) (m1 m : DllMem α)
    (h : ∀ a, (m1 a).data = (m a).data) : dll_le cmp m1 = dll_le cmp m := by
  funext a b
  simp [dll_le, h]

theorem DSeg_congr (m1 m : DllMem α) :
    ∀ (as : List Nat) (q p e : Option Nat), (∀ a ∈ as, m1 a = m a) →
      DSeg m q p as e → DSeg m1 q p as e := by
  intro as
  induction as with
  | nil => intro q p e _ h; exact h
  | cons a as ih =>
    intro q p e hm h
    obtain ⟨h1, h2, h3⟩ := h
    have ha : m1 a = m a := hm a (List.mem_cons_self _ _)
    refine ⟨h1, by rw [ha]; exact h2, ?_⟩
    rw [ha]
    exact ih _ _ _ (fun b hb => hm b (List.mem_cons_of_mem _ hb)) h3

theorem DSeg_head (m : DllMem α) (as : List Nat) (q p : Option Nat)
    (h : DSeg m q p as none) : p = as.head? := by
  cases as with
  | nil => exact h
  | cons a as => exact h.1

@[simp] theorem dlast_append (q : Option Nat) (xs ys : List Nat) :
    dlast q (xs ++ ys) = dlast (dlast q xs) ys := by
  induction xs generalizing q with
  | nil => rfl
  | cons x xs ih => simp [dlast, ih]

theorem dlast_concat (q : Option Nat) (xs : List Nat) (a : Nat) :
    dlast q (xs ++ [a]) = some a := by simp [dlast]

theorem dlast_none (as : List Nat) : dlast none as = as.getLast? := by
  induction as using List.reverseRecOn with
  | nil => rfl
  | append_singleton xs a _ => simp [dlast]

theorem DSeg_append (m : DllMem α) :
    ∀ (xs ys : List Nat) (q p e : Option Nat),
      DSeg m q p (xs ++ ys) e ↔ ∃ mid, DSeg m q p xs mid ∧ DSeg m (dlast q xs) mid ys e := by
  intro xs
  induction xs with
  | nil =>
    intro ys q p e
    constructor
    · intro h; exact ⟨p, rfl, h⟩
    · rintro ⟨mid, h1, h2⟩
      have : p = mid := h1
      subst this; exact h2
  | cons x xs ih =>
    intro ys q p e
    constructor
    · rintro ⟨h1, h2, h3⟩
      obtain ⟨mid, h4, h5⟩ := (ih ys _ _ e).1 h3
      exact ⟨mid, ⟨h1, h2, h4⟩, h5⟩
    · rintro ⟨mid, ⟨h1, h2, h4⟩, h5⟩
      exact ⟨h1, h2, (ih ys _ _ e).2 ⟨mid, h4, h5⟩⟩

theorem dll_nodes_of_DSeg (m : DllMem α) :
    ∀ (as : List Nat) (q p : Option Nat) (n : Nat), DSeg m q p as none → as.length ≤ n →
      dll_nodes m n p = as := by
  intro as
  induction as with
  | nil =>
    intro q p n h _
    have : p = none := h
    subst this
    cases n <;> rfl
  | cons a as ih =>
    intro q p n h hn
    obtain ⟨h1, -, h3⟩ := h
    subst h1
    cases n with
    | zero => simp at hn
    | succ n =>
      simp only [dll_nodes]
      rw [ih _ _ n h3 (by simpa using hn)]

theorem dll_node_seq_of_wf (l : ANVDoublyLinkedList α) (as : List Nat) (h : DllWF l as) :
    dll_node_seq l = as := by
  obtain ⟨-, h2, -, h4⟩ := h
  exact dll_nodes_of_DSeg l.mem as none l.head l.size h2 (by omega)

theorem dll_elements_of_wf (l : ANVDoublyLinkedList α) (as : List Nat) (h : DllWF l as) :
    dll_elements l = as.map fun a => (l.mem a).data := by
  simp [dll_elements, dll_node_seq_of_wf l as h]

end DllBasics
section DllMerge

variable {α : Type}

theorem merge_loop_spec (cmp : Option α → Option α → Int) :
    ∀ (fuel : Nat) (m : DllMem α) (left right : Option Nat) (current : Nat)
      (ls rs : List Nat) (ql qr : Option Nat),
      DSeg m ql left ls none → DSeg m qr right rs none → (current :: (ls ++ rs)).Nodup →
      ls.length + rs.length < fuel →
      ∃ m2 l2 r2 c2,
        anv_dll_sort_helper_merge_loop cmp fuel m left right current = some (m2, l2, r2, c2) ∧
        DSeg (anv_dll_sort_helper_merge_link m2 l2 r2 c2) (some current)
          ((anv_dll_sort_helper_merge_link m2 l2 r2 c2) current).next
          (List.merge ls rs (dll_le cmp m)) none ∧
        ((anv_dll_sort_helper_merge_link m2 l2 r2 c2) current).prev = (m current).prev ∧
        (∀ a, a ≠ current → a ∉ ls → a ∉ rs →
          (anv_dll_sort_helper_merge_link m2 l2 r2 c2) a = m a) ∧
        (∀ a, ((anv_dll_sort_helper_merge_link m2 l2 r2 c2) a).data = (m a).data) := by
  intro fuel
  induction fuel with
  | zero => intro m left right current ls rs ql qr _ _ _ hf; omega
  | succ fuel ih =>
    intro m left right current ls rs ql qr hl hr hnd hf
    cases ls with
    | nil =>
      have hl0 : left = none := hl
      subst hl0
      cases rs with
      | nil =>
        have hr0 : right = none := hr
        subst hr0
        refine ⟨m, none, none, current, by simp [anv_dll_sort_helper_merge_loop], ?_, ?_, ?_, ?_⟩
        · simp [anv_dll_sort_helper_merge_link, DSeg]
        · simp [anv_dll_sort_helper_merge_link]
        · intro a ha _ _
          simp [anv_dll_sort_helper_merge_link, set_next_other _ _ _ _ ha]
        · intro a; simp [anv_dll_sort_helper_merge_link]
      | cons r rs =>
        obtain ⟨hr1, hr2, hr3⟩ := hr
        subst hr1
        have hcr : r ≠ current := by
          intro h; subst h; simp at hnd
        have hrr : r ∉ rs := by
          simp only [List.nil_append, List.nodup_cons] at hnd
          exact hnd.2.1
        have hcrs : current ∉ rs := by
          intro h
          simp only [List.nil_append, List.nodup_cons, List.mem_cons] at hnd
          exact hnd.1 (Or.inr h)
        refine ⟨m, none, some r, current, by simp [anv_dll_sort_helper_merge_loop], ?_, ?_, ?_, ?_⟩
        · simp only [anv_dll_sort_helper_merge_link, List.nil_merge]
          refine ⟨by simp [set_next], by simp, ?_⟩
          have e : (set_prev (set_next m current (some r)) r (some current) r).next =
              (m r).next := by simp [set_next_other _ _ _ _ hcr]
          rw [e]
          refine DSeg_congr _ m rs _ _ _ ?_ hr3
          intro a ha
          have h1 : a ≠ r := fun h => hrr (h ▸ ha)
          have h2 : a ≠ current := fun h => hcrs (h ▸ ha)
          rw [set_prev_other _ _ _ _ h1, set_next_other _ _ _ _ h2]
        · simp [anv_dll_sort_helper_merge_link, set_prev_other _ _ _ _ hcr.symm]
        · intro a ha _ har
          have h1 : a ≠ r := fun h => har (h ▸ List.mem_cons_self _ _)
          simp [anv_dll_sort_helper_merge_link, set_prev_other _ _ _ _ h1,
            set_next_other _ _ _ _ ha]
        · intro a; simp [anv_dll_sort_helper_merge_link]
    | cons l ls =>
      obtain ⟨hl1, hl2, hl3⟩ := hl
      subst hl1
      have hnd1 : current ∉ l :: (ls ++ rs) := by
        have := (List.nodup_cons.1 hnd).1
        simpa using this
      have hnd2 : (l :: (ls ++ rs)).Nodup := by
        have := (List.nodup_cons.1 hnd).2
        simpa using this
      have hcl : l ≠ current := fun h => hnd1 (h ▸ List.mem_cons_self _ _)
      have hlls : l ∉ ls := fun h =>
        (List.nodup_cons.1 hnd2).1 (List.mem_append_left _ h)
      have hlrs : l ∉ rs := fun h =>
        (List.nodup_cons.1 hnd2).1 (List.mem_append_right _ h)
      have hcls : current ∉ ls := fun h =>
        hnd1 (List.mem_cons_of_mem _ (List.mem_append_left _ h))
      have hcrs : current ∉ rs := fun h =>
        hnd1 (List.mem_cons_of_mem _ (List.mem_append_right _ h))
      cases rs with
      | nil =>
        have hr0 : right = none := hr
        subst hr0
        refine ⟨m, some l, none, current, by simp [anv_dll_sort_helper_merge_loop], ?_, ?_, ?_, ?_⟩
        · simp only [anv_dll_sort_helper_merge_link, List.merge_right]
          refine ⟨by simp [set_next], by simp, ?_⟩
          have e : (set_prev (set_next m current (some l)) l (some current) l).next =
              (m l).next := by simp [set_next_other _ _ _ _ hcl]
          rw [e]
          refine DSeg_congr _ m ls _ _ _ ?_ hl3
          intro a ha
          have h1 : a ≠ l := fun h => hlls (h ▸ ha)
          have h2 : a ≠ current := fun h => hcls (h ▸ ha)
          rw [set_prev_other _ _ _ _ h1, set_next_other _ _ _ _ h2]
        · simp [anv_dll_sort_helper_merge_link, set_prev_other _ _ _ _ hcl.symm]
        · intro a ha hal _
          have h1 : a ≠ l := fun h => hal (h ▸ List.mem_cons_self _ _)
          simp [anv_dll_sort_helper_merge_link, set_prev_other _ _ _ _ h1,
            set_next_other _ _ _ _ ha]
        · intro a; simp [anv_dll_sort_helper_merge_link]
      | cons r rs =>
        obtain ⟨hr1, hr2, hr3⟩ := hr
        subst hr1
        have hnd3 : (ls ++ r :: rs).Nodup := (List.nodup_cons.1 hnd2).2
        have hcr : r ≠ current := fun h =>
          hcrs (h ▸ List.mem_cons_self _ _)
        have hlr : l ≠ r := fun h => hlrs (h ▸ List.mem_cons_self _ _)
        have hrls : r ∉ ls := fun h =>
          (List.nodup_append.1 hnd3).2.2 h (List.mem_cons_self _ _)
        have hrrs : r ∉ rs := (List.nodup_cons.1 (List.nodup_append.1 hnd3).2.1).1
        have hdis : ∀ a, a ∈ ls → a ∉ rs := fun a h1 h2 =>
          (List.nodup_append.1 hnd3).2.2 h1 (List.mem_cons_of_mem _ h2)
        by_cases hc : cmp (m l).data (m r).data ≤ 0
        · -- the left node is linked behind `current`
          have hm1 : ∀ a, a ≠ current → a ≠ l →
              set_prev (set_next m current (some l)) l (some current) a = m a := by
            intro a h1 h2
            rw [set_prev_other _ _ _ _ h2, set_next_other _ _ _ _ h1]
          have hd1 : ∀ a, (set_prev (set_next m current (some l)) l (some current) a).data =
              (m a).data := by intro a; simp
          have hL : DSeg (set_prev (set_next m current (some l)) l (some current)) (some l)
              (m l).next ls none :=
            DSeg_congr _ m ls _ _ _
              (fun a ha => hm1 a (fun h => hcls (h ▸ ha)) (fun h => hlls (h ▸ ha))) hl3
          have hR : DSeg (set_prev (set_next m current (some l)) l (some current)) qr
              (some r) (r :: rs) none :=
            DSeg_congr _ m (r :: rs) _ _ _
              (fun a ha => hm1 a (fun h => hcrs (h ▸ ha)) (fun h => hlrs (h ▸ ha)))
              ⟨rfl, hr2, hr3⟩
          obtain ⟨m2, l2, r2, c2, e, k1, k2, k3, k4⟩ :=
            ih _ (m l).next (some r) l ls (r :: rs) (some l) qr hL hR hnd2
              (by simp at hf ⊢; omega)
          refine ⟨m2, l2, r2, c2, ?_, ?_, ?_, ?_, ?_⟩
          · simp only [anv_dll_sort_helper_merge_loop, hc, if_true]
            have e1 : (set_prev (set_next m current (some l)) l (some current) current).next =
                some l := by simp [set_next]
            have e2 : (set_prev (set_next m current (some l)) l (some current) l).next =
                (m l).next := by simp [set_next_other _ _ _ _ hcl]
            rw [e1, e2]
            exact e
          · have hle : dll_le cmp m l r = true := by simp [dll_le, hc]
            rw [List.cons_merge_cons_pos _ _ _ hle]
            rw [dll_le_congr cmp _ m hd1] at k1
            have e3 := k3 current hcl.symm hcls hcrs
            refine ⟨?_, ?_, k1⟩
            · rw [e3]; simp [set_next]
            · rw [k2]; simp
          · rw [k3 current hcl.symm hcls hcrs]
            simp [set_prev_other _ _ _ _ hcl.symm]
          · intro a h1 h2 h3
            have h4 : a ≠ l := fun h => h2 (h ▸ List.mem_cons_self _ _)
            rw [k3 a h4 (fun h => h2 (List.mem_cons_of_mem _ h)) h3]
            exact hm1 a h1 h4
          · intro a; rw [k4 a]; exact hd1 a
        · -- the right node is linked behind `current`
          have hm1 : ∀ a, a ≠ current → a ≠ r →
              set_prev (set_next m current (some r)) r (some current) a = m a := by
            intro a h1 h2
            rw [set_prev_other _ _ _ _ h2, set_next_other _ _ _ _ h1]
          have hd1 : ∀ a, (set_prev (set_next m current (some r)) r (some current) a).data =
              (m a).data := by intro a; simp
          have hL : DSeg (set_prev (set_next m current (some r)) r (some current)) ql
              (some l) (l :: ls) none :=
            DSeg_congr _ m (l :: ls) _ _ _
              (fun a ha => hm1 a
                (fun h => by
                  rcases List.mem_cons.1 ha with h5 | h5
                  · exact hcl (h5.symm.trans h)
                  · exact hcls (h ▸ h5))
                (fun h => by
                  rcases List.mem_cons.1 ha with h5 | h5
                  · exact hlr (h5.symm.trans h)
                  · exact hrls (h ▸ h5)))
              ⟨rfl, hl2, hl3⟩
          have hR : DSeg (set_prev (set_next m current (some r)) r (some current)) (some r)
              (m r).next rs none :=
            DSeg_congr _ m rs _ _ _
              (fun a ha => hm1 a
                (fun h => hcrs (h ▸ List.mem_cons_of_mem _ ha))
                (fun h => hrrs (h ▸ ha))) hr3
          have hnd4 : (r :: ((l :: ls) ++ rs)).Nodup := by
            have hp : (r :: ((l :: ls) ++ rs)).Perm (l :: (ls ++ r :: rs)) := by
              have : (r :: ((l :: ls) ++ rs)).Perm ((l :: ls) ++ r :: rs) :=
                List.perm_middle.symm
              simpa using this
            exact hp.nodup_iff.2 hnd2
          obtain ⟨m2, l2, r2, c2, e, k1, k2, k3, k4⟩ :=
            ih _ (some l) (m r).next r (l :: ls) rs ql (some r) hL hR hnd4
              (by simp at hf ⊢; omega)
          refine ⟨m2, l2, r2, c2, ?_, ?_, ?_, ?_, ?_⟩
          · simp only [anv_dll_sort_helper_merge_loop, hc, if_false]
            have e1 : (set_prev (set_next m current (some r)) r (some current) current).next =
                some r := by simp [set_next]
            have e2 : (set_prev (set_next m current (some r)) r (some current) r).next =
                (m r).next := by simp [set_next_other _ _ _ _ hcr]
            rw [e1, e2]
            exact e
          · have hle : ¬ dll_le cmp m l r = true := by simp [dll_le, hc]
            rw [List.cons_merge_cons_neg _ _ _ hle]
            rw [dll_le_congr cmp _ m hd1] at k1
            have hcl2 : current ∉ l :: ls := by
              intro h
              rcases List.mem_cons.1 h with h5 | h5
              · exact hcl h5.symm
              · exact hcls h5
            have e3 := k3 current hcr.symm hcl2 (fun h => hcrs (List.mem_cons_of_mem _ h))
            refine ⟨?_, ?_, k1⟩
            · rw [e3]; simp [set_next]
            · rw [k2]; simp
          · have hcl2 : current ∉ l :: ls := by
              intro h
              rcases List.mem_cons.1 h with h5 | h5
              · exact hcl h5.symm
              · exact hcls h5
            rw [k3 current hcr.symm hcl2 (fun h => hcrs (List.mem_cons_of_mem _ h))]
            simp [set_prev_other _ _ _ _ hcr.symm]
          · intro a h1 h2 h3
            have h4 : a ≠ r := fun h => h3 (h ▸ List.mem_cons_self _ _)
            rw [k3 a h4 h2 (fun h => h3 (List.mem_cons_of_mem _ h))]
            exact hm1 a h1 h4
          · intro a; rw [k4 a]; exact hd1 a

end DllMerge
section DllSplit

variable {α : Type}

theorem merge_spec (cmp : Option α → Option α → Int) (fuel : Nat) (m : DllMem α)
    (left right : Option Nat) (ls rs : List Nat) (ql qr : Option Nat)
    (hl : DSeg m ql left ls none) (hr : DSeg m qr right rs none) (hnd : (ls ++ rs).Nodup)
    (hf : ls.length + rs.length ≤ fuel) :
    ∃ m1 res q1, anv_dll_sort_helper_merge fuel cmp m left right = some (m1, res) ∧
      DSeg m1 q1 res (List.merge ls rs (dll_le cmp m)) none ∧
      (ls ≠ [] → rs ≠ [] → q1 = none) ∧
      (∀ a, a ∉ ls → a ∉ rs → m1 a = m a) ∧
      (∀ a, (m1 a).data = (m a).data) := by
  cases ls with
  | nil =>
    have hl0 : left = none := hl
    subst hl0
    exact ⟨m, right, qr, by simp [anv_dll_sort_helper_merge], by simpa using hr,
      fun h => absurd rfl h, fun _ _ _ => rfl, fun _ => rfl⟩
  | cons l ls =>
    obtain ⟨hl1, hl2, hl3⟩ := hl
    subst hl1
    cases rs with
    | nil =>
      have hr0 : right = none := hr
      subst hr0
      exact ⟨m, some l, ql, by simp [anv_dll_sort_helper_merge],
        by rw [List.merge_right]; exact ⟨rfl, hl2, hl3⟩,
        fun _ h => absurd rfl h, fun _ _ _ => rfl, fun _ => rfl⟩
    | cons r rs =>
      obtain ⟨hr1, hr2, hr3⟩ := hr
      subst hr1
      have hnd2 : (l :: (ls ++ r :: rs)).Nodup := by simpa using hnd
      have hlls : l ∉ ls := fun h =>
        (List.nodup_cons.1 hnd2).1 (List.mem_append_left _ h)
      have hlrs : l ∉ r :: rs := fun h =>
        (List.nodup_cons.1 hnd2).1 (List.mem_append_right _ h)
      have hnd3 : (ls ++ r :: rs).Nodup := (List.nodup_cons.1 hnd2).2
      have hrls : r ∉ ls := fun h =>
        (List.nodup_append.1 hnd3).2.2 h (List.mem_cons_self _ _)
      have hrrs : r ∉ rs := (List.nodup_cons.1 (List.nodup_append.1 hnd3).2.1).1
      have hlr : l ≠ r := fun h => hlrs (h ▸ List.mem_cons_self _ _)
      by_cases hc : cmp (m l).data (m r).data ≤ 0
      · have hd1 : ∀ a, (set_prev m l none a).data = (m a).data := by intro a; simp
        have hL : DSeg (set_prev m l none) (some l) (m l).next ls none :=
          DSeg_congr _ m ls _ _ _
            (fun a ha => set_prev_other _ _ _ _ (fun h => hlls (h ▸ ha))) hl3
        have hR : DSeg (set_prev m l none) qr (some r) (r :: rs) none :=
          DSeg_congr _ m (r :: rs) _ _ _
            (fun a ha => set_prev_other _ _ _ _ (fun h => hlrs (h ▸ ha))) ⟨rfl, hr2, hr3⟩
        obtain ⟨m2, l2, r2, c2, e, k1, k2, k3, k4⟩ :=
          merge_loop_spec cmp fuel _ (m l).next (some r) l ls (r :: rs) (some l) qr hL hR hnd2
            (by simp at hf ⊢; omega)
        refine ⟨anv_dll_sort_helper_merge_link m2 l2 r2 c2, some l, none, ?_, ?_,
          fun _ _ => rfl, ?_, ?_⟩
        · simp only [anv_dll_sort_helper_merge, hc, if_true, e]
        · have hle : dll_le cmp m l r = true := by simp [dll_le, hc]
          rw [List.cons_merge_cons_pos _ _ _ hle]
          rw [dll_le_congr cmp _ m hd1] at k1
          exact ⟨rfl, by rw [k2]; simp, k1⟩
        · intro a h1 h2
          have h3 : a ≠ l := fun h => h1 (h ▸ List.mem_cons_self _ _)
          rw [k3 a h3 (fun h => h1 (List.mem_cons_of_mem _ h)) h2]
          exact set_prev_other _ _ _ _ h3
        · intro a; rw [k4 a]; exact hd1 a
      · have hd1 : ∀ a, (set_prev m r none a).data = (m a).data := by intro a; simp
        have hL : DSeg (set_prev m r none) ql (some l) (l :: ls) none :=
          DSeg_congr _ m (l :: ls) _ _ _
            (fun a ha => set_prev_other _ _ _ _ (fun h => by
              rcases List.mem_cons.1 ha with h5 | h5
              · exact hlr (h5.symm.trans h)
              · exact hrls (h ▸ h5))) ⟨rfl, hl2, hl3⟩
        have hR : DSeg (set_prev m r none) (some r) (m r).next rs none :=
          DSeg_congr _ m rs _ _ _
            (fun a ha => set_prev_other _ _ _ _ (fun h => hrrs (h ▸ ha))) hr3
        have hnd4 : (r :: ((l :: ls) ++ rs)).Nodup := by
          have hp : (r :: ((l :: ls) ++ rs)).Perm (l :: (ls ++ r :: rs)) := by
            have : (r :: ((l :: ls) ++ rs)).Perm ((l :: ls) ++ r :: rs) :=
              List.perm_middle.symm
            simpa using this
          exact hp.nodup_iff.2 hnd2
        obtain ⟨m2, l2, r2, c2, e, k1, k2, k3, k4⟩ :=
          merge_loop_spec cmp fuel _ (some l) (m r).next r (l :: ls) rs ql (some r) hL hR hnd4
            (by simp at hf ⊢; omega)
        refine ⟨anv_dll_sort_helper_merge_link m2 l2 r2 c2, some r, none, ?_, ?_,
          fun _ _ => rfl, ?_, ?_⟩
        · simp only [anv_dll_sort_helper_merge, hc, if_false, e]
        · have hle : ¬ dll_le cmp m l r = true := by simp [dll_le, hc]
          rw [List.cons_merge_cons_neg _ _ _ hle]
          rw [dll_le_congr cmp _ m hd1] at k1
          exact ⟨rfl, by rw [k2]; simp, k1⟩
        · intro a h1 h2
          have h3 : a ≠ r := fun h => h2 (h ▸ List.mem_cons_self _ _)
          rw [k3 a h3 h1 (fun h => h2 (List.mem_cons_of_mem _ h))]
          exact set_prev_other _ _ _ _ h3
        · intro a; rw [k4 a]; exact hd1 a

theorem DSeg_next (m : DllMem α) :
    ∀ (as : List Nat) (q p : Option Nat) (k a : Nat), DSeg m q p as none →
      as[k]? = some a → (m a).next = as[k + 1]? := by
  intro as
  induction as with
  | nil => intro q p k a _ h; simp at h
  | cons x xs ih =>
    intro q p k a h hk
    obtain ⟨-, -, h3⟩ := h
    cases k with
    | zero =>
      simp at hk
      subst hk
      have := DSeg_head m xs _ _ h3
      rw [this]
      cases xs <;> simp
    | succ k =>
      simp at hk
      simpa using ih _ _ k a h3 hk

theorem split_loop_spec (m : DllMem α) (as : List Nat) (q p : Option Nat)
    (h : DSeg m q p as none) :
    ∀ (fuel k : Nat), k ≤ as.length / 2 → as.length / 2 - k < fuel →
      anv_dll_split_loop m fuel as[2 * k]? as[k]? (if k = 0 then none else as[k - 1]?) =
        some (as[as.length / 2]?,
          if as.length / 2 = 0 then none else as[as.length / 2 - 1]?) := by
  intro fuel
  induction fuel with
  | zero => intro k _ hf; omega
  | succ fuel ih =>
    intro k hk hf
    cases hfast : as[2 * k]? with
    | none =>
      have h1 : as.length ≤ 2 * k := List.getElem?_eq_none_iff.1 hfast
      have h2 : k = as.length / 2 := by omega
      simp only [anv_dll_split_loop]
      rw [← h2]
    | some f =>
      simp only [anv_dll_split_loop]
      have hlt : 2 * k < as.length := by
        rcases Nat.lt_or_ge (2 * k) as.length with h1 | h1
        · exact h1
        · rw [List.getElem?_eq_none_iff.2 h1] at hfast; cases hfast
      have hfn := DSeg_next m as q p (2 * k) f h hfast
      cases hfn2 : (m f).next with
      | none =>
        rw [hfn2] at hfn
        have h1 : as.length ≤ 2 * k + 1 := List.getElem?_eq_none_iff.1 hfn.symm
        have h2 : k = as.length / 2 := by omega
        rw [← h2]
      | some fn =>
        rw [hfn2] at hfn
        have hlt2 : 2 * k + 1 < as.length := by
          rcases Nat.lt_or_ge (2 * k + 1) as.length with h1 | h1
          · exact h1
          · rw [List.getElem?_eq_none_iff.2 h1] at hfn; cases hfn
        have hfn3 := DSeg_next m as q p (2 * k + 1) fn h hfn.symm
        have hs : as[k]? = some (as[k]) := List.getElem?_eq_getElem (by omega)
        have hsn := DSeg_next m as q p k _ h hs
        simp only [hs]
        rw [hfn3, hsn]
        have := ih (k + 1) (by omega) (by omega)
        simp only [Nat.add_sub_cancel, Nat.succ_ne_zero, if_false, hs] at this
        rw [show 2 * (k + 1) = 2 * k + 1 + 1 by omega] at this
        exact this

theorem DSeg_set_last_next (m : DllMem α) (pa : Nat) (v : Option Nat) :
    ∀ (xs : List Nat) (q p e : Option Nat), DSeg m q p (xs ++ [pa]) e → pa ∉ xs →
      DSeg (set_next m pa v) q p (xs ++ [pa]) v := by
  intro xs
  induction xs with
  | nil =>
    intro q p e h _
    obtain ⟨h1, h2, -⟩ := h
    exact ⟨h1, by simpa using h2, by simp [DSeg]⟩
  | cons x xs ih =>
    intro q p e h hn
    obtain ⟨h1, h2, h3⟩ := h
    have hx : x ≠ pa := fun h => hn (h ▸ List.mem_cons_self _ _)
    refine ⟨h1, by simpa using h2, ?_⟩
    rw [set_next_other _ _ _ _ hx]
    exact ih _ _ _ h3 (fun h => hn (List.mem_cons_of_mem _ h))

theorem list_split_middle (as : List Nat) (k : Nat) (h1 : 1 ≤ k) (h2 : k < as.length) :
    ∃ init pa s rest, as = init ++ pa :: s :: rest ∧ init.length = k - 1 ∧
      as[k - 1]? = some pa ∧ as[k]? = some s := by
  refine ⟨as.take (k - 1), as[k - 1], as[k], as.drop (k + 1), ?_, ?_, ?_, ?_⟩
  · have e1 : as.drop k = as[k] :: as.drop (k + 1) := List.drop_eq_getElem_cons h2
    have e2 : as.drop (k - 1) = as[k - 1] :: as.drop (k - 1 + 1) :=
      List.drop_eq_getElem_cons (by omega)
    rw [show k - 1 + 1 = k by omega] at e2
    rw [← e1, ← e2]
    exact (List.take_append_drop _ _).symm
  · simp; omega
  · exact List.getElem?_eq_getElem _
  · exact List.getElem?_eq_getElem _

theorem split_spec (fuel : Nat) (m : DllMem α) (h : Nat) (as : List Nat) (q : Option Nat)
    (hseg : DSeg m q (some h) as none) (hnd : as.Nodup) (h2 : 2 ≤ as.length)
    (hf : as.length ≤ fuel) :
    ∃ m1 s, anv_dll_split fuel m (some h) = some (m1, some s) ∧
      DSeg m1 q (some h) (as.take (as.length / 2)) none ∧
      DSeg m1 none (some s) (as.drop (as.length / 2)) none ∧
      (∀ a, a ∉ as → m1 a = m a) ∧ (∀ a, (m1 a).data = (m a).data) := by
  have hloop := split_loop_spec m as q (some h) hseg fuel 0 (by omega) (by omega)
  have hK1 : 1 ≤ as.length / 2 := by omega
  have hK2 : as.length / 2 < as.length := by omega
  generalize as.length / 2 = K at hloop hK1 hK2 ⊢
  obtain ⟨init, pa, s, rest, e, hlen, hpa, hs⟩ := list_split_middle as K hK1 hK2
  have hK : K ≠ 0 := by omega
  have hh : as[0]? = some h := by
    have := DSeg_head m as q (some h) hseg
    cases as with
    | nil => simp at h2
    | cons x xs => simpa using this.symm
  simp only [Nat.mul_zero, if_true, hK, if_false, hpa, hs, hh] at hloop
  have hnext : ∃ n, (m h).next = some n := by
    have := DSeg_next m as q (some h) 0 h hseg hh
    rw [this]
    exact ⟨as[1], List.getElem?_eq_getElem (by omega)⟩
  obtain ⟨n, hn⟩ := hnext
  have e1 : as = (init ++ [pa]) ++ (s :: rest) := by simpa using e
  have hlen1 : (init ++ [pa]).length = K := by simp; omega
  have htake : as.take K = init ++ [pa] := by
    rw [e1]; exact List.take_left' hlen1
  have hdrop : as.drop K = s :: rest := by
    rw [e1]; exact List.drop_left' hlen1
  have hnd2 : ((init ++ [pa]) ++ (s :: rest)).Nodup := by
    rw [← e1]; exact hnd
  have hsplit := (DSeg_append m (init ++ [pa]) (s :: rest) q (some h) none).1
    (by rw [← e1]; exact hseg)
  obtain ⟨mid, hleft, hright⟩ := hsplit
  obtain ⟨hr1, hr2, hr3⟩ := hright
  have hnda := List.nodup_append.1 hnd2
  have hpa_init : pa ∉ init := by
    have := List.nodup_append.1 hnda.1
    intro hmem
    exact this.2.2 hmem (List.mem_singleton_self _)
  have hs_left : s ∉ init ++ [pa] := fun hmem => hnda.2.2 hmem (List.mem_cons_self _ _)
  have hs_rest : s ∉ rest := (List.nodup_cons.1 hnda.2.1).1
  have hpa_right : pa ∉ s :: rest := fun hmem =>
    hnda.2.2 (List.mem_append_right _ (List.mem_singleton_self _)) hmem
  have hspa : s ≠ pa := fun hh2 => hpa_right (hh2 ▸ List.mem_cons_self _ _)
  have hs_as : s ∈ as := by rw [e1]; simp
  have hpa_as : pa ∈ as := by rw [e1]; simp
  refine ⟨set_prev (set_next m pa none) s none, s, ?_, ?_, ?_, ?_, ?_⟩
  · simp only [anv_dll_split, hn, hloop]
  · rw [htake]
    refine DSeg_congr _ (set_next m pa none) _ _ _ _ ?_
      (DSeg_set_last_next m pa none init q (some h) mid hleft hpa_init)
    intro a ha
    have h1 : a ≠ s := fun hh2 => hs_left (hh2 ▸ ha)
    exact set_prev_other _ _ _ _ h1
  · rw [hdrop]
    refine ⟨rfl, by simp, ?_⟩
    have e2 : (set_prev (set_next m pa none) s none s).next = (m s).next := by
      simp [set_next_other _ _ _ _ hspa]
    rw [e2]
    refine DSeg_congr _ m rest _ _ _ ?_ hr3
    intro a ha
    have h1 : a ≠ s := fun hh2 => hs_rest (hh2 ▸ ha)
    have h3 : a ≠ pa := fun hh2 => hpa_right (hh2 ▸ List.mem_cons_of_mem _ ha)
    rw [set_prev_other _ _ _ _ h1, set_next_other _ _ _ _ h3]
  · intro a ha
    have h1 : a ≠ s := fun hh2 => ha (hh2 ▸ hs_as)
    have h3 : a ≠ pa := fun hh2 => ha (hh2 ▸ hpa_as)
    rw [set_prev_other _ _ _ _ h1, set_next_other _ _ _ _ h3]
  · intro a; simp

end DllSplit
section MergeSortSeq

variable (le : Nat → Nat → Bool)

theorem merge_sort_seq_perm : ∀ (fuel : Nat) (as : List Nat),
    (merge_sort_seq le fuel as).Perm as := by
  intro fuel
  induction fuel with
  | zero => intro as; exact List.Perm.refl _
  | succ fuel ih =>
    intro as
    simp only [merge_sort_seq]
    split
    · exact List.Perm.refl _
    · refine (List.merge_perm_append le).trans (((ih _).append (ih _)).trans ?_)
      rw [List.take_append_drop]

theorem merge_sort_seq_short (fuel : Nat) (as : List Nat) (h : as.length ≤ 1) :
    merge_sort_seq le fuel as = as := by
  cases fuel with
  | zero => rfl
  | succ fuel => simp [merge_sort_seq, h]

theorem merge_sort_seq_sorted (trans : ∀ a b c : Nat, le a b → le b c → le a c)
    (total : ∀ a b : Nat, le a b || le b a) :
    ∀ (fuel : Nat) (as : List Nat), as.length ≤ fuel + 1 →
      (merge_sort_seq le fuel as).Pairwise (fun a b => le a b) := by
  have short : ∀ as : List Nat, as.length ≤ 1 → as.Pairwise (fun a b => le a b) := by
    intro as h
    cases as with
    | nil => exact List.Pairwise.nil
    | cons a as =>
      cases as with
      | nil => simp
      | cons b as => simp at h
  intro fuel
  induction fuel with
  | zero => intro as h; exact short as (by simpa using h)
  | succ fuel ih =>
    intro as h
    simp only [merge_sort_seq]
    split
    · rename_i h1; exact short as h1
    · exact List.sorted_merge trans total _ _
        (ih _ (by simp; omega)) (ih _ (by simp; omega))

theorem sublist_merge_of_sorted (trans : ∀ a b c : Nat, le a b → le b c → le a c) :
    ∀ (l r c1 c2 : List Nat), l.Pairwise (fun a b => le a b) → c1.Sublist l → c2.Sublist r →
      (∀ a ∈ c1, ∀ b ∈ c2, le a b = true) → (c1 ++ c2).Sublist (List.merge l r le) := by
  intro l
  induction l with
  | nil =>
    intro r c1 c2 _ h1 h2 _
    have : c1 = [] := List.eq_nil_of_sublist_nil h1
    subst this
    simpa using h2
  | cons x l ihl =>
    intro r
    induction r with
    | nil =>
      intro c1 c2 _ h1 h2 _
      have : c2 = [] := List.eq_nil_of_sublist_nil h2
      subst this
      simpa using h1
    | cons y r ihr =>
      intro c1 c2 hs h1 h2 hle
      by_cases hxy : le x y = true
      · rw [List.cons_merge_cons_pos _ _ _ hxy]
        cases h1 with
        | cons _ h => exact (ihl (y :: r) _ c2 hs.tail h h2 hle).cons x
        | cons₂ _ h =>
          rename_i c1t
          exact (ihl (y :: r) c1t c2 hs.tail h h2
            (fun a ha b hb => hle a (List.mem_cons_of_mem _ ha) b hb)).cons₂ x
      · rw [List.cons_merge_cons_neg _ _ _ hxy]
        cases h2 with
        | cons _ h => exact (ihr c1 _ hs h1 h hle).cons y
        | cons₂ _ h =>
          rename_i c2t
          cases c1 with
          | nil =>
            have := ihr [] c2t hs (List.nil_sublist _) h (fun a ha => by simp at ha)
            simpa using this.cons₂ y
          | cons a c1t =>
            exfalso
            have hay : le a y = true :=
              hle a (List.mem_cons_self _ _) y (List.mem_cons_self _ _)
            have hmem : a ∈ x :: l := h1.subset (List.mem_cons_self _ _)
            rcases List.mem_cons.1 hmem with h5 | h5
            · exact hxy (h5 ▸ hay)
            · exact hxy (trans x a y (List.rel_of_pairwise_cons hs h5) hay)

theorem merge_sort_seq_sublist (trans : ∀ a b c : Nat, le a b → le b c → le a c)
    (total : ∀ a b : Nat, le a b || le b a) :
    ∀ (fuel : Nat) (as c : List Nat), as.length ≤ fuel + 1 → c.Sublist as →
      c.Pairwise (fun a b => le a b) → c.Sublist (merge_sort_seq le fuel as) := by
  intro fuel
  induction fuel with
  | zero => intro as c _ h _; exact h
  | succ fuel ih =>
    intro as c hlen h hc
    simp only [merge_sort_seq]
    split
    · exact h
    · rw [← List.take_append_drop (as.length / 2) as] at h
      obtain ⟨c1, c2, e, h1, h2⟩ := List.sublist_append_iff.1 h
      subst e
      obtain ⟨p1, p2, p3⟩ := List.pairwise_append.1 hc
      exact sublist_merge_of_sorted le trans _ _ c1 c2
        (merge_sort_seq_sorted le trans total fuel _ (by simp; omega))
        (ih _ c1 (by simp; omega) h1 p1) (ih _ c2 (by simp; omega) h2 p2) p3

end MergeSortSeq

section DllSort

variable {α : Type}

theorem merge_sort_spec (cmp : Option α → Option α → Int) :
    ∀ (fuel : Nat) (m : DllMem α) (head q : Option Nat) (as : List Nat),
      DSeg m q head as none → as.Nodup → as.length < fuel →
      ∃ m1 r q1, anv_dll_merge_sort cmp fuel m head = some (m1, r) ∧
        DSeg m1 q1 r (merge_sort_seq (dll_le cmp m) fuel as) none ∧
        (2 ≤ as.length → q1 = none) ∧
        (∀ a, a ∉ as → m1 a = m a) ∧ (∀ a, (m1 a).data = (m a).data) := by
  intro fuel
  induction fuel with
  | zero => intro m head q as _ _ hf; omega
  | succ fuel ih =>
    intro m head q as hseg hnd hf
    cases as with
    | nil =>
      have : head = none := hseg
      subst this
      exact ⟨m, none, q, by simp [anv_dll_merge_sort], by simp [merge_sort_seq, DSeg],
        fun h => by simp at h, fun _ _ => rfl, fun _ => rfl⟩
    | cons a as =>
      obtain ⟨h1, h2, h3⟩ := hseg
      subst h1
      cases as with
      | nil =>
        have hn : (m a).next = none := h3
        exact ⟨m, some a, q, by simp [anv_dll_merge_sort, hn],
          by simp only [merge_sort_seq, List.length_singleton, Nat.le_refl, if_true]
             exact ⟨rfl, h2, h3⟩,
          fun h => by simp at h, fun _ _ => rfl, fun _ => rfl⟩
      | cons b as =>
        have hn : (m a).next = some b := h3.1
        have hseg : DSeg m q (some a) (a :: b :: as) none := ⟨rfl, h2, h3⟩
        have hlen2 : 2 ≤ (a :: b :: as).length := by simp
        generalize hL : a :: b :: as = L at hseg hnd hf hlen2 ⊢
        obtain ⟨m1, s, e1, hl1, hr1, f1, d1⟩ :=
          split_spec fuel m a L q hseg hnd hlen2 (by omega)
        have hd : (L.take (L.length / 2) ++ L.drop (L.length / 2)).Nodup := by
          rw [List.take_append_drop]; exact hnd
        have hda := List.nodup_append.1 hd
        have hdis : ∀ x, x ∈ L.take (L.length / 2) → x ∉ L.drop (L.length / 2) :=
          fun x hx hy => hda.2.2 hx hy
        obtain ⟨m2, r1, q1, e2, hl2, -, f2, d2⟩ :=
          ih m1 (some a) q (L.take (L.length / 2)) hl1 hda.1 (by simp; omega)
        have hr2 : DSeg m2 none (some s) (L.drop (L.length / 2)) none :=
          DSeg_congr m2 m1 _ _ _ _ (fun x hx => f2 x (fun hy => hdis x hy hx)) hr1
        obtain ⟨m3, r2, q2, e3, hr3, -, f3, d3⟩ :=
          ih m2 (some s) none (L.drop (L.length / 2)) hr2 hda.2.1 (by simp; omega)
        have le1 : dll_le cmp m1 = dll_le cmp m := dll_le_congr cmp m1 m d1
        have le2 : dll_le cmp m2 = dll_le cmp m :=
          dll_le_congr cmp m2 m (fun x => (d2 x).trans (d1 x))
        have le3 : dll_le cmp m3 = dll_le cmp m :=
          dll_le_congr cmp m3 m (fun x => (d3 x).trans ((d2 x).trans (d1 x)))
        rw [le1] at hl2
        rw [le2] at hr3
        have pl := merge_sort_seq_perm (dll_le cmp m) fuel (L.take (L.length / 2))
        have pr := merge_sort_seq_perm (dll_le cmp m) fuel (L.drop (L.length / 2))
        have hl3 : DSeg m3 q1 r1
            (merge_sort_seq (dll_le cmp m) fuel (L.take (L.length / 2))) none :=
          DSeg_congr m3 m2 _ _ _ _
            (fun x hx => f3 x (fun hy => hdis x (pl.mem_iff.1 hx) hy)) hl2
        have hnd3 : (merge_sort_seq (dll_le cmp m) fuel (L.take (L.length / 2)) ++
            merge_sort_seq (dll_le cmp m) fuel (L.drop (L.length / 2))).Nodup :=
          (pl.append pr).nodup_iff.2 hd
        have hlen3 : (merge_sort_seq (dll_le cmp m) fuel (L.take (L.length / 2))).length +
            (merge_sort_seq (dll_le cmp m) fuel (L.drop (L.length / 2))).length ≤ fuel := by
          rw [pl.length_eq, pr.length_eq]; simp; omega
        obtain ⟨m4, res, q4, e4, h4, hq4, f4, d4⟩ :=
          merge_spec cmp fuel m3 r1 r2 _ _ q1 q2 hl3 hr3 hnd3 hlen3
        rw [le3] at h4
        refine ⟨m4, res, q4, ?_, ?_, ?_, ?_, ?_⟩
        · simp only [anv_dll_merge_sort, hn, e1, e2, e3, e4]
        · have hgt : ¬ L.length ≤ 1 := by omega
          simp only [merge_sort_seq, hgt, if_false]
          exact h4
        · intro _
          apply hq4
          · intro h0
            have h5 : (L.take (L.length / 2)).length = 0 := by
              rw [← pl.length_eq, h0]; rfl
            rw [List.length_take] at h5; omega
          · intro h0
            have h5 : (L.drop (L.length / 2)).length = 0 := by
              rw [← pr.length_eq, h0]; rfl
            rw [List.length_drop] at h5; omega
        · intro x hx
          have hx1 : x ∉ L.take (L.length / 2) := fun h => hx (List.mem_of_mem_take h)
          have hx2 : x ∉ L.drop (L.length / 2) := fun h => hx (List.mem_of_mem_drop h)
          rw [f4 x (fun h => hx1 (pl.mem_iff.1 h)) (fun h => hx2 (pr.mem_iff.1 h)),
            f3 x hx2, f2 x hx1, f1 x hx]
        · intro x
          rw [d4 x, d3 x, d2 x, d1 x]

theorem sort_tail_loop_spec (m : DllMem α) :
    ∀ (fuel : Nat) (as : List Nat) (q p : Option Nat), DSeg m q p as none →
      as.length < fuel → anv_dll_sort_tail_loop m fuel p = some (dlast none as) := by
  intro fuel
  induction fuel with
  | zero => intro as q p _ hf; omega
  | succ fuel ih =>
    intro as q p h hf
    cases as with
    | nil =>
      have : p = none := h
      subst this
      rfl
    | cons c rest =>
      obtain ⟨h1, -, h3⟩ := h
      subst h1
      cases rest with
      | nil =>
        have hn : (m c).next = none := h3
        simp [anv_dll_sort_tail_loop, hn, dlast]
      | cons n rest =>
        have hn : (m c).next = some n := h3.1
        rw [hn] at h3
        have := ih (n :: rest) (some c) (some n) h3 (by simp at hf ⊢; omega)
        simp only [anv_dll_sort_tail_loop, hn]
        rw [this]
        rfl

theorem dll_sort_spec (cmp : Option α → Option α → Int) (fuel : Nat)
    (l : ANVDoublyLinkedList α) (as : List Nat) (hwf : DllWF l as) (hf : as.length < fuel) :
    ∃ l1, anv_dll_sort fuel (some l) (some cmp) = some (0, some l1) ∧
      DllWF l1 (merge_sort_seq (dll_le cmp l.mem) fuel as) ∧
      (∀ a, (l1.mem a).data = (l.mem a).data) ∧ l1.size = l.size := by
  obtain ⟨hnd, hseg, htail, hsize⟩ := hwf
  by_cases hs : l.size ≤ 1
  · refine ⟨l, by simp [anv_dll_sort, hs], ?_, fun _ => rfl, rfl⟩
    rw [merge_sort_seq_short _ _ _ (by omega)]
    exact ⟨hnd, hseg, htail, hsize⟩
  · obtain ⟨m1, r, q1, e1, h1, hq, -, d1⟩ :=
      merge_sort_spec cmp fuel l.mem l.head none as hseg hnd hf
    have hq1 : q1 = none := hq (by omega)
    subst hq1
    have p := merge_sort_seq_perm (dll_le cmp l.mem) fuel as
    have e2 := sort_tail_loop_spec m1 fuel _ none r h1 (by rw [p.length_eq]; exact hf)
    refine ⟨{ l with mem := m1, head := r,
                     tail := dlast none (merge_sort_seq (dll_le cmp l.mem) fuel as) },
      by simp [anv_dll_sort, hs, e1, e2], ?_, d1, rfl⟩
    exact ⟨p.nodup_iff.2 hnd, h1, rfl, by rw [p.length_eq]; exact hsize⟩

theorem dll_le_trans (cmp : Option α → Option α → Int) (m : DllMem α)
    (htrans : ∀ x y z, cmp x y ≤ 0 → cmp y z ≤ 0 → cmp x z ≤ 0) :
    ∀ a b c : Nat, dll_le cmp m a b → dll_le cmp m b c → dll_le cmp m a c := by
  intro a b c h1 h2
  simp only [dll_le, decide_eq_true_eq] at h1 h2 ⊢
  exact htrans _ _ _ h1 h2

theorem dll_le_total (cmp : Option α → Option α → Int) (m : DllMem α)
    (htot : ∀ x y, cmp x y ≤ 0 ∨ cmp y x ≤ 0) :
    ∀ a b : Nat, dll_le cmp m a b || dll_le cmp m b a := by
  intro a b
  simp only [dll_le, Bool.or_eq_true, decide_eq_true_eq]
  exact htot _ _

end DllSort
section DllSortClaims

variable {α : Type}

/-- C13. For every well-formed doubly-linked list and every comparator that
is a total preorder, `anv_dll_sort` returns `0`, and afterwards the forward
element sequence is a permutation of the one before in which every adjacent
pair `(a, b)` satisfies `compare(a, b) <= 0`; the size is unchanged. -/
theorem c13_sort_yields_sorted_permutation (cmp : Option α → Option α → Int)
    (htot : ∀ x y, cmp x y ≤ 0 ∨ cmp y x ≤ 0)
    (htrans : ∀ x y z, cmp x y ≤ 0 → cmp y z ≤ 0 → cmp x z ≤ 0)
    (l : ANVDoublyLinkedList α) (as : List Nat) (hwf : DllWF l as)
    (fuel : Nat) (hf : as.length < fuel) :
    ∃ l1, anv_dll_sort fuel (some l) (some cmp) = some (0, some l1) ∧
      (dll_elements l1).Perm (dll_elements l) ∧
      (dll_elements l1).Chain' (fun a b => cmp a b ≤ 0) ∧
      l1.size = l.size := by
  obtain ⟨l1, e, hwf1, hd, hs⟩ := dll_sort_spec cmp fuel l as hwf hf
  refine ⟨l1, e, ?_, ?_, hs⟩
  · rw [dll_elements_of_wf l1 _ hwf1, dll_elements_of_wf l as hwf]
    have : (fun a => (l1.mem a).data) = fun a => (l.mem a).data := funext hd
    rw [this]
    exact (merge_sort_seq_perm _ fuel as).map _
  · rw [dll_elements_of_wf l1 _ hwf1]
    apply List.Pairwise.chain'
    rw [List.pairwise_map]
    have hsorted := merge_sort_seq_sorted (dll_le cmp l.mem) (dll_le_trans cmp l.mem htrans)
      (dll_le_total cmp l.mem htot) fuel as (by omega)
    refine hsorted.imp ?_
    intro a b hab
    rw [hd a, hd b]
    simpa [dll_le] using hab

/-- C14. The sort `anv_dll_sort` is stable: for every well-formed list and
every total-preorder comparator, it leaves the data of every node as it is,
and any two nodes `a` before `b` with `compare(a->data, b->data) == 0` are
still in this order afterwards; hence two elements `x` before `y` of the
forward element sequence with `compare(x, y) == 0` occur in this order in the
sequence afterwards. -/
theorem c14_sort_is_stable (cmp : Option α → Option α → Int)
    (htot : ∀ x y, cmp x y ≤ 0 ∨ cmp y x ≤ 0)
    (htrans : ∀ x y z, cmp x y ≤ 0 → cmp y z ≤ 0 → cmp x z ≤ 0)
    (l : ANVDoublyLinkedList α) (as : List Nat) (hwf : DllWF l as)
    (fuel : Nat) (hf : as.length < fuel) :
    ∃ l1, anv_dll_sort fuel (some l) (some cmp) = some (0, some l1) ∧
      (∀ a, (l1.mem a).data = (l.mem a).data) ∧
      (∀ a b, [a, b].Sublist (dll_node_seq l) → cmp (l.mem a).data (l.mem b).data = 0 →
        [a, b].Sublist (dll_node_seq l1)) ∧
      (∀ x y, [x, y].Sublist (dll_elements l) → cmp x y = 0 →
        [x, y].Sublist (dll_elements l1)) := by
  obtain ⟨l1, e, hwf1, hd, -⟩ := dll_sort_spec cmp fuel l as hwf hf
  have hnode : ∀ a b, [a, b].Sublist as → cmp (l.mem a).data (l.mem b).data = 0 →
      [a, b].Sublist (merge_sort_seq (dll_le cmp l.mem) fuel as) := by
    intro a b hab hc
    refine merge_sort_seq_sublist (dll_le cmp l.mem) (dll_le_trans cmp l.mem htrans)
      (dll_le_total cmp l.mem htot) fuel as [a, b] (by omega) hab ?_
    simp [dll_le, hc]
  refine ⟨l1, e, hd, ?_, ?_⟩
  · intro a b hab hc
    rw [dll_node_seq_of_wf l as hwf] at hab
    rw [dll_node_seq_of_wf l1 _ hwf1]
    exact hnode a b hab hc
  · intro x y hxy hc
    rw [dll_elements_of_wf l as hwf] at hxy
    rw [dll_elements_of_wf l1 _ hwf1]
    obtain ⟨c, hc1, hc2⟩ := List.sublist_map_iff.1 hxy
    cases c with
    | nil => simp at hc2
    | cons a c =>
      cases c with
      | nil => simp at hc2
      | cons b c =>
        cases c with
        | cons _ _ => simp at hc2
        | nil =>
          simp only [List.map_cons, List.map_nil, List.cons.injEq, and_true] at hc2
          obtain ⟨hx, hy⟩ := hc2
          subst hx; subst hy
          have := (hnode a b hc1 hc).map (fun a => (l1.mem a).data)
          simpa [hd] using this

end DllSortClaims

theorem c13_sort_yields_sorted_permutation_witness :
    ∃ l1, anv_dll_sort 6 (some (dll_from_list [some 3, some 1, none, some 2, some 1] 100))
        (some int_compare_ptr) = some (0, some l1) ∧
      (dll_elements l1).Perm
        (dll_elements (dll_from_list [some 3, some 1, none, some 2, some 1] 100)) ∧
      (dll_elements l1).Chain' (fun a b => int_compare_ptr a b ≤ 0) ∧
      l1.size = (dll_from_list [some (3 : Int), some 1, none, some 2, some 1] 100).size :=
  c13_sort_yields_sorted_permutation int_compare_ptr
    (by intro x y; simp only [int_compare_ptr, int_compare]; split_ifs <;> omega)
    (by intro x y z; simp only [int_compare_ptr, int_compare]; split_ifs <;> omega)
    (dll_from_list [some 3, some 1, none, some 2, some 1] 100) [100, 101, 102, 103, 104]
    (by decide) 6 (by decide)

theorem c14_sort_is_stable_witness :
    ∃ l1, anv_dll_sort 5
        (some (dll_from_list [some ((2 : Int), 0), some (1, 1), some (2, 2), some (1, 3)] 100))
        (some key_compare_ptr) = some (0, some l1) ∧
      (∀ a, (l1.mem a).data =
        ((dll_from_list [some ((2 : Int), 0), some (1, 1), some (2, 2), some (1, 3)] 100).mem
          a).data) ∧
      (∀ a b,
        [a, b].Sublist (dll_node_seq
          (dll_from_list [some ((2 : Int), 0), some (1, 1), some (2, 2), some (1, 3)] 100)) →
        key_compare_ptr
          ((dll_from_list [some ((2 : Int), 0), some (1, 1), some (2, 2), some (1, 3)] 100).mem
            a).data
          ((dll_from_list [some ((2 : Int), 0), some (1, 1), some (2, 2), some (1, 3)] 100).mem
            b).data = 0 →
        [a, b].Sublist (dll_node_seq l1)) ∧
      (∀ x y,
        [x, y].Sublist (dll_elements
          (dll_from_list [some ((2 : Int), 0), some (1, 1), some (2, 2), some (1, 3)] 100)) →
        key_compare_ptr x y = 0 → [x, y].Sublist (dll_elements l1)) :=
  c14_sort_is_stable key_compare_ptr
    (by intro x y; simp only [key_compare_ptr, int_compare]; split_ifs <;> omega)
    (by intro x y z; simp only [key_compare_ptr, int_compare]; split_ifs <;> omega)
    (dll_from_list [some (2, 0), some (1, 1), some (2, 2), some (1, 3)] 100)
    [100, 101, 102, 103] (by decide) 5 (by decide)

section DllIterators

variable {α : Type}

@[simp] theorem dll_iterator_with_callHasNext (ds : Option (ListIteratorState α)) :
    (dll_iterator_with ds).callHasNext =
      some ((anv_dll_iterator_has_next ds).1, dll_iterator_with (anv_dll_iterator_has_next ds).2) :=
  rfl

@[simp] theorem dll_iterator_with_callGet (ds : Option (ListIteratorState α)) :
    (dll_iterator_with ds).callGet =
      some ((anv_dll_iterator_get ds).1, dll_iterator_with (anv_dll_iterator_get ds).2) :=
  rfl

@[simp] theorem dll_iterator_with_callNext (ds : Option (ListIteratorState α)) :
    (dll_iterator_with ds).callNext =
      some ((anv_dll_iterator_next ds).1, dll_iterator_with (anv_dll_iterator_next ds).2) :=
  rfl

theorem dll_forward_isProducer : IsProducer (@DllForwardRel α) := by
  constructor
  · rintro it xs ⟨st, as, q, rfl, hs, hseg, rfl⟩
    refine ⟨dll_iterator_with (some st), ?_, st, as, q, rfl, hs, hseg, rfl⟩
    cases as with
    | nil =>
      have : st.current = none := hseg
      simp [anv_dll_iterator_has_next, this]
    | cons a as =>
      have : st.current = some a := hseg.1
      simp [anv_dll_iterator_has_next, this]
  · rintro it xs ⟨st, as, q, rfl, hs, hseg, rfl⟩
    refine ⟨dll_iterator_with (some st), ?_, st, as, q, rfl, hs, hseg, rfl⟩
    cases as with
    | nil =>
      have : st.current = none := hseg
      simp [anv_dll_iterator_get, this]
    | cons a as =>
      have : st.current = some a := hseg.1
      simp [anv_dll_iterator_get, this]
  · rintro it x xs ⟨st, as, q, rfl, hs, hseg, hxs⟩
    cases as with
    | nil => simp at hxs
    | cons a as =>
      obtain ⟨h1, -, h3⟩ := hseg
      simp only [List.map_cons, List.cons.injEq] at hxs
      refine ⟨dll_iterator_with (some { st with current := (st.list.mem a).next }), ?_,
        { st with current := (st.list.mem a).next }, as, some a, rfl, hs, h3, hxs.2⟩
      simp [anv_dll_iterator_next, h1, hs]
  · rintro it ⟨st, as, q, rfl, hs, hseg, hxs⟩
    cases as with
    | cons a as => simp at hxs
    | nil =>
      have h1 : st.current = none := hseg
      refine ⟨dll_iterator_with (some st), ?_, st, [], q, rfl, hs, hseg, rfl⟩
      simp [anv_dll_iterator_next, h1]

theorem dll_backward_isProducer : IsProducer (@DllBackwardRel α) := by
  constructor
  · rintro it xs ⟨st, as, q, rfl, hs, hseg, rfl⟩
    refine ⟨dll_iterator_with (some st), ?_, st, as, q, rfl, hs, hseg, rfl⟩
    cases as with
    | nil =>
      have : st.current = none := hseg
      simp [anv_dll_iterator_has_next, this]
    | cons a as =>
      have : st.current = some a := hseg.1
      simp [anv_dll_iterator_has_next, this]
  · rintro it xs ⟨st, as, q, rfl, hs, hseg, rfl⟩
    refine ⟨dll_iterator_with (some st), ?_, st, as, q, rfl, hs, hseg, rfl⟩
    cases as with
    | nil =>
      have : st.current = none := hseg
      simp [anv_dll_iterator_get, this]
    | cons a as =>
      have : st.current = some a := hseg.1
      simp [anv_dll_iterator_get, this]
  · rintro it x xs ⟨st, as, q, rfl, hs, hseg, hxs⟩
    cases as with
    | nil => simp at hxs
    | cons a as =>
      obtain ⟨h1, -, h3⟩ := hseg
      simp only [List.map_cons, List.cons.injEq] at hxs
      refine ⟨dll_iterator_with (some { st with current := (st.list.mem a).prev }), ?_,
        { st with current := (st.list.mem a).prev }, as, some a, rfl, hs, h3, hxs.2⟩
      simp [anv_dll_iterator_next, h1, hs]
  · rintro it ⟨st, as, q, rfl, hs, hseg, hxs⟩
    cases as with
    | cons a as => simp at hxs
    | nil =>
      have h1 : st.current = none := hseg
      refine ⟨dll_iterator_with (some st), ?_, st, [], q, rfl, hs, hseg, rfl⟩
      simp [anv_dll_iterator_next, h1]

theorem DSeg_mirror (m m1 : DllMem α) :
    ∀ (as : List Nat) (a : Nat) (q p e : Option Nat), DSeg m q p (a :: as) e →
      (∀ b ∈ a :: as, m1 b = mirror_node (m b)) →
      DSeg m1 e (dlast q (a :: as)) (a :: as).reverse q := by
  intro as
  induction as with
  | nil =>
    intro a q p e h hm
    obtain ⟨-, h2, h3⟩ := h
    have h4 : (m a).next = e := h3
    have ha := hm a (List.mem_cons_self _ _)
    refine ⟨rfl, ?_, ?_⟩
    · rw [ha]; exact h4
    · show (m1 a).next = q
      rw [ha]; exact h2
  | cons b as ih =>
    intro a q p e h hm
    obtain ⟨-, h2, h3⟩ := h
    have hb : (m a).next = some b := h3.1
    rw [hb] at h3
    have h5 := ih b (some a) (some b) e h3 (fun c hc => hm c (List.mem_cons_of_mem _ hc))
    have ha := hm a (List.mem_cons_self _ _)
    rw [List.reverse_cons]
    refine (DSeg_append m1 _ _ _ _ _).2 ⟨some a, h5, rfl, ?_, ?_⟩
    · rw [ha, List.reverse_cons, dlast_concat]
      exact hb
    · show (m1 a).next = q
      rw [ha]; exact h2

theorem dll_iterator_produces (l : ANVDoublyLinkedList α) (as : List Nat) (hwf : DllWF l as)
    (ha : l.alloc.allocate = true) :
    Produces (anv_dll_iterator (some l) true) (dll_elements l) := by
  rw [dll_elements_of_wf l as hwf]
  exact ⟨_, dll_forward_isProducer, { current := l.head, start := l.head, list := l }, as, none,
    by simp [anv_dll_iterator, anv_alloc_allocate, ha], rfl, hwf.2.1, rfl⟩

theorem dll_head_ne_tail (l : ANVDoublyLinkedList α) (as : List Nat) (hwf : DllWF l as)
    (h2 : 2 ≤ as.length) : l.tail ≠ l.head := by
  obtain ⟨hnd, hseg, ht, -⟩ := hwf
  cases as with
  | nil => simp at h2
  | cons a as =>
    have hh : l.head = some a := hseg.1
    rw [ht, hh, dlast_none]
    intro h
    have h3 : (a :: as).getLast? = some ((a :: as).getLast (by simp)) :=
      List.getLast?_eq_getLast _ _
    rw [h3] at h
    have h4 : (a :: as).getLast (by simp) = a := Option.some.inj h
    cases as with
    | nil => simp at h2
    | cons b as =>
      rw [List.getLast_cons (by simp)] at h4
      have : a ∈ b :: as := h4 ▸ List.getLast_mem _
      exact (List.nodup_cons.1 hnd).1 this

theorem dll_iterator_reverse_produces (l : ANVDoublyLinkedList α) (as : List Nat)
    (hwf : DllWF l as) (ha : l.alloc.allocate = true) :
    Produces (anv_dll_iterator_reverse (some l) true) (dll_elements l).reverse := by
  rw [dll_elements_of_wf l as hwf]
  have hit : anv_dll_iterator_reverse (some l) true =
      dll_iterator_with (some { current := l.tail, start := l.tail, list := l }) := by
    simp [anv_dll_iterator_reverse, anv_alloc_allocate, ha]
  rw [hit]
  cases as with
  | nil =>
    obtain ⟨-, hseg, ht, -⟩ := hwf
    have hh : l.head = none := hseg
    exact ⟨_, dll_forward_isProducer, _, [], none, rfl, by simp [ht, hh, dlast],
      by simp [ht, dlast, DSeg], rfl⟩
  | cons a as =>
    cases as with
    | nil =>
      obtain ⟨-, hseg, ht, -⟩ := hwf
      have hh : l.head = some a := hseg.1
      refine ⟨_, dll_forward_isProducer, _, [a], none, rfl, by simp [ht, hh, dlast], ?_, rfl⟩
      simp only [ht, dlast]
      rw [← hh]; exact hseg
    | cons b as =>
      have hne := dll_head_ne_tail l _ hwf (by simp)
      obtain ⟨-, hseg, ht, -⟩ := hwf
      refine ⟨_, dll_backward_isProducer, _, (a :: b :: as).reverse, none, rfl, hne, ?_, ?_⟩
      · simp only [ht]
        exact DSeg_mirror l.mem _ _ a none l.head none hseg (fun _ _ => rfl)
      · rw [List.map_reverse]

theorem reverse_loop_spec :
    ∀ (fuel : Nat) (as : List Nat) (m : DllMem α) (q p : Option Nat),
      DSeg m q p as none → as.Nodup → as.length < fuel →
      ∃ m1, anv_dll_reverse_loop fuel m p = some m1 ∧
        (∀ a ∈ as, m1 a = mirror_node (m a)) ∧ (∀ a, a ∉ as → m1 a = m a) := by
  intro fuel
  induction fuel with
  | zero => intro as m q p _ _ hf; omega
  | succ fuel ih =>
    intro as m q p hseg hnd hf
    cases as with
    | nil =>
      have : p = none := hseg
      subst this
      exact ⟨m, rfl, fun a ha => by simp at ha, fun _ _ => rfl⟩
    | cons c rest =>
      obtain ⟨h1, h2, h3⟩ := hseg
      subst h1
      have hc : c ∉ rest := (List.nodup_cons.1 hnd).1
      have hm2 : ∀ a, a ≠ c →
          set_next (set_prev m c (m c).next) c (m c).prev a = m a := by
        intro a ha
        rw [set_next_other _ _ _ _ ha, set_prev_other _ _ _ _ ha]
      have hmc : set_next (set_prev m c (m c).next) c (m c).prev c = mirror_node (m c) := by
        simp [set_next, set_prev, mirror_node]
      have h4 : DSeg (set_next (set_prev m c (m c).next) c (m c).prev) (some c) (m c).next
          rest none :=
        DSeg_congr _ m rest _ _ _ (fun a ha => hm2 a (fun h => hc (h ▸ ha))) h3
      obtain ⟨m1, e, k1, k2⟩ := ih rest _ (some c) (m c).next h4 (List.nodup_cons.1 hnd).2
        (by simp at hf ⊢; omega)
      refine ⟨m1, ?_, ?_, ?_⟩
      · simp only [anv_dll_reverse_loop]
        rw [hmc]
        exact e
      · intro a ha
        rcases List.mem_cons.1 ha with h5 | h5
        · subst h5
          rw [k2 a hc, hmc]
        · rw [k1 a h5, hm2 a (fun h => hc (h ▸ h5))]
      · intro a ha
        have h5 : a ≠ c := fun h => ha (h ▸ List.mem_cons_self _ _)
        rw [k2 a (fun h => ha (List.mem_cons_of_mem _ h)), hm2 a h5]

theorem dll_reverse_spec (fuel : Nat) (l : ANVDoublyLinkedList α) (as : List Nat)
    (hwf : DllWF l as) (hf : as.length < fuel) :
    ∃ l1, anv_dll_reverse fuel (some l) = some (0, some l1) ∧ DllWF l1 as.reverse ∧
      (∀ a, (l1.mem a).data = (l.mem a).data) ∧ l1.alloc = l.alloc := by
  by_cases hs : l.size ≤ 1
  · refine ⟨l, by simp [anv_dll_reverse, hs], ?_, fun _ => rfl, rfl⟩
    have hlen : as.length ≤ 1 := by rw [← hwf.2.2.2]; exact hs
    have : as.reverse = as := by
      cases as with
      | nil => rfl
      | cons a as =>
        cases as with
        | nil => rfl
        | cons b as => simp at hlen
    rw [this]; exact hwf
  · obtain ⟨hnd, hseg, ht, hsz⟩ := hwf
    obtain ⟨m1, e, k1, k2⟩ := reverse_loop_spec fuel as l.mem none l.head hseg hnd hf
    refine ⟨{ l with mem := m1, head := l.tail, tail := l.head },
      by simp [anv_dll_reverse, hs, e], ?_, ?_, rfl⟩
    · cases as with
      | nil => simp at hsz; omega
      | cons a as =>
        refine ⟨List.nodup_reverse.2 hnd, ?_, ?_, by simpa using hsz⟩
        · show DSeg m1 none l.tail (a :: as).reverse none
          rw [ht]
          exact DSeg_mirror l.mem m1 as a none l.head none hseg k1
        · show l.head = dlast none (a :: as).reverse
          rw [hseg.1, List.reverse_cons, dlast_concat]
    · intro a
      show (m1 a).data = (l.mem a).data
      by_cases ha : a ∈ as
      · rw [k1 a ha]; rfl
      · rw [k2 a ha]

/-- C15. For every well-formed doubly-linked list with forward element
sequence `xs`, of any length, `anv_dll_reverse` returns `0` and driving
`anv_dll_iterator` over the list afterwards yields `reverse(xs)`; driving
`anv_dll_iterator_reverse` over the list as it is yields `reverse(xs)` as
well, and driving `anv_dll_iterator` over it yields `xs`. For the list built
from 1, 2, 3, 4 both ways yield 4, 3, 2, 1. -/
theorem c15_reverse_and_backward_iteration (l : ANVDoublyLinkedList α) (as : List Nat)
    (hwf : DllWF l as) (ha : l.alloc.allocate = true) (fuel : Nat) (hf : as.length < fuel) :
    (∃ l1 it1, anv_dll_reverse fuel (some l) = some (0, some l1) ∧
      (anv_dll_iterator (some l1) true).drive fuel = some ((dll_elements l).reverse, it1)) ∧
    (∃ it1, (anv_dll_iterator_reverse (some l) true).drive fuel =
      some ((dll_elements l).reverse, it1)) ∧
    (∃ it1, (anv_dll_iterator (some l) true).drive fuel = some (dll_elements l, it1)) ∧
    ((anv_dll_reverse 5 (some (dll_from_list [some (1 : Int), some 2, some 3, some 4] 100))).bind
      (fun r => ((anv_dll_iterator r.2 true).drive 5).map Prod.fst) =
        some [some 4, some 3, some 2, some 1]) ∧
    (((anv_dll_iterator_reverse
        (some (dll_from_list [some (1 : Int), some 2, some 3, some 4] 100)) true).drive 5).map
      Prod.fst = some [some 4, some 3, some 2, some 1]) := by
  have hlen : (dll_elements l).length = as.length := by
    rw [dll_elements_of_wf l as hwf]; simp
  refine ⟨?_, ?_, ?_, by decide, by decide⟩
  · obtain ⟨l1, e, hwf1, hd, hal⟩ := dll_reverse_spec fuel l as hwf hf
    have hp := dll_iterator_produces l1 _ hwf1 (by rw [hal]; exact ha)
    have he : dll_elements l1 = (dll_elements l).reverse := by
      rw [dll_elements_of_wf l1 _ hwf1, dll_elements_of_wf l as hwf, List.map_reverse]
      have : (fun a => (l1.mem a).data) = fun a => (l.mem a).data := funext hd
      rw [this]
    rw [he] at hp
    obtain ⟨it1, h1, -⟩ := produces_drive _ _ hp fuel (by simp [hlen]; exact hf)
    exact ⟨l1, it1, e, h1⟩
  · obtain ⟨it1, h1, -⟩ := produces_drive _ _ (dll_iterator_reverse_produces l as hwf ha) fuel
      (by simp [hlen]; exact hf)
    exact ⟨it1, h1⟩
  · obtain ⟨it1, h1, -⟩ := produces_drive _ _ (dll_iterator_produces l as hwf ha) fuel
      (by rw [hlen]; exact hf)
    exact ⟨it1, h1⟩

end DllIterators

theorem c15_reverse_and_backward_iteration_witness :
    (∃ l1 it1, anv_dll_reverse 4 (some (dll_from_list [some (7 : Int), none, some 9] 100)) =
        some (0, some l1) ∧
      (anv_dll_iterator (some l1) true).drive 4 =
        some ((dll_elements (dll_from_list [some (7 : Int), none, some 9] 100)).reverse, it1)) ∧
    (∃ it1, (anv_dll_iterator_reverse
        (some (dll_from_list [some (7 : Int), none, some 9] 100)) true).drive 4 =
      some ((dll_elements (dll_from_list [some (7 : Int), none, some 9] 100)).reverse, it1)) ∧
    (∃ it1, (anv_dll_iterator (some (dll_from_list [some (7 : Int), none, some 9] 100))
        true).drive 4 =
      some (dll_elements (dll_from_list [some (7 : Int), none, some 9] 100), it1)) ∧
    ((anv_dll_reverse 5 (some (dll_from_list [some (1 : Int), some 2, some 3, some 4] 100))).bind
      (fun r => ((anv_dll_iterator r.2 true).drive 5).map Prod.fst) =
        some [some 4, some 3, some 2, some 1]) ∧
    (((anv_dll_iterator_reverse
        (some (dll_from_list [some (1 : Int), some 2, some 3, some 4] 100)) true).drive 5).map
      Prod.fst = some [some 4, some 3, some 2, some 1]) :=
  c15_reverse_and_backward_iteration (dll_from_list [some (7 : Int), none, some 9] 100)
    [100, 101, 102] (by decide) rfl 4 (by decide)

section DllFromIterator

variable {σ α : Type}

theorem push_back_spec (l : ANVDoublyLinkedList α) (as : List Nat) (hwf : DllWF l as)
    (ha : l.alloc.allocate = true) (d : Option α) (node : Nat) (hn : node ∉ as) :
    ∃ l1, anv_dll_push_back (some l) d (some node) = (0, some l1) ∧
      DllWF l1 (as ++ [node]) ∧
      ((as ++ [node]).map fun a => (l1.mem a).data) =
        (as.map fun a => (l.mem a).data) ++ [d] ∧
      l1.alloc = l.alloc ∧ l1.size = l.size + 1 := by
  obtain ⟨hnd, hseg, ht, hsz⟩ := hwf
  have hnd1 : (as ++ [node]).Nodup := by
    rw [List.nodup_append]
    refine ⟨hnd, List.nodup_singleton _, ?_⟩
    intro a h1 h2
    rw [List.mem_singleton] at h2
    exact hn (h2 ▸ h1)
  have hal : (if anv_alloc_allocate (some l.alloc) (some node).isSome then some node else none) =
      some node := by simp [anv_alloc_allocate, ha]
  have hm1 : ∀ a ∈ as,
      (fun a => if a = node then
        ({ data := d, next := none, prev := l.tail } : ANVDoublyLinkedNode α)
        else l.mem a) a = l.mem a := by
    intro a h1
    have : a ≠ node := fun h => hn (h ▸ h1)
    simp [this]
  rcases List.eq_nil_or_concat' as with h0 | ⟨xs, t, h0⟩
  · subst h0
    have ht0 : l.tail = none := ht
    refine ⟨{ l with
        mem := fun a => if a = node then { data := d, next := none, prev := l.tail }
          else l.mem a,
        head := some node, tail := some node, size := l.size + 1 }, ?_, ?_, ?_, rfl, rfl⟩
    · simp only [anv_dll_push_back, hal, ht0]
    · refine ⟨hnd1, ?_, rfl, by simpa using hsz⟩
      exact ⟨rfl, by simp [ht0], by simp [DSeg]⟩
    · simp
  · subst h0
    have ht1 : l.tail = some t := by rw [ht, dlast_concat]
    have htn : t ≠ node := fun h => hn (h ▸ by simp)
    have htx : t ∉ xs := by
      have := List.nodup_append.1 hnd
      intro h
      exact this.2.2 h (List.mem_singleton_self _)
    refine ⟨{ l with
        mem := set_next (fun a => if a = node then { data := d, next := none, prev := l.tail }
          else l.mem a) t (some node),
        tail := some node, size := l.size + 1 }, ?_, ?_, ?_, rfl, rfl⟩
    · simp only [anv_dll_push_back, hal, ht1]
    · refine ⟨hnd1, ?_, by rw [dlast_concat], by simp at hsz ⊢; omega⟩
      refine (DSeg_append _ _ _ _ _ _).2 ⟨some node, ?_, rfl, ?_, ?_⟩
      · exact DSeg_set_last_next _ t (some node) xs none l.head none
          (DSeg_congr _ l.mem _ _ _ _ hm1 hseg) htx
      · rw [dlast_concat]; simp [ht1]
      · show (set_next _ t (some node) node).next = none
        rw [set_next_other _ _ _ _ htn.symm]
        simp
    · rw [List.map_append]
      congr 1
      · apply List.map_congr_left
        intro a h1
        have : a ≠ node := fun h => hn (h ▸ h1)
        simp [this]
      · simp

theorem from_iterator_loop_spec (copy : α → Option α) (new_node : Nat → Option Nat)
    (hnew : ∀ k, (new_node k).isSome = true) (hinj : Function.Injective new_node) :
    ∀ (fuel : Nat) (xs : List (Option α)) (it : ANVIterator σ α)
      (l : ANVDoublyLinkedList α) (as : List Nat),
      Produces it xs → DllWF l as → l.alloc.allocate = true →
      (∀ a ∈ as, ∃ k, k < l.size ∧ new_node k = some a) → xs.length < fuel →
      ∃ l1 it1 bs, anv_dll_from_iterator_loop false copy new_node fuel it l =
          some (some l1, it1) ∧
        DllWF l1 bs ∧
        (bs.map fun a => (l1.mem a).data) =
          (as.map fun a => (l.mem a).data) ++ xs.filter Option.isSome := by
  intro fuel
  induction fuel with
  | zero => intro xs it l as _ _ _ _ hf; omega
  | succ fuel ih =>
    intro xs it l as hp hwf ha hfresh hf
    obtain ⟨it1, e1, h1⟩ := produces_isProducer.has_next it xs hp
    cases xs with
    | nil =>
      refine ⟨l, it1, as, ?_, hwf, by simp⟩
      simp [anv_dll_from_iterator_loop, e1]
    | cons x xs =>
      obtain ⟨it2, e2, h2⟩ := produces_isProducer.get it1 _ h1
      obtain ⟨it3, e3, h3⟩ := produces_isProducer.next_cons it2 x xs h2
      cases x with
      | none =>
        obtain ⟨l1, it4, bs, e4, hwf4, hb4⟩ :=
          ih xs it3 l as h3 hwf ha hfresh (by simp at hf ⊢; omega)
        refine ⟨l1, it4, bs, ?_, hwf4, by simpa using hb4⟩
        simp [anv_dll_from_iterator_loop, e1, e2, e3, e4]
      | some element =>
        obtain ⟨node, hnode⟩ := Option.isSome_iff_exists.1 (hnew l.size)
        have hfr : node ∉ as := by
          intro hmem
          obtain ⟨k, hk1, hk2⟩ := hfresh node hmem
          have := hinj (hk2.trans hnode.symm)
          omega
        obtain ⟨l1, e5, hwf1, hd1, hal1, hsz1⟩ :=
          push_back_spec l as hwf ha (some element) node hfr
        have hfresh1 : ∀ a ∈ as ++ [node], ∃ k, k < l1.size ∧ new_node k = some a := by
          intro a hmem
          rcases List.mem_append.1 hmem with h5 | h5
          · obtain ⟨k, hk1, hk2⟩ := hfresh a h5
            exact ⟨k, by omega, hk2⟩
          · rw [List.mem_singleton] at h5
            exact ⟨l.size, by omega, by rw [h5]; exact hnode⟩
        obtain ⟨l2, it4, bs, e4, hwf4, hb4⟩ :=
          ih xs it3 l1 (as ++ [node]) h3 hwf1 (by rw [hal1]; exact ha) hfresh1
            (by simp at hf ⊢; omega)
        refine ⟨l2, it4, bs, ?_, hwf4, ?_⟩
        · simp [anv_dll_from_iterator_loop, e1, e2, e3, hnode, e5, e4]
        · rw [hb4, hd1]; simp

theorem from_iterator_loop_yields (copy : α → Option α) (new_node : Nat → Option Nat)
    (hnew : ∀ k, (new_node k).isSome = true) (hinj : Function.Injective new_node)
    {I : ANVIterator σ α → List (Option α) → Prop} (hI : SourceInv I) :
    ∀ (fuel : Nat) (xs : List (Option α)) (it : ANVIterator σ α)
      (l : ANVDoublyLinkedList α) (as : List Nat),
      I it xs → DllWF l as → l.alloc.allocate = true →
      (∀ a ∈ as, ∃ k, k < l.size ∧ new_node k = some a) → xs.length < fuel →
      ∃ l1 it1 bs, anv_dll_from_iterator_loop false copy new_node fuel it l =
          some (some l1, it1) ∧
        DllWF l1 bs ∧
        (bs.map fun a => (l1.mem a).data) =
          (as.map fun a => (l.mem a).data) ++ xs.filter Option.isSome := by
  intro fuel
  induction fuel with
  | zero => intro xs it l as _ _ _ _ hf; omega
  | succ fuel ih =>
    intro xs it l as hp hwf ha hfresh hf
    cases xs with
    | nil =>
      obtain ⟨it1, e1⟩ := hI.done it hp
      refine ⟨l, it1, as, ?_, hwf, by simp⟩
      simp [anv_dll_from_iterator_loop, e1]
    | cons x xs =>
      obtain ⟨it1, it2, it3, e1, e2, e3, h3⟩ := hI.step it x xs hp
      cases x with
      | none =>
        obtain ⟨l1, it4, bs, e4, hwf4, hb4⟩ :=
          ih xs it3 l as h3 hwf ha hfresh (by simp at hf ⊢; omega)
        refine ⟨l1, it4, bs, ?_, hwf4, by simpa using hb4⟩
        simp [anv_dll_from_iterator_loop, e1, e2, e3, e4]
      | some element =>
        obtain ⟨node, hnode⟩ := Option.isSome_iff_exists.1 (hnew l.size)
        have hfr : node ∉ as := by
          intro hmem
          obtain ⟨k, hk1, hk2⟩ := hfresh node hmem
          have := hinj (hk2.trans hnode.symm)
          omega
        obtain ⟨l1, e5, hwf1, hd1, hal1, hsz1⟩ :=
          push_back_spec l as hwf ha (some element) node hfr
        have hfresh1 : ∀ a ∈ as ++ [node], ∃ k, k < l1.size ∧ new_node k = some a := by
          intro a hmem
          rcases List.mem_append.1 hmem with h5 | h5
          · obtain ⟨k, hk1, hk2⟩ := hfresh a h5
            exact ⟨k, by omega, hk2⟩
          · rw [List.mem_singleton] at h5
            exact ⟨l.size, by omega, by rw [h5]; exact hnode⟩
        obtain ⟨l2, it4, bs, e4, hwf4, hb4⟩ :=
          ih xs it3 l1 (as ++ [node]) h3 hwf1 (by rw [hal1]; exact ha) hfresh1
            (by simp at hf ⊢; omega)
        refine ⟨l2, it4, bs, ?_, hwf4, ?_⟩
        · simp [anv_dll_from_iterator_loop, e1, e2, e3, hnode, e5, e4]
        · rw [hb4, hd1]; simp

theorem produces_yields (it : ANVIterator σ α) (xs : List (Option α)) (h : Produces it xs) :
    Yields it xs := by
  refine ⟨Produces, ⟨?_, ?_⟩, h⟩
  · intro it0 h0
    obtain ⟨it1, e, -⟩ := produces_isProducer.has_next it0 [] h0
    exact ⟨it1, by simpa using e⟩
  · intro it0 x xs0 h0
    obtain ⟨it1, e1, h1⟩ := produces_isProducer.has_next it0 _ h0
    obtain ⟨it2, e2, h2⟩ := produces_isProducer.get it1 _ h1
    obtain ⟨it3, e3, h3⟩ := produces_isProducer.next_cons it2 x xs0 h2
    exact ⟨it1, it2, it3, by simpa using e1, by simpa using e2, e3, h3⟩

theorem bst_next_inorder_rc {γ : Type} (st : BSTIteratorState γ)
    (h : st.traversal_type = .BST_TRAVERSAL_INORDER) : (bst_iterator_next (some st)).1 = 0 := by
  simp only [bst_iterator_next, h, bst_iterator_next_inorder]
  split_ifs <;> rfl

theorem bst_inorder_yields {γ : Type} (t : ANVBinarySearchTree γ)
    (hsize : t.size = t.root.count) :
    Yields (anv_bst_iterator (some t)) ((anv_bst_node_inorder t.root).map some) := by
  refine ⟨BstInorderInv, ⟨?_, ?_⟩, bst_inorder_init t hsize⟩
  · intro it h
    obtain ⟨it1, e, -⟩ := bstInorderInv_driveInv.done it h
    exact ⟨it1, e⟩
  · intro it x xs h
    have hty : ∃ st : BSTIteratorState γ, it = bst_iterator_with (some st) ∧
        st.traversal_type = .BST_TRAVERSAL_INORDER := by
      obtain ⟨st, e, hty, -⟩ := h
      exact ⟨st, e, hty⟩
    obtain ⟨it1, it2, rc, it3, e1, e2, e3, h3⟩ := bstInorderInv_driveInv.step it x xs h
    refine ⟨it1, it2, it3, e1, e2, ?_, h3⟩
    obtain ⟨st, rfl, hst⟩ := hty
    simp only [bst_with_callHasNext, bst_iterator_has_next, Option.some.injEq,
      Prod.mk.injEq] at e1
    obtain ⟨-, rfl⟩ := e1
    simp only [bst_with_callGet, bst_iterator_get, Option.some.injEq, Prod.mk.injEq] at e2
    obtain ⟨-, rfl⟩ := e2
    simp only [bst_with_callNext, Option.some.injEq, Prod.mk.injEq] at e3 ⊢
    exact ⟨bst_next_inorder_rc st hst, e3.2⟩

/-- C20. For every valid source iterator that yields the sequence `xs`, which
may contain null elements, and whose `next` succeeds while `has_next` is
true (nothing is assumed about `next` once `has_next` is false, so the
iterators of the tree, whose `next` returns `0` there, are sources as well
as the well-behaved producers), `anv_dll_from_iterator` with `should_copy`
false and every allocation succeeding returns a well-formed list whose
forward element sequence is the non-null elements of `xs` in their order,
and whose size is their number; no element of the list is null. -/
theorem c20_from_iterator_skips_null_elements (it : ANVIterator σ α) (xs : List (Option α))
    (hp : Yields it xs) (hv : it.callIsValid = true)
    (alloc : ANVAllocator) (ha : alloc.allocate = true) (copy : α → Option α)
    (new_node : Nat → Option Nat) (hnew : ∀ k, (new_node k).isSome = true)
    (hinj : Function.Injective new_node) (fuel : Nat) (hf : xs.length < fuel) :
    ∃ l it1, anv_dll_from_iterator fuel (some it) (some alloc) false copy true new_node =
        some (some l, some it1) ∧
      dll_elements l = xs.filter Option.isSome ∧
      l.size = (xs.filter Option.isSome).length ∧
      (∀ x ∈ dll_elements l, x ≠ none) ∧
      ∃ as, DllWF l as := by
  obtain ⟨I, hI, hp⟩ := hp
  obtain ⟨l1, it1, bs, e, hwf, hb⟩ :=
    from_iterator_loop_yields copy new_node hnew hinj hI fuel xs it
      { mem := fun _ => { data := none, next := none, prev := none },
        head := none, tail := none, size := 0, alloc := alloc } []
      hp ⟨List.nodup_nil, rfl, rfl, rfl⟩ ha (fun a h => by simp at h) hf
  have hel : dll_elements l1 = xs.filter Option.isSome := by
    rw [dll_elements_of_wf l1 bs hwf, hb]; simp
  refine ⟨l1, it1, ?_, hel, ?_, ?_, bs, hwf⟩
  · simp [anv_dll_from_iterator, hv, anv_dll_create, anv_alloc_allocate, ha, e]
  · rw [hwf.2.2.2, ← hel, dll_elements_of_wf l1 bs hwf]; simp
  · intro x hx
    rw [hel] at hx
    intro h0
    subst h0
    simpa using (List.mem_filter.1 hx).2

end DllFromIterator

theorem c20_from_iterator_skips_null_elements_witness :
    (∃ l it1, anv_dll_from_iterator 4
        (some (anv_dll_iterator (some (dll_from_list [some (3 : Int), none, some 5] 100)) true))
        (some anv_alloc_default) false (fun x => some x) true (fun k => some (200 + k)) =
        some (some l, some it1) ∧
      dll_elements l =
        (dll_elements (dll_from_list [some (3 : Int), none, some 5] 100)).filter Option.isSome ∧
      l.size =
        ((dll_elements (dll_from_list [some (3 : Int), none, some 5] 100)).filter
          Option.isSome).length ∧
      (∀ x ∈ dll_elements l, x ≠ none) ∧
      ∃ as, DllWF l as) ∧
    (∃ l it1, anv_dll_from_iterator 6 (some (anv_bst_iterator (some bst_example_tree)))
        (some anv_alloc_default) false (fun x => some x) true (fun k => some (200 + k)) =
        some (some l, some it1) ∧
      dll_elements l =
        ((anv_bst_node_inorder bst_example_tree.root).map some).filter Option.isSome ∧
      l.size =
        (((anv_bst_node_inorder bst_example_tree.root).map some).filter Option.isSome).length ∧
      (∀ x ∈ dll_elements l, x ≠ none) ∧
      ∃ as, DllWF l as) :=
  ⟨c20_from_iterator_skips_null_elements
      (anv_dll_iterator (some (dll_from_list [some (3 : Int), none, some 5] 100)) true)
      (dll_elements (dll_from_list [some (3 : Int), none, some 5] 100))
      (produces_yields _ _
        (dll_iterator_produces (dll_from_list [some (3 : Int), none, some 5] 100)
          [100, 101, 102] (by decide) rfl))
      rfl anv_alloc_default rfl (fun x => some x) (fun k => some (200 + k)) (fun _ => rfl)
      (fun a b h => by simpa using h) 4 (by decide),
    c20_from_iterator_skips_null_elements
      (anv_bst_iterator (some bst_example_tree))
      ((anv_bst_node_inorder bst_example_tree.root).map some)
      (bst_inorder_yields bst_example_tree rfl)
      rfl anv_alloc_default rfl (fun x => some x) (fun k => some (200 + k)) (fun _ => rfl)
      (fun a b h => by simpa using h) 6 (by decide)⟩

section HashSetBasics

variable {σ κ : Type}

theorem hashmap_iterator_isProducer : IsProducer (@HashMapIterRel κ) := by
  constructor
  · rintro it xs ⟨st, rfl, rfl⟩
    refine ⟨hashmap_iterator_with (some st), ?_, st, rfl, rfl⟩
    cases h : st.rest <;> simp [ANVIterator.callHasNext, hashmap_iterator_with, h]
  · rintro it xs ⟨st, rfl, rfl⟩
    refine ⟨hashmap_iterator_with (some st), ?_, st, rfl, rfl⟩
    cases h : st.rest <;>
      simp [ANVIterator.callGet, hashmap_iterator_with, h, hashmap_pair]
  · rintro it x xs ⟨st, rfl, hxs⟩
    cases h : st.rest with
    | nil => rw [h] at hxs; simp at hxs
    | cons e es =>
      rw [h] at hxs
      simp only [List.map_cons, List.cons.injEq] at hxs
      refine ⟨hashmap_iterator_with (some { st with rest := es }), ?_,
        { st with rest := es }, rfl, hxs.2⟩
      simp [ANVIterator.callNext, hashmap_iterator_with, h]
  · rintro it ⟨st, rfl, hxs⟩
    cases h : st.rest with
    | cons e es => rw [h] at hxs; simp at hxs
    | nil =>
      refine ⟨hashmap_iterator_with (some st), ?_, st, rfl, by simp [h]⟩
      simp [ANVIterator.callNext, hashmap_iterator_with, h]

theorem hashmap_iterator_produces (m : ANVHashMap κ) (ha : m.alloc.allocate = true) :
    Produces (anv_hashmap_iterator (some m) true) (m.entries.map hashmap_pair) :=
  ⟨_, hashmap_iterator_isProducer, { all := m.entries, rest := m.entries },
    by simp [anv_hashmap_iterator, anv_alloc_allocate, ha], rfl⟩

theorem hashmap_contains_iff (m : ANVHashMap κ) (x : κ) :
    anv_hashmap_contains_key m x = true ↔ ∃ k ∈ hashmap_keys m, m.key_equals k x = true := by
  simp [anv_hashmap_contains_key, hashmap_keys, List.any_eq_true]

theorem hashmap_put_keys (m : ANVHashMap κ) (k : κ) (v : Nat) (rc : Int)
    (ha : m.alloc.allocate = true) :
    hashmap_keys (anv_hashmap_put m k v true rc).2 =
      (if anv_hashmap_contains_key m k then hashmap_keys m else hashmap_keys m ++ [k]) ∧
    (anv_hashmap_put m k v true rc).2.key_equals = m.key_equals ∧
    (anv_hashmap_put m k v true rc).2.alloc = m.alloc ∧
    (anv_hashmap_contains_key m k = false → (anv_hashmap_put m k v true rc).1 = 0) := by
  unfold anv_hashmap_put
  by_cases h : anv_hashmap_contains_key m k = true
  · simp only [h, if_true]
    refine ⟨?_, trivial, trivial, fun h2 => by simp at h2⟩
    simp only [hashmap_keys, List.map_map]
    apply List.map_congr_left
    intro e _
    simp only [Function.comp]
    split <;> rfl
  · have h2 : anv_hashmap_contains_key m k = false := by simpa using h
    simp [h2, anv_alloc_allocate, ha, hashmap_keys]

end HashSetBasics
section HashSetLoops

variable {σ κ : Type}

@[simp] theorem hashset_env_ok_entry (rc : Int) (k : Nat) :
    (hashset_env_ok rc).entry k = true := rfl

@[simp] theorem hashset_env_ok_rc_bound (rc : Int) : (hashset_env_ok rc).rc_bound = rc := rfl

theorem hashmap_contains_congr (m1 m : ANVHashMap κ) (hk : hashmap_keys m1 = hashmap_keys m)
    (he : m1.key_equals = m.key_equals) (x : κ) :
    anv_hashmap_contains_key m1 x = anv_hashmap_contains_key m x := by
  rw [Bool.eq_iff_iff, hashmap_contains_iff, hashmap_contains_iff, hk, he]

theorem hashmap_contains_append (m1 m : ANVHashMap κ) (k : κ)
    (hk : hashmap_keys m1 = hashmap_keys m ++ [k]) (he : m1.key_equals = m.key_equals)
    (x : κ) (hx : m.key_equals k x = false) :
    anv_hashmap_contains_key m1 x = anv_hashmap_contains_key m x := by
  rw [Bool.eq_iff_iff, hashmap_contains_iff, hashmap_contains_iff, hk, he]
  constructor
  · rintro ⟨a, ha, h⟩
    rcases List.mem_append.1 ha with h1 | h1
    · exact ⟨a, h1, h⟩
    · rw [List.mem_singleton] at h1
      subst h1
      rw [hx] at h
      cases h
  · rintro ⟨a, ha, h⟩
    exact ⟨a, List.mem_append_left _ ha, h⟩

theorem select_loop_spec (rc : Int) (keep : Option κ → Bool) :
    ∀ (es : List (κ × Nat)) (fuel : Nat) (it : ANVIterator σ (ANVPair κ Nat))
      (m : ANVHashMap κ),
      Produces it (es.map hashmap_pair) → es.length < fuel → m.alloc.allocate = true →
      (es.map Prod.fst).Pairwise (fun a b => m.key_equals a b = false) →
      (∀ e ∈ es, anv_hashmap_contains_key m e.1 = false) →
      ∃ m1, anv_hashset_select_loop (hashset_env_ok rc) keep fuel it (some { map := some m }) =
          some (some { map := some m1 }) ∧
        hashmap_keys m1 = hashmap_keys m ++ (es.map Prod.fst).filter (fun k => keep (some k)) ∧
        m1.key_equals = m.key_equals ∧ m1.alloc = m.alloc := by
  intro es
  induction es with
  | nil =>
    intro fuel it m hp hf _ _ _
    obtain ⟨it1, e1, -⟩ := produces_isProducer.has_next it _ hp
    cases fuel with
    | zero => simp at hf
    | succ fuel =>
      exact ⟨m, by simp [anv_hashset_select_loop, e1], by simp, rfl, rfl⟩
  | cons e es ih =>
    intro fuel it m hp hf ha hpw hnc
    cases fuel with
    | zero => simp at hf
    | succ fuel =>
      obtain ⟨it1, e1, h1⟩ := produces_isProducer.has_next it _ hp
      obtain ⟨it2, e2, h2⟩ := produces_isProducer.get it1 _ h1
      obtain ⟨it3, e3, h3⟩ := produces_isProducer.next_cons it2 _ _ h2
      simp only [List.map_cons, List.pairwise_cons] at hpw
      obtain ⟨hpw1, hpw2⟩ := hpw
      by_cases hk : keep (some e.1) = true
      · have hce : anv_hashmap_contains_key m e.1 = false := hnc e (List.mem_cons_self _ _)
        obtain ⟨p1, p2, p3, p4⟩ := hashmap_put_keys m e.1 HASHSET_PRESENT rc ha
        rw [hce] at p1
        simp only [Bool.false_eq_true, if_false] at p1
        obtain ⟨m1, q1, q2, q3, q4⟩ :=
          ih fuel it3 (anv_hashmap_put m e.1 HASHSET_PRESENT true rc).2 h3
            (by simp at hf ⊢; omega) (by rw [p3]; exact ha)
            (by rw [p2]; exact hpw2)
            (by
              intro e' he'
              rw [hashmap_contains_append _ m e.1 p1 p2 e'.1
                (hpw1 e'.1 (List.mem_map_of_mem _ he'))]
              exact hnc e' (List.mem_cons_of_mem _ he'))
        refine ⟨m1, ?_, ?_, q3.trans p2, q4.trans p3⟩
        · simp [anv_hashset_select_loop, e1, e2, e3, hashmap_pair, hk, anv_hashset_add,
            anv_hashset_size, p4 hce, q1]
        · rw [q2, p1]
          simp [List.filter_cons, hk]
      · obtain ⟨m1, q1, q2, q3, q4⟩ :=
          ih fuel it3 m h3 (by simp at hf ⊢; omega) ha hpw2
            (fun e' he' => hnc e' (List.mem_cons_of_mem _ he'))
        refine ⟨m1, ?_, ?_, q3, q4⟩
        · simp [anv_hashset_select_loop, e1, e2, e3, hashmap_pair, hk, q1]
        · rw [q2]
          simp [List.filter_cons, hk]

theorem union_loop1_eq_select (env : HashSetEnv) :
    ∀ (fuel : Nat) (it : ANVIterator σ (ANVPair κ Nat)) (result : Option (ANVHashSet κ)),
      anv_hashset_union_loop1 env fuel it result =
        anv_hashset_select_loop env (fun _ => true) fuel it result := by
  intro fuel
  induction fuel with
  | zero => intro it result; rfl
  | succ fuel ih =>
    intro it result
    simp only [anv_hashset_union_loop1, anv_hashset_select_loop]
    cases it.callHasNext with
    | none => rfl
    | some r =>
      obtain ⟨b, it1⟩ := r
      cases b with
      | false => rfl
      | true =>
        simp only
        cases it1.callGet with
        | none => rfl
        | some r2 =>
          obtain ⟨pair, it2⟩ := r2
          cases pair with
          | none =>
            simp only [Option.isSome_none, Bool.false_and, Bool.false_eq_true, if_false, ne_eq,
              not_true_eq_false]
            cases it2.callNext with
            | none => rfl
            | some r3 => exact ih _ _
          | some p =>
            simp only [Option.isSome_some, Bool.true_and, if_true, decide_eq_true_eq]
            split
            · rfl
            · cases it2.callNext with
              | none => rfl
              | some r3 => exact ih _ _

theorem union_loop2_spec (rc : Int) :
    ∀ (es : List (κ × Nat)) (fuel : Nat) (it : ANVIterator σ (ANVPair κ Nat))
      (m : ANVHashMap κ),
      Produces it (es.map hashmap_pair) → es.length < fuel → m.alloc.allocate = true →
      (es.map Prod.fst).Pairwise (fun a b => m.key_equals a b = false) →
      ∃ m1, anv_hashset_union_loop2 (hashset_env_ok rc) fuel it (some { map := some m }) =
          some (some { map := some m1 }) ∧
        hashmap_keys m1 = hashmap_keys m ++
          (es.map Prod.fst).filter (fun k => !anv_hashmap_contains_key m k) ∧
        m1.key_equals = m.key_equals ∧ m1.alloc = m.alloc := by
  intro es
  induction es with
  | nil =>
    intro fuel it m hp hf _ _
    obtain ⟨it1, e1, -⟩ := produces_isProducer.has_next it _ hp
    cases fuel with
    | zero => simp at hf
    | succ fuel =>
      exact ⟨m, by simp [anv_hashset_union_loop2, e1], by simp, rfl, rfl⟩
  | cons e es ih =>
    intro fuel it m hp hf ha hpw
    cases fuel with
    | zero => simp at hf
    | succ fuel =>
      obtain ⟨it1, e1, h1⟩ := produces_isProducer.has_next it _ hp
      obtain ⟨it2, e2, h2⟩ := produces_isProducer.get it1 _ h1
      obtain ⟨it3, e3, h3⟩ := produces_isProducer.next_cons it2 _ _ h2
      simp only [List.map_cons, List.pairwise_cons] at hpw
      obtain ⟨hpw1, hpw2⟩ := hpw
      obtain ⟨p1, p2, p3, -⟩ := hashmap_put_keys m e.1 HASHSET_PRESENT rc ha
      obtain ⟨m1, q1, q2, q3, q4⟩ :=
        ih fuel it3 (anv_hashmap_put m e.1 HASHSET_PRESENT true rc).2 h3
          (by simp at hf ⊢; omega) (by rw [p3]; exact ha) (by rw [p2]; exact hpw2)
      refine ⟨m1, ?_, ?_, q3.trans p2, q4.trans p3⟩
      · simp [anv_hashset_union_loop2, e1, e2, e3, hashmap_pair, anv_hashset_add,
          anv_hashset_size, q1]
      · rw [q2]
        by_cases hc : anv_hashmap_contains_key m e.1 = true
        · rw [hc] at p1
          simp only [if_true] at p1
          rw [p1]
          simp only [List.map_cons, List.filter_cons, hc, Bool.not_true, Bool.false_eq_true,
            if_false]
          congr 1
          apply List.filter_congr
          intro x _
          rw [hashmap_contains_congr _ m p1 p2]
        · have hc2 : anv_hashmap_contains_key m e.1 = false := by simpa using hc
          rw [hc2] at p1
          simp only [Bool.false_eq_true, if_false] at p1
          rw [p1]
          simp only [List.map_cons, List.filter_cons, hc2, Bool.not_false, if_true,
            List.append_assoc, List.singleton_append]
          congr 2
          apply List.filter_congr
          intro x hx
          rw [hashmap_contains_append _ m e.1 p1 p2 x (hpw1 x hx)]

theorem is_subset_loop_spec (superset : Option (ANVHashSet κ)) :
    ∀ (es : List (κ × Nat)) (fuel : Nat) (it : ANVIterator σ (ANVPair κ Nat)),
      Produces it (es.map hashmap_pair) → es.length < fuel →
      anv_hashset_is_subset_loop superset fuel it =
        some (if ∀ e ∈ es, anv_hashset_contains superset (some e.1) = true then 1 else 0) := by
  intro es
  induction es with
  | nil =>
    intro fuel it hp hf
    obtain ⟨it1, e1, -⟩ := produces_isProducer.has_next it _ hp
    cases fuel with
    | zero => simp at hf
    | succ fuel => simp [anv_hashset_is_subset_loop, e1]
  | cons e es ih =>
    intro fuel it hp hf
    cases fuel with
    | zero => simp at hf
    | succ fuel =>
      obtain ⟨it1, e1, h1⟩ := produces_isProducer.has_next it _ hp
      obtain ⟨it2, e2, h2⟩ := produces_isProducer.get it1 _ h1
      obtain ⟨it3, e3, h3⟩ := produces_isProducer.next_cons it2 _ _ h2
      have := ih fuel it3 h3 (by simp at hf ⊢; omega)
      by_cases hc : anv_hashset_contains superset (some e.1) = true
      · have hiff : (∀ e1 ∈ e :: es, anv_hashset_contains superset (some e1.1) = true) ↔
            (∀ e1 ∈ es, anv_hashset_contains superset (some e1.1) = true) := by
          rw [List.forall_mem_cons]
          exact ⟨fun h => h.2, fun h => ⟨hc, h⟩⟩
        have hstep : anv_hashset_is_subset_loop superset (fuel + 1) it =
            anv_hashset_is_subset_loop superset fuel it3 := by
          simp [anv_hashset_is_subset_loop, e1, e2, e3, hashmap_pair, hc]
        rw [hstep, this]
        by_cases hall : ∀ e1 ∈ es, anv_hashset_contains superset (some e1.1) = true
        · rw [if_pos hall, if_pos (hiff.2 hall)]
        · rw [if_neg hall, if_neg (fun h => hall (hiff.1 h))]
      · simp [anv_hashset_is_subset_loop, e1, e2, hashmap_pair, hc]

end HashSetLoops
section HashSetAlgebra

variable {κ : Type}

theorem hashset_contains_iff (m : ANVHashMap κ) (x : κ) :
    anv_hashset_contains (some { map := some m }) (some x) = true ↔
      ∃ k ∈ hashmap_keys m, m.key_equals k x = true := by
  simp only [anv_hashset_contains]
  exact hashmap_contains_iff m x

theorem hashset_not_contains (m : ANVHashMap κ) (x k : κ)
    (h : anv_hashmap_contains_key m x = false) (hk : k ∈ hashmap_keys m) :
    m.key_equals k x = false := by
  cases he : m.key_equals k x with
  | false => rfl
  | true =>
    have := (hashmap_contains_iff m x).2 ⟨k, hk, he⟩
    rw [h] at this
    cases this

theorem filter_contains_mem (mR mX : ANVHashMap κ) (keep : κ → Bool)
    (he : mR.key_equals = mX.key_equals)
    (hk : hashmap_keys mR = (hashmap_keys mX).filter keep)
    (hkeep : ∀ a b, mX.key_equals a b = true → keep a = keep b) (x : κ) :
    anv_hashmap_contains_key mR x = (anv_hashmap_contains_key mX x && keep x) := by
  rw [Bool.eq_iff_iff, Bool.and_eq_true, hashmap_contains_iff, hashmap_contains_iff, hk, he]
  constructor
  · rintro ⟨k, hk1, hk2⟩
    obtain ⟨h1, h2⟩ := List.mem_filter.1 hk1
    exact ⟨⟨k, h1, hk2⟩, by rw [← hkeep k x hk2]; exact h2⟩
  · rintro ⟨⟨k, hk1, hk2⟩, h3⟩
    exact ⟨k, List.mem_filter.2 ⟨hk1, by rw [hkeep k x hk2]; exact h3⟩, hk2⟩

theorem hashmap_contains_respects (m : ANVHashMap κ) (eq : κ → κ → Bool)
    (heq : IsKeyEquivalence eq) (he : m.key_equals = eq) (a b : κ) (hab : eq a b = true) :
    anv_hashmap_contains_key m a = anv_hashmap_contains_key m b := by
  rw [Bool.eq_iff_iff, hashmap_contains_iff, hashmap_contains_iff, he]
  constructor
  · rintro ⟨k, h1, h2⟩
    exact ⟨k, h1, heq.trans _ _ _ h2 hab⟩
  · rintro ⟨k, h1, h2⟩
    exact ⟨k, h1, heq.trans _ _ _ h2 (heq.symm _ _ hab)⟩

theorem union_spec (mA mB : ANVHashMap κ) (rc : Int)
    (hsame : mB.key_equals = mA.key_equals) (hA : HashMapWF mA) (hB : HashMapWF mB)
    (ha : mA.alloc.allocate = true) (hb : mB.alloc.allocate = true) (fuel : Nat)
    (hfA : mA.entries.length < fuel) (hfB : mB.entries.length < fuel) :
    ∃ mR, anv_hashset_union (hashset_env_ok rc) fuel (some { map := some mA })
        (some { map := some mB }) = some (some { map := some mR }) ∧
      mR.key_equals = mA.key_equals ∧
      hashmap_keys mR = hashmap_keys mA ++
        (hashmap_keys mB).filter (fun k => !anv_hashmap_contains_key mA k) := by
  obtain ⟨m1, e1, k1, q1, a1⟩ :=
    select_loop_spec rc (fun _ => true) mA.entries fuel
      (anv_hashmap_iterator (some mA) true)
      { alloc := mA.alloc, hash := mA.hash, key_equals := mA.key_equals, entries := [] }
      (hashmap_iterator_produces mA ha) hfA ha hA
      (by intro e _; simp [anv_hashmap_contains_key])
  have k1a : hashmap_keys m1 = hashmap_keys mA := by
    rw [k1]; simp [hashmap_keys]
  obtain ⟨m2, e2, k2, q2, a2⟩ :=
    union_loop2_spec rc mB.entries fuel (anv_hashmap_iterator (some mB) true) m1
      (hashmap_iterator_produces mB hb) hfB (by rw [a1]; exact ha)
      (by rw [q1]; show (hashmap_keys mB).Pairwise _; rw [← hsame]; exact hB)
  refine ⟨m2, ?_, q2.trans q1, ?_⟩
  · simp only [anv_hashset_union, anv_hashset_create, anv_hashmap_create, anv_alloc_allocate, ha,
      hashset_env_ok, Bool.not_true, Bool.false_eq_true, if_false, union_loop1_eq_select]
    have e1a := e1
    simp only [hashset_env_ok] at e1a
    rw [e1a]
    have e2a := e2
    simp only [hashset_env_ok] at e2a
    exact e2a
  · rw [k2, k1a]
    congr 1
    apply List.filter_congr
    intro x _
    rw [hashmap_contains_congr m1 mA k1a q1]

theorem intersection_spec (mA mB : ANVHashMap κ) (rc : Int)
    (heq : IsKeyEquivalence mA.key_equals) (hsame : mB.key_equals = mA.key_equals)
    (hA : HashMapWF mA) (hB : HashMapWF mB) (ha : mA.alloc.allocate = true)
    (hb : mB.alloc.allocate = true) (fuel : Nat) (hfA : mA.entries.length < fuel)
    (hfB : mB.entries.length < fuel) :
    ∃ mR, anv_hashset_intersection (hashset_env_ok rc) fuel (some { map := some mA })
        (some { map := some mB }) = some (some { map := some mR }) ∧
      ∀ x, anv_hashmap_contains_key mR x =
        (anv_hashmap_contains_key mA x && anv_hashmap_contains_key mB x) := by
  by_cases hsz : mA.entries.length ≤ mB.entries.length
  · obtain ⟨m1, e1, k1, q1, -⟩ :=
      select_loop_spec rc (fun k => anv_hashset_contains (some { map := some mB }) k)
        mA.entries fuel (anv_hashmap_iterator (some mA) true)
        { alloc := mA.alloc, hash := mA.hash, key_equals := mA.key_equals, entries := [] }
        (hashmap_iterator_produces mA ha) hfA ha hA
        (by intro e _; simp [anv_hashmap_contains_key])
    refine ⟨m1, ?_, ?_⟩
    · simp only [anv_hashset_intersection, anv_hashset_create, anv_hashmap_create,
        anv_alloc_allocate, ha, hashset_env_ok, Bool.not_true, Bool.false_eq_true, if_false,
        anv_hashset_size, anv_hashmap_size, hsz, if_true]
      have e1a := e1
      simp only [hashset_env_ok] at e1a
      exact e1a
    · intro x
      refine filter_contains_mem m1 mA (fun k => anv_hashmap_contains_key mB k) q1
        (by rw [k1]; simp [hashmap_keys, anv_hashset_contains]) ?_ x
      intro a b hab
      exact hashmap_contains_respects mB _ heq hsame a b hab
  · have heqB : IsKeyEquivalence mB.key_equals := by rw [hsame]; exact heq
    obtain ⟨m1, e1, k1, q1, -⟩ :=
      select_loop_spec rc (fun k => anv_hashset_contains (some { map := some mA }) k)
        mB.entries fuel (anv_hashmap_iterator (some mB) true)
        { alloc := mA.alloc, hash := mA.hash, key_equals := mA.key_equals, entries := [] }
        (hashmap_iterator_produces mB hb) hfB ha
        (by show (hashmap_keys mB).Pairwise _; rw [← hsame]; exact hB)
        (by intro e _; simp [anv_hashmap_contains_key])
    refine ⟨m1, ?_, ?_⟩
    · simp only [anv_hashset_intersection, anv_hashset_create, anv_hashmap_create,
        anv_alloc_allocate, ha, hashset_env_ok, Bool.not_true, Bool.false_eq_true, if_false,
        anv_hashset_size, anv_hashmap_size, hsz]
      have e1a := e1
      simp only [hashset_env_ok] at e1a
      exact e1a
    · intro x
      rw [Bool.and_comm]
      refine filter_contains_mem m1 mB (fun k => anv_hashmap_contains_key mA k)
        (q1.trans hsame.symm) (by rw [k1]; simp [hashmap_keys, anv_hashset_contains]) ?_ x
      intro a b hab
      exact hashmap_contains_respects mA _ heqB hsame.symm a b hab

end HashSetAlgebra
section HashSetClaims

variable {κ : Type}

theorem int_beq_isKeyEquivalence : IsKeyEquivalence (fun a b : Int => a == b) :=
  ⟨fun a => by simp, fun a b h => by simp at h ⊢; exact h.symm,
    fun a b c h1 h2 => by simp at h1 h2 ⊢; exact h1.trans h2⟩

/-- C23. For all non-null hash sets `A` and `B` with the same key equality
(an equivalence), no two keys of a set being equal, and no allocation
failing, `anv_hashset_union(A, B)` returns a set `R` such that every key `x`
is in `R` iff it is in `A` or in `B`; the size of `R` is the size of `A` plus
the number of keys of `B` that are not in `A`, and no two keys of `R` are
equal. The arguments are read only. For `A = {1,2,3}` and `B = {2,3,4}` the
result has size 4 and contains 1, 2, 3 and 4. -/
theorem c23_union_contains_either (mA mB : ANVHashMap κ) (rc : Int)
    (heq : IsKeyEquivalence mA.key_equals) (hsame : mB.key_equals = mA.key_equals)
    (hA : HashMapWF mA) (hB : HashMapWF mB) (ha : mA.alloc.allocate = true)
    (hb : mB.alloc.allocate = true) (fuel : Nat) (hfA : mA.entries.length < fuel)
    (hfB : mB.entries.length < fuel) :
    (∃ mR, anv_hashset_union (hashset_env_ok rc) fuel (some { map := some mA })
        (some { map := some mB }) = some (some { map := some mR }) ∧
      (∀ x, anv_hashset_contains (some { map := some mR }) (some x) =
        (anv_hashset_contains (some { map := some mA }) (some x) ||
          anv_hashset_contains (some { map := some mB }) (some x))) ∧
      anv_hashset_size (some { map := some mR }) =
        anv_hashset_size (some { map := some mA }) +
          ((hashmap_keys mB).filter
            (fun k => !anv_hashset_contains (some { map := some mA }) (some k))).length ∧
      HashMapWF mR) ∧
    ((anv_hashset_union (hashset_env_ok 0) 4 (hashset_of_list [1, 2, 3])
        (hashset_of_list [2, 3, 4])).map
      (fun r => (anv_hashset_size r, [1, 2, 3, 4, 5].map fun k => anv_hashset_contains r (some k)))
      = some (4, [true, true, true, true, false])) := by
  refine ⟨?_, by decide⟩
  obtain ⟨mR, e, q, k⟩ := union_spec mA mB rc hsame hA hB ha hb fuel hfA hfB
  refine ⟨mR, e, ?_, ?_, ?_⟩
  · intro x
    simp only [anv_hashset_contains]
    rw [Bool.eq_iff_iff, Bool.or_eq_true, hashmap_contains_iff, hashmap_contains_iff,
      hashmap_contains_iff, k, q, hsame]
    constructor
    · rintro ⟨a, h1, h2⟩
      rcases List.mem_append.1 h1 with h3 | h3
      · exact Or.inl ⟨a, h3, h2⟩
      · exact Or.inr ⟨a, (List.mem_filter.1 h3).1, h2⟩
    · rintro (⟨a, h1, h2⟩ | ⟨b, h1, h2⟩)
      · exact ⟨a, List.mem_append_left _ h1, h2⟩
      · by_cases hc : anv_hashmap_contains_key mA b = true
        · obtain ⟨a, h3, h4⟩ := (hashmap_contains_iff mA b).1 hc
          exact ⟨a, List.mem_append_left _ h3, heq.trans _ _ _ h4 h2⟩
        · exact ⟨b, List.mem_append_right _ (List.mem_filter.2 ⟨h1, by simpa using hc⟩), h2⟩
  · have := congrArg List.length k
    simp only [hashmap_keys, List.length_append, List.length_map] at this
    simp only [anv_hashset_size, anv_hashmap_size, anv_hashset_contains, hashmap_keys]
    exact this
  · unfold HashMapWF
    rw [k, q, List.pairwise_append]
    refine ⟨hA, ?_, ?_⟩
    · have hB2 : (hashmap_keys mB).Pairwise fun a b => mA.key_equals a b = false := by
        rw [← hsame]; exact hB
      exact hB2.sublist (List.filter_sublist _)
    · intro a h1 b h2
      have h3 := (List.mem_filter.1 h2).2
      exact hashset_not_contains mA b a (by simpa using h3) h1

/-- C24. For all non-null hash sets `A` and `B` with the same key equality
(an equivalence), no two keys of a set being equal, and no allocation
failing, `anv_hashset_intersection(A, B)` returns a set `R` such that every
key `x` is in `R` iff it is in `A` and in `B`; the set returned by
`anv_hashset_intersection(B, A)` contains the same keys, whichever of the two
is the smaller. For `A = {1,2,3}` and `B = {2,3,4}` the result is `{2,3}`. -/
theorem c24_intersection_contains_both (mA mB : ANVHashMap κ) (rc : Int)
    (heq : IsKeyEquivalence mA.key_equals) (hsame : mB.key_equals = mA.key_equals)
    (hA : HashMapWF mA) (hB : HashMapWF mB) (ha : mA.alloc.allocate = true)
    (hb : mB.alloc.allocate = true) (fuel : Nat) (hfA : mA.entries.length < fuel)
    (hfB : mB.entries.length < fuel) :
    (∃ mR mS, anv_hashset_intersection (hashset_env_ok rc) fuel (some { map := some mA })
        (some { map := some mB }) = some (some { map := some mR }) ∧
      anv_hashset_intersection (hashset_env_ok rc) fuel (some { map := some mB })
        (some { map := some mA }) = some (some { map := some mS }) ∧
      (∀ x, anv_hashset_contains (some { map := some mR }) (some x) =
        (anv_hashset_contains (some { map := some mA }) (some x) &&
          anv_hashset_contains (some { map := some mB }) (some x))) ∧
      (∀ x, anv_hashset_contains (some { map := some mS }) (some x) =
        anv_hashset_contains (some { map := some mR }) (some x))) ∧
    ((anv_hashset_intersection (hashset_env_ok 0) 4 (hashset_of_list [1, 2, 3])
        (hashset_of_list [2, 3, 4])).map
      (fun r => (anv_hashset_size r, [1, 2, 3, 4].map fun k => anv_hashset_contains r (some k)))
      = some (2, [false, true, true, false])) ∧
    ((anv_hashset_intersection (hashset_env_ok 0) 5 (hashset_of_list [1, 2, 3, 5])
        (hashset_of_list [3, 2])).map
      (fun r => (anv_hashset_size r, [1, 2, 3, 5].map fun k => anv_hashset_contains r (some k)))
      = some (2, [false, true, true, false])) := by
  refine ⟨?_, by decide, by decide⟩
  obtain ⟨mR, e1, k1⟩ := intersection_spec mA mB rc heq hsame hA hB ha hb fuel hfA hfB
  obtain ⟨mS, e2, k2⟩ := intersection_spec mB mA rc (by rw [hsame]; exact heq) hsame.symm hB hA
    hb ha fuel hfB hfA
  refine ⟨mR, mS, e1, e2, ?_, ?_⟩
  · intro x; simp only [anv_hashset_contains]; exact k1 x
  · intro x; simp only [anv_hashset_contains]; rw [k1, k2, Bool.and_comm]

/-- C25. For every non-null hash set `A` (its key equality an equivalence, no
two of its keys equal, no allocation failing) and every hash set `B` with the
same key equality, `anv_hashset_difference(A, B)` returns a set `R` such that
every key `x` is in `R` iff it is in `A` and not in `B`; when `B` is null, or
its map is, `R` holds exactly the keys of `A`. For `A = {1,2,3}` and
`B = {2,3,4}` the result is `{1}`. -/
theorem c25_difference_contains_left_only (mA : ANVHashMap κ) (B : Option (ANVHashSet κ))
    (rc : Int) (heq : IsKeyEquivalence mA.key_equals)
    (hsame : ∀ mB, B = some { map := some mB } → mB.key_equals = mA.key_equals)
    (hA : HashMapWF mA) (ha : mA.alloc.allocate = true) (fuel : Nat)
    (hfA : mA.entries.length < fuel) :
    (∃ mR, anv_hashset_difference (hashset_env_ok rc) fuel (some { map := some mA }) B =
        some (some { map := some mR }) ∧
      (∀ x, anv_hashset_contains (some { map := some mR }) (some x) =
        (anv_hashset_contains (some { map := some mA }) (some x) &&
          !anv_hashset_contains B (some x))) ∧
      ((B = none ∨ B = some { map := none }) → hashmap_keys mR = hashmap_keys mA)) ∧
    ((anv_hashset_difference (hashset_env_ok 0) 4 (hashset_of_list [1, 2, 3])
        (hashset_of_list [2, 3, 4])).map
      (fun r => (anv_hashset_size r, [1, 2, 3, 4].map fun k => anv_hashset_contains r (some k)))
      = some (1, [true, false, false, false])) := by
  refine ⟨?_, by decide⟩
  obtain ⟨m1, e1, k1, q1, -⟩ :=
    select_loop_spec rc
      (fun k =>
        match B with
        | some { map := some _ } => !anv_hashset_contains B k
        | _ => true)
      mA.entries fuel (anv_hashmap_iterator (some mA) true)
      { alloc := mA.alloc, hash := mA.hash, key_equals := mA.key_equals, entries := [] }
      (hashmap_iterator_produces mA ha) hfA ha hA
      (by intro e _; simp [anv_hashmap_contains_key])
  have e : anv_hashset_difference (hashset_env_ok rc) fuel (some { map := some mA }) B =
      some (some { map := some m1 }) := by
    simp only [anv_hashset_difference, anv_hashset_create, anv_hashmap_create,
      anv_alloc_allocate, ha, hashset_env_ok, Bool.not_true, Bool.false_eq_true, if_false]
    have e1a := e1
    simp only [hashset_env_ok] at e1a
    exact e1a
  refine ⟨m1, e, ?_, ?_⟩
  · intro x
    cases B with
    | none =>
      simp only [anv_hashset_contains, Bool.not_false, Bool.and_true]
      exact hashmap_contains_congr m1 mA (by rw [k1]; simp [hashmap_keys]) q1 x
    | some sB =>
      obtain ⟨mapB⟩ := sB
      cases mapB with
      | none =>
        simp only [anv_hashset_contains, Bool.not_false, Bool.and_true]
        exact hashmap_contains_congr m1 mA (by rw [k1]; simp [hashmap_keys]) q1 x
      | some mB =>
        have hs := hsame mB rfl
        simp only [anv_hashset_contains]
        refine filter_contains_mem m1 mA (fun k => !anv_hashmap_contains_key mB k) q1
          (by rw [k1]; simp [hashmap_keys, anv_hashset_contains]) ?_ x
        intro a b hab
        simp only
        rw [hashmap_contains_respects mB _ heq hs a b hab]
  · rintro (h | h) <;> subst h <;> rw [k1] <;> simp [hashmap_keys]

/-- C26. For all non-null hash sets `S` and `T` (the allocation of the
iterator state succeeding) `anv_hashset_is_subset(S, T)` returns `1` if every
key of `S` is contained in `T`, in particular whenever `S` is empty, and `0`
otherwise; it returns `0` when an argument, or its map, is null. The subset
test of `{2,3}` in `{1,2,3}` returns `1`. -/
theorem c26_is_subset_iff_all_contained (mS mT : ANVHashMap κ) (env : HashSetEnv)
    (hit : env.iterator = true) (ha : mS.alloc.allocate = true) (fuel : Nat)
    (hf : mS.entries.length < fuel) (S T : Option (ANVHashSet κ)) :
    (anv_hashset_is_subset env fuel (some { map := some mS }) (some { map := some mT }) =
      some (if ∀ k ∈ hashmap_keys mS,
          anv_hashset_contains (some { map := some mT }) (some k) = true then 1 else 0)) ∧
    (hashmap_keys mS = [] →
      anv_hashset_is_subset env fuel (some { map := some mS }) (some { map := some mT }) =
        some 1) ∧
    anv_hashset_is_subset env fuel none T = some 0 ∧
    anv_hashset_is_subset env fuel (some { map := none }) T = some 0 ∧
    anv_hashset_is_subset env fuel S none = some 0 ∧
    anv_hashset_is_subset env fuel S (some { map := none }) = some 0 ∧
    (anv_hashset_is_subset (hashset_env_ok 0) 3 (hashset_of_list [2, 3])
      (hashset_of_list [1, 2, 3]) = some 1) ∧
    (anv_hashset_is_subset (hashset_env_ok 0) 4 (hashset_of_list [1, 2, 3])
      (hashset_of_list [2, 3]) = some 0) := by
  have main : anv_hashset_is_subset env fuel (some { map := some mS })
      (some { map := some mT }) =
      some (if ∀ k ∈ hashmap_keys mS,
          anv_hashset_contains (some { map := some mT }) (some k) = true then 1 else 0) := by
    by_cases hemp : mS.entries = []
    · simp [anv_hashset_is_subset, anv_hashset_is_empty, anv_hashmap_is_empty, hemp,
        hashmap_keys]
    · have hne : mS.entries.isEmpty = false := by
        cases h : mS.entries with
        | nil => exact absurd h hemp
        | cons _ _ => rfl
      have hp : Produces (anv_hashmap_iterator (some mS) env.iterator)
          (mS.entries.map hashmap_pair) := by
        rw [hit]; exact hashmap_iterator_produces mS ha
      have := is_subset_loop_spec (some { map := some mT }) mS.entries fuel _ hp hf
      simp only [anv_hashset_is_subset, anv_hashset_is_empty, anv_hashmap_is_empty, hne,
        Bool.false_eq_true, if_false, this]
      have hiff : (∀ e ∈ mS.entries,
          anv_hashset_contains (some { map := some mT }) (some e.1) = true) ↔
          (∀ k ∈ hashmap_keys mS,
            anv_hashset_contains (some { map := some mT }) (some k) = true) := by
        simp [hashmap_keys]
      by_cases hall : ∀ e ∈ mS.entries,
          anv_hashset_contains (some { map := some mT }) (some e.1) = true
      · rw [if_pos hall, if_pos (hiff.1 hall)]
      · rw [if_neg hall, if_neg (fun h => hall (hiff.2 h))]
  refine ⟨main, ?_, rfl, rfl, ?_, ?_, by decide, by decide⟩
  · intro h0
    rw [main, h0]
    simp
  · cases S with
    | none => rfl
    | some s => obtain ⟨m⟩ := s; cases m <;> rfl
  · cases S with
    | none => rfl
    | some s => obtain ⟨m⟩ := s; cases m <;> rfl

end HashSetClaims

theorem c23_union_contains_either_witness :
    (∃ mR, anv_hashset_union (hashset_env_ok 1) 4
        (some { map := some (hashmap_of_keys [1, 2, 3]) })
        (some { map := some (hashmap_of_keys [2, 3, 4]) }) = some (some { map := some mR }) ∧
      (∀ x, anv_hashset_contains (some { map := some mR }) (some x) =
        (anv_hashset_contains (some { map := some (hashmap_of_keys [1, 2, 3]) }) (some x) ||
          anv_hashset_contains (some { map := some (hashmap_of_keys [2, 3, 4]) }) (some x))) ∧
      anv_hashset_size (some { map := some mR }) =
        anv_hashset_size (some { map := some (hashmap_of_keys [1, 2, 3]) }) +
          ((hashmap_keys (hashmap_of_keys [2, 3, 4])).filter
            (fun k => !anv_hashset_contains (some { map := some (hashmap_of_keys [1, 2, 3]) })
              (some k))).length ∧
      HashMapWF mR) ∧
    ((anv_hashset_union (hashset_env_ok 0) 4 (hashset_of_list [1, 2, 3])
        (hashset_of_list [2, 3, 4])).map
      (fun r => (anv_hashset_size r, [1, 2, 3, 4, 5].map fun k => anv_hashset_contains r (some k)))
      = some (4, [true, true, true, true, false])) :=
  c23_union_contains_either (hashmap_of_keys [1, 2, 3]) (hashmap_of_keys [2, 3, 4]) 1
    int_beq_isKeyEquivalence rfl (by decide) (by decide) rfl rfl 4 (by decide) (by decide)

theorem c24_intersection_contains_both_witness :
    (∃ mR mS, anv_hashset_intersection (hashset_env_ok 1) 5
        (some { map := some (hashmap_of_keys [1, 2, 3, 5]) })
        (some { map := some (hashmap_of_keys [3, 2]) }) = some (some { map := some mR }) ∧
      anv_hashset_intersection (hashset_env_ok 1) 5
        (some { map := some (hashmap_of_keys [3, 2]) })
        (some { map := some (hashmap_of_keys [1, 2, 3, 5]) }) =
          some (some { map := some mS }) ∧
      (∀ x, anv_hashset_contains (some { map := some mR }) (some x) =
        (anv_hashset_contains (some { map := some (hashmap_of_keys [1, 2, 3, 5]) }) (some x) &&
          anv_hashset_contains (some { map := some (hashmap_of_keys [3, 2]) }) (some x))) ∧
      (∀ x, anv_hashset_contains (some { map := some mS }) (some x) =
        anv_hashset_contains (some { map := some mR }) (some x))) ∧
    ((anv_hashset_intersection (hashset_env_ok 0) 4 (hashset_of_list [1, 2, 3])
        (hashset_of_list [2, 3, 4])).map
      (fun r => (anv_hashset_size r, [1, 2, 3, 4].map fun k => anv_hashset_contains r (some k)))
      = some (2, [false, true, true, false])) ∧
    ((anv_hashset_intersection (hashset_env_ok 0) 5 (hashset_of_list [1, 2, 3, 5])
        (hashset_of_list [3, 2])).map
      (fun r => (anv_hashset_size r, [1, 2, 3, 5].map fun k => anv_hashset_contains r (some k)))
      = some (2, [false, true, true, false])) :=
  c24_intersection_contains_both (hashmap_of_keys [1, 2, 3, 5]) (hashmap_of_keys [3, 2]) 1
    int_beq_isKeyEquivalence rfl (by decide) (by decide) rfl rfl 5 (by decide) (by decide)

theorem c25_difference_contains_left_only_witness :
    (∃ mR, anv_hashset_difference (hashset_env_ok 1) 4
        (some { map := some (hashmap_of_keys [1, 2, 3]) })
        (some { map := some (hashmap_of_keys [2, 3, 4]) }) = some (some { map := some mR }) ∧
      (∀ x, anv_hashset_contains (some { map := some mR }) (some x) =
        (anv_hashset_contains (some { map := some (hashmap_of_keys [1, 2, 3]) }) (some x) &&
          !anv_hashset_contains (some { map := some (hashmap_of_keys [2, 3, 4]) }) (some x))) ∧
      (((some { map := some (hashmap_of_keys [2, 3, 4]) } : Option (ANVHashSet Int)) = none ∨
          (some { map := some (hashmap_of_keys [2, 3, 4]) } : Option (ANVHashSet Int)) =
            some { map := none }) →
        hashmap_keys mR = hashmap_keys (hashmap_of_keys [1, 2, 3]))) ∧
    ((anv_hashset_difference (hashset_env_ok 0) 4 (hashset_of_list [1, 2, 3])
        (hashset_of_list [2, 3, 4])).map
      (fun r => (anv_hashset_size r, [1, 2, 3, 4].map fun k => anv_hashset_contains r (some k)))
      = some (1, [true, false, false, false])) :=
  c25_difference_contains_left_only (hashmap_of_keys [1, 2, 3])
    (some { map := some (hashmap_of_keys [2, 3, 4]) }) 1 int_beq_isKeyEquivalence
    (fun mB h => by
      have h1 : mB = hashmap_of_keys [2, 3, 4] := by
        simpa using (Option.some.inj (congrArg ANVHashSet.map (Option.some.inj h))).symm
      rw [h1]; rfl)
    (by decide) rfl 4 (by decide)

theorem c26_is_subset_iff_all_contained_witness :
    (anv_hashset_is_subset (hashset_env_ok 0) 3 (some { map := some (hashmap_of_keys [2, 3]) })
        (some { map := some (hashmap_of_keys [1, 2, 3]) }) =
      some (if ∀ k ∈ hashmap_keys (hashmap_of_keys [2, 3]),
          anv_hashset_contains (some { map := some (hashmap_of_keys [1, 2, 3]) }) (some k) = true
        then 1 else 0)) ∧
    (hashmap_keys (hashmap_of_keys [2, 3]) = [] →
      anv_hashset_is_subset (hashset_env_ok 0) 3 (some { map := some (hashmap_of_keys [2, 3]) })
        (some { map := some (hashmap_of_keys [1, 2, 3]) }) = some 1) ∧
    anv_hashset_is_subset (hashset_env_ok 0) 3 none (hashset_of_list [1]) = some 0 ∧
    anv_hashset_is_subset (hashset_env_ok 0) 3 (some { map := none }) (hashset_of_list [1]) =
      some 0 ∧
    anv_hashset_is_subset (hashset_env_ok 0) 3 (hashset_of_list [1]) none = some 0 ∧
    anv_hashset_is_subset (hashset_env_ok 0) 3 (hashset_of_list [1]) (some { map := none }) =
      some 0 ∧
    (anv_hashset_is_subset (hashset_env_ok 0) 3 (hashset_of_list [2, 3])
      (hashset_of_list [1, 2, 3]) = some 1) ∧
    (anv_hashset_is_subset (hashset_env_ok 0) 4 (hashset_of_list [1, 2, 3])
      (hashset_of_list [2, 3]) = some 0) :=
  c26_is_subset_iff_all_contained (hashmap_of_keys [2, 3]) (hashmap_of_keys [1, 2, 3])
    (hashset_env_ok 0) rfl rfl 3 (by decide) (hashset_of_list [1]) (hashset_of_list [1])

section FromIteratorFailure

variable {σ α : Type}

end FromIteratorFailure

section CopyUnset

variable {σ α : Type}

theorem dll_from_iterator_copy_unset (fuel : Nat) (it : Option (ANVIterator σ α))
    (alloc : ANVAllocator) (hc : alloc.copy = false) (copy : α → Option α) (mem : Bool)
    (new_node : Nat → Option Nat) :
    anv_dll_from_iterator fuel it (some alloc) true copy mem new_node = some (none, it) := by
  cases it <;> simp [anv_dll_from_iterator, hc]

theorem hashset_from_iterator_copy_unset (env : HashSetEnv) (fuel : Nat)
    (it : Option (ANVIterator σ α)) (alloc : ANVAllocator) (hc : alloc.copy = false)
    (hash : Option (α → Nat)) (key_equals : Option (α → α → Bool)) (copy : α → Option α) :
    anv_hashset_from_iterator env fuel it (some alloc) hash key_equals true copy =
      some (none, it) := by
  cases it <;> cases hash <;> cases key_equals <;> simp [anv_hashset_from_iterator, hc]

/-- C21 (the code departs from it). With `should_copy` true and an allocator
whose `copy` is unset, `anv_dll_from_iterator` and
`anv_hashset_from_iterator` return `NULL`, but `anv_bst_from_iterator` over
the same source, which yields 3, 1, 2, returns a tree: it holds the three
elements of the source, uncopied. -/
theorem c21_bst_from_iterator_builds_without_copy :
    ((anv_dll_from_iterator 4
        (some (anv_dll_iterator (some (dll_from_list [some (3 : Int), some 1, some 2] 100)) true))
        (some { anv_alloc_default with copy := false }) true (fun x => some (x + 100)) true
        (fun k => some (200 + k))).map (fun r => r.1.isSome) = some false) ∧
    ((anv_hashset_from_iterator (hashset_env_ok 0) 4
        (some (anv_dll_iterator (some (dll_from_list [some (3 : Int), some 1, some 2] 100)) true))
        (some { anv_alloc_default with copy := false }) (some fun k => k.toNat)
        (some fun a b => a == b) true (fun x => some (x + 100))).map (fun r => r.1.isSome) =
      some false) ∧
    ((anv_bst_from_iterator 4
        (some (anv_dll_iterator (some (dll_from_list [some (3 : Int), some 1, some 2] 100)) true))
        (some { anv_alloc_default with copy := false }) (some int_compare) true
        (fun x => some (x + 100)) true (fun k => some (200 + k))).map
      (fun r => r.1.map fun t => (anv_bst_node_inorder t.root, t.size)) =
      some (some ([1, 2, 3], 3))) := by
  decide

end CopyUnset

section BstLookup

variable {α : Type}

theorem compare_eq_symm {cmp : α → α → Int} (h : IsTotalCompare cmp) (a b : α)
    (hab : cmp a b = 0) : cmp b a = 0 := by
  have h1 := h.anti a b
  have h2 := h.anti b a
  omega

theorem compare_self {cmp : α → α → Int} (h : IsTotalCompare cmp) (a : α) : cmp a a = 0 := by
  have h1 := h.anti a a
  omega

theorem compare_lt_of_lt_of_le {cmp : α → α → Int} (h : IsTotalCompare cmp) (a b c : α)
    (hab : cmp a b < 0) (hbc : cmp b c ≤ 0) : cmp a c < 0 := by
  have h1 := h.trans a b c (by omega) hbc
  rcases lt_or_eq_of_le h1 with h2 | h2
  · exact h2
  · exfalso
    have h3 := compare_eq_symm h a c h2
    have h4 := h.trans b c a hbc (by omega)
    have h5 := h.anti a b
    omega

theorem compare_lt_of_le_of_lt {cmp : α → α → Int} (h : IsTotalCompare cmp) (a b c : α)
    (hab : cmp a b ≤ 0) (hbc : cmp b c < 0) : cmp a c < 0 := by
  have h1 := h.trans a b c hab (by omega)
  rcases lt_or_eq_of_le h1 with h2 | h2
  · exact h2
  · exfalso
    have h3 := compare_eq_symm h a c h2
    have h4 := h.trans c a b (by omega) hab
    have h5 := h.anti b c
    omega

theorem int_compare_isTotalCompare : IsTotalCompare int_compare :=
  ⟨fun a b => by unfold int_compare; split_ifs <;> omega,
    fun a b c => by unfold int_compare; split_ifs <;> omega⟩

theorem bst_insert_finds_eq_contains (cmp : α → α → Int) (d : α)
    (t : ANVBinarySearchTreeNode α) :
    bst_insert_finds cmp d t = decide (anv_bst_contains_loop cmp d t = 1) := by
  induction t with
  | null => simp [bst_insert_finds, anv_bst_contains_loop]
  | node a e l r p ihl ihr =>
    simp only [bst_insert_finds, anv_bst_contains_loop]
    split_ifs
    · simp
    · exact ihl
    · exact ihr

theorem bst_contains_loop_values (cmp : α → α → Int) (d : α) (t : ANVBinarySearchTreeNode α) :
    anv_bst_contains_loop cmp d t = 0 ∨ anv_bst_contains_loop cmp d t = 1 := by
  induction t with
  | null => exact Or.inl rfl
  | node a e l r p ihl ihr =>
    simp only [anv_bst_contains_loop]
    split_ifs
    · exact Or.inr rfl
    · exact ihl
    · exact ihr

theorem bst_contains_loop_iff {cmp : α → α → Int} (h : IsTotalCompare cmp) (d : α)
    (t : ANVBinarySearchTreeNode α) (ho : BstOrdered cmp t) :
    anv_bst_contains_loop cmp d t = 1 ↔ ∃ e ∈ anv_bst_node_inorder t, cmp d e = 0 := by
  induction t with
  | null => simp [anv_bst_contains_loop, anv_bst_node_inorder]
  | node a e l r p ihl ihr =>
    obtain ⟨hl, hr, hol, hor⟩ := ho
    simp only [anv_bst_contains_loop, anv_bst_node_inorder, List.mem_append, List.mem_cons]
    by_cases h0 : cmp d e = 0
    · simp only [h0, if_true, true_iff]
      exact ⟨e, Or.inr (Or.inl rfl), h0⟩
    by_cases h1 : cmp d e < 0
    · simp only [h0, h1, if_false, if_true]
      rw [ihl hol]
      constructor
      · rintro ⟨x, hx, hc⟩
        exact ⟨x, Or.inl hx, hc⟩
      · rintro ⟨x, hx | hx | hx, hc⟩
        · exact ⟨x, hx, hc⟩
        · subst hx; exact absurd hc h0
        · exfalso
          have h2 : cmp e x < 0 := (h.anti e x).2 (hr x hx)
          have h3 := compare_lt_of_lt_of_le h d e x h1 (by omega)
          omega
    · simp only [h0, h1, if_false]
      rw [ihr hor]
      constructor
      · rintro ⟨x, hx, hc⟩
        exact ⟨x, Or.inr (Or.inr hx), hc⟩
      · rintro ⟨x, hx | hx | hx, hc⟩
        · exfalso
          have h2 : cmp e d < 0 := (h.anti e d).2 (by omega)
          have h3 := compare_lt_of_lt_of_le h x e d (hl x hx) (by omega)
          have h4 := (h.anti x d).1 h3
          omega
        · subst hx; exact absurd hc h0
        · exact ⟨x, hx, hc⟩

theorem bst_insert_descend_ordered (cmp : α → α → Int) (d : α) (newp : Nat)
    (t : ANVBinarySearchTreeNode α) :
    ∀ parent : Option Nat, BstOrdered cmp t → bst_insert_finds cmp d t = false →
      ∃ t1, bst_insert_descend cmp d newp t parent = some t1 ∧ BstOrdered cmp t1 ∧
        (∀ x, x ∈ anv_bst_node_inorder t1 ↔ x = d ∨ x ∈ anv_bst_node_inorder t) ∧
        t1.count = t.count + 1 := by
  induction t with
  | null =>
    intro parent _ _
    exact ⟨.node newp d .null .null parent, rfl,
      ⟨by simp [anv_bst_node_inorder], by simp [anv_bst_node_inorder], trivial, trivial⟩,
      by simp [anv_bst_node_inorder], rfl⟩
  | node a e l r p ihl ihr =>
    intro parent ho hf
    obtain ⟨hl, hr, hol, hor⟩ := ho
    simp only [bst_insert_finds] at hf
    by_cases h0 : cmp d e = 0
    · simp [h0] at hf
    by_cases h1 : cmp d e < 0
    · simp only [h0, h1, if_false, if_true] at hf
      obtain ⟨l1, e1, o1, m1, c1⟩ := ihl (some a) hol hf
      refine ⟨.node a e l1 r p, by simp [bst_insert_descend, h0, h1, e1],
        ⟨?_, hr, o1, hor⟩, ?_, ?_⟩
      · intro x hx
        rcases (m1 x).1 hx with h2 | h2
        · subst h2; exact h1
        · exact hl x h2
      · intro x
        simp only [anv_bst_node_inorder, List.mem_append, List.mem_cons, m1]
        tauto
      · simp only [ANVBinarySearchTreeNode.count, c1]; omega
    · simp only [h0, h1, if_false] at hf
      obtain ⟨r1, e1, o1, m1, c1⟩ := ihr (some a) hor hf
      refine ⟨.node a e l r1 p, by simp [bst_insert_descend, h0, h1, e1],
        ⟨hl, ?_, hol, o1⟩, ?_, ?_⟩
      · intro x hx
        rcases (m1 x).1 hx with h2 | h2
        · subst h2; omega
        · exact hr x h2
      · intro x
        simp only [anv_bst_node_inorder, List.mem_append, List.mem_cons, m1]
        tauto
      · simp only [ANVBinarySearchTreeNode.count, c1]; omega

/-- C27. For every tree satisfying the BST ordering (its comparator that of a
total preorder) and every non-null key `d`, the node allocation succeeding:
`anv_bst_insert` returns `1` iff some stored element compares equal to `d`,
and then the tree is left as it is; otherwise it returns `0`, the size grows
by one, the BST ordering is kept, `anv_bst_contains(d)` is `1` afterwards and
every key contained before is still contained. It returns `-1` for a null
tree and for null data. -/
theorem c27_insert_reports_duplicates (t : ANVBinarySearchTree α)
    (hcmp : IsTotalCompare t.compare) (ho : BstOrdered t.compare t.root) (d : α) (a : Nat)
    (newp : Option Nat) :
    ((anv_bst_insert (some t) (some d) (some a)).1 = 1 ↔
      ∃ e ∈ anv_bst_node_inorder t.root, t.compare d e = 0) ∧
    ((∃ e ∈ anv_bst_node_inorder t.root, t.compare d e = 0) →
      (anv_bst_insert (some t) (some d) (some a)).2 = some t) ∧
    ((¬ ∃ e ∈ anv_bst_node_inorder t.root, t.compare d e = 0) →
      (anv_bst_insert (some t) (some d) (some a)).1 = 0 ∧
      ∃ t1, (anv_bst_insert (some t) (some d) (some a)).2 = some t1 ∧
        t1.size = t.size + 1 ∧ t1.compare = t.compare ∧ BstOrdered t1.compare t1.root ∧
        anv_bst_contains (some t1) (some d) = 1 ∧
        ∀ k, anv_bst_contains (some t) (some k) = 1 → anv_bst_contains (some t1) (some k) = 1) ∧
    anv_bst_insert (none : Option (ANVBinarySearchTree α)) (some d) newp = (-1, none) ∧
    anv_bst_insert (some t) none newp = (-1, some t) := by
  have hfind : bst_insert_finds t.compare d t.root = true ↔
      ∃ e ∈ anv_bst_node_inorder t.root, t.compare d e = 0 := by
    rw [bst_insert_finds_eq_contains, decide_eq_true_eq]
    exact bst_contains_loop_iff hcmp d t.root ho
  by_cases hex : ∃ e ∈ anv_bst_node_inorder t.root, t.compare d e = 0
  · have hf := hfind.2 hex
    have hnn : t.root.isNull = false := by
      cases hr : t.root with
      | null => rw [hr] at hf; simp [bst_insert_finds] at hf
      | node _ _ _ _ _ => rfl
    refine ⟨⟨fun _ => hex, fun _ => by simp [anv_bst_insert, hnn, hf]⟩,
      fun _ => by simp [anv_bst_insert, hnn, hf], fun h => absurd hex h, rfl, rfl⟩
  · have hf : bst_insert_finds t.compare d t.root = false := by
      cases h : bst_insert_finds t.compare d t.root with
      | false => rfl
      | true => exact absurd (hfind.1 h) hex
    have key : (anv_bst_insert (some t) (some d) (some a)).1 = 0 ∧
        ∃ t1, (anv_bst_insert (some t) (some d) (some a)).2 = some t1 ∧
          t1.size = t.size + 1 ∧ t1.compare = t.compare ∧ BstOrdered t1.compare t1.root ∧
          (∀ x, x ∈ anv_bst_node_inorder t1.root ↔ x = d ∨ x ∈ anv_bst_node_inorder t.root) := by
      by_cases hroot : t.root.isNull = true
      · have hr : t.root = .null := by
          cases h : t.root with
          | null => rfl
          | node _ _ _ _ _ => rw [h] at hroot; cases hroot
        refine ⟨by simp [anv_bst_insert, hroot],
          { t with root := anv_bst_node_create (some a) d, size := t.size + 1 },
          by simp [anv_bst_insert, hroot], rfl, rfl, ?_, ?_⟩
        · simp [anv_bst_node_create, BstOrdered, anv_bst_node_inorder]
        · simp [anv_bst_node_create, anv_bst_node_inorder, hr]
      · obtain ⟨r1, e1, o1, m1, -⟩ := bst_insert_descend_ordered t.compare d a t.root none ho hf
        refine ⟨by simp [anv_bst_insert, hroot, hf, e1],
          { t with root := r1, size := t.size + 1 },
          by simp [anv_bst_insert, hroot, hf, e1], rfl, rfl, o1, m1⟩
    obtain ⟨k1, t1, k2, k3, k4, k5, k6⟩ := key
    refine ⟨⟨fun h => (by rw [k1] at h; cases h), fun h => absurd h hex⟩, fun h => absurd h hex,
      fun _ => ⟨k1, t1, k2, k3, k4, k5, ?_, ?_⟩, rfl, rfl⟩
    · simp only [anv_bst_contains]
      rw [bst_contains_loop_iff (by rw [k4]; exact hcmp) d t1.root k5]
      exact ⟨d, (k6 d).2 (Or.inl rfl), by rw [k4]; exact compare_self hcmp d⟩
    · intro k hk
      simp only [anv_bst_contains] at hk ⊢
      rw [bst_contains_loop_iff hcmp k t.root ho] at hk
      obtain ⟨e, he1, he2⟩ := hk
      rw [bst_contains_loop_iff (by rw [k4]; exact hcmp) k t1.root k5]
      exact ⟨e, (k6 e).2 (Or.inr he1), by rw [k4]; exact he2⟩

end BstLookup

theorem c27_insert_reports_duplicates_witness :
    ((anv_bst_insert (some bst_example_tree) (some 4) (some 200)).1 = 1 ↔
      ∃ e ∈ anv_bst_node_inorder bst_example_tree.root, bst_example_tree.compare 4 e = 0) ∧
    ((∃ e ∈ anv_bst_node_inorder bst_example_tree.root, bst_example_tree.compare 4 e = 0) →
      (anv_bst_insert (some bst_example_tree) (some 4) (some 200)).2 = some bst_example_tree) ∧
    ((¬ ∃ e ∈ anv_bst_node_inorder bst_example_tree.root, bst_example_tree.compare 4 e = 0) →
      (anv_bst_insert (some bst_example_tree) (some 4) (some 200)).1 = 0 ∧
      ∃ t1, (anv_bst_insert (some bst_example_tree) (some 4) (some 200)).2 = some t1 ∧
        t1.size = bst_example_tree.size + 1 ∧ t1.compare = bst_example_tree.compare ∧
        BstOrdered t1.compare t1.root ∧
        anv_bst_contains (some t1) (some 4) = 1 ∧
        ∀ k, anv_bst_contains (some bst_example_tree) (some k) = 1 →
          anv_bst_contains (some t1) (some k) = 1) ∧
    anv_bst_insert (none : Option (ANVBinarySearchTree Int)) (some 4) (some 7) = (-1, none) ∧
    anv_bst_insert (some bst_example_tree) none (some 7) = (-1, some bst_example_tree) :=
  c27_insert_reports_duplicates bst_example_tree int_compare_isTotalCompare
    (by simp [bst_example_tree, BstOrdered, anv_bst_node_inorder, int_compare]) 4 200 (some 7)

section BstRemoveTrees

variable {α : Type}

@[simp] theorem bst_reparent_ptr (par : Option Nat) (t : ANVBinarySearchTreeNode α) :
    (bst_reparent par t).ptr = t.ptr := by
  cases t <;> rfl

@[simp] theorem bst_reparent_addrs (par : Option Nat) (t : ANVBinarySearchTreeNode α) :
    (bst_reparent par t).addrs = t.addrs := by
  cases t <;> rfl

@[simp] theorem bst_reparent_inorder (par : Option Nat) (t : ANVBinarySearchTreeNode α) :
    anv_bst_node_inorder (bst_reparent par t) = anv_bst_node_inorder t := by
  cases t <;> rfl

@[simp] theorem bst_reparent_ordered (cmp : α → α → Int) (par : Option Nat)
    (t : ANVBinarySearchTreeNode α) : BstOrdered cmp (bst_reparent par t) ↔ BstOrdered cmp t := by
  cases t <;> simp [bst_reparent, BstOrdered]

theorem isNull_iff (t : ANVBinarySearchTreeNode α) : t.isNull = true ↔ t = .null := by
  cases t <;> simp [ANVBinarySearchTreeNode.isNull]

theorem bst_min_node_some (t : ANVBinarySearchTreeNode α) (h : t.isNull = false) :
    ∃ x xd, bst_min_node t = some (x, xd) := by
  induction t with
  | null => simp [ANVBinarySearchTreeNode.isNull] at h
  | node a d l r p ihl _ =>
    simp only [bst_min_node]
    cases hl : l.isNull
    · simpa using ihl hl
    · exact ⟨a, d, by simp⟩

theorem bst_delete_min_addrs (t : ANVBinarySearchTreeNode α) (x : Nat) (xd : α)
    (h : bst_min_node t = some (x, xd)) :
    t.addrs = x :: (bst_delete_min t).addrs ∧
      anv_bst_node_inorder t = xd :: anv_bst_node_inorder (bst_delete_min t) := by
  induction t with
  | null => simp [bst_min_node] at h
  | node a d l r p ihl _ =>
    simp only [bst_min_node, bst_delete_min] at h ⊢
    cases hl : l.isNull
    · simp only [hl] at h ⊢
      obtain ⟨h1, h2⟩ := ihl (by simpa using h)
      simp only [ANVBinarySearchTreeNode.addrs, anv_bst_node_inorder, Bool.false_eq_true,
        if_false]
      rw [h1, h2]
      simp
    · simp only [hl, if_true, Option.some.injEq, Prod.mk.injEq] at h ⊢
      obtain ⟨rfl, rfl⟩ := h
      rw [(isNull_iff l).1 hl]
      simp [ANVBinarySearchTreeNode.addrs, anv_bst_node_inorder]

theorem bst_remove_root_addrs (a : Nat) (e : α) (l r : ANVBinarySearchTreeNode α)
    (p : Option Nat) :
    (bst_remove_root (.node a e l r p)).addrs.Perm (l.addrs ++ r.addrs) ∧
      anv_bst_node_inorder (bst_remove_root (.node a e l r p)) =
        anv_bst_node_inorder l ++ anv_bst_node_inorder r := by
  simp only [bst_remove_root]
  cases hl : l.isNull
  · cases hr : r.isNull
    · obtain ⟨x, xd, hx⟩ := bst_min_node_some r hr
      obtain ⟨h1, h2⟩ := bst_delete_min_addrs r x xd hx
      simp only [hx, Bool.false_eq_true, if_false, ANVBinarySearchTreeNode.addrs,
        anv_bst_node_inorder, bst_reparent_addrs, bst_reparent_inorder]
      rw [h1, h2]
      exact ⟨List.Perm.refl _, rfl⟩
    · rw [(isNull_iff r).1 hr]
      simp [ANVBinarySearchTreeNode.addrs, anv_bst_node_inorder]
  · rw [(isNull_iff l).1 hl]
    simp [ANVBinarySearchTreeNode.addrs, anv_bst_node_inorder, ANVBinarySearchTreeNode.isNull]

theorem bst_ordered_pairwise {cmp : α → α → Int} (h : IsTotalCompare cmp)
    (t : ANVBinarySearchTreeNode α) (ho : BstOrdered cmp t) :
    (anv_bst_node_inorder t).Pairwise fun a b => cmp a b < 0 := by
  induction t with
  | null => simp [anv_bst_node_inorder]
  | node a e l r p ihl ihr =>
    obtain ⟨hl, hr, hol, hor⟩ := ho
    simp only [anv_bst_node_inorder, List.pairwise_append, List.pairwise_cons, List.mem_cons]
    refine ⟨ihl hol, ⟨fun y hy => (h.anti e y).2 (hr y hy), ihr hor⟩, ?_⟩
    rintro x hx y (rfl | hy)
    · exact hl x hx
    · exact compare_lt_of_lt_of_le h x e y (hl x hx) (le_of_lt ((h.anti e y).2 (hr y hy)))

theorem bst_delete_min_ordered (cmp : α → α → Int) (t : ANVBinarySearchTreeNode α)
    (ho : BstOrdered cmp t) : BstOrdered cmp (bst_delete_min t) := by
  induction t with
  | null => exact ho
  | node a e l r p ihl _ =>
    obtain ⟨hl, hr, hol, hor⟩ := ho
    simp only [bst_delete_min]
    cases hn : l.isNull
    · obtain ⟨x, xd, hx⟩ := bst_min_node_some l hn
      obtain ⟨-, h2⟩ := bst_delete_min_addrs l x xd hx
      simp only [Bool.false_eq_true, if_false, BstOrdered]
      refine ⟨fun y hy => hl y ?_, hr, ihl hol, hor⟩
      rw [h2]
      exact List.mem_cons_of_mem _ hy
    · simpa using hor

theorem bst_remove_root_ordered {cmp : α → α → Int} (h : IsTotalCompare cmp) (a : Nat) (e : α)
    (l r : ANVBinarySearchTreeNode α) (p : Option Nat)
    (ho : BstOrdered cmp (.node a e l r p)) : BstOrdered cmp (bst_remove_root (.node a e l r p)) := by
  obtain ⟨hl, hr, hol, hor⟩ := ho
  simp only [bst_remove_root]
  cases hnl : l.isNull
  · cases hnr : r.isNull
    · obtain ⟨x, xd, hx⟩ := bst_min_node_some r hnr
      obtain ⟨-, h2⟩ := bst_delete_min_addrs r x xd hx
      have hp := bst_ordered_pairwise h r hor
      rw [h2, List.pairwise_cons] at hp
      have hxd : 0 < cmp xd e := hr xd (by rw [h2]; exact List.mem_cons_self _ _)
      simp only [hx, Bool.false_eq_true, if_false, BstOrdered, bst_reparent_inorder,
        bst_reparent_ordered]
      refine ⟨fun y hy => ?_, fun y hy => (h.anti xd y).1 (hp.1 y hy), hol,
        bst_delete_min_ordered cmp r hor⟩
      exact compare_lt_of_lt_of_le h y e xd (hl y hy) (le_of_lt ((h.anti e xd).2 hxd))
    · simpa using hol
  · simpa using hor

theorem bst_remove_key_inorder {cmp : α → α → Int} (h : IsTotalCompare cmp) (d : α)
    (t : ANVBinarySearchTreeNode α) (ho : BstOrdered cmp t) :
    anv_bst_node_inorder (bst_remove_key cmp d t) =
      (anv_bst_node_inorder t).filter (fun e => decide (cmp d e ≠ 0)) := by
  induction t with
  | null => simp [bst_remove_key, anv_bst_node_inorder]
  | node a e l r p ihl ihr =>
    obtain ⟨hl, hr, hol, hor⟩ := ho
    have kr : cmp d e ≤ 0 → (anv_bst_node_inorder r).filter (fun e => decide (cmp d e ≠ 0)) =
        anv_bst_node_inorder r := by
      intro hde
      rw [List.filter_eq_self]
      intro y hy
      have : cmp d y < 0 := by
        rcases lt_or_eq_of_le hde with h1 | h1
        · exact compare_lt_of_lt_of_le h d e y h1 (le_of_lt ((h.anti e y).2 (hr y hy)))
        · exact compare_lt_of_le_of_lt h d e y (le_of_eq h1) ((h.anti e y).2 (hr y hy))
      simp; omega
    have kl : 0 ≤ cmp d e → (anv_bst_node_inorder l).filter (fun e => decide (cmp d e ≠ 0)) =
        anv_bst_node_inorder l := by
      intro hde
      rw [List.filter_eq_self]
      intro y hy
      have h1 : cmp e d ≤ 0 := by
        rcases lt_or_eq_of_le hde with h1 | h1
        · exact le_of_lt ((h.anti e d).2 h1)
        · exact le_of_eq (compare_eq_symm h d e h1.symm)
      have : cmp y d < 0 := compare_lt_of_lt_of_le h y e d (hl y hy) h1
      have := (h.anti y d).1 this
      simp; omega
    simp only [bst_remove_key]
    by_cases h0 : cmp d e = 0
    · simp only [h0, if_true]
      rw [(bst_remove_root_addrs a e l r p).2]
      simp only [anv_bst_node_inorder, List.filter_append, List.filter_cons, h0, ne_eq,
        not_true_eq_false, decide_False, Bool.false_eq_true, if_false]
      rw [kl (le_of_eq h0.symm), kr (le_of_eq h0)]
    by_cases h1 : cmp d e < 0
    · simp only [h0, h1, if_false, if_true, anv_bst_node_inorder, List.filter_append,
        List.filter_cons, ne_eq, not_false_eq_true, decide_True]
      rw [ihl hol, kr (le_of_lt h1)]
    · simp only [h0, h1, if_false, anv_bst_node_inorder, List.filter_append,
        List.filter_cons, ne_eq, not_false_eq_true, decide_True, if_true]
      rw [ihr hor, kl (by omega)]

theorem bst_remove_key_ordered {cmp : α → α → Int} (h : IsTotalCompare cmp) (d : α)
    (t : ANVBinarySearchTreeNode α) (ho : BstOrdered cmp t) :
    BstOrdered cmp (bst_remove_key cmp d t) := by
  induction t with
  | null => exact ho
  | node a e l r p ihl ihr =>
    have ho2 := ho
    obtain ⟨hl, hr, hol, hor⟩ := ho
    simp only [bst_remove_key]
    split_ifs with h0 h1
    · exact bst_remove_root_ordered h a e l r p ho2
    · refine ⟨fun y hy => hl y ?_, hr, ihl hol, hor⟩
      rw [bst_remove_key_inorder h d l hol] at hy
      exact (List.mem_filter.1 hy).1
    · refine ⟨hl, fun y hy => hr y ?_, hol, ihr hor⟩
      rw [bst_remove_key_inorder h d r hor] at hy
      exact (List.mem_filter.1 hy).1

end BstRemoveTrees

section BstRemoveHeap

variable {α : Type}

@[simp] theorem bst_set_left_data (m : BstMem α) (p : Nat) (v : Option Nat) (a : Nat) :
    (bst_set_left m p v a).data = (m a).data := by
  unfold bst_set_left; split_ifs <;> rfl

@[simp] theorem bst_set_left_right (m : BstMem α) (p : Nat) (v : Option Nat) (a : Nat) :
    (bst_set_left m p v a).right = (m a).right := by
  unfold bst_set_left; split_ifs <;> rfl

@[simp] theorem bst_set_left_parent (m : BstMem α) (p : Nat) (v : Option Nat) (a : Nat) :
    (bst_set_left m p v a).parent = (m a).parent := by
  unfold bst_set_left; split_ifs <;> rfl

@[simp] theorem bst_set_left_self (m : BstMem α) (p : Nat) (v : Option Nat) :
    (bst_set_left m p v p).left = v := by
  simp [bst_set_left]

theorem bst_set_left_of_ne (m : BstMem α) (p : Nat) (v : Option Nat) (a : Nat) (h : a ≠ p) :
    bst_set_left m p v a = m a := by
  simp [bst_set_left, h]

@[simp] theorem bst_set_right_data (m : BstMem α) (p : Nat) (v : Option Nat) (a : Nat) :
    (bst_set_right m p v a).data = (m a).data := by
  unfold bst_set_right; split_ifs <;> rfl

@[simp] theorem bst_set_right_left (m : BstMem α) (p : Nat) (v : Option Nat) (a : Nat) :
    (bst_set_right m p v a).left = (m a).left := by
  unfold bst_set_right; split_ifs <;> rfl

@[simp] theorem bst_set_right_parent (m : BstMem α) (p : Nat) (v : Option Nat) (a : Nat) :
    (bst_set_right m p v a).parent = (m a).parent := by
  unfold bst_set_right; split_ifs <;> rfl

@[simp] theorem bst_set_right_self (m : BstMem α) (p : Nat) (v : Option Nat) :
    (bst_set_right m p v p).right = v := by
  simp [bst_set_right]

theorem bst_set_right_of_ne (m : BstMem α) (p : Nat) (v : Option Nat) (a : Nat) (h : a ≠ p) :
    bst_set_right m p v a = m a := by
  simp [bst_set_right, h]

@[simp] theorem bst_set_parent_data (m : BstMem α) (p : Nat) (v : Option Nat) (a : Nat) :
    (bst_set_parent m p v a).data = (m a).data := by
  unfold bst_set_parent; split_ifs <;> rfl

@[simp] theorem bst_set_parent_left (m : BstMem α) (p : Nat) (v : Option Nat) (a : Nat) :
    (bst_set_parent m p v a).left = (m a).left := by
  unfold bst_set_parent; split_ifs <;> rfl

@[simp] theorem bst_set_parent_right (m : BstMem α) (p : Nat) (v : Option Nat) (a : Nat) :
    (bst_set_parent m p v a).right = (m a).right := by
  unfold bst_set_parent; split_ifs <;> rfl

@[simp] theorem bst_set_parent_self (m : BstMem α) (p : Nat) (v : Option Nat) :
    (bst_set_parent m p v p).parent = v := by
  simp [bst_set_parent]

theorem bst_set_parent_of_ne (m : BstMem α) (p : Nat) (v : Option Nat) (a : Nat) (h : a ≠ p) :
    bst_set_parent m p v a = m a := by
  simp [bst_set_parent, h]

@[simp] theorem bst_link_parent_data (m : BstMem α) (v par : Option Nat) (a : Nat) :
    (bst_link_parent m v par a).data = (m a).data := by
  cases v <;> simp [bst_link_parent]

@[simp] theorem bst_link_parent_left (m : BstMem α) (v par : Option Nat) (a : Nat) :
    (bst_link_parent m v par a).left = (m a).left := by
  cases v <;> simp [bst_link_parent]

@[simp] theorem bst_link_parent_right (m : BstMem α) (v par : Option Nat) (a : Nat) :
    (bst_link_parent m v par a).right = (m a).right := by
  cases v <;> simp [bst_link_parent]

theorem bst_link_parent_of_ne (m : BstMem α) (v par : Option Nat) (a : Nat) (h : v ≠ some a) :
    bst_link_parent m v par a = m a := by
  cases v with
  | none => rfl
  | some vn =>
    simp only [bst_link_parent]
    exact bst_set_parent_of_ne m vn par a (fun e => h (by rw [e]))

theorem node_addrs_nodup (a : Nat) (d : α) (l r : ANVBinarySearchTreeNode α) (p : Option Nat)
    (h : (ANVBinarySearchTreeNode.node a d l r p).addrs.Nodup) :
    l.addrs.Nodup ∧ r.addrs.Nodup ∧ a ∉ l.addrs ∧ a ∉ r.addrs ∧
      ∀ x ∈ l.addrs, x ∉ r.addrs := by
  simp only [ANVBinarySearchTreeNode.addrs, List.nodup_append, List.nodup_cons,
    List.disjoint_cons_right] at h
  obtain ⟨h1, ⟨h2, h3⟩, h4, h5⟩ := h
  exact ⟨h1, h3, h4, h2, fun x hx hx2 => h5 hx hx2⟩

theorem BstRep.ptr_eq {m : BstMem α} {p par : Option Nat} {t : ANVBinarySearchTreeNode α}
    (h : BstRep m p par t) : p = t.ptr := by
  cases t with
  | null => exact h
  | node a d l r pp => exact h.1

theorem BstRep.root_mem {m : BstMem α} {a : Nat} {par : Option Nat}
    {t : ANVBinarySearchTreeNode α} (h : BstRep m (some a) par t) : a ∈ t.addrs := by
  cases t with
  | null => cases h
  | node b d l r pp =>
    have := h.1
    simp only [Option.some.injEq] at this
    subst this
    simp [ANVBinarySearchTreeNode.addrs]

theorem BstRep.ptr_mem {m : BstMem α} {p par : Option Nat} {t : ANVBinarySearchTreeNode α}
    (h : BstRep m p par t) (a : Nat) (hp : p = some a) : a ∈ t.addrs := by
  subst hp
  exact h.root_mem

theorem BstRep.congr {m m2 : BstMem α} :
    ∀ {t : ANVBinarySearchTreeNode α} {p par : Option Nat},
      (∀ a ∈ t.addrs, m2 a = m a) → BstRep m p par t → BstRep m2 p par t
  | .null, _, _, _, h => h
  | .node a d l r pp, p, par, hm, h => by
    obtain ⟨h1, h2, h3, h4, h5, h6⟩ := h
    have ha : m2 a = m a := hm a (by simp [ANVBinarySearchTreeNode.addrs])
    refine ⟨h1, h2, by rw [ha]; exact h3, by rw [ha]; exact h4, ?_, ?_⟩
    · rw [ha]
      exact BstRep.congr (fun x hx => hm x (by simp [ANVBinarySearchTreeNode.addrs, hx])) h5
    · rw [ha]
      exact BstRep.congr (fun x hx => hm x (by simp [ANVBinarySearchTreeNode.addrs, hx])) h6

theorem BstRep.reparent_eq {m : BstMem α} {p par : Option Nat}
    {t : ANVBinarySearchTreeNode α} (h : BstRep m p par t) : bst_reparent par t = t := by
  cases t with
  | null => rfl
  | node a d l r pp =>
    simp only [bst_reparent]
    rw [h.2.1]

theorem BstRep.link_parent {m : BstMem α} {p par : Option Nat}
    {t : ANVBinarySearchTreeNode α} (h : BstRep m p par t) (hn : t.addrs.Nodup)
    (par2 : Option Nat) : BstRep (bst_link_parent m p par2) p par2 (bst_reparent par2 t) := by
  cases t with
  | null => exact h
  | node a d l r pp =>
    obtain ⟨h1, h2, h3, h4, h5, h6⟩ := h
    obtain ⟨n1, n2, n3, n4, n5⟩ := node_addrs_nodup a d l r pp hn
    subst h1
    simp only [bst_link_parent, bst_reparent]
    refine ⟨rfl, rfl, by simpa using h3, by simp, ?_, ?_⟩
    · rw [bst_set_parent_left]
      exact BstRep.congr (fun x hx => bst_set_parent_of_ne m a par2 x
        (fun e => n3 (e ▸ hx))) h5
    · rw [bst_set_parent_right]
      exact BstRep.congr (fun x hx => bst_set_parent_of_ne m a par2 x
        (fun e => n4 (e ▸ hx))) h6

theorem store_contains_loop_eq (cmp : α → α → Int) (d : α) (m : BstMem α) :
    ∀ (t : ANVBinarySearchTreeNode α) (p par : Option Nat) (fuel : Nat),
      BstRep m p par t → t.count < fuel →
      anv_bst_store_contains_loop cmp d m fuel p = some (anv_bst_contains_loop cmp d t)
  | .null, p, _, fuel, h, hf => by
    cases fuel with
    | zero => omega
    | succ n =>
      have hp : p = none := h
      subst hp
      rfl
  | .node a e l r pp, p, par, fuel, h, hf => by
    cases fuel with
    | zero => omega
    | succ n =>
      obtain ⟨h1, h2, h3, h4, h5, h6⟩ := h
      subst h1
      simp only [ANVBinarySearchTreeNode.count] at hf
      simp only [anv_bst_store_contains_loop, anv_bst_contains_loop, h3]
      split_ifs
      · rfl
      · exact store_contains_loop_eq cmp d m l _ _ n h5 (by omega)
      · exact store_contains_loop_eq cmp d m r _ _ n h6 (by omega)

theorem remove_loop_absent (d : α) (st : BstStore α) :
    ∀ (t : ANVBinarySearchTreeNode α) (p par : Option Nat) (fuel : Nat),
      BstRep st.mem p par t → t.count < fuel →
      anv_bst_contains_loop st.compare d t ≠ 1 →
      anv_bst_remove_loop d fuel st p = some (-1, st)
  | .null, p, _, fuel, h, hf, _ => by
    cases fuel with
    | zero => omega
    | succ n =>
      have hp : p = none := h
      subst hp
      rfl
  | .node a e l r pp, p, par, fuel, h, hf, hc => by
    cases fuel with
    | zero => omega
    | succ n =>
      obtain ⟨h1, h2, h3, h4, h5, h6⟩ := h
      subst h1
      simp only [ANVBinarySearchTreeNode.count] at hf
      simp only [anv_bst_contains_loop] at hc
      simp only [anv_bst_remove_loop, h3]
      split_ifs at hc ⊢ with c0 c1
      · exact absurd rfl hc
      · exact remove_loop_absent d st l _ _ n h5 (by omega) hc
      · exact remove_loop_absent d st r _ _ n h6 (by omega) hc

theorem node_min_spec (m : BstMem α) :
    ∀ (t : ANVBinarySearchTreeNode α) (a : Nat) (par : Option Nat) (fuel : Nat),
      BstRep m (some a) par t → t.count ≤ fuel →
      ∃ x xd, bst_min_node t = some (x, xd) ∧ anv_bst_node_min m fuel a = some x
  | .null, _, _, _, h, _ => by cases h
  | .node b e l r pp, a, par, fuel, h, hf => by
    obtain ⟨h1, h2, h3, h4, h5, h6⟩ := h
    simp only [Option.some.injEq] at h1
    subst h1
    simp only [ANVBinarySearchTreeNode.count] at hf
    cases fuel with
    | zero => omega
    | succ n =>
      simp only [bst_min_node, anv_bst_node_min]
      cases l with
      | null =>
        have : (m a).left = none := h5
        simp [this, ANVBinarySearchTreeNode.isNull]
      | node lb le ll lr lp =>
        have hl : (m a).left = some lb := h5.1
        simp only [hl, ANVBinarySearchTreeNode.isNull, Bool.false_eq_true, if_false]
        rw [hl] at h5
        exact node_min_spec m _ lb _ n h5 (by omega)

end BstRemoveHeap

section BstRemoveSlots

variable {α : Type}

theorem slot_set_mem_of_ne (st : BstStore α) (s : BstSlot) (v : Option Nat) (y : Nat)
    (h : s.owner ≠ some y) : (s.set st v).mem y = st.mem y := by
  cases s with
  | root => rfl
  | left q =>
    exact bst_set_left_of_ne st.mem q v y (fun e => h (by rw [e]; rfl))
  | right q =>
    exact bst_set_right_of_ne st.mem q v y (fun e => h (by rw [e]; rfl))

@[simp] theorem slot_set_data (st : BstStore α) (s : BstSlot) (v : Option Nat) (y : Nat) :
    ((s.set st v).mem y).data = (st.mem y).data := by
  cases s <;> simp [BstSlot.set]

@[simp] theorem slot_set_parent (st : BstStore α) (s : BstSlot) (v : Option Nat) (y : Nat) :
    ((s.set st v).mem y).parent = (st.mem y).parent := by
  cases s <;> simp [BstSlot.set]

@[simp] theorem slot_set_size (st : BstStore α) (s : BstSlot) (v : Option Nat) :
    (s.set st v).size = st.size := by
  cases s <;> rfl

@[simp] theorem slot_set_compare (st : BstStore α) (s : BstSlot) (v : Option Nat) :
    (s.set st v).compare = st.compare := by
  cases s <;> rfl

theorem bst_set_left_same (m : BstMem α) (q : Nat) : bst_set_left m q (m q).left = m := by
  funext y
  unfold bst_set_left
  split_ifs with h
  · subst h; rfl
  · rfl

theorem bst_set_right_same (m : BstMem α) (q : Nat) : bst_set_right m q (m q).right = m := by
  funext y
  unfold bst_set_right
  split_ifs with h
  · subst h; rfl
  · rfl

theorem slot_set_get (st : BstStore α) (s : BstSlot) : s.set st (s.get st) = st := by
  cases s with
  | root => rfl
  | left q => simp only [BstSlot.set, BstSlot.get, bst_set_left_same]
  | right q => simp only [BstSlot.set, BstSlot.get, bst_set_right_same]

theorem slot_get_set (st : BstStore α) (s : BstSlot) (v : Option Nat) :
    s.get (s.set st v) = v := by
  cases s <;> simp [BstSlot.set, BstSlot.get]

theorem transplant_slot (st : BstStore α) (s : BstSlot) (u : Nat) (v : Option Nat)
    (hp : (st.mem u).parent = s.owner) (hget : s.get st = some u)
    (hsel : ∀ q, s = .right q → (st.mem q).left ≠ some u) :
    anv_bst_transplant st u v =
      { (s.set st v) with mem := bst_link_parent (s.set st v).mem v s.owner } := by
  cases s with
  | root =>
    simp only [BstSlot.owner] at hp
    simp only [anv_bst_transplant, hp, BstSlot.set, BstSlot.owner]
    cases v <;> rfl
  | left q =>
    simp only [BstSlot.owner] at hp
    simp only [BstSlot.get] at hget
    simp only [anv_bst_transplant, hp, hget, if_true, BstSlot.set, BstSlot.owner]
    cases v
    · rfl
    · simp only [bst_link_parent, bst_set_left_parent, hp]
  | right q =>
    simp only [BstSlot.owner] at hp
    simp only [anv_bst_transplant, hp, hsel q rfl, if_false, BstSlot.set, BstSlot.owner]
    cases v
    · rfl
    · simp only [bst_link_parent, bst_set_right_parent, hp]

theorem delete_min_slot (st : BstStore α) (x : Nat) (xd : α) :
    ∀ (t : ANVBinarySearchTreeNode α) (q : Nat),
      BstRep st.mem (st.mem q).left (some q) t → t.addrs.Nodup → q ∉ t.addrs →
      bst_min_node t = some (x, xd) →
      (anv_bst_transplant st x (st.mem x).right).root = st.root ∧
      (anv_bst_transplant st x (st.mem x).right).size = st.size ∧
      (anv_bst_transplant st x (st.mem x).right).compare = st.compare ∧
      BstRep (anv_bst_transplant st x (st.mem x).right).mem (bst_delete_min t).ptr (some q)
        (bst_delete_min t) ∧
      (anv_bst_transplant st x (st.mem x).right).mem q =
        { st.mem q with left := (bst_delete_min t).ptr } ∧
      (∀ y, y ∉ t.addrs → y ≠ q →
        (anv_bst_transplant st x (st.mem x).right).mem y = st.mem y) ∧
      (anv_bst_transplant st x (st.mem x).right).mem x = st.mem x ∧
      (st.mem x).data = xd ∧ x ∈ t.addrs ∧ (st.mem x).parent ≠ none ∧
      (∀ c, (st.mem x).parent = some c → c = q ∨ c ∈ t.addrs)
  | .null, _, _, _, _, hmin => by simp [bst_min_node] at hmin
  | .node b e l r pp, q, hrep, hn, hq, hmin => by
    obtain ⟨h1, h2, h3, h4, h5, h6⟩ := hrep
    obtain ⟨n1, n2, n3, n4, n5⟩ := node_addrs_nodup b e l r pp hn
    have hqb : q ≠ b := fun e => hq (by simp [ANVBinarySearchTreeNode.addrs, e])
    have hql : q ∉ l.addrs := fun e => hq (by simp [ANVBinarySearchTreeNode.addrs, e])
    have hqr : q ∉ r.addrs := fun e => hq (by simp [ANVBinarySearchTreeNode.addrs, e])
    cases hl : l.isNull
    · -- the leftmost node is below `l`
      simp only [bst_min_node, hl, Bool.false_eq_true, if_false] at hmin
      obtain ⟨i1, i2, i3, i4, i5, i6, i7, i8, i9, i10, i11⟩ :=
        delete_min_slot st x xd l b h5 n1 n3 hmin
      simp only [bst_delete_min, hl, Bool.false_eq_true, if_false,
        ANVBinarySearchTreeNode.ptr]
      refine ⟨i1, i2, i3, ⟨rfl, h2, ?_, ?_, ?_, ?_⟩, ?_, ?_, i7, i8, ?_, i10, ?_⟩
      · rw [i5]; exact h3
      · rw [i5]; exact h4
      · rw [i5]; exact i4
      · rw [i5]
        exact BstRep.congr (fun y hy => i6 y (fun e => n5 y e hy) (fun e => n4 (e ▸ hy))) h6
      · rw [i6 q hql hqb]
        cases hc : st.mem q
        rw [hc] at h1
        simp only at h1
        simp only [h1]
      · intro y hy hyq
        exact i6 y (fun e => hy (by simp [ANVBinarySearchTreeNode.addrs, e]))
          (fun e => hy (by simp [ANVBinarySearchTreeNode.addrs, e]))
      · simp [ANVBinarySearchTreeNode.addrs, i9]
      · intro c hc
        rcases i11 c hc with rfl | h
        · exact Or.inr (by simp [ANVBinarySearchTreeNode.addrs])
        · exact Or.inr (by simp [ANVBinarySearchTreeNode.addrs, h])
    · -- the root of the subtree is its leftmost node
      simp only [bst_min_node, hl, if_true, Option.some.injEq, Prod.mk.injEq] at hmin
      obtain ⟨rfl, rfl⟩ := hmin
      have hr : (st.mem b).right = r.ptr := h6.ptr_eq
      have hrq : r.ptr ≠ some q := fun e => hqr (h6.ptr_mem q (hr.trans e))
      have hrb : r.ptr ≠ some b := fun e => n4 (h6.ptr_mem b (hr.trans e))
      rw [transplant_slot st (.left q) b _ h4 h1 (fun _ h => by cases h), hr]
      simp only [bst_delete_min, hl, if_true, bst_reparent_ptr, BstSlot.set, BstSlot.owner]
      refine ⟨trivial, trivial, trivial, ?_, ?_, ?_, ?_, h3, by simp [ANVBinarySearchTreeNode.addrs],
        by rw [h4]; simp, ?_⟩
      · rw [h2]
        have h7 : BstRep (bst_set_left st.mem q r.ptr) r.ptr (some b) r :=
          BstRep.congr (fun y hy => bst_set_left_of_ne st.mem q _ y (fun e => hqr (e ▸ hy)))
            (hr ▸ h6)
        exact h7.link_parent n2 (some q)
      · rw [bst_link_parent_of_ne _ _ _ _ hrq]
        simp [bst_set_left]
      · intro y hy hyq
        rw [bst_link_parent_of_ne _ _ _ _ (fun e => hy (by
          have := h6.ptr_mem y (hr.trans e)
          simp [ANVBinarySearchTreeNode.addrs, this]))]
        exact bst_set_left_of_ne _ _ _ _ hyq
      · rw [bst_link_parent_of_ne _ _ _ _ hrb]
        exact bst_set_left_of_ne _ _ _ _ (fun e => hqb e.symm)
      · intro c hc
        rw [h4] at hc
        exact Or.inl (Option.some.inj hc).symm

end BstRemoveSlots

section BstRemoveNode

variable {α : Type}

theorem remove_node_one_child (st : BstStore α) (s : BstSlot) (a : Nat)
    (c : ANVBinarySearchTreeNode α) (pc : Option Nat) (S : List Nat)
    (hp : (st.mem a).parent = s.owner) (hget : s.get st = some a)
    (hsel : ∀ q, s = .right q → (st.mem q).left ≠ some a)
    (hc : BstRep st.mem pc (some a) c) (hn : c.addrs.Nodup)
    (hsub : ∀ y ∈ c.addrs, y ∈ S) (hown : ∀ q, s.owner = some q → q ∉ S) :
    (anv_bst_transplant st a pc).size = st.size ∧
    (anv_bst_transplant st a pc).compare = st.compare ∧
    BstRep (anv_bst_transplant st a pc).mem (bst_reparent s.owner c).ptr s.owner
      (bst_reparent s.owner c) ∧
    (∀ y, y ∉ S → (anv_bst_transplant st a pc).mem y =
      (s.set st (bst_reparent s.owner c).ptr).mem y) ∧
    (anv_bst_transplant st a pc).root = (s.set st (bst_reparent s.owner c).ptr).root := by
  have hpc : pc = c.ptr := hc.ptr_eq
  subst hpc
  rw [transplant_slot st s a _ hp hget hsel]
  have h7 : BstRep (s.set st c.ptr).mem c.ptr (some a) c :=
    BstRep.congr (fun y hy => slot_set_mem_of_ne st s _ y
      (fun e => hown y e (hsub y hy))) hc
  refine ⟨by simp, by simp, ?_, ?_, ?_⟩
  · rw [bst_reparent_ptr]
    exact h7.link_parent hn s.owner
  · intro y hy
    rw [bst_reparent_ptr]
    exact bst_link_parent_of_ne _ _ _ _
      (fun e => hy (hsub y (hc.ptr_mem y e)))
  · rw [bst_reparent_ptr]

end BstRemoveNode

section BstRemoveNode2

variable {α : Type}

@[simp] theorem bst_reparent_reparent (p q : Option Nat) (t : ANVBinarySearchTreeNode α) :
    bst_reparent p (bst_reparent q t) = bst_reparent p t := by
  cases t <;> rfl

theorem mem_addrs_left {y : Nat} (a : Nat) (e : α) (l r : ANVBinarySearchTreeNode α)
    (p : Option Nat) (h : y ∈ l.addrs) : y ∈ (ANVBinarySearchTreeNode.node a e l r p).addrs := by
  simp [ANVBinarySearchTreeNode.addrs, h]

theorem mem_addrs_right {y : Nat} (a : Nat) (e : α) (l r : ANVBinarySearchTreeNode α)
    (p : Option Nat) (h : y ∈ r.addrs) : y ∈ (ANVBinarySearchTreeNode.node a e l r p).addrs := by
  simp [ANVBinarySearchTreeNode.addrs, h]

theorem mem_addrs_root (a : Nat) (e : α) (l r : ANVBinarySearchTreeNode α)
    (p : Option Nat) : a ∈ (ANVBinarySearchTreeNode.node a e l r p).addrs := by
  simp [ANVBinarySearchTreeNode.addrs]

theorem slot_set_mem_congr (st st2 : BstStore α) (s : BstSlot) (v : Option Nat) (y : Nat)
    (h : st.mem y = st2.mem y) : (s.set st v).mem y = (s.set st2 v).mem y := by
  cases s with
  | root => exact h
  | left q =>
    simp only [BstSlot.set, bst_set_left]
    rw [h]
  | right q =>
    simp only [BstSlot.set, bst_set_right]
    rw [h]

theorem slot_set_root_congr (st st2 : BstStore α) (s : BstSlot) (v : Option Nat)
    (h : st.root = st2.root) : (s.set st v).root = (s.set st2 v).root := by
  cases s with
  | root => rfl
  | left q => exact h
  | right q => exact h

theorem slot_get_congr (st st2 : BstStore α) (s : BstSlot) (hr : st.root = st2.root)
    (hm : ∀ q, s.owner = some q → st.mem q = st2.mem q) : s.get st = s.get st2 := by
  cases s with
  | root => exact hr
  | left q => simp only [BstSlot.get, hm q rfl]
  | right q => simp only [BstSlot.get, hm q rfl]

theorem remove_node_two_children (st : BstStore α) (s : BstSlot) (a : Nat) (e : α)
    (la : Nat) (ld : α) (ll lr : ANVBinarySearchTreeNode α) (lp : Option Nat)
    (rb : Nat) (rd : α) (rl rr : ANVBinarySearchTreeNode α) (rp : Option Nat)
    (pp : Option Nat) (fuel : Nat)
    (hrep : BstRep st.mem (some a) s.owner
      (.node a e (.node la ld ll lr lp) (.node rb rd rl rr rp) pp))
    (hget : s.get st = some a)
    (hn : (ANVBinarySearchTreeNode.node a e (.node la ld ll lr lp)
      (.node rb rd rl rr rp) pp).addrs.Nodup)
    (hown : ∀ q, s.owner = some q →
      q ∉ (ANVBinarySearchTreeNode.node a e (.node la ld ll lr lp)
        (.node rb rd rl rr rp) pp).addrs)
    (hsel : ∀ q, s = .right q → (st.mem q).left ≠ some a)
    (hf : (ANVBinarySearchTreeNode.node rb rd rl rr rp).count ≤ fuel) :
    ∃ st1, anv_bst_node_remove_with_parent fuel st a = some st1 ∧ st1.size = st.size ∧
      st1.compare = st.compare ∧
      BstRep st1.mem
        (bst_remove_root (.node a e (.node la ld ll lr lp) (.node rb rd rl rr rp) pp)).ptr
        s.owner (bst_remove_root (.node a e (.node la ld ll lr lp) (.node rb rd rl rr rp) pp)) ∧
      (∀ y, y ∉ (ANVBinarySearchTreeNode.node a e (.node la ld ll lr lp)
          (.node rb rd rl rr rp) pp).addrs →
        st1.mem y = (s.set st (bst_remove_root (.node a e (.node la ld ll lr lp)
          (.node rb rd rl rr rp) pp)).ptr).mem y) ∧
      st1.root = (s.set st (bst_remove_root (.node a e (.node la ld ll lr lp)
          (.node rb rd rl rr rp) pp)).ptr).root := by
  obtain ⟨-, h2, h3, h4, h5, h6⟩ := hrep
  have h5a := h5
  have h6a := h6
  obtain ⟨hla, l2, l3, l4, l5, l6⟩ := h5
  obtain ⟨hrb, r2, r3, r4, r5, r6⟩ := h6
  rw [hla] at h5a
  rw [hrb] at h6a
  obtain ⟨n1, n2, n3, n4, n5⟩ := node_addrs_nodup _ _ _ _ _ hn
  obtain ⟨m1, m2, m3, m4, m5⟩ := node_addrs_nodup _ _ _ _ _ n2
  have hla_in : la ∈ (ANVBinarySearchTreeNode.node la ld ll lr lp).addrs := h5a.root_mem
  have hrb_in : rb ∈ (ANVBinarySearchTreeNode.node rb rd rl rr rp).addrs := h6a.root_mem
  have hala : a ≠ la := fun e => n3 (e ▸ hla_in)
  have harb : a ≠ rb := fun e => n4 (e ▸ hrb_in)
  have hlarb : la ≠ rb := fun e => n5 la hla_in (e ▸ hrb_in)
  have hoa : s.owner ≠ some a := fun e => hown a e (mem_addrs_root _ _ _ _ _)
  have hol : ∀ y ∈ (ANVBinarySearchTreeNode.node la ld ll lr lp).addrs, s.owner ≠ some y :=
    fun y hy e => hown y e (mem_addrs_left _ _ _ _ _ hy)
  have hor : ∀ y ∈ (ANVBinarySearchTreeNode.node rb rd rl rr rp).addrs, s.owner ≠ some y :=
    fun y hy e => hown y e (mem_addrs_right _ _ _ _ _ hy)
  obtain ⟨x, xd, hmin, hnm⟩ := node_min_spec st.mem _ rb (some a) fuel h6a hf
  cases hnl : rl.isNull
  · -- the successor lies deeper in the right subtree
    have hmin2 := hmin
    simp only [bst_min_node, hnl, Bool.false_eq_true, if_false] at hmin2
    obtain ⟨i1, i2, i3, i4, i5, i6, i7, i8, i9, i10, i11⟩ :=
      delete_min_slot st x xd rl rb r5 m1 m3 hmin2
    obtain ⟨S1, hS1⟩ : ∃ S1, S1 = anv_bst_transplant st x (st.mem x).right := ⟨_, rfl⟩
    rw [← hS1] at i1 i2 i3 i4 i5 i6 i7
    have hx_r : x ∈ (ANVBinarySearchTreeNode.node rb rd rl rr rp).addrs :=
      mem_addrs_left _ _ _ _ _ i9
    have hxrb : x ≠ rb := fun e => m3 (e ▸ i9)
    have hxa : x ≠ a := fun e => n4 (e ▸ hx_r)
    have hxla : x ≠ la := fun e => n5 la hla_in (e ▸ hx_r)
    have hox : s.owner ≠ some x := hor x hx_r
    have hpx : (st.mem x).parent ≠ some a := by
      intro e
      rcases i11 a e with h | h
      · exact harb h
      · exact n4 (mem_addrs_left _ _ _ _ _ h)
    have hS1a : S1.mem a = st.mem a :=
      i6 a (fun h => n4 (mem_addrs_left _ _ _ _ _ h)) harb
    have hS1l : ∀ y ∈ (ANVBinarySearchTreeNode.node la ld ll lr lp).addrs,
        S1.mem y = st.mem y := fun y hy =>
      i6 y (fun h => n5 y hy (mem_addrs_left _ _ _ _ _ h)) (fun e => n5 y hy (e ▸ hrb_in))
    have hS1o : ∀ y, y ∉ (ANVBinarySearchTreeNode.node a e (.node la ld ll lr lp)
        (.node rb rd rl rr rp) pp).addrs → S1.mem y = st.mem y := fun y hy =>
      i6 y (fun h => hy (mem_addrs_right _ _ _ _ _ (mem_addrs_left _ _ _ _ _ h)))
        (fun e => hy (mem_addrs_right _ _ _ _ _ (e ▸ hrb_in)))
    obtain ⟨T1, hT1⟩ : ∃ T1 : BstStore α, T1 =
        { S1 with mem := bst_set_parent (bst_set_right S1.mem x (some rb)) rb (some x) } :=
      ⟨_, rfl⟩
    have hT1m : ∀ y, y ≠ x → y ≠ rb → T1.mem y = S1.mem y := by
      intro y h1 h2
      rw [hT1]
      dsimp only
      rw [bst_set_parent_of_ne _ _ _ _ h2, bst_set_right_of_ne _ _ _ _ h1]
    have hT1x : (T1.mem x).right = some rb := by
      rw [hT1]
      dsimp only
      rw [bst_set_parent_right, bst_set_right_self]
    have hT1o : ∀ y, y ∉ (ANVBinarySearchTreeNode.node a e (.node la ld ll lr lp)
        (.node rb rd rl rr rp) pp).addrs → T1.mem y = st.mem y := fun y hy =>
      (hT1m y (fun e => hy (mem_addrs_right _ _ _ _ _ (e ▸ hx_r)))
        (fun e => hy (mem_addrs_right _ _ _ _ _ (e ▸ hrb_in)))).trans (hS1o y hy)
    have hT1a : T1.mem a = st.mem a := (hT1m a hxa.symm harb).trans hS1a
    have hT1r : T1.root = st.root := by rw [hT1]; exact i1
    have hgetT : s.get T1 = some a := by
      rw [slot_get_congr T1 st s hT1r (fun q hq => hT1o q (hown q hq))]
      exact hget
    have hselT : ∀ q, s = .right q → (T1.mem q).left ≠ some a := by
      intro q hq
      rw [hT1o q (hown q (by rw [hq]; rfl))]
      exact hsel q hq
    have hA : (s.set T1 (some x)).mem a = st.mem a :=
      (slot_set_mem_of_ne T1 s _ a hoa).trans hT1a
    have hval : anv_bst_node_remove_with_parent fuel st a = some
        { (s.set T1 (some x)) with
          mem := bst_set_parent (bst_set_left
            (bst_set_parent (s.set T1 (some x)).mem x s.owner)
            x (some la)) la (some x) } := by
      simp only [anv_bst_node_remove_with_parent, hla, hrb, hnm, hpx, ne_eq, not_false_eq_true,
        if_true, ← hS1, bst_set_right_self, hS1a, ← hT1]
      rw [transplant_slot T1 s a _ (by rw [hT1a]; exact h4) hgetT hselT]
      simp only [bst_link_parent, bst_set_left_self, bst_set_parent_left, hA, hla]
    have hroot : bst_remove_root (.node a e (.node la ld ll lr lp) (.node rb rd rl rr rp) pp) =
        .node x xd (bst_reparent (some x) (.node la ld ll lr lp))
          (.node rb rd (bst_delete_min rl) rr (some x)) pp := by
      simp only [bst_remove_root, node_isNull_node, hmin, hnl, Bool.false_eq_true, if_false,
        bst_delete_min, bst_reparent]
    obtain ⟨k1, -⟩ := bst_delete_min_addrs rl x xd hmin2
    have hxd : x ∉ (bst_delete_min rl).addrs := by
      have := m1
      rw [k1, List.nodup_cons] at this
      exact this.1
    have hdsub : ∀ y ∈ (bst_delete_min rl).addrs, y ∈ rl.addrs := by
      intro y hy
      rw [k1]
      exact List.mem_cons_of_mem _ hy
    have hF : ∀ y, y ≠ la → y ≠ x → y ≠ rb → s.owner ≠ some y →
        bst_set_parent (bst_set_left (bst_set_parent (s.set T1 (some x)).mem x s.owner)
          x (some la)) la (some x) y = S1.mem y := by
      intro y h1 h2 h3 h4
      rw [bst_set_parent_of_ne _ _ _ _ h1, bst_set_left_of_ne _ _ _ _ h2,
        bst_set_parent_of_ne _ _ _ _ h2, slot_set_mem_of_ne T1 s _ y h4, hT1m y h2 h3]
    have hL : BstRep (bst_set_left (bst_set_parent (s.set T1 (some x)).mem x s.owner)
        x (some la)) (some la) (some a) (.node la ld ll lr lp) := by
      refine BstRep.congr (fun y hy => ?_) h5a
      have h1 : y ≠ x := fun e => n5 y hy (e ▸ hx_r)
      have h2 : y ≠ rb := fun e => n5 y hy (e ▸ hrb_in)
      rw [bst_set_left_of_ne _ _ _ _ h1, bst_set_parent_of_ne _ _ _ _ h1,
        slot_set_mem_of_ne T1 s _ y (hol y hy), hT1m y h1 h2, hS1l y hy]
    have hRb : bst_set_parent (bst_set_left (bst_set_parent (s.set T1 (some x)).mem x s.owner)
        x (some la)) la (some x) rb = { S1.mem rb with parent := some x } := by
      rw [bst_set_parent_of_ne _ _ _ _ hlarb.symm, bst_set_left_of_ne _ _ _ _ hxrb.symm,
        bst_set_parent_of_ne _ _ _ _ hxrb.symm, slot_set_mem_of_ne T1 s _ rb (hor rb hrb_in),
        hT1]
      simp [bst_set_parent, bst_set_right, hxrb.symm]
    refine ⟨_, hval, ?_, ?_, ?_, ?_, ?_⟩
    · simp only [slot_set_size]
      rw [hT1]
      exact i2
    · simp only [slot_set_compare]
      rw [hT1]
      exact i3
    · rw [hroot]
      dsimp only
      refine ⟨rfl, h2, ?_, ?_, ?_, ?_⟩
      · rw [bst_set_parent_data, bst_set_left_data, bst_set_parent_data, slot_set_data, hT1]
        dsimp only
        rw [bst_set_parent_data, bst_set_right_data, i7, i8]
      · rw [bst_set_parent_of_ne _ _ _ _ hxla]
        simp
      · rw [bst_set_parent_left, bst_set_left_self]
        exact hL.link_parent n1 (some x)
      · rw [bst_set_parent_right, bst_set_left_right, bst_set_parent_right,
          slot_set_mem_of_ne T1 s _ x hox, hT1x]
        refine ⟨rfl, rfl, ?_, ?_, ?_, ?_⟩
        · rw [hRb, i5]
          exact r3
        · rw [hRb]
        · rw [hRb, i5]
          dsimp only
          refine BstRep.congr (fun y hy => hF y ?_ ?_ ?_ ?_) i4
          · exact fun e => n5 la hla_in
              (e ▸ mem_addrs_left _ _ _ _ _ (hdsub y hy))
          · exact fun e => hxd (e ▸ hy)
          · exact fun e => m3 (e ▸ hdsub y hy)
          · exact hor y (mem_addrs_left _ _ _ _ _ (hdsub y hy))
        · rw [hRb, i5]
          dsimp only
          refine BstRep.congr (fun y hy => ?_) r6
          have y1 : y ∈ (ANVBinarySearchTreeNode.node rb rd rl rr rp).addrs :=
            mem_addrs_right _ _ _ _ _ hy
          rw [hF y (fun e => n5 la hla_in (e ▸ y1)) (fun e => m5 x i9 (e ▸ hy))
            (fun e => m4 (e ▸ hy)) (hor y y1)]
          exact i6 y (fun h => m5 y h hy) (fun e => m4 (e ▸ hy))
    · intro y hy
      have y1 : y ≠ la := fun e => hy (mem_addrs_left _ _ _ _ _ (e ▸ hla_in))
      have y2 : y ≠ x := fun e => hy (mem_addrs_right _ _ _ _ _ (e ▸ hx_r))
      rw [hroot]
      dsimp only
      rw [bst_set_parent_of_ne _ _ _ _ y1, bst_set_left_of_ne _ _ _ _ y2,
        bst_set_parent_of_ne _ _ _ _ y2]
      exact slot_set_mem_congr T1 st s _ y (hT1o y hy)
    · rw [hroot]
      exact slot_set_root_congr T1 st s _ hT1r
  · -- the right child is the successor
    simp only [bst_min_node, hnl, if_true, Option.some.injEq, Prod.mk.injEq] at hmin
    obtain ⟨rfl, rfl⟩ := hmin
    have hA : (s.set st (some rb)).mem a = st.mem a := slot_set_mem_of_ne st s _ a hoa
    have hval : anv_bst_node_remove_with_parent fuel st a = some
        { (s.set st (some rb)) with
          mem := bst_set_parent (bst_set_left
            (bst_set_parent (s.set st (some rb)).mem rb s.owner)
            rb (some la)) la (some rb) } := by
      simp only [anv_bst_node_remove_with_parent, hla, hrb, hnm, r4, ne_eq, not_true_eq_false,
        if_false]
      rw [transplant_slot st s a _ h4 hget hsel]
      simp only [bst_link_parent, bst_set_left_self, bst_set_parent_left, hA, hla]
    have hF : ∀ y, y ≠ la → y ≠ rb → s.owner ≠ some y →
        bst_set_parent (bst_set_left (bst_set_parent (s.set st (some rb)).mem rb s.owner)
          rb (some la)) la (some rb) y = st.mem y := by
      intro y h1 h2 h3
      rw [bst_set_parent_of_ne _ _ _ _ h1, bst_set_left_of_ne _ _ _ _ h2,
        bst_set_parent_of_ne _ _ _ _ h2, slot_set_mem_of_ne st s _ y h3]
    have hL : BstRep (bst_set_left (bst_set_parent (s.set st (some rb)).mem rb s.owner)
        rb (some la)) (some la) (some a) (.node la ld ll lr lp) := by
      refine BstRep.congr (fun y hy => ?_) h5a
      have h1 : y ≠ rb := fun e => n5 y hy (e ▸ hrb_in)
      rw [bst_set_left_of_ne _ _ _ _ h1, bst_set_parent_of_ne _ _ _ _ h1,
        slot_set_mem_of_ne st s _ y (hol y hy)]
    have hroot : bst_remove_root (.node a e (.node la ld ll lr lp) (.node rb rd rl rr rp) pp) =
        .node rb rd (bst_reparent (some rb) (.node la ld ll lr lp)) rr pp := by
      simp only [bst_remove_root, node_isNull_node, bst_min_node, hnl, if_true,
        Bool.false_eq_true, if_false, bst_delete_min, bst_reparent_reparent]
      rw [r6.reparent_eq]
    refine ⟨_, hval, by simp, by simp, ?_, ?_, ?_⟩
    · rw [hroot]
      dsimp only
      refine ⟨rfl, h2, by simpa using r3, ?_, ?_, ?_⟩
      · rw [bst_set_parent_of_ne _ _ _ _ hlarb.symm]
        simp
      · rw [bst_set_parent_left, bst_set_left_self]
        exact hL.link_parent n1 (some rb)
      · rw [bst_set_parent_right, bst_set_left_right, bst_set_parent_right,
          slot_set_mem_of_ne st s _ rb (hor rb hrb_in)]
        refine BstRep.congr (fun y hy => hF y ?_ ?_ ?_) r6
        · exact fun e => n5 la hla_in (e ▸ mem_addrs_right _ _ _ _ _ hy)
        · exact fun e => m4 (e ▸ hy)
        · exact hor y (mem_addrs_right _ _ _ _ _ hy)
    · intro y hy
      have y1 : y ≠ la := fun e => hy (mem_addrs_left _ _ _ _ _ (e ▸ hla_in))
      have y2 : y ≠ rb := fun e => hy (mem_addrs_right _ _ _ _ _ (e ▸ hrb_in))
      rw [hroot]
      dsimp only
      rw [bst_set_parent_of_ne _ _ _ _ y1, bst_set_left_of_ne _ _ _ _ y2,
        bst_set_parent_of_ne _ _ _ _ y2]
      rfl
    · rw [hroot]
      rfl

end BstRemoveNode2

section BstRemoveLoop

variable {α : Type}

theorem remove_node_spec (st : BstStore α) (s : BstSlot) (a : Nat) (e : α)
    (l r : ANVBinarySearchTreeNode α) (pp : Option Nat) (fuel : Nat)
    (hrep : BstRep st.mem (some a) s.owner (.node a e l r pp))
    (hget : s.get st = some a)
    (hn : (ANVBinarySearchTreeNode.node a e l r pp).addrs.Nodup)
    (hown : ∀ q, s.owner = some q → q ∉ (ANVBinarySearchTreeNode.node a e l r pp).addrs)
    (hsel : ∀ q, s = .right q → (st.mem q).left ≠ some a)
    (hf : r.count ≤ fuel) :
    ∃ st1, anv_bst_node_remove_with_parent fuel st a = some st1 ∧ st1.size = st.size ∧
      st1.compare = st.compare ∧
      BstRep st1.mem (bst_remove_root (.node a e l r pp)).ptr s.owner
        (bst_remove_root (.node a e l r pp)) ∧
      (∀ y, y ∉ (ANVBinarySearchTreeNode.node a e l r pp).addrs →
        st1.mem y = (s.set st (bst_remove_root (.node a e l r pp)).ptr).mem y) ∧
      st1.root = (s.set st (bst_remove_root (.node a e l r pp)).ptr).root := by
  obtain ⟨n1, n2, n3, n4, n5⟩ := node_addrs_nodup _ _ _ _ _ hn
  cases l with
  | null =>
    obtain ⟨-, h2, h3, h4, h5, h6⟩ := hrep
    have hl : (st.mem a).left = none := h5
    have hval : anv_bst_node_remove_with_parent fuel st a =
        some (anv_bst_transplant st a (st.mem a).right) := by
      simp only [anv_bst_node_remove_with_parent, hl]
    have hroot : bst_remove_root (.node a e .null r pp) = bst_reparent s.owner r := by
      simp only [bst_remove_root, node_isNull_null, if_true, h2]
    rw [hroot]
    exact ⟨_, hval, remove_node_one_child st s a r _ _ h4 hget hsel h6 n2
      (fun y hy => mem_addrs_right _ _ _ _ _ hy) hown⟩
  | node la ld ll lr lp =>
    cases r with
    | null =>
      obtain ⟨-, h2, h3, h4, h5, h6⟩ := hrep
      have hl : (st.mem a).left = some la := h5.1
      have hr : (st.mem a).right = none := h6
      have hval : anv_bst_node_remove_with_parent fuel st a =
          some (anv_bst_transplant st a (st.mem a).left) := by
        simp only [anv_bst_node_remove_with_parent, hl, hr]
      have hroot : bst_remove_root (.node a e (.node la ld ll lr lp) .null pp) =
          bst_reparent s.owner (.node la ld ll lr lp) := by
        simp only [bst_remove_root, node_isNull_null, node_isNull_node, if_true,
          Bool.false_eq_true, if_false, h2]
      rw [hroot]
      exact ⟨_, hval, remove_node_one_child st s a _ _ _ h4 hget hsel h5 n1
        (fun y hy => mem_addrs_left _ _ _ _ _ hy) hown⟩
    | node rb rd rl rr rp =>
      exact remove_node_two_children st s a e la ld ll lr lp rb rd rl rr rp pp fuel hrep hget
        hn hown hsel hf

theorem bst_remove_key_split (cmp : α → α → Int) (d : α) :
    ∀ (t : ANVBinarySearchTreeNode α), anv_bst_contains_loop cmp d t = 1 →
      ∃ pre e post, anv_bst_node_inorder t = pre ++ e :: post ∧ cmp d e = 0 ∧
        anv_bst_node_inorder (bst_remove_key cmp d t) = pre ++ post
  | .null, h => by simp [anv_bst_contains_loop] at h
  | .node a e l r pp, h => by
    simp only [anv_bst_contains_loop] at h
    simp only [bst_remove_key]
    split_ifs at h ⊢ with c0 c1
    · exact ⟨_, e, _, rfl, c0, (bst_remove_root_addrs a e l r pp).2⟩
    · obtain ⟨pre, x, post, h1, h2, h3⟩ := bst_remove_key_split cmp d l h
      refine ⟨pre, x, post ++ e :: anv_bst_node_inorder r, ?_, h2, ?_⟩
      · simp only [anv_bst_node_inorder, h1, List.append_assoc, List.cons_append]
      · simp only [anv_bst_node_inorder, h3, List.append_assoc]
    · obtain ⟨pre, x, post, h1, h2, h3⟩ := bst_remove_key_split cmp d r h
      refine ⟨anv_bst_node_inorder l ++ e :: pre, x, post, ?_, h2, ?_⟩
      · simp only [anv_bst_node_inorder, h1, List.append_assoc, List.cons_append]
      · simp only [anv_bst_node_inorder, h3, List.append_assoc, List.cons_append]

theorem bst_remove_key_addrs (cmp : α → α → Int) (d : α) :
    ∀ (t : ANVBinarySearchTreeNode α), t.addrs.Nodup →
      (bst_remove_key cmp d t).addrs.Nodup ∧
        ∀ y ∈ (bst_remove_key cmp d t).addrs, y ∈ t.addrs
  | .null, h => ⟨h, fun _ hy => hy⟩
  | .node a e l r pp, h => by
    obtain ⟨n1, n2, n3, n4, n5⟩ := node_addrs_nodup _ _ _ _ _ h
    simp only [bst_remove_key]
    split_ifs with c0 c1
    · have hp := (bst_remove_root_addrs a e l r pp).1
      constructor
      · rw [hp.nodup_iff, List.nodup_append]
        exact ⟨n1, n2, fun x hx hx2 => n5 x hx hx2⟩
      · intro y hy
        rcases List.mem_append.1 (hp.mem_iff.1 hy) with h1 | h1
        · exact mem_addrs_left _ _ _ _ _ h1
        · exact mem_addrs_right _ _ _ _ _ h1
    · obtain ⟨k1, k2⟩ := bst_remove_key_addrs cmp d l n1
      constructor
      · simp only [ANVBinarySearchTreeNode.addrs, List.nodup_append, List.nodup_cons,
          List.disjoint_cons_right]
        exact ⟨k1, ⟨n4, n2⟩, fun hx => n3 (k2 a hx), fun x hx hx2 => n5 x (k2 x hx) hx2⟩
      · intro y hy
        simp only [ANVBinarySearchTreeNode.addrs, List.mem_append, List.mem_cons] at hy ⊢
        rcases hy with h1 | h1 | h1
        · exact Or.inl (k2 y h1)
        · exact Or.inr (Or.inl h1)
        · exact Or.inr (Or.inr h1)
    · obtain ⟨k1, k2⟩ := bst_remove_key_addrs cmp d r n2
      constructor
      · simp only [ANVBinarySearchTreeNode.addrs, List.nodup_append, List.nodup_cons,
          List.disjoint_cons_right]
        exact ⟨n1, ⟨fun hx => n4 (k2 a hx), k1⟩, n3, fun x hx hx2 => n5 x hx (k2 x hx2)⟩
      · intro y hy
        simp only [ANVBinarySearchTreeNode.addrs, List.mem_append, List.mem_cons] at hy ⊢
        rcases hy with h1 | h1 | h1
        · exact Or.inl h1
        · exact Or.inr (Or.inl h1)
        · exact Or.inr (Or.inr (k2 y h1))

theorem node_count_eq_inorder_length :
    ∀ (t : ANVBinarySearchTreeNode α), t.count = (anv_bst_node_inorder t).length
  | .null => rfl
  | .node a e l r pp => by
    simp only [ANVBinarySearchTreeNode.count, anv_bst_node_inorder, List.length_append,
      List.length_cons, node_count_eq_inorder_length l, node_count_eq_inorder_length r]
    omega

theorem remove_loop_present (d : α) :
    ∀ (t : ANVBinarySearchTreeNode α) (st : BstStore α) (s : BstSlot) (fuel : Nat),
      BstRep st.mem (s.get st) s.owner t → t.addrs.Nodup →
      (∀ q, s.owner = some q → q ∉ t.addrs) →
      (∀ q u, s = .right q → (st.mem q).right = some u → (st.mem q).left ≠ some u) →
      anv_bst_contains_loop st.compare d t = 1 → t.count < fuel →
      ∃ st1, anv_bst_remove_loop d fuel st (s.get st) = some (0, st1) ∧
        st1.size = st.size - 1 ∧ st1.compare = st.compare ∧
        BstRep st1.mem (bst_remove_key st.compare d t).ptr s.owner
          (bst_remove_key st.compare d t) ∧
        (∀ y, y ∉ t.addrs →
          st1.mem y = (s.set st (bst_remove_key st.compare d t).ptr).mem y) ∧
        st1.root = (s.set st (bst_remove_key st.compare d t).ptr).root
  | .null, _, _, _, _, _, _, _, hc, _ => by simp [anv_bst_contains_loop] at hc
  | .node a e l r pp, st, s, fuel, hrep, hn, hown, hsel, hc, hf => by
    cases fuel with
    | zero => omega
    | succ n =>
      have hrep2 := hrep
      obtain ⟨h1, h2, h3, h4, h5, h6⟩ := hrep
      obtain ⟨n1, n2, n3, n4, n5⟩ := node_addrs_nodup _ _ _ _ _ hn
      simp only [ANVBinarySearchTreeNode.count] at hf
      simp only [anv_bst_contains_loop] at hc
      rw [h1] at hrep2 ⊢
      simp only [anv_bst_remove_loop, h3, bst_remove_key]
      split_ifs at hc ⊢ with c0 c1
      · obtain ⟨st1, k1, k2, k3, k4, k5, k6⟩ := remove_node_spec st s a e l r pp n hrep2 h1 hn
          hown (fun q hq => hsel q a hq (by rw [hq] at h1; exact h1)) (by omega)
        rw [k1]
        exact ⟨_, rfl, by rw [k2], k3, k4, k5, k6⟩
      · obtain ⟨st1, k1, k2, k3, k4, k5, k6⟩ := remove_loop_present d l st (.left a) n h5 n1
          (fun q hq => by cases hq; exact n3) (fun q u hq => by cases hq) hc (by omega)
        have hfr : ∀ y, y ≠ a → y ∉ l.addrs → st1.mem y = st.mem y := fun y hy hyl =>
          (k5 y hyl).trans (bst_set_left_of_ne _ _ _ _ hy)
        have ha : st1.mem a = bst_set_left st.mem a (bst_remove_key st.compare d l).ptr a :=
          k5 a n3
        refine ⟨st1, k1, k2, k3, ⟨rfl, h2, ?_, ?_, ?_, ?_⟩, ?_, ?_⟩
        · rw [ha, bst_set_left_data]; exact h3
        · rw [ha, bst_set_left_parent]; exact h4
        · rw [ha, bst_set_left_self]; exact k4
        · rw [ha, bst_set_left_right]
          exact BstRep.congr (fun y hy => hfr y (fun e => n4 (e ▸ hy))
            (fun h => n5 y h hy)) h6
        · intro y hy
          rw [ANVBinarySearchTreeNode.ptr, ← h1, slot_set_get]
          exact hfr y (fun e => hy (e ▸ mem_addrs_root _ _ _ _ _))
            (fun h => hy (mem_addrs_left _ _ _ _ _ h))
        · rw [ANVBinarySearchTreeNode.ptr, ← h1, slot_set_get]
          exact k6
      · have hlr : ∀ u, (st.mem a).right = some u → (st.mem a).left ≠ some u := by
          intro u hu hu2
          exact n5 u (h5.ptr_mem u hu2) (h6.ptr_mem u hu)
        obtain ⟨st1, k1, k2, k3, k4, k5, k6⟩ := remove_loop_present d r st (.right a) n h6 n2
          (fun q hq => by cases hq; exact n4) (fun q u hq => by cases hq; exact hlr u)
          hc (by omega)
        have hfr : ∀ y, y ≠ a → y ∉ r.addrs → st1.mem y = st.mem y := fun y hy hyl =>
          (k5 y hyl).trans (bst_set_right_of_ne _ _ _ _ hy)
        have ha : st1.mem a = bst_set_right st.mem a (bst_remove_key st.compare d r).ptr a :=
          k5 a n4
        refine ⟨st1, k1, k2, k3, ⟨rfl, h2, ?_, ?_, ?_, ?_⟩, ?_, ?_⟩
        · rw [ha, bst_set_right_data]; exact h3
        · rw [ha, bst_set_right_parent]; exact h4
        · rw [ha, bst_set_right_left]
          exact BstRep.congr (fun y hy => hfr y (fun e => n3 (e ▸ hy))
            (fun h => n5 y hy h)) h5
        · rw [ha, bst_set_right_self]; exact k4
        · intro y hy
          rw [ANVBinarySearchTreeNode.ptr, ← h1, slot_set_get]
          exact hfr y (fun e => hy (e ▸ mem_addrs_root _ _ _ _ _))
            (fun h => hy (mem_addrs_right _ _ _ _ _ h))
        · rw [ANVBinarySearchTreeNode.ptr, ← h1, slot_set_get]
          exact k6

end BstRemoveLoop

section BstRemoveClaim

variable {α : Type}

/-- C28: for a tree held in the node memory with consistent parent pointers
and distinct nodes that satisfies the BST ordering, and whose `size` counts
its nodes, `anv_bst_remove` with a non-null key `d` returns (with any fuel
above the number of nodes), and it returns 0 exactly when `anv_bst_contains`
finds `d`. In that case the in-order sequence afterwards is the previous one
with the one key equal to `d` taken out, the other keys kept in their order;
the memory holds a tree with consistent parent pointers and distinct nodes
that is still ordered; `size` has decreased by one and still counts the
nodes; and `anv_bst_contains` no longer finds `d`. Otherwise it returns -1 and
the tree and the node memory are unchanged. -/
theorem c28_remove_deletes_one_key (st : BstStore α) (t : ANVBinarySearchTreeNode α) (d : α)
    (fuel : Nat) (hcmp : IsTotalCompare st.compare) (hrep : BstRep st.mem st.root none t)
    (hnd : t.addrs.Nodup) (ho : BstOrdered st.compare t) (hsize : st.size = t.count)
    (hfuel : t.count < fuel) :
    (anv_bst_store_contains fuel (some st) (some d) = some 1 ∨
      anv_bst_store_contains fuel (some st) (some d) = some 0) ∧
    (anv_bst_store_contains fuel (some st) (some d) = some 1 ↔
      ∃ e ∈ anv_bst_node_inorder t, st.compare d e = 0) ∧
    (anv_bst_store_contains fuel (some st) (some d) = some 1 →
      ∃ st1 t1 pre e post,
        anv_bst_remove fuel (some st) (some d) = some (0, some st1) ∧
        anv_bst_node_inorder t = pre ++ e :: post ∧ st.compare d e = 0 ∧
        anv_bst_node_inorder t1 = pre ++ post ∧
        BstRep st1.mem st1.root none t1 ∧ t1.addrs.Nodup ∧ BstOrdered st1.compare t1 ∧
        st1.compare = st.compare ∧ st1.size + 1 = st.size ∧ st1.size = t1.count ∧
        anv_bst_store_contains fuel (some st1) (some d) = some 0) ∧
    (anv_bst_store_contains fuel (some st) (some d) = some 0 →
      anv_bst_remove fuel (some st) (some d) = some (-1, some st)) := by
  have hc : anv_bst_store_contains fuel (some st) (some d) =
      some (anv_bst_contains_loop st.compare d t) :=
    store_contains_loop_eq st.compare d st.mem t _ _ fuel hrep hfuel
  rw [hc]
  simp only [Option.some.injEq]
  refine ⟨(bst_contains_loop_values st.compare d t).symm,
    bst_contains_loop_iff hcmp d t ho, fun h1 => ?_, fun h0 => ?_⟩
  · obtain ⟨st1, k1, k2, k3, k4, k5, k6⟩ := remove_loop_present d t st .root fuel hrep hnd
      (fun q hq => by cases hq) (fun q u hq => by cases hq) h1 hfuel
    obtain ⟨pre, e, post, s1, s2, s3⟩ := bst_remove_key_split st.compare d t h1
    have hk6 : st1.root = (bst_remove_key st.compare d t).ptr := k6
    have hlen : (bst_remove_key st.compare d t).count + 1 = t.count := by
      rw [node_count_eq_inorder_length, node_count_eq_inorder_length, s1, s3]
      simp only [List.length_append, List.length_cons]
      omega
    have ho1 := bst_remove_key_ordered hcmp d t ho
    refine ⟨st1, bst_remove_key st.compare d t, pre, e, post, ?_, s1, s2, s3, ?_,
      (bst_remove_key_addrs st.compare d t hnd).1, ?_, k3, ?_, ?_, ?_⟩
    · have hk1 : anv_bst_remove_loop d fuel st st.root = some (0, st1) := k1
      simp only [anv_bst_remove, hk1, Option.map_some']
    · rw [hk6]; exact k4
    · rw [k3]; exact ho1
    · rw [k2]; omega
    · rw [k2]; omega
    · have h2 : anv_bst_store_contains fuel (some st1) (some d) =
          some (anv_bst_contains_loop st1.compare d (bst_remove_key st.compare d t)) :=
        store_contains_loop_eq st1.compare d st1.mem _ _ _ fuel (hk6 ▸ k4) (by omega)
      rw [h2, k3]
      rcases bst_contains_loop_values st.compare d (bst_remove_key st.compare d t) with h | h
      · rw [h]
      · exfalso
        obtain ⟨x, hx, hx0⟩ := (bst_contains_loop_iff hcmp d _ ho1).1 h
        rw [bst_remove_key_inorder hcmp d t ho] at hx
        have := (List.mem_filter.1 hx).2
        simp at this
        exact this hx0
  · have hk1 := remove_loop_absent d st t _ _ fuel hrep hfuel (by rw [h0]; decide)
    simp only [anv_bst_remove, hk1, Option.map_some']

end BstRemoveClaim

theorem c28_remove_deletes_one_key_witness :
    (anv_bst_store_contains 6 (some (bst_store_of bst_example_tree 0)) (some 5) = some 1 ∨
      anv_bst_store_contains 6 (some (bst_store_of bst_example_tree 0)) (some 5) = some 0) ∧
    (anv_bst_store_contains 6 (some (bst_store_of bst_example_tree 0)) (some 5) = some 1 ↔
      ∃ e ∈ anv_bst_node_inorder bst_example_tree.root,
        (bst_store_of bst_example_tree 0).compare 5 e = 0) ∧
    (anv_bst_store_contains 6 (some (bst_store_of bst_example_tree 0)) (some 5) = some 1 →
      ∃ st1 t1 pre e post,
        anv_bst_remove 6 (some (bst_store_of bst_example_tree 0)) (some 5) =
          some (0, some st1) ∧
        anv_bst_node_inorder bst_example_tree.root = pre ++ e :: post ∧
        (bst_store_of bst_example_tree 0).compare 5 e = 0 ∧
        anv_bst_node_inorder t1 = pre ++ post ∧
        BstRep st1.mem st1.root none t1 ∧ t1.addrs.Nodup ∧ BstOrdered st1.compare t1 ∧
        st1.compare = (bst_store_of bst_example_tree 0).compare ∧
        st1.size + 1 = (bst_store_of bst_example_tree 0).size ∧ st1.size = t1.count ∧
        anv_bst_store_contains 6 (some st1) (some 5) = some 0) ∧
    (anv_bst_store_contains 6 (some (bst_store_of bst_example_tree 0)) (some 5) = some 0 →
      anv_bst_remove 6 (some (bst_store_of bst_example_tree 0)) (some 5) =
        some (-1, some (bst_store_of bst_example_tree 0))) :=
  c28_remove_deletes_one_key (bst_store_of bst_example_tree 0) bst_example_tree.root 5 6
    int_compare_isTotalCompare (by decide) (by decide)
    (by simp [bst_example_tree, bst_store_of, BstOrdered, anv_bst_node_inorder, int_compare])
    (by decide) (by decide)

section Reset

variable {α : Type}

theorem bst_next_keeps_tree (st : BSTIteratorState α) :
    ∃ st1, (bst_iterator_next (some st)).2 = some st1 ∧ st1.tree = st.tree ∧
      st1.traversal_type = st.traversal_type := by
  obtain ⟨t, s, c, ty, f⟩ := st
  simp only [bst_iterator_next]
  split_ifs
  · exact ⟨_, rfl, rfl, rfl⟩
  · cases ty
    · simp only [bst_iterator_next_inorder]
      split_ifs <;> exact ⟨_, rfl, rfl, rfl⟩
    · simp only [bst_iterator_next_preorder]
      split_ifs <;> exact ⟨_, rfl, rfl, rfl⟩
    · simp only [bst_iterator_next_postorder]
      split_ifs
      · exact ⟨_, rfl, rfl, rfl⟩
      · exact ⟨_, rfl, rfl, rfl⟩
      · split <;> exact ⟨_, rfl, rfl, rfl⟩
      · exact ⟨_, rfl, rfl, rfl⟩

theorem bst_advance_keeps_tree :
    ∀ (k : Nat) (st : BSTIteratorState α),
      ∃ st1, (bst_iterator_with (some st)).advance k = some (bst_iterator_with (some st1)) ∧
        st1.tree = st.tree ∧ st1.traversal_type = st.traversal_type
  | 0, st => ⟨st, rfl, rfl, rfl⟩
  | k + 1, st => by
    obtain ⟨st1, h1, h2, h3⟩ := bst_next_keeps_tree st
    obtain ⟨st2, k1, k2, k3⟩ := bst_advance_keeps_tree k st1
    refine ⟨st2, ?_, k2.trans h2, k3.trans h3⟩
    have hc : (bst_iterator_with (some st)).callNext =
        some ((bst_iterator_next (some st)).1, bst_iterator_with (some st1)) := by
      simp only [ANVIterator.callNext, bst_iterator_with, Option.map_some', h1]
    simp only [ANVIterator.advance, hc, k1]

theorem bst_reset_congr (st st1 : BSTIteratorState α) (h1 : st1.tree = st.tree)
    (h2 : st1.traversal_type = st.traversal_type) :
    bst_iterator_reset (some st1) = bst_iterator_reset (some st) := by
  obtain ⟨t, s, c, ty, f⟩ := st
  obtain ⟨t1, s1, c1, ty1, f1⟩ := st1
  simp only at h1 h2
  subst h1 h2
  rfl

theorem bst_setup_inorder_tree (s : BSTIteratorState α) :
    (bst_setup_inorder s).tree = s.tree := by
  simp only [bst_setup_inorder]
  split_ifs <;> rfl

theorem bst_setup_inorder_type (s : BSTIteratorState α) :
    (bst_setup_inorder s).traversal_type = s.traversal_type := by
  simp only [bst_setup_inorder]
  split_ifs <;> rfl

theorem bst_setup_preorder_tree (s : BSTIteratorState α) :
    (bst_setup_preorder s).tree = s.tree := by
  simp only [bst_setup_preorder]
  split_ifs <;> rfl

theorem bst_setup_preorder_type (s : BSTIteratorState α) :
    (bst_setup_preorder s).traversal_type = s.traversal_type := by
  simp only [bst_setup_preorder]
  split_ifs <;> rfl

theorem bst_setup_postorder_tree (s : BSTIteratorState α) :
    (bst_setup_postorder s).tree = s.tree := by
  simp only [bst_setup_postorder]
  split <;> rfl

theorem bst_setup_postorder_type (s : BSTIteratorState α) :
    (bst_setup_postorder s).traversal_type = s.traversal_type := by
  simp only [bst_setup_postorder]
  split <;> rfl

theorem bst_fresh_reset_drive (t : ANVBinarySearchTree α) (hsize : t.size = t.root.count)
    (order : BSTTraversalType) (fuel : Nat) :
    ((bst_create_iterator (some t) order true true).callReset.drive fuel).map Prod.fst =
      ((bst_create_iterator (some t) order true true).drive fuel).map Prod.fst := by
  by_cases hz : t.size = 0
  · have hroot : t.root = .null := by
      rw [hsize] at hz
      cases hr : t.root with
      | null => rfl
      | node a d l r p =>
        rw [hr] at hz
        simp [ANVBinarySearchTreeNode.count] at hz
    cases fuel with
    | zero => rfl
    | succ n =>
      cases order <;>
        simp [bst_create_iterator, ANVIterator.callReset, bst_iterator_with,
          bst_iterator_reset, bst_setup_inorder, bst_setup_preorder, bst_setup_postorder,
          bst_postorder_descend, bst_push_left_spine, hroot, hz, ANVIterator.drive,
          ANVIterator.callHasNext, bst_iterator_has_next, anv_stack_create, anv_stack_clear,
          anv_stack_is_empty]
  · have key : ∀ (setup : BSTIteratorState α → BSTIteratorState α) (s0 : BSTIteratorState α),
        (setup s0).tree = s0.tree → (setup s0).traversal_type = s0.traversal_type →
        s0.tree = t → bst_iterator_reset (some s0) = some (setup s0) →
        (bst_iterator_with (some
          (if (setup s0).tree.size = 0 then { setup s0 with finished := true }
            else setup s0))).callReset =
        bst_iterator_with (some
          (if (setup s0).tree.size = 0 then { setup s0 with finished := true }
            else setup s0)) := by
      intro setup s0 h1 h2 h3 h4
      rw [h1, h3, if_neg hz]
      show bst_iterator_with (bst_iterator_reset (some (setup s0))) = _
      rw [bst_reset_congr s0 (setup s0) h1 h2, h4]
    have : (bst_create_iterator (some t) order true true).callReset =
        bst_create_iterator (some t) order true true := by
      cases order
      · exact key bst_setup_inorder _ (bst_setup_inorder_tree _) (bst_setup_inorder_type _)
          rfl rfl
      · exact key bst_setup_preorder _ (bst_setup_preorder_tree _) (bst_setup_preorder_type _)
          rfl rfl
      · exact key bst_setup_postorder _ (bst_setup_postorder_tree _)
          (bst_setup_postorder_type _) rfl rfl
    rw [this]

end Reset

section ResetClaim

variable {α : Type}

theorem range_advance_reset :
    ∀ (k : Nat) (ds : Option RangeState),
      ∃ it1, (range_with ds).advance k = some it1 ∧
        it1.callReset = (range_with ds).callReset
  | 0, ds => ⟨_, rfl, rfl⟩
  | k + 1, ds => by
    obtain ⟨it1, h1, h2⟩ := range_advance_reset k (range_next ds).2
    refine ⟨it1, ?_, ?_⟩
    · simp only [ANVIterator.advance, range_with_callNext, h1]
    · rw [h2]
      cases ds with
      | none => rfl
      | some st =>
        simp only [ANVIterator.callReset, range_with, range_next]
        split_ifs <;> rfl

theorem range_fresh_reset (alloc : Option ANVAllocator) (start end_ step : Int) (mem : Bool) :
    (anv_iterator_range alloc start end_ step mem).callReset =
      anv_iterator_range alloc start end_ step mem := by
  cases alloc with
  | none => rfl
  | some a =>
    simp only [anv_iterator_range]
    split_ifs <;> rfl

theorem range_is_with (alloc : Option ANVAllocator) (start end_ step : Int) (mem : Bool) :
    ∃ ds, anv_iterator_range alloc start end_ step mem = range_with ds := by
  cases alloc with
  | none => exact ⟨_, rfl⟩
  | some a =>
    simp only [anv_iterator_range]
    split_ifs <;> exact ⟨_, rfl⟩

theorem repeat_advance_reset :
    ∀ (k : Nat) (ds : Option (RepeatState α)),
      ∃ it1, (repeat_with ds).advance k = some it1 ∧
        it1.callReset = (repeat_with ds).callReset
  | 0, ds => ⟨_, rfl, rfl⟩
  | k + 1, ds => by
    obtain ⟨it1, h1, h2⟩ := repeat_advance_reset k (repeat_next ds).2
    refine ⟨it1, ?_, ?_⟩
    · simp only [ANVIterator.advance, repeat_with_callNext, h1]
    · rw [h2]
      cases ds with
      | none => rfl
      | some st =>
        simp only [ANVIterator.callReset, repeat_with, repeat_next]
        split_ifs <;> rfl

theorem repeat_fresh_reset (value : Option α) (alloc : Option ANVAllocator) (count : Nat)
    (mem : Bool) :
    (anv_iterator_repeat value alloc count mem).callReset =
      anv_iterator_repeat value alloc count mem := by
  cases value <;> cases alloc <;> simp only [anv_iterator_repeat] <;> try rfl
  split_ifs <;> rfl

theorem repeat_is_with (value : Option α) (alloc : Option ANVAllocator) (count : Nat)
    (mem : Bool) : ∃ ds, anv_iterator_repeat value alloc count mem = repeat_with ds := by
  cases value <;> cases alloc <;> simp only [anv_iterator_repeat] <;>
    first
    | exact ⟨_, rfl⟩
    | (split_ifs <;> exact ⟨_, rfl⟩)

theorem bst_advance_reset_drive (t : ANVBinarySearchTree α) (hsize : t.size = t.root.count)
    (order : BSTTraversalType) (k : Nat) :
    ∃ it1, (bst_create_iterator (some t) order true true).advance k = some it1 ∧
      ∀ fuel, (it1.callReset.drive fuel).map Prod.fst =
        ((bst_create_iterator (some t) order true true).drive fuel).map Prod.fst := by
  obtain ⟨s0, hs0⟩ : ∃ s0, bst_create_iterator (some t) order true true =
      bst_iterator_with (some s0) := ⟨_, rfl⟩
  obtain ⟨st1, h1, h2, h3⟩ := bst_advance_keeps_tree k s0
  refine ⟨_, by rw [hs0]; exact h1, fun fuel => ?_⟩
  rw [← bst_fresh_reset_drive t hsize order fuel, hs0]
  show ((bst_iterator_with (bst_iterator_reset (some st1))).drive fuel).map Prod.fst =
    ((bst_iterator_with (bst_iterator_reset (some s0))).drive fuel).map Prod.fst
  rw [bst_reset_congr s0 st1 h2 h3]

/-- C29. After any number `k` of `next()` calls on a freshly constructed
iterator, `reset()` returns it to its initial position. For a BST iterator
of any of the three orders over a tree whose `size` counts its nodes, the
consumer loop after the reset yields what it yields on a freshly constructed
iterator over the same tree, with every fuel: the whole in-order and
pre-order sequence, and the whole post-order sequence when the nodes are
distinct. For a range iterator and a repeat iterator, whatever the
arguments of the constructor are, the iterator after the reset is the
freshly constructed one. -/
theorem c29_reset_restores_initial_position (t : ANVBinarySearchTree α)
    (hsize : t.size = t.root.count) (order : BSTTraversalType) (k : Nat)
    (alloc : Option ANVAllocator) (start end_ step : Int) (mem : Bool) (value : Option α)
    (count : Nat) :
    (∃ it1, (bst_create_iterator (some t) order true true).advance k = some it1 ∧
      ∀ fuel, (it1.callReset.drive fuel).map Prod.fst =
        ((bst_create_iterator (some t) order true true).drive fuel).map Prod.fst) ∧
    (∃ it1, (anv_bst_iterator (some t)).advance k = some it1 ∧
      ∀ fuel, t.size < fuel → (it1.callReset.drive fuel).map Prod.fst =
        some ((anv_bst_node_inorder t.root).map some)) ∧
    (∃ it1, (anv_bst_iterator_preorder (some t)).advance k = some it1 ∧
      ∀ fuel, t.size < fuel → (it1.callReset.drive fuel).map Prod.fst =
        some ((anv_bst_node_preorder t.root).map some)) ∧
    (t.root.addrs.Nodup →
      ∃ it1, (anv_bst_iterator_postorder (some t)).advance k = some it1 ∧
        ∀ fuel, t.size < fuel → (it1.callReset.drive fuel).map Prod.fst =
          some ((anv_bst_node_postorder t.root).map some)) ∧
    (∃ it1, (anv_iterator_range alloc start end_ step mem).advance k = some it1 ∧
      it1.callReset = anv_iterator_range alloc start end_ step mem ∧
      ∀ fuel, it1.callReset.drive fuel =
        (anv_iterator_range alloc start end_ step mem).drive fuel) ∧
    (∃ it1, (anv_iterator_repeat value alloc count mem).advance k = some it1 ∧
      it1.callReset = anv_iterator_repeat value alloc count mem ∧
      ∀ fuel, it1.callReset.drive fuel =
        (anv_iterator_repeat value alloc count mem).drive fuel) := by
  refine ⟨bst_advance_reset_drive t hsize order k, ?_, ?_, ?_, ?_, ?_⟩
  · obtain ⟨it1, h1, h2⟩ := bst_advance_reset_drive t hsize .BST_TRAVERSAL_INORDER k
    refine ⟨it1, h1, fun fuel hf => ?_⟩
    obtain ⟨it2, k1, -⟩ := bst_inorder_drive t hsize fuel hf
    rw [h2 fuel]
    show ((anv_bst_iterator (some t)).drive fuel).map Prod.fst = _
    rw [k1]
    rfl
  · obtain ⟨it1, h1, h2⟩ := bst_advance_reset_drive t hsize .BST_TRAVERSAL_PREORDER k
    refine ⟨it1, h1, fun fuel hf => ?_⟩
    have hlen : ((anv_bst_node_preorder t.root).map some).length = t.size := by
      rw [List.length_map, bst_preorder_length, hsize]
    obtain ⟨it2, k1, -⟩ :=
      drive_of_inv_hasNext bstPreorderInv_driveInv _ _ (bst_preorder_init t hsize) fuel
        (by omega)
    rw [h2 fuel]
    show ((anv_bst_iterator_preorder (some t)).drive fuel).map Prod.fst = _
    rw [k1]
    rfl
  · intro haddr
    obtain ⟨it1, h1, h2⟩ := bst_advance_reset_drive t hsize .BST_TRAVERSAL_POSTORDER k
    refine ⟨it1, h1, fun fuel hf => ?_⟩
    have hlen : ((anv_bst_node_postorder t.root).map some).length = t.size := by
      rw [List.length_map, bst_postorder_length, hsize]
    obtain ⟨it2, k1, -⟩ :=
      drive_of_inv_hasNext bstPostorderInv_driveInv _ _
        (bst_postorder_init t hsize (bst_siblings_distinct_of_nodup _ haddr)) fuel (by omega)
    rw [h2 fuel]
    show ((anv_bst_iterator_postorder (some t)).drive fuel).map Prod.fst = _
    rw [k1]
    rfl
  · obtain ⟨ds, hds⟩ := range_is_with alloc start end_ step mem
    obtain ⟨it1, h1, h2⟩ := range_advance_reset k ds
    have h3 : it1.callReset = anv_iterator_range alloc start end_ step mem := by
      rw [h2, ← hds]
      exact range_fresh_reset alloc start end_ step mem
    exact ⟨it1, by rw [hds]; exact h1, h3, fun fuel => by rw [h3]⟩
  · obtain ⟨ds, hds⟩ := repeat_is_with value alloc count mem
    obtain ⟨it1, h1, h2⟩ := repeat_advance_reset k ds
    have h3 : it1.callReset = anv_iterator_repeat value alloc count mem := by
      rw [h2, ← hds]
      exact repeat_fresh_reset value alloc count mem
    exact ⟨it1, by rw [hds]; exact h1, h3, fun fuel => by rw [h3]⟩

end ResetClaim

theorem c29_reset_restores_initial_position_witness :
    (∃ it1, (bst_create_iterator (some bst_example_tree) .BST_TRAVERSAL_POSTORDER true
        true).advance 7 = some it1 ∧
      ∀ fuel, (it1.callReset.drive fuel).map Prod.fst =
        ((bst_create_iterator (some bst_example_tree) .BST_TRAVERSAL_POSTORDER true
          true).drive fuel).map Prod.fst) ∧
    (∃ it1, (anv_bst_iterator (some bst_example_tree)).advance 7 = some it1 ∧
      ∀ fuel, bst_example_tree.size < fuel → (it1.callReset.drive fuel).map Prod.fst =
        some ((anv_bst_node_inorder bst_example_tree.root).map some)) ∧
    (∃ it1, (anv_bst_iterator_preorder (some bst_example_tree)).advance 7 = some it1 ∧
      ∀ fuel, bst_example_tree.size < fuel → (it1.callReset.drive fuel).map Prod.fst =
        some ((anv_bst_node_preorder bst_example_tree.root).map some)) ∧
    (bst_example_tree.root.addrs.Nodup →
      ∃ it1, (anv_bst_iterator_postorder (some bst_example_tree)).advance 7 = some it1 ∧
        ∀ fuel, bst_example_tree.size < fuel → (it1.callReset.drive fuel).map Prod.fst =
          some ((anv_bst_node_postorder bst_example_tree.root).map some)) ∧
    (∃ it1, (anv_iterator_range (some anv_alloc_default) 0 10 2 true).advance 7 = some it1 ∧
      it1.callReset = anv_iterator_range (some anv_alloc_default) 0 10 2 true ∧
      ∀ fuel, it1.callReset.drive fuel =
        (anv_iterator_range (some anv_alloc_default) 0 10 2 true).drive fuel) ∧
    (∃ it1, (anv_iterator_repeat (some (9 : Int)) (some anv_alloc_default) 3 true).advance 7 =
        some it1 ∧
      it1.callReset = anv_iterator_repeat (some (9 : Int)) (some anv_alloc_default) 3 true ∧
      ∀ fuel, it1.callReset.drive fuel =
        (anv_iterator_repeat (some (9 : Int)) (some anv_alloc_default) 3 true).drive fuel) :=
  c29_reset_restores_initial_position bst_example_tree (by decide) .BST_TRAVERSAL_POSTORDER 7
    (some anv_alloc_default) 0 10 2 true (some 9) 3

section CopyLedgerLemmas

variable {σ α : Type}

theorem copy_get_tracked_fst (s : Option (CopyState σ α)) (led : CopyLedger α) :
    (copy_get_tracked s led).map Prod.fst = copy_get s := by
  cases s with
  | none => rfl
  | some state =>
    simp only [copy_get_tracked, copy_get]
    cases state.cached_copy with
    | some c => rfl
    | none =>
      cases state.base_iterator.callGet with
      | none => rfl
      | some r =>
        obtain ⟨x, base⟩ := r
        cases x <;> rfl

theorem copy_has_next_tracked_fst (s : Option (CopyState σ α)) (led : CopyLedger α) :
    (copy_has_next_tracked s led).map Prod.fst = copy_has_next s := by
  cases s with
  | none => rfl
  | some state =>
    simp only [copy_has_next_tracked, copy_has_next]
    cases state.base_iterator.callHasNext with
    | none => rfl
    | some r => rfl

theorem copy_next_tracked_fst (s : Option (CopyState σ α)) (led : CopyLedger α) :
    (copy_next_tracked s led).map Prod.fst = copy_next s := by
  cases s with
  | none => rfl
  | some state =>
    simp only [copy_next_tracked, copy_next]
    cases state.base_iterator.callNext with
    | none => rfl
    | some r => rfl

theorem copy_destroy_tracked_fst (alloc : ANVAllocator) (s : Option (CopyState σ α))
    (led : CopyLedger α) : (copy_destroy_tracked alloc s led).1 = copy_destroy s := by
  cases s <;> rfl

theorem anv_iterator_copy_tracked_fst (it : Option (ANVIterator σ α))
    (alloc : Option ANVAllocator) (copy : Option (α → Option α)) (mem : Bool)
    (led : CopyLedger α) :
    copy_with (anv_iterator_copy_tracked it alloc copy mem led).1 =
      anv_iterator_copy it alloc copy mem := by
  cases it <;> cases copy <;> cases alloc <;>
    simp only [anv_iterator_copy_tracked, anv_iterator_copy]
  split_ifs <;> rfl

theorem copies_of_append (f : α → Option α) (xs ys : List (Option α)) :
    copies_of f (xs ++ ys) = copies_of f xs ++ copies_of f ys := by
  simp [copies_of, List.filterMap_append]

theorem copy_round_tracked (f : α → Option α) (b : ANVIterator σ α) (x : Option α)
    (xs : List (Option α)) (led : CopyLedger α) (h : Produces b (x :: xs)) :
    ∃ b1 b2 b3, Produces b3 xs ∧ Produces b2 (x :: xs) ∧
      copy_has_next_tracked (some { base_iterator := b, copy := f, cached_copy := none }) led =
        some ((true, some { base_iterator := b1, copy := f, cached_copy := none }), led) ∧
      copy_get_tracked (some { base_iterator := b1, copy := f, cached_copy := none }) led =
        some ((x.bind f, some { base_iterator := b2, copy := f, cached_copy := x.bind f }),
          { led with copies := led.copies ++ copies_of f [x] }) ∧
      copy_next_tracked (some { base_iterator := b2, copy := f, cached_copy := x.bind f })
          { led with copies := led.copies ++ copies_of f [x] } =
        some ((0, some { base_iterator := b3, copy := f, cached_copy := none }),
          { led with copies := led.copies ++ copies_of f [x] }) := by
  obtain ⟨b1, e1, h1⟩ := produces_isProducer.has_next b _ h
  obtain ⟨b2, e2, h2⟩ := produces_isProducer.get b1 _ h1
  obtain ⟨b3, e3, h3⟩ := produces_isProducer.next_cons b2 x xs h2
  simp only [List.isEmpty_cons, Bool.not_false] at e1
  simp only [List.head?_cons, Option.join] at e2
  refine ⟨b1, b2, b3, h3, h2, ?_, ?_, ?_⟩
  · simp only [copy_has_next_tracked, e1]
  · cases x with
    | none =>
      simp [copy_get_tracked, e2, copies_of]
    | some e =>
      cases hfe : f e <;> simp [copy_get_tracked, e2, copies_of, hfe]
  · simp only [copy_next_tracked, e3]

theorem copy_rounds_tracked_spec (f : α → Option α) :
    ∀ (n : Nat) (b : ANVIterator σ α) (xs : List (Option α)) (led : CopyLedger α),
      Produces b xs → n ≤ xs.length →
      ∃ bn, Produces bn (xs.drop n) ∧
        copy_rounds_tracked n (some { base_iterator := b, copy := f, cached_copy := none }) led =
          some (some { base_iterator := bn, copy := f, cached_copy := none },
            { led with copies := led.copies ++ copies_of f (xs.take n) })
  | 0, b, xs, led, h, _ => ⟨b, by simpa using h, by simp [copy_rounds_tracked, copies_of]⟩
  | n + 1, b, [], led, _, hn => by simp at hn
  | n + 1, b, x :: xs, led, h, hn => by
    obtain ⟨b1, b2, b3, h3, -, e1, e2, e3⟩ := copy_round_tracked f b x xs led h
    obtain ⟨bn, hbn, e4⟩ := copy_rounds_tracked_spec f n b3 xs
      { led with copies := led.copies ++ copies_of f [x] } h3 (by simpa using hn)
    refine ⟨bn, by simpa using hbn, ?_⟩
    simp only [copy_rounds_tracked, e1, e2, e3, e4, List.take_succ_cons]
    rw [show x :: List.take n xs = [x] ++ List.take n xs from rfl, copies_of_append,
      List.append_assoc]

theorem copy_drive_tracked_spec (f : α → Option α) :
    ∀ (xs : List (Option α)) (fuel : Nat) (b : ANVIterator σ α) (led : CopyLedger α),
      Produces b xs → xs.length < fuel →
      ∃ bn, Produces bn [] ∧
        copy_drive_tracked fuel (some { base_iterator := b, copy := f, cached_copy := none })
            led =
          some (xs.map (fun x => x.bind f),
            some { base_iterator := bn, copy := f, cached_copy := none },
            { led with copies := led.copies ++ copies_of f xs })
  | _, 0, _, _, _, hf => by omega
  | [], fuel + 1, b, led, h, _ => by
    obtain ⟨b1, e1, h1⟩ := produces_isProducer.has_next b _ h
    simp only [List.isEmpty_nil, Bool.not_true] at e1
    exact ⟨b1, h1, by simp [copy_drive_tracked, copy_has_next_tracked, e1, copies_of]⟩
  | x :: xs, fuel + 1, b, led, h, hf => by
    obtain ⟨b1, b2, b3, h3, -, e1, e2, e3⟩ := copy_round_tracked f b x xs led h
    obtain ⟨bn, hbn, e4⟩ := copy_drive_tracked_spec f xs fuel b3
      { led with copies := led.copies ++ copies_of f [x] } h3 (by simpa using hf)
    refine ⟨bn, hbn, ?_⟩
    simp only [copy_drive_tracked, e1, e2, e3, e4, List.map_cons]
    rw [show x :: xs = [x] ++ xs from rfl, copies_of_append, List.append_assoc]

end CopyLedgerLemmas

section CopyLedgerClaim

variable {σ α : Type}

/-- C30, as amended: the copy combinator releases its iterator state and
never a copy. For every well-behaved upstream producer with the elements
`xs`, every copy function and every allocator whose allocation succeeds,
the constructor allocates one state block; `next` leaves the ledger as it is
and `destroy` leaves the copies in it as they are; after `n` rounds of the
consumer loop and `destroy`, after `n` rounds followed by `has_next`, `get`
and `destroy`, and after the whole consumer loop and `destroy`, the copies
outstanding are exactly those that `get` created, one for every non-null
element passed whose copy is non-null, and no state block is outstanding
when the allocator has a `deallocate` function. -/
theorem c30_copy_releases_state_only (base : ANVIterator σ α) (xs : List (Option α))
    (h : Produces base xs) (alloc : ANVAllocator) (ha : alloc.allocate = true)
    (f : α → Option α) (n : Nat) (hn : n ≤ xs.length) :
    (anv_iterator_copy_tracked (some base) (some alloc) (some f) true ⟨[], 0⟩).2 = ⟨[], 1⟩ ∧
    (∀ (s : Option (CopyState σ α)) (led : CopyLedger α) r,
      copy_next_tracked s led = some r → r.2 = led) ∧
    (∀ (s : Option (CopyState σ α)) (led : CopyLedger α),
      (copy_destroy_tracked alloc s led).2.copies = led.copies) ∧
    (∃ sn, copy_rounds_tracked n
        (anv_iterator_copy_tracked (some base) (some alloc) (some f) true ⟨[], 0⟩).1
        (anv_iterator_copy_tracked (some base) (some alloc) (some f) true ⟨[], 0⟩).2 =
          some (sn, ⟨copies_of f (xs.take n), 1⟩) ∧
      copy_destroy_tracked alloc sn ⟨copies_of f (xs.take n), 1⟩ =
        (none, ⟨copies_of f (xs.take n), if alloc.deallocate then 0 else 1⟩)) ∧
    (n < xs.length →
      ∃ sn s1 s2 x, copy_rounds_tracked n
          (anv_iterator_copy_tracked (some base) (some alloc) (some f) true ⟨[], 0⟩).1
          (anv_iterator_copy_tracked (some base) (some alloc) (some f) true ⟨[], 0⟩).2 =
            some (sn, ⟨copies_of f (xs.take n), 1⟩) ∧
        copy_has_next_tracked sn ⟨copies_of f (xs.take n), 1⟩ =
          some ((true, s1), ⟨copies_of f (xs.take n), 1⟩) ∧
        copy_get_tracked s1 ⟨copies_of f (xs.take n), 1⟩ =
          some ((x, s2), ⟨copies_of f (xs.take (n + 1)), 1⟩) ∧
        copy_destroy_tracked alloc s2 ⟨copies_of f (xs.take (n + 1)), 1⟩ =
          (none, ⟨copies_of f (xs.take (n + 1)), if alloc.deallocate then 0 else 1⟩)) ∧
    (∀ fuel, xs.length < fuel →
      copy_lifecycle fuel base alloc f =
        some ⟨copies_of f xs, if alloc.deallocate then 0 else 1⟩) := by
  have hc : anv_iterator_copy_tracked (some base) (some alloc) (some f) true
      (⟨[], 0⟩ : CopyLedger α) =
      (some { base_iterator := base, copy := f, cached_copy := none }, ⟨[], 1⟩) := by
    simp [anv_iterator_copy_tracked, anv_alloc_allocate, ha]
  have hd : ∀ (st : CopyState σ α) (cs : List α),
      copy_destroy_tracked alloc (some st) ⟨cs, 1⟩ =
        (none, ⟨cs, if alloc.deallocate then 0 else 1⟩) := by
    intro st cs
    simp only [copy_destroy_tracked]
    cases alloc.deallocate <;> rfl
  obtain ⟨bn, hbn, en⟩ := copy_rounds_tracked_spec f n base xs ⟨[], 1⟩ h hn
  simp only [List.nil_append] at en
  refine ⟨by rw [hc], ?_, ?_, ?_, ?_, ?_⟩
  · intro s led r hr
    cases s with
    | none =>
      simp only [copy_next_tracked, Option.some.injEq] at hr
      rw [← hr]
    | some st =>
      simp only [copy_next_tracked] at hr
      cases hb : st.base_iterator.callNext with
      | none => rw [hb] at hr; cases hr
      | some q =>
        rw [hb] at hr
        simp only [Option.some.injEq] at hr
        rw [← hr]
  · intro s led
    cases s with
    | none => rfl
    | some st =>
      simp only [copy_destroy_tracked]
      cases alloc.deallocate <;> rfl
  · rw [hc]
    exact ⟨_, en, hd _ _⟩
  · intro hlt
    obtain ⟨x, ys, hxs⟩ : ∃ x ys, xs.drop n = x :: ys := by
      cases hdr : xs.drop n with
      | nil =>
        have := congrArg List.length hdr
        simp at this
        omega
      | cons x ys => exact ⟨x, ys, rfl⟩
    rw [hxs] at hbn
    obtain ⟨b1, b2, b3, -, -, e1, e2, -⟩ :=
      copy_round_tracked f bn x ys ⟨copies_of f (xs.take n), 1⟩ hbn
    have htake : xs.take (n + 1) = xs.take n ++ [x] := by
      rw [List.take_succ]
      congr 1
      have : xs[n]? = (xs.drop n).head? := by
        rw [List.head?_drop]
      rw [this, hxs]
      rfl
    rw [hc]
    refine ⟨_, _, some { base_iterator := b2, copy := f, cached_copy := x.bind f }, x.bind f,
      en, e1, ?_, hd _ _⟩
    rw [e2, htake, copies_of_append]
  · intro fuel hf
    obtain ⟨be, -, ee⟩ := copy_drive_tracked_spec f xs fuel base ⟨[], 1⟩ h hf
    simp only [List.nil_append] at ee
    simp only [copy_lifecycle, hc, ee, hd]

/-- C30, the claim as stated fails: over an upstream of two elements the
consumer loop creates two copies, and after the loop and `destroy` both are
still outstanding, while the state block has been released. -/
theorem c30_copies_outstanding_after_destroy :
    copy_lifecycle 3 (anv_iterator_repeat (some (7 : Int)) (some anv_alloc_default) 2 true)
        anv_alloc_default (fun x => some x) = some ⟨[7, 7], 0⟩ ∧
    ¬ (∀ led, copy_lifecycle 3
        (anv_iterator_repeat (some (7 : Int)) (some anv_alloc_default) 2 true)
        anv_alloc_default (fun x => some x) = some led → led.copies = [] ∧ led.states = 0) := by
  have h1 : copy_lifecycle 3
      (anv_iterator_repeat (some (7 : Int)) (some anv_alloc_default) 2 true)
      anv_alloc_default (fun x => some x) = some ⟨[7, 7], 0⟩ := by decide
  refine ⟨h1, fun h => ?_⟩
  have h2 := (h _ h1).1
  simp at h2

end CopyLedgerClaim

theorem c30_copy_releases_state_only_witness :
    copy_lifecycle 3 (anv_iterator_repeat (some (7 : Int)) (some anv_alloc_default) 2 true)
      anv_alloc_default (fun x => some x) =
        some ⟨copies_of (fun x => some x) (List.replicate 2 (some (7 : Int))),
          if anv_alloc_default.deallocate then 0 else 1⟩ :=
  (c30_copy_releases_state_only
    (anv_iterator_repeat (some (7 : Int)) (some anv_alloc_default) 2 true)
    (List.replicate 2 (some 7)) (repeat_produces 7 anv_alloc_default rfl 2)
    anv_alloc_default rfl (fun x => some x) 1 (by decide)).2.2.2.2.2 3 (by decide)

section HashSetIterator

variable {α κ : Type}

theorem dll_iterator_with_none_isInvalid :
    (dll_iterator_with (none : Option (ListIteratorState α))).IsInvalid := by
  refine ⟨rfl, rfl, rfl, rfl, rfl, rfl, rfl, rfl, rfl⟩

theorem bst_iterator_with_none_isInvalid :
    (bst_iterator_with (none : Option (BSTIteratorState α))).IsInvalid := by
  refine ⟨rfl, rfl, rfl, rfl, rfl, rfl, rfl, rfl, rfl⟩

/-- C31 (the code departs from it). `anv_hashset_iterator` called with a null
set, or with a set whose map is null, reads through the null pointer and
returns nothing, whatever the allocations would do; `anv_dll_iterator`,
`anv_dll_iterator_reverse` and the three BST iterator constructors return
a structurally invalid iterator for a null container. For the set `{1,2,3}`
the iterator is valid and the consumer loop yields 1, 2, 3. -/
theorem c31_hashset_iterator_reads_through_null (mem mem_map : Bool)
    (order : BSTTraversalType) (alloc_ok stack_ok : Bool) :
    anv_hashset_iterator (none : Option (ANVHashSet κ)) mem mem_map = none ∧
    anv_hashset_iterator (some ({ map := none } : ANVHashSet κ)) mem mem_map = none ∧
    (anv_dll_iterator (none : Option (ANVDoublyLinkedList α)) mem).IsInvalid ∧
    (anv_dll_iterator_reverse (none : Option (ANVDoublyLinkedList α)) mem).IsInvalid ∧
    (bst_create_iterator (none : Option (ANVBinarySearchTree α)) order alloc_ok
      stack_ok).IsInvalid ∧
    ((anv_hashset_iterator (hashset_of_list [1, 2, 3]) true true).map
        (fun it => (it.callIsValid, (it.drive 4).map Prod.fst)) =
      some (true, some [some 1, some 2, some 3])) :=
  ⟨rfl, rfl, dll_iterator_with_none_isInvalid, dll_iterator_with_none_isInvalid,
    bst_iterator_with_none_isInvalid, by decide⟩

end HashSetIterator

section RangeOverflow

/-- C39 (the code departs from it). `anv_iterator_range` accepts the
arguments `(2147483646, 2147483647, 2)`, whose end lies within `|step|` of
`INT_MAX`; the first `next()` computes `2147483646 + 2`, which is not an
`int`, the 32-bit result is `-2147483648`, and `has_next()` is true again,
also after four more `next()` calls, whereas the bound
`ceil(|end - start| / |step|)` is 1. The same happens at `INT_MIN` with
`(-2147483647, -2147483648, -2)`. -/
theorem c39_range_next_wraps_near_int_max :
    (anv_iterator_range (some anv_alloc_default) 2147483646 2147483647 2 true).callIsValid =
      true ∧
    ¬ is_int (2147483646 + 2) ∧
    ((anv_iterator_range (some anv_alloc_default) 2147483646 2147483647 2 true).advance 1).map
        (fun it => (it.data_state.map fun s => s.current, it.callHasNext.map Prod.fst)) =
      some (some (-2147483648), some true) ∧
    ((anv_iterator_range (some anv_alloc_default) 2147483646 2147483647 2 true).advance 5).map
        (fun it => (it.data_state.map fun s => s.current, it.callHasNext.map Prod.fst)) =
      some (some (-2147483640), some true) ∧
    ((anv_iterator_range (some anv_alloc_default) 2147483646 2147483647 2 true).drive 6).map
        Prod.fst = none ∧
    (anv_iterator_range (some anv_alloc_default) (-2147483647) (-2147483648) (-2)
      true).callIsValid = true ∧
    ¬ is_int (-2147483647 + -2) ∧
    ((anv_iterator_range (some anv_alloc_default) (-2147483647) (-2147483648) (-2)
        true).advance 1).map
        (fun it => (it.data_state.map fun s => s.current, it.callHasNext.map Prod.fst)) =
      some (some 2147483647, some true) := by
  decide

end RangeOverflow

section DllPrev

variable {α : Type}

/-- C35 (the code departs from it). For the forward iterator over the list
1, 2, 3: at the start position `has_prev()` is false but `prev()` returns 0
and moves the iterator off the list, so that `has_next()` is false
afterwards; after three `next()` calls, past the end, `has_prev()` is true
but `prev()` returns -1 and the iterator stays where it is. The reverse
iterator does the same. In general, with `current` null and `start` non-null
`has_prev()` is true and `prev()` returns -1, and with `current` equal to a
non-null `start`, `has_prev()` is false and `prev()` returns 0. -/
theorem c35_dll_prev_disagrees_with_has_prev (l : ANVDoublyLinkedList α) (a : Nat) :
    ((anv_dll_iterator (some (dll_from_list [some (1 : Int), some 2, some 3] 100))
        true).callHasPrev.1 = false ∧
      (anv_dll_iterator (some (dll_from_list [some (1 : Int), some 2, some 3] 100))
        true).callPrev.1 = 0 ∧
      (anv_dll_iterator (some (dll_from_list [some (1 : Int), some 2, some 3] 100))
        true).callPrev.2.callHasNext.map Prod.fst = some false) ∧
    (((anv_dll_iterator (some (dll_from_list [some (1 : Int), some 2, some 3] 100))
        true).advance 3).map
        (fun it => (it.callHasPrev.1, it.callPrev.1, it.callPrev.2.callHasNext.map Prod.fst)) =
      some (true, -1, some false)) ∧
    ((anv_dll_iterator_reverse (some (dll_from_list [some (1 : Int), some 2, some 3] 100))
        true).callHasPrev.1 = false ∧
      (anv_dll_iterator_reverse (some (dll_from_list [some (1 : Int), some 2, some 3] 100))
        true).callPrev.1 = 0) ∧
    (((anv_dll_iterator_reverse (some (dll_from_list [some (1 : Int), some 2, some 3] 100))
        true).advance 3).map (fun it => (it.callHasPrev.1, it.callPrev.1)) =
      some (true, -1)) ∧
    ((anv_dll_iterator_has_prev (some { current := none, start := some a, list := l })).1 =
        true ∧
      anv_dll_iterator_prev (some { current := none, start := some a, list := l }) =
        (-1, some { current := none, start := some a, list := l })) ∧
    ((anv_dll_iterator_has_prev (some { current := some a, start := some a, list := l })).1 =
        false ∧
      (anv_dll_iterator_prev (some { current := some a, start := some a, list := l })).1 =
        0) := by
  refine ⟨by decide, by decide, by decide, by decide, ⟨rfl, rfl⟩, ⟨?_, ?_⟩⟩
  · simp [anv_dll_iterator_has_prev]
  · simp only [anv_dll_iterator_prev]
    split_ifs <;> rfl

end DllPrev

section Arena

theorem land_not_7 (x : Nat) (hx : x < 18446744073709551616) :
    x &&& SIZE_NOT_7 = x / 8 * 8 := by
  have hM : SIZE_NOT_7 = 2 ^ 3 * (2 ^ 61 - 1) := by norm_num [SIZE_NOT_7]
  have h8 : x / 8 * 8 = 2 ^ 3 * (x >>> 3) := by
    rw [Nat.shiftRight_eq_div_pow, Nat.mul_comm]
    norm_num
  rw [hM, h8]
  apply Nat.eq_of_testBit_eq
  intro i
  rw [Nat.testBit_and, Nat.testBit_mul_pow_two, Nat.testBit_mul_pow_two,
    Nat.testBit_two_pow_sub_one, Nat.testBit_shiftRight]
  by_cases h3 : 3 ≤ i
  · have e : 3 + (i - 3) = i := by omega
    by_cases h64 : i < 64
    · have : i - 3 < 61 := by omega
      simp [h3, this, e]
    · have hb : x.testBit i = false :=
        Nat.testBit_lt_two_pow (lt_of_lt_of_le hx (by
          have : (2 : Nat) ^ 64 ≤ 2 ^ i := Nat.pow_le_pow_right (by norm_num) (by omega)
          calc 18446744073709551616 = 2 ^ 64 := by norm_num
            _ ≤ 2 ^ i := this))
      simp [h3, e, hb]
  · simp [h3]

theorem arena_allocate_in_range (a : ANVArena) (memory : Nat) (hm : a.memory = some memory)
    (size : Nat) (h0 : 0 < size) (hs : size + 7 < 18446744073709551616)
    (hsum : a.used + (size + 7) / 8 * 8 < 18446744073709551616) :
    (a.size - a.used < (size + 7) / 8 * 8 →
      anv_arena_allocate (some a) size = (none, some a)) ∧
    (a.used ≤ a.size → (size + 7) / 8 * 8 ≤ a.size - a.used →
      anv_arena_allocate (some a) size =
        (some (memory + a.used), some { a with used := a.used + (size + 7) / 8 * 8 }) ∧
      a.used + (size + 7) / 8 * 8 ≤ a.size ∧ size ≤ (size + 7) / 8 * 8) := by
  have h1 : size_wrap (size + 7) &&& SIZE_NOT_7 = (size + 7) / 8 * 8 := by
    rw [size_wrap, Nat.mod_eq_of_lt hs, land_not_7 _ hs]
  have h2 : size_wrap (a.used + (size + 7) / 8 * 8) = a.used + (size + 7) / 8 * 8 := by
    rw [size_wrap, Nat.mod_eq_of_lt hsum]
  have h3 : size ≠ 0 := by omega
  constructor
  · intro h
    simp only [anv_arena_allocate, hm, h3, if_false, h1, h2]
    rw [if_pos (by omega)]
  · intro hu h
    refine ⟨?_, by omega, by omega⟩
    simp only [anv_arena_allocate, hm, h3, if_false, h1, h2]
    rw [if_neg (by omega)]

/-- C32 (the code departs from it). In a live arena of 64 bytes of which 16
are used, a request of `2^64 - 8` bytes, which exceeds the 48 bytes that
remain, does not return `NULL`: the sum `used + aligned_size` wraps around to
8, the call returns the address at offset 16 and sets `used` to 8, less than
before. A request of `2^64 - 1` bytes is rounded to `aligned_size = 0` and
returns the address at offset `used`, leaving `used` as it is, so the block
of `size` bytes does not lie inside the arena. A request of 20 bytes in the
same arena returns the address at offset 16 and sets `used` to 40. -/
theorem c32_arena_allocate_wraps_around :
    anv_arena_allocate (some { memory := some 4096, size := 64, used := 16 })
        18446744073709551608 =
      (some (4096 + 16), some { memory := some 4096, size := 64, used := 8 }) ∧
    anv_arena_allocate (some { memory := some 4096, size := 64, used := 16 })
        18446744073709551615 =
      (some (4096 + 16), some { memory := some 4096, size := 64, used := 16 }) ∧
    anv_arena_allocate (some { memory := some 4096, size := 64, used := 16 }) 20 =
      (some (4096 + 16), some { memory := some 4096, size := 64, used := 40 }) ∧
    anv_arena_allocate (some { memory := some 4096, size := 64, used := 16 }) 49 =
      (none, some { memory := some 4096, size := 64, used := 16 }) := by
  decide

end Arena

section RangePrev

theorem range_state_next (start end_ step : Int) (i : Nat) (c : Int)
    (hb : range_before end_ step (start + (i : Int) * step))
    (hi : is_int (start + ((i + 1 : Nat) : Int) * step)) :
    range_next (some (range_state start end_ step i c)) =
      (0, some (range_state start end_ step (i + 1) c)) := by
  have h1 : start + (i : Int) * step + step = start + ((i + 1 : Nat) : Int) * step := by
    push_cast; ring
  simp only [range_next, range_has_next_eq, range_state, hb, decide_True, Bool.not_true,
    Bool.false_eq_true, if_false, h1, int_wrap_of_is_int _ hi]

theorem range_state_has_prev (start end_ step : Int) (hstep : step ≠ 0) (i : Nat) (c : Int) :
    range_has_prev (some (range_state start end_ step i c)) =
      (decide (0 < i), some (range_state start end_ step i c)) := by
  simp only [range_has_prev, range_state]
  cases i with
  | zero =>
    simp only [Nat.cast_zero, zero_mul, add_zero, gt_iff_lt, lt_self_iff_false, decide_False]
    split_ifs <;> rfl
  | succ k =>
    have hk : (0 : Int) < ((k + 1 : Nat) : Int) := by exact_mod_cast Nat.succ_pos k
    rcases lt_or_gt_of_ne hstep with h | h
    · have h2 : ((k + 1 : Nat) : Int) * step < 0 := mul_neg_of_pos_of_neg hk h
      have h3 : ¬ step > 0 := by omega
      have h4 : start + ((k + 1 : Nat) : Int) * step < start := by omega
      simp only [h3, h, if_false, if_true, h4, decide_True, Nat.succ_pos]
    · have h2 : 0 < ((k + 1 : Nat) : Int) * step := mul_pos hk h
      have h4 : start + ((k + 1 : Nat) : Int) * step > start := by omega
      simp only [h, if_true, h4, decide_True, Nat.succ_pos]

theorem range_state_prev (start end_ step : Int) (hstep : step ≠ 0) (i : Nat) (c : Int)
    (hi : is_int (start + (i : Int) * step)) :
    range_prev (some (range_state start end_ step (i + 1) c)) =
      (0, some (range_state start end_ step i c)) := by
  have h1 : start + ((i + 1 : Nat) : Int) * step - step = start + (i : Int) * step := by
    push_cast; ring
  rw [range_prev, range_state_has_prev start end_ step hstep]
  simp only [Nat.succ_pos, decide_True, Bool.not_true, Bool.false_eq_true, if_false,
    range_state, h1, int_wrap_of_is_int _ hi]

theorem range_state_prev_zero (start end_ step : Int) (hstep : step ≠ 0) (c : Int) :
    range_prev (some (range_state start end_ step 0 c)) =
      (-1, some (range_state start end_ step 0 c)) := by
  rw [range_prev, range_state_has_prev start end_ step hstep]
  simp

theorem range_state_get (start end_ step : Int) (i : Nat) (c : Int)
    (hb : range_before end_ step (start + (i : Int) * step)) :
    range_get (some (range_state start end_ step i c)) =
      (some (start + (i : Int) * step),
        some (range_state start end_ step i (start + (i : Int) * step))) := by
  unfold range_before at hb
  simp only [range_get, range_state, hb, if_true]

theorem range_prev_iff_has_prev (s : Option RangeState) :
    ((range_prev s).1 = 0 ↔ (range_has_prev s).1 = true) ∧
      ((range_has_prev s).1 = false → range_prev s = (-1, s)) := by
  cases s with
  | none => simp [range_prev, range_has_prev]
  | some st =>
    simp only [range_prev]
    cases h : (range_has_prev (some st)).1 <;> simp

theorem range_drive_state (start end_ step : Int) (n : Nat)
    (hin : ∀ i : Nat, i < n → range_before end_ step (start + (i : Int) * step))
    (hout : ¬ range_before end_ step (start + (n : Int) * step))
    (hint : ∀ i : Nat, i ≤ n → is_int (start + (i : Int) * step)) :
    ∀ (k i : Nat) (c : Int) (fuel : Nat), i + k = n → k < fuel →
      ∃ c1, (range_with (some (range_state start end_ step i c))).drive fuel =
        some ((range_values (start + (i : Int) * step) step k).map some,
          range_with (some (range_state start end_ step n c1)))
  | _, _, _, 0, _, hf => by omega
  | 0, i, c, fuel + 1, hik, _ => by
    have hi : i = n := by omega
    subst hi
    refine ⟨c, ?_⟩
    simp only [ANVIterator.drive, range_with_callHasNext, range_has_next_eq]
    simp [range_state, hout, range_values]
  | k + 1, i, c, fuel + 1, hik, hf => by
    have hb := hin i (by omega)
    obtain ⟨c1, h1⟩ := range_drive_state start end_ step n hin hout hint k (i + 1)
      (start + (i : Int) * step) fuel (by omega) (by omega)
    refine ⟨c1, ?_⟩
    have hg := range_state_get start end_ step i c hb
    have hn := range_state_next start end_ step i (start + (i : Int) * step) hb
      (hint (i + 1) (by omega))
    have hh : range_has_next (some (range_state start end_ step i c)) =
        (true, some (range_state start end_ step i c)) := by
      rw [range_has_next_eq]
      simp [range_state, hb]
    have e : start + ((i + 1 : Nat) : Int) * step = start + (i : Int) * step + step := by
      push_cast; ring
    simp only [ANVIterator.drive, range_with_callHasNext, hh, range_with_callGet, hg,
      range_with_callNext, hn, h1, range_values_succ, List.map_cons, e]

theorem range_drive_back_state (start end_ step : Int) (hstep : step ≠ 0) (n : Nat)
    (hin : ∀ i : Nat, i < n → range_before end_ step (start + (i : Int) * step))
    (hint : ∀ i : Nat, i ≤ n → is_int (start + (i : Int) * step)) :
    ∀ (i : Nat) (c : Int) (fuel : Nat), i ≤ n → i < fuel →
      ∃ c1, (range_with (some (range_state start end_ step i c))).drive_back fuel =
        some (((range_values start step i).reverse).map some,
          range_with (some (range_state start end_ step 0 c1)))
  | _, _, 0, _, hf => by omega
  | 0, c, fuel + 1, _, _ => by
    refine ⟨c, ?_⟩
    have hp := range_state_has_prev start end_ step hstep 0 c
    simp only [ANVIterator.drive_back, ANVIterator.callHasPrev, range_with, hp]
    simp [range_values]
  | i + 1, c, fuel + 1, hi, hf => by
    obtain ⟨c1, h1⟩ := range_drive_back_state start end_ step hstep n hin hint i
      (start + (i : Int) * step) fuel (by omega) (by omega)
    refine ⟨c1, ?_⟩
    have hp := range_state_has_prev start end_ step hstep (i + 1) c
    have hv := range_state_prev start end_ step hstep i c (hint i (by omega))
    have hg := range_state_get start end_ step i c (hin i (by omega))
    have hr : (range_values start step (i + 1)).reverse =
        (start + (i : Int) * step) :: (range_values start step i).reverse := by
      simp [range_values, List.range_succ]
    have h2 : (range_with (some (range_state start end_ step i c))).callGet =
        some (some (start + (i : Int) * step),
          range_with (some (range_state start end_ step i (start + (i : Int) * step)))) := by
      rw [range_with_callGet, hg]
    simp only [ANVIterator.drive_back, ANVIterator.callHasPrev, ANVIterator.callPrev,
      range_with, hp, hv, Nat.succ_pos, decide_True, if_true]
    simp only [range_with] at h2 h1
    rw [h2]
    simp only [h1, hr, List.map_cons]

end RangePrev

section RangePrevClaim

/-- C34. For every range iterator that the constructor accepts, with `n` the
number of its values and no value leaving the range of `int`: the states
that can be reached are those with `current = start + i * step` for
`i ≤ n`, the fresh iterator being at `i = 0`. At such a state with `i < n`,
`next()` returns 0 and moves to position `i + 1`, and `prev()` from there
returns 0 and restores the state; at `i = n`, `next()` returns -1.
`has_prev()` is true exactly when `i > 0`. In every state `prev()` returns 0
exactly when `has_prev()` is true, and -1 otherwise leaving the state
unchanged. After the consumer loop has ended, the backward loop
`while (has_prev) { prev; get; }` ends having yielded the values of the
consumer loop in reverse order, with `current` back at `start` and
`has_prev()` false. -/
theorem c34_range_prev_inverts_next (alloc : ANVAllocator) (ha : alloc.allocate = true)
    (start end_ step : Int) (hs : is_int start)
    (hacc : ¬ (step = 0 ∨ (start < end_ ∧ step < 0) ∨ (start > end_ ∧ step > 0)))
    (n : Nat) (hin : ∀ i : Nat, i < n → range_before end_ step (start + (i : Int) * step))
    (hout : ¬ range_before end_ step (start + (n : Int) * step))
    (hov : is_int (start + (n : Int) * step)) (i : Nat) (hi : i ≤ n) (c : Int) :
    anv_iterator_range (some alloc) start end_ step true =
      range_with (some (range_state start end_ step 0 start)) ∧
    (i < n →
      range_next (some (range_state start end_ step i c)) =
        (0, some (range_state start end_ step (i + 1) c)) ∧
      range_prev (some (range_state start end_ step (i + 1) c)) =
        (0, some (range_state start end_ step i c)) ∧
      range_get (some (range_state start end_ step i c)) =
        (some (start + (i : Int) * step),
          some (range_state start end_ step i (start + (i : Int) * step)))) ∧
    range_next (some (range_state start end_ step n c)) =
      (-1, some (range_state start end_ step n c)) ∧
    range_has_prev (some (range_state start end_ step i c)) =
      (decide (0 < i), some (range_state start end_ step i c)) ∧
    (∀ s : Option RangeState, ((range_prev s).1 = 0 ↔ (range_has_prev s).1 = true) ∧
      ((range_has_prev s).1 = false → range_prev s = (-1, s))) ∧
    (∀ fuel, n < fuel →
      ∃ it1 it2, (anv_iterator_range (some alloc) start end_ step true).drive fuel =
          some ((range_values start step n).map some, it1) ∧
        it1.drive_back fuel = some (((range_values start step n).reverse).map some, it2) ∧
        it2.data_state.map (fun s => s.current) = some start ∧
        it2.callHasPrev.1 = false) := by
  have hstep : step ≠ 0 := fun h => hacc (Or.inl h)
  have hint := range_steps_is_int start step n hs hov
  have hfresh : anv_iterator_range (some alloc) start end_ step true =
      range_with (some (range_state start end_ step 0 start)) := by
    simp [anv_iterator_range, anv_alloc_allocate, ha, hacc, range_state]
  refine ⟨hfresh, fun hlt => ⟨range_state_next start end_ step i c (hin i hlt)
      (hint (i + 1) (by omega)), range_state_prev start end_ step hstep i c (hint i hi),
      range_state_get start end_ step i c (hin i hlt)⟩, ?_,
    range_state_has_prev start end_ step hstep i c, range_prev_iff_has_prev, ?_⟩
  · rw [range_next, range_has_next_eq]
    simp [range_state, hout]
  · intro fuel hf
    obtain ⟨c1, h1⟩ := range_drive_state start end_ step n hin hout hint n 0 start fuel
      (by omega) hf
    obtain ⟨c2, h2⟩ := range_drive_back_state start end_ step hstep n hin hint n c1 fuel
      (le_refl n) hf
    simp only [Nat.cast_zero, zero_mul, add_zero] at h1
    refine ⟨_, _, by rw [hfresh]; exact h1, h2, ?_, ?_⟩
    · simp [range_with, range_state]
    · have hp := range_state_has_prev start end_ step hstep 0 c2
      simp [ANVIterator.callHasPrev, range_with, hp]

end RangePrevClaim

theorem c34_range_prev_inverts_next_witness :
    ∃ it1 it2, (anv_iterator_range (some anv_alloc_default) 0 10 2 true).drive 6 =
        some ((range_values 0 2 5).map some, it1) ∧
      it1.drive_back 6 = some (((range_values 0 2 5).reverse).map some, it2) ∧
      it2.data_state.map (fun s => s.current) = some 0 ∧
      it2.callHasPrev.1 = false :=
  (c34_range_prev_inverts_next anv_alloc_default rfl 0 10 2 (by decide) (by decide) 5
    (by intro i hi; unfold range_before; omega) (by unfold range_before; omega) (by decide)
    2 (by decide) 0).2.2.2.2.2 6 (by decide)

section DllShape

variable {α : Type}

theorem DSeg_unique (m : DllMem α) :
    ∀ (as bs : List Nat) (q q1 p : Option Nat), DSeg m q p as none → DSeg m q1 p bs none →
      as = bs
  | [], [], _, _, _, _, _ => rfl
  | [], b :: bs, _, _, p, h1, h2 => by
    have e1 : p = none := h1
    have e2 : p = some b := h2.1
    rw [e1] at e2
    cases e2
  | a :: as, [], _, _, p, h1, h2 => by
    have e1 : p = some a := h1.1
    have e2 : p = none := h2
    rw [e1] at e2
    cases e2
  | a :: as, b :: bs, _, _, p, h1, h2 => by
    have e1 : p = some a := h1.1
    have e2 : p = some b := h2.1
    rw [e1] at e2
    have e3 : a = b := Option.some.inj e2
    subst e3
    rw [DSeg_unique m as bs _ _ _ h1.2.2 h2.2.2]

theorem DSeg_nodup (m : DllMem α) :
    ∀ (as : List Nat) (q p : Option Nat), DSeg m q p as none → as.Nodup
  | [], _, _, _ => List.nodup_nil
  | a :: as, q, p, h => by
    have ih := DSeg_nodup m as _ _ h.2.2
    refine List.nodup_cons.2 ⟨fun hmem => ?_, ih⟩
    obtain ⟨xs, ys, rfl⟩ := List.append_of_mem hmem
    obtain ⟨mid, -, h2⟩ := (DSeg_append m xs (a :: ys) _ _ _).1 h.2.2
    have h3 : DSeg m (some a) (m a).next ys none := h2.2.2
    have := DSeg_unique m _ _ _ _ _ h.2.2 h3
    have hl := congrArg List.length this
    simp at hl
    omega

theorem DSeg_links (m : DllMem α) :
    ∀ (as : List Nat) (q p : Option Nat), DSeg m q p as none →
      ∀ n ∈ as, ∀ s, (m n).next = some s → s ∈ as ∧ (m s).prev = some n
  | [], _, _, _, n, hn, _, _ => by simp at hn
  | a :: as, q, p, h, n, hn, s, hs => by
    rcases List.mem_cons.1 hn with rfl | hmem
    · cases as with
      | nil =>
        have : (m n).next = none := h.2.2
        rw [this] at hs
        cases hs
      | cons b bs =>
        have h2 := h.2.2
        have e : (m n).next = some b := h2.1
        rw [e] at hs
        have e2 : b = s := Option.some.inj hs
        subst e2
        exact ⟨by simp, h2.2.1⟩
    · obtain ⟨k1, k2⟩ := DSeg_links m as _ _ h.2.2 n hmem s hs
      exact ⟨List.mem_cons_of_mem _ k1, k2⟩

theorem DSeg_last_next (m : DllMem α) :
    ∀ (as : List Nat) (q p : Option Nat), DSeg m q p as none →
      ∀ t, as.getLast? = some t → (m t).next = none
  | [], _, _, _, t, ht => by simp at ht
  | [a], q, p, h, t, ht => by
    simp only [List.getLast?_singleton, Option.some.injEq] at ht
    subst ht
    exact h.2.2
  | a :: b :: as, q, p, h, t, ht => by
    rw [List.getLast?_cons_cons] at ht
    exact DSeg_last_next m (b :: as) _ _ h.2.2 t ht

theorem dll_sort_alloc (cmp : Option α → Option α → Int) (fuel : Nat)
    (l l1 : ANVDoublyLinkedList α) (rc : Int)
    (h : anv_dll_sort fuel (some l) (some cmp) = some (rc, some l1)) : l1.alloc = l.alloc := by
  simp only [anv_dll_sort] at h
  split_ifs at h
  · simp only [Option.some.injEq, Prod.mk.injEq] at h
    rw [← h.2]
  · cases h1 : anv_dll_merge_sort cmp fuel l.mem l.head with
    | none => rw [h1] at h; cases h
    | some r =>
      obtain ⟨m, head⟩ := r
      rw [h1] at h
      simp only at h
      cases h2 : anv_dll_sort_tail_loop m fuel head with
      | none => rw [h2] at h; cases h
      | some tail =>
        rw [h2] at h
        simp only [Option.some.injEq, Prod.mk.injEq] at h
        rw [← h.2]

/-- C36. After `anv_dll_sort` on a well-formed doubly-linked list (of any
size, with any comparator) the list is again a well-formed doubly-linked
list over the same nodes: the call returns 0; the `prev` of the head is
null; every node `n` with a successor satisfies `n.next.prev == n`; `tail`
is the last node met from `head` following `next`, and its `next` is null;
and the consumer loop over the reverse iterator, which walks from the tail
following `prev`, yields exactly the reverse of what the loop over the
forward iterator yields. -/
theorem c36_sort_keeps_list_well_formed (cmp : Option α → Option α → Int)
    (l : ANVDoublyLinkedList α) (as : List Nat) (hwf : DllWF l as)
    (ha : l.alloc.allocate = true) (fuel : Nat) (hf : as.length < fuel) :
    ∃ l1 as1, anv_dll_sort fuel (some l) (some cmp) = some (0, some l1) ∧
      DllWF l1 as1 ∧ as1.Perm as ∧ dll_node_seq l1 = as1 ∧
      (∀ h, l1.head = some h → (l1.mem h).prev = none) ∧
      (∀ n ∈ as1, ∀ s, (l1.mem n).next = some s → s ∈ as1 ∧ (l1.mem s).prev = some n) ∧
      l1.tail = as1.getLast? ∧
      (∀ t, l1.tail = some t → (l1.mem t).next = none) ∧
      ∃ itf itb, (anv_dll_iterator (some l1) true).drive fuel = some (dll_elements l1, itf) ∧
        (anv_dll_iterator_reverse (some l1) true).drive fuel =
          some ((dll_elements l1).reverse, itb) := by
  obtain ⟨l1, e, hwf1, -, -⟩ := dll_sort_spec cmp fuel l as hwf hf
  have hperm := merge_sort_seq_perm (dll_le cmp l.mem) fuel as
  have ha1 : l1.alloc.allocate = true := by rw [dll_sort_alloc cmp fuel l l1 0 e]; exact ha
  obtain ⟨hnd, hseg, htail, hsize⟩ := hwf1
  have hlen : (dll_elements l1).length < fuel := by
    rw [dll_elements_of_wf l1 _ ⟨hnd, hseg, htail, hsize⟩, List.length_map, hperm.length_eq]
    exact hf
  obtain ⟨itf, ef, -⟩ := produces_drive _ _
    (dll_iterator_produces l1 _ ⟨hnd, hseg, htail, hsize⟩ ha1) fuel hlen
  obtain ⟨itb, eb, -⟩ := produces_drive _ _
    (dll_iterator_reverse_produces l1 _ ⟨hnd, hseg, htail, hsize⟩ ha1) fuel
    (by rw [List.length_reverse]; exact hlen)
  refine ⟨l1, _, e, ⟨hnd, hseg, htail, hsize⟩, hperm,
    dll_node_seq_of_wf l1 _ ⟨hnd, hseg, htail, hsize⟩, ?_, DSeg_links l1.mem _ _ _ hseg, ?_, ?_,
    itf, itb, ef, eb⟩
  · intro h hh
    cases hms : merge_sort_seq (dll_le cmp l.mem) fuel as with
    | nil =>
      rw [hms] at hseg
      have : l1.head = none := hseg
      rw [this] at hh
      cases hh
    | cons a rest =>
      rw [hms] at hseg
      have h1 : l1.head = some a := hseg.1
      rw [h1] at hh
      rw [← Option.some.inj hh]
      exact hseg.2.1
  · rw [htail, dlast_none]
  · intro t ht
    rw [htail, dlast_none] at ht
    exact DSeg_last_next l1.mem _ _ _ hseg t ht

/-- C38. For every null-terminated node chain of length `n >= 2`, with any
`prev` of its first node, `anv_dll_split` returns, with every fuel of at least
`n`, and cuts the chain in two: the left part, still starting at `head` and
now null-terminated, holds the first `floor(n/2)` nodes, and the returned
right part holds the remaining `ceil(n/2)` nodes, the `prev` of its first
node being null; both parts are non-empty and shorter than `n`, and no `data`
is changed. `anv_dll_merge_sort` on the chain returns with every fuel above
`n`. -/
theorem c38_split_halves_the_chain (cmp : Option α → Option α → Int) (m : DllMem α) (h : Nat)
    (as : List Nat) (q : Option Nat) (hseg : DSeg m q (some h) as none)
    (h2 : 2 ≤ as.length) :
    (∀ fuel, as.length ≤ fuel →
      ∃ m1 s left right, anv_dll_split fuel m (some h) = some (m1, some s) ∧
        left ++ right = as ∧
        DSeg m1 q (some h) left none ∧ DSeg m1 none (some s) right none ∧
        (m1 s).prev = none ∧
        left.length = as.length / 2 ∧ right.length = (as.length + 1) / 2 ∧
        0 < left.length ∧ left.length < as.length ∧
        0 < right.length ∧ right.length < as.length ∧
        (∀ a, (m1 a).data = (m a).data)) ∧
    (∀ fuel, as.length < fuel →
      ∃ m1 r, anv_dll_merge_sort cmp fuel m (some h) = some (m1, r)) := by
  have hnd := DSeg_nodup m as _ _ hseg
  constructor
  · intro fuel hf
    obtain ⟨m1, s, e, hl, hr, -, hd⟩ := split_spec fuel m h as q hseg hnd h2 hf
    have hlen1 : (as.take (as.length / 2)).length = as.length / 2 := by
      rw [List.length_take]; omega
    have hlen2 : (as.drop (as.length / 2)).length = (as.length + 1) / 2 := by
      rw [List.length_drop]; omega
    have hprev : (m1 s).prev = none := by
      cases hdr : as.drop (as.length / 2) with
      | nil =>
        rw [hdr] at hlen2
        simp at hlen2
        omega
      | cons b bs =>
        rw [hdr] at hr
        have h1 : some s = some b := hr.1
        rw [Option.some.inj h1]
        exact hr.2.1
    exact ⟨m1, s, _, _, e, List.take_append_drop _ _, hl, hr, hprev, hlen1, hlen2,
      by omega, by omega, by omega, by omega, hd⟩
  · intro fuel hf
    obtain ⟨m1, r, -, e, -⟩ := merge_sort_spec cmp fuel m (some h) q as hseg hnd hf
    exact ⟨m1, r, e⟩

end DllShape

theorem c36_sort_keeps_list_well_formed_witness :
    ∃ l1 as1, anv_dll_sort 5 (some (dll_from_list [some (3 : Int), some 1, some 2] 100))
        (some int_compare_ptr) = some (0, some l1) ∧
      DllWF l1 as1 ∧ as1.Perm [100, 101, 102] ∧ dll_node_seq l1 = as1 ∧
      (∀ h, l1.head = some h → (l1.mem h).prev = none) ∧
      (∀ n ∈ as1, ∀ s, (l1.mem n).next = some s → s ∈ as1 ∧ (l1.mem s).prev = some n) ∧
      l1.tail = as1.getLast? ∧
      (∀ t, l1.tail = some t → (l1.mem t).next = none) ∧
      ∃ itf itb, (anv_dll_iterator (some l1) true).drive 5 = some (dll_elements l1, itf) ∧
        (anv_dll_iterator_reverse (some l1) true).drive 5 =
          some ((dll_elements l1).reverse, itb) :=
  c36_sort_keeps_list_well_formed int_compare_ptr
    (dll_from_list [some (3 : Int), some 1, some 2] 100) [100, 101, 102] (by decide) rfl 5
    (by decide)

theorem c38_split_halves_the_chain_witness :
    ∃ m1 r, anv_dll_merge_sort int_compare_ptr 4
        (dll_from_list [some (3 : Int), some 1, some 2] 100).mem (some 100) = some (m1, r) :=
  (c38_split_halves_the_chain int_compare_ptr
    (dll_from_list [some (3 : Int), some 1, some 2] 100).mem 100 [100, 101, 102] none
    (by decide) (by decide)).2 4 (by decide)

section TransformStuck

variable {σ α β : Type}

theorem transform_stuck_calls (st : TransformState σ α β) (xs : List (Option α))
    (hp : Produces st.base_iterator (none :: xs)) (hc : st.cached_result = none) :
    (∃ b, (transform_with (some st)).callHasNext =
        some (true, transform_with (some { st with base_iterator := b })) ∧
      Produces b (none :: xs)) ∧
    (∃ b, (transform_with (some st)).callGet =
        some (none, transform_with (some { st with base_iterator := b })) ∧
      Produces b (none :: xs)) ∧
    (∃ b, (transform_with (some st)).callNext =
        some (-1, transform_with (some { st with base_iterator := b })) ∧
      Produces b (none :: xs)) := by
  obtain ⟨b1, e1, h1⟩ := produces_isProducer.has_next _ _ hp
  obtain ⟨b2, e2, h2⟩ := produces_isProducer.get _ _ hp
  simp only [List.isEmpty_cons, Bool.not_false] at e1
  simp only [List.head?_cons, Option.join] at e2
  have e3 : st.base_iterator.callGet = some (none, b2) := e2
  refine ⟨⟨b1, ?_, h1⟩, ⟨b2, ?_, h2⟩, ⟨b2, ?_, h2⟩⟩
  · simp [transform_has_next, e1]
  · simp [transform_get, hc, e3]
  · simp [transform_next, e3]

theorem transform_stuck_advance (xs : List (Option α)) :
    ∀ (k : Nat) (st : TransformState σ α β), Produces st.base_iterator (none :: xs) →
      st.cached_result = none →
      ∃ b, (transform_with (some st)).advance k =
          some (transform_with (some { st with base_iterator := b })) ∧
        Produces b (none :: xs)
  | 0, st, hp, _ => ⟨st.base_iterator, rfl, hp⟩
  | k + 1, st, hp, hc => by
    obtain ⟨-, -, b, e, hb⟩ := transform_stuck_calls st xs hp hc
    obtain ⟨b1, e1, hb1⟩ := transform_stuck_advance xs k { st with base_iterator := b } hb hc
    exact ⟨b1, by simp only [ANVIterator.advance, e, e1], hb1⟩

theorem transform_stuck_drive (xs : List (Option α)) :
    ∀ (fuel : Nat) (st : TransformState σ α β), Produces st.base_iterator (none :: xs) →
      st.cached_result = none → (transform_with (some st)).drive fuel = none
  | 0, _, _, _ => rfl
  | fuel + 1, st, hp, hc => by
    obtain ⟨⟨b1, e1, h1⟩, -, -⟩ := transform_stuck_calls st xs hp hc
    obtain ⟨-, ⟨b2, e2, h2⟩, -⟩ :=
      transform_stuck_calls { st with base_iterator := b1 } xs h1 hc
    obtain ⟨-, -, ⟨b3, e3, h3⟩⟩ :=
      transform_stuck_calls { st with base_iterator := b2 } xs h2 hc
    have ih := transform_stuck_drive xs fuel { st with base_iterator := b3 } h3 hc
    simp only [ANVIterator.drive, e1, e2, e3, ih]

/-- C40. For a transform iterator without a cached result whose upstream, a
well-behaved producer, is positioned at a null element (upstream `has_next()`
is true, upstream `get()` returns `NULL`): `has_next()` returns true, `get()`
returns `NULL` and `next()` returns -1; after each of these calls the
upstream is still positioned at that element and no other field of the state
has changed, and when the upstream calls leave the upstream as it is, the
transform iterator is left as it is. Hence after any number of `next()` calls
the iterator is still at that position, and the consumer loop over it does
not end with any fuel. -/
theorem c40_transform_stuck_at_null_element (st : TransformState σ α β)
    (xs : List (Option α)) (hp : Produces st.base_iterator (none :: xs))
    (hc : st.cached_result = none) :
    (∃ b, (transform_with (some st)).callHasNext =
        some (true, transform_with (some { st with base_iterator := b })) ∧
      Produces b (none :: xs)) ∧
    (∃ b, (transform_with (some st)).callGet =
        some (none, transform_with (some { st with base_iterator := b })) ∧
      Produces b (none :: xs)) ∧
    (∃ b, (transform_with (some st)).callNext =
        some (-1, transform_with (some { st with base_iterator := b })) ∧
      Produces b (none :: xs)) ∧
    (st.base_iterator.callHasNext = some (true, st.base_iterator) →
      (transform_with (some st)).callHasNext = some (true, transform_with (some st))) ∧
    (st.base_iterator.callGet = some (none, st.base_iterator) →
      (transform_with (some st)).callGet = some (none, transform_with (some st)) ∧
      (transform_with (some st)).callNext = some (-1, transform_with (some st))) ∧
    (∀ k, ∃ b, (transform_with (some st)).advance k =
        some (transform_with (some { st with base_iterator := b })) ∧
      Produces b (none :: xs)) ∧
    (∀ fuel, (transform_with (some st)).drive fuel = none) := by
  obtain ⟨k1, k2, k3⟩ := transform_stuck_calls st xs hp hc
  refine ⟨k1, k2, k3, ?_, ?_, fun k => transform_stuck_advance xs k st hp hc,
    fun fuel => transform_stuck_drive xs fuel st hp hc⟩
  · intro h
    simp [transform_has_next, h]
  · intro h
    obtain ⟨b, f, c, ta⟩ := st
    simp only at hc h
    subst hc
    constructor
    · simp [transform_get, h]
    · simp [transform_next, h]

end TransformStuck

theorem c40_transform_stuck_at_null_element_witness :
    (transform_with (some
      { base_iterator :=
          anv_dll_iterator (some (dll_from_list [(none : Option Int), some 5] 100)) true,
        transform := fun x => some (x + 1), cached_result := none,
        transform_allocates := false })).drive 5 = none :=
  (c40_transform_stuck_at_null_element
    { base_iterator :=
        anv_dll_iterator (some (dll_from_list [(none : Option Int), some 5] 100)) true,
      transform := fun x => some (x + 1), cached_result := none,
      transform_allocates := false }
    [some 5]
    (dll_iterator_produces (dll_from_list [(none : Option Int), some 5] 100) [100, 101]
      (by decide) rfl)
    rfl).2.2.2.2.2.2 5

section HasNextTwice

variable {σ α : Type}

theorem has_next_calls_of_settled (it : ANVIterator σ α) (b : Bool)
    (h : it.callHasNext = some (b, it)) : ∀ n, it.has_next_calls n = some (b, it) := by
  intro n
  induction n with
  | zero => exact h
  | succ n ih => simp [ANVIterator.has_next_calls, h, ih]

theorem has_next_calls_of_twice (it it1 : ANVIterator σ α) (b : Bool)
    (h : it.callHasNext = some (b, it1)) (h1 : it1.callHasNext = some (b, it1)) :
    ∀ n, it.has_next_calls n = some (b, it1) := by
  intro n
  cases n with
  | zero => exact h
  | succ n => simp [ANVIterator.has_next_calls, h, has_next_calls_of_settled it1 b h1 n]

theorem repeatRel_isProducer {β : Type} : IsProducer (@RepeatRel β) := repeat_isProducer

theorem repeatRel_settles {β : Type} : HasNextSettles (@RepeatRel β) := by
  rintro it xs b it1 ⟨st, rfl, -⟩ e
  simp only [repeat_with_callHasNext, Option.some.injEq, Prod.mk.injEq] at e
  obtain ⟨rfl, rfl⟩ := e
  simp [repeat_has_next]

theorem filter_seek_origin {R : ANVIterator σ α → List (Option α) → Prop} (hR : IsProducer R)
    (fuel : Nat) :
    ∀ (st : FilterState σ α) (xs : List (Option α)), R st.base_iterator xs →
      xs.length < fuel →
      ∃ st1 zs, filter_seek fuel st = some st1 ∧ R st1.base_iterator zs ∧
        ((st1.has_current = true ∧ st1.current_matches = true) ∨
         (st1.has_current = false ∧ st1.current_matches = false ∧
           st1.current_element = none ∧ zs = [] ∧
           ∃ b0, R b0 [] ∧ b0.callHasNext = some (false, st1.base_iterator))) := by
  induction fuel with
  | zero => intro st xs _ h; simp at h
  | succ fuel ih =>
    intro st xs hp hlen
    obtain ⟨b1, e1, h1⟩ := hR.has_next _ _ hp
    cases xs with
    | nil =>
      simp only [List.isEmpty_nil, Bool.not_true] at e1
      exact ⟨{ st with base_iterator := b1, has_current := false, current_matches := false,
                       current_element := none }, [],
        by simp [filter_seek, e1], h1, Or.inr ⟨rfl, rfl, rfl, rfl, _, hp, e1⟩⟩
    | cons x xs =>
      simp only [List.isEmpty_cons, Bool.not_false] at e1
      obtain ⟨b2, e2, h2⟩ := hR.get _ _ h1
      simp only [List.head?_cons, Option.join] at e2
      have e2b : b1.callGet = some (x, b2) := e2
      by_cases hk : filter_keeps st.filter x = true
      · exact ⟨{ st with base_iterator := b2, current_element := x,
                         has_current := true, current_matches := true }, x :: xs,
          by simp [filter_seek, e1, e2b, hk], h2, Or.inl ⟨rfl, rfl⟩⟩
      · obtain ⟨b3, e3, h3⟩ := hR.next_cons _ _ _ h2
        obtain ⟨st1, zs, e4, hz, hpos⟩ :=
          ih { st with base_iterator := b3 } xs h3 (by simpa using hlen)
        refine ⟨st1, zs, ?_, hz, hpos⟩
        simp [filter_seek, e1, e2b, hk, e3, e4]

theorem filter_exhausted_seek {R : ANVIterator σ α → List (Option α) → Prop}
    (hR : IsProducer R) (fuel : Nat) (st : FilterState σ α) (h : R st.base_iterator [])
    (hf : st.has_current = false) (hm : st.current_matches = false)
    (he : st.current_element = none) :
    ∃ b, st.base_iterator.callHasNext = some (false, b) ∧ R b [] ∧
      position_at_next_match (fuel + 1) st = some { st with base_iterator := b } := by
  obtain ⟨b, e, hb⟩ := hR.has_next _ _ h
  simp only [List.isEmpty_nil, Bool.not_true] at e
  refine ⟨b, e, hb, ?_⟩
  obtain ⟨base, f, ce, hc, cm⟩ := st
  simp only at hf hm he e
  subst hf hm he
  simp [position_at_next_match, filter_seek, e]

theorem filter_has_next_twice {R : ANVIterator σ α → List (Option α) → Prop}
    (hR : IsProducer R) (fuel : Nat) (st : FilterState σ α) (xs : List (Option α))
    (h : R st.base_iterator xs) (hl : xs.length < fuel) :
    ∃ (st1 st2 : FilterState σ α) (zs : List (Option α)) (e : Option α),
      filter_has_next fuel (some st) = some (st1.current_matches, some st1) ∧
      filter_has_next fuel (some st1) = some (st1.current_matches, some st2) ∧
      st2 = { st1 with base_iterator := st2.base_iterator } ∧
      R st1.base_iterator zs ∧ R st2.base_iterator zs ∧
      (filter_get fuel (some st1)).map Prod.fst = some e ∧
      (filter_get fuel (some st2)).map Prod.fst = some e ∧
      (HasNextSettles R → st2 = st1) := by
  have settled : ∀ s : FilterState σ α, s.has_current = true ∧ s.current_matches = true →
      position_at_next_match fuel s = some s := by
    intro s hs
    simp [position_at_next_match, hs.1, hs.2]
  have cached : ∀ (s : FilterState σ α) (zs : List (Option α)), R s.base_iterator zs →
      position_at_next_match fuel s = some s →
      ∃ (st2 : FilterState σ α) (zs : List (Option α)) (e : Option α),
        filter_has_next fuel (some s) = some (s.current_matches, some st2) ∧
        st2 = { s with base_iterator := st2.base_iterator } ∧
        R s.base_iterator zs ∧ R st2.base_iterator zs ∧
        (filter_get fuel (some s)).map Prod.fst = some e ∧
        (filter_get fuel (some st2)).map Prod.fst = some e ∧
        (HasNextSettles R → st2 = s) := by
    intro s zs hz hs
    exact ⟨s, zs, if s.current_matches then s.current_element else none,
      by simp [filter_has_next, hs], rfl, hz, hz,
      by simp [filter_get, hs], by simp [filter_get, hs], fun _ => rfl⟩
  by_cases hcur : st.has_current = true ∧ st.current_matches = true
  · obtain ⟨st2, zs, e, a1, a2, a3, a4, a5, a6, a7⟩ := cached st xs h (settled st hcur)
    exact ⟨st, st2, zs, e, by simp [filter_has_next, settled st hcur], a1, a2, a3, a4, a5, a6,
      a7⟩
  · obtain ⟨st1, zs, e1, hz, hpos⟩ := filter_seek_origin hR fuel st xs h hl
    have hfirst : filter_has_next fuel (some st) = some (st1.current_matches, some st1) := by
      have hp : position_at_next_match fuel st = some st1 := by
        have : (st.has_current && st.current_matches) = false := by
          cases h1 : st.has_current <;> cases h2 : st.current_matches <;> simp_all
        simp [position_at_next_match, this, e1]
      simp [filter_has_next, hp]
    rcases hpos with hc | ⟨hf, hm, he, rfl, b0, hb0, eb0⟩
    · obtain ⟨st2, zs2, e, a1, a2, a3, a4, a5, a6, a7⟩ := cached st1 zs hz (settled st1 hc)
      exact ⟨st1, st2, zs2, e, hfirst, a1, a2, a3, a4, a5, a6, a7⟩
    · obtain ⟨fuel, rfl⟩ : ∃ k, fuel = k + 1 := ⟨fuel - 1, by omega⟩
      obtain ⟨b, eb, hb, hp2⟩ := filter_exhausted_seek hR fuel st1 hz hf hm he
      obtain ⟨b3, eb3, hb3, hp3⟩ :=
        filter_exhausted_seek hR fuel { st1 with base_iterator := b } hb hf hm he
      refine ⟨st1, { st1 with base_iterator := b }, [], none, hfirst, ?_, rfl, hz, hb, ?_, ?_,
        ?_⟩
      · simp [filter_has_next, hp2]
      · simp only [filter_get, hp2]
        simp [hm]
      · simp only [filter_get, hp3]
        simp [hm]
      · intro hs
        have := hs b0 [] false _ hb0 eb0
        rw [eb] at this
        simp only [Option.some.injEq, Prod.mk.injEq, true_and] at this
        rw [this]

theorem skip_loop_rel {R : ANVIterator σ α → List (Option α) → Prop} (hR : IsProducer R)
    (n : Nat) :
    ∀ (base : ANVIterator σ α) (xs : List (Option α)), R base xs →
      ∃ b, skip_loop n base = some b ∧ R b (xs.drop n) := by
  induction n with
  | zero => intro base xs h; exact ⟨base, rfl, by simpa using h⟩
  | succ n ih =>
    intro base xs h
    obtain ⟨b1, e1, h1⟩ := hR.has_next base xs h
    cases xs with
    | nil =>
      refine ⟨b1, ?_, by simpa using h1⟩
      simp only [List.isEmpty_nil, Bool.not_true] at e1
      simp [skip_loop, e1]
    | cons x xs =>
      obtain ⟨b2, e2, h2⟩ := hR.next_cons b1 x xs h1
      obtain ⟨b3, e3, h3⟩ := ih b2 xs h2
      refine ⟨b3, ?_, by simpa using h3⟩
      simp only [List.isEmpty_cons, Bool.not_false] at e1
      simp [skip_loop, e1, e2, e3]

theorem skip_has_next_twice {R : ANVIterator σ α → List (Option α) → Prop}
    (hR : IsProducer R) (st : SkipState σ α) (xs : List (Option α))
    (h : R st.base_iterator xs) :
    ∃ (b : Bool) (st1 st2 : SkipState σ α) (zs : List (Option α)) (e : Option α),
      skip_has_next (some st) = some (b, some st1) ∧
      skip_has_next (some st1) = some (b, some st2) ∧
      st2 = { st1 with base_iterator := st2.base_iterator } ∧
      R st1.base_iterator zs ∧ R st2.base_iterator zs ∧
      (skip_get (some st1)).map Prod.fst = some e ∧
      (skip_get (some st2)).map Prod.fst = some e ∧
      (HasNextSettles R → st2 = st1) := by
  have key : ∀ (s : SkipState σ α) (zs : List (Option α)), R s.base_iterator zs →
      perform_skip st = some s → s.has_skipped = true →
      ∃ (b : Bool) (st1 st2 : SkipState σ α) (zs : List (Option α)) (e : Option α),
        skip_has_next (some st) = some (b, some st1) ∧
        skip_has_next (some st1) = some (b, some st2) ∧
        st2 = { st1 with base_iterator := st2.base_iterator } ∧
        R st1.base_iterator zs ∧ R st2.base_iterator zs ∧
        (skip_get (some st1)).map Prod.fst = some e ∧
        (skip_get (some st2)).map Prod.fst = some e ∧
        (HasNextSettles R → st2 = st1) := by
    intro s zs hz hp hs
    obtain ⟨b1, e1, h1⟩ := hR.has_next _ _ hz
    obtain ⟨b2, e2, h2⟩ := hR.has_next _ _ h1
    obtain ⟨g1, eg1, -⟩ := hR.get _ _ h1
    obtain ⟨g2, eg2, -⟩ := hR.get _ _ h2
    refine ⟨!zs.isEmpty, { s with base_iterator := b1 }, { s with base_iterator := b2 }, zs,
      zs.head?.join, ?_, ?_, rfl, h1, h2, ?_, ?_, ?_⟩
    · simp [skip_has_next, hp, e1]
    · simp [skip_has_next, perform_skip, hs, e2]
    · simp [skip_get, perform_skip, hs, eg1]
    · simp [skip_get, perform_skip, hs, eg2]
    · intro hst
      have := hst _ _ _ _ hz e1
      rw [e2] at this
      simp only [Option.some.injEq, Prod.mk.injEq, true_and] at this
      rw [this]
  by_cases hs : st.has_skipped = true
  · exact key st xs h (by simp [perform_skip, hs]) hs
  · obtain ⟨b, e1, h1⟩ := skip_loop_rel hR st.skip_count st.base_iterator xs h
    exact key { st with base_iterator := b, has_skipped := true } _ h1
      (by simp [perform_skip, hs, e1]) rfl

theorem chain_has_next_loop_rel {R : ANVIterator σ α → List (Option α) → Prop}
    (hR : IsProducer R) (post : List (ANVIterator σ α)) :
    ∀ (xss : List (List (Option α))) (pre : List (ANVIterator σ α)),
      List.Forall₂ R post xss →
      ∃ (b : Bool) (pre1 post1 : List (ANVIterator σ α)) (xss1 : List (List (Option α))),
        chain_has_next_loop post.length pre.length
            { iterators := pre ++ post, current_iterator_index := pre.length } =
          some (b, { iterators := pre1 ++ post1, current_iterator_index := pre1.length }) ∧
        List.Forall₂ R post1 xss1 ∧
        ((b = false ∧ post1 = []) ∨
         (b = true ∧ ∃ cur0 cur rest x xs r, post1 = cur :: rest ∧ xss1 = (x :: xs) :: r ∧
           R cur0 (x :: xs) ∧ cur0.callHasNext = some (true, cur))) := by
  induction post with
  | nil =>
    intro xss pre h
    cases h
    exact ⟨false, pre, [], [], by simp [chain_has_next_loop], List.Forall₂.nil,
      Or.inl ⟨rfl, rfl⟩⟩
  | cons cur rest ih =>
    intro xss pre h
    cases h with
    | cons hcur hrest =>
      rename_i xs0 r
      obtain ⟨cur1, e1, h1⟩ := hR.has_next _ _ hcur
      cases xs0 with
      | cons x xs =>
        simp only [List.isEmpty_cons, Bool.not_false] at e1
        refine ⟨true, pre, cur1 :: rest, (x :: xs) :: r, ?_, List.Forall₂.cons h1 hrest,
          Or.inr ⟨rfl, cur, cur1, rest, x, xs, r, rfl, rfl, hcur, e1⟩⟩
        simp only [chain_has_next_loop, List.length_cons, list_getElem?_append_cons, e1,
          list_set_append_cons]
      | nil =>
        obtain ⟨b, pre1, post1, xss1, e2, h2, hb⟩ := ih r (pre ++ [cur1]) hrest
        refine ⟨b, pre1, post1, xss1, ?_, h2, hb⟩
        simp only [List.isEmpty_nil, Bool.not_true] at e1
        simp only [List.length_append, List.length_singleton, List.append_assoc,
          List.singleton_append] at e2
        simp only [chain_has_next_loop, List.length_cons, list_getElem?_append_cons, e1,
          list_set_append_cons, e2]

theorem chain_has_next_twice {R : ANVIterator σ α → List (Option α) → Prop}
    (hR : IsProducer R) (st : ChainState σ α) (pre post : List (ANVIterator σ α))
    (xss : List (List (Option α))) (hi : st.iterators = pre ++ post)
    (hx : st.current_iterator_index = pre.length) (h : List.Forall₂ R post xss) :
    ∃ (b : Bool) (pre1 post1 post2 : List (ANVIterator σ α)) (xss1 : List (List (Option α)))
      (e : Option α),
      chain_has_next (some st) =
        some (b, some { iterators := pre1 ++ post1, current_iterator_index := pre1.length }) ∧
      chain_has_next (some { iterators := pre1 ++ post1, current_iterator_index := pre1.length }) =
        some (b, some { iterators := pre1 ++ post2, current_iterator_index := pre1.length }) ∧
      List.Forall₂ R post1 xss1 ∧ List.Forall₂ R post2 xss1 ∧
      (chain_get (some { iterators := pre1 ++ post1,
                         current_iterator_index := pre1.length })).map Prod.fst = some e ∧
      (chain_get (some { iterators := pre1 ++ post2,
                         current_iterator_index := pre1.length })).map Prod.fst = some e ∧
      (HasNextSettles R → post2 = post1) := by
  obtain ⟨its, idx⟩ := st
  simp only at hi hx
  subst hi hx
  obtain ⟨b, pre1, post1, xss1, e, h2, hb⟩ := chain_has_next_loop_rel hR post xss pre h
  have hfirst : chain_has_next
      (some { iterators := pre ++ post, current_iterator_index := pre.length }) =
      some (b, some { iterators := pre1 ++ post1, current_iterator_index := pre1.length }) := by
    simp [chain_has_next, ChainState.iterator_count, e]
  rcases hb with ⟨rfl, rfl⟩ | ⟨rfl, cur0, cur, rest, x, xs, r, rfl, rfl, hc0, ec0⟩
  · refine ⟨false, pre1, [], [], xss1, none, hfirst, ?_, h2, h2, ?_, ?_, fun _ => rfl⟩
    · simp [chain_has_next, ChainState.iterator_count, chain_has_next_loop]
    · simp [chain_get, ChainState.iterator_count]
    · simp [chain_get, ChainState.iterator_count]
  · cases h2 with
    | cons hcur hrest =>
      obtain ⟨cur2, e2, hcur2⟩ := hR.has_next _ _ hcur
      simp only [List.isEmpty_cons, Bool.not_false] at e2
      obtain ⟨g1, eg1, -⟩ := hR.get _ _ hcur
      obtain ⟨g2, eg2, -⟩ := hR.get _ _ hcur2
      refine ⟨true, pre1, cur :: rest, cur2 :: rest, (x :: xs) :: r, x, hfirst, ?_,
        List.Forall₂.cons hcur hrest, List.Forall₂.cons hcur2 hrest, ?_, ?_, ?_⟩
      · have hlen : (pre1 ++ cur :: rest).length - pre1.length = rest.length + 1 := by simp
        simp only [chain_has_next, ChainState.iterator_count, hlen, chain_has_next_loop,
          list_getElem?_append_cons, e2, list_set_append_cons, Option.map]
      · have hlen : ¬ pre1.length ≥ (pre1 ++ cur :: rest).length := by simp
        simp only [chain_get, ChainState.iterator_count, if_neg hlen,
          list_getElem?_append_cons, eg1, Option.map, List.head?_cons, Option.join,
          Option.some_bind, id]
      · have hlen : ¬ pre1.length ≥ (pre1 ++ cur2 :: rest).length := by simp
        simp only [chain_get, ChainState.iterator_count, if_neg hlen,
          list_getElem?_append_cons, eg2, Option.map, List.head?_cons, Option.join,
          Option.some_bind, id]
      · intro hs
        have := hs _ _ _ _ hc0 ec0
        rw [e2] at this
        simp only [Option.some.injEq, Prod.mk.injEq, true_and] at this
        rw [this]

end HasNextTwice
section HasNextIdempotence

variable {σ α : Type}

/-- C33. Idempotence of `has_next` for the filter, skip and chain iterators
over well-behaved upstreams. Let `R` relate upstream iterators to their
remaining elements and be kept by the protocol calls (`IsProducer R`). For a
filter state, whatever its caching flags, whose upstream is related to a
sequence shorter than the seek fuel, for a skip state whose upstream is
related to some sequence, and for a chain state whose sources from the
current index on are related to sequences: the first `has_next` returns a
value `b`; a second `has_next` right after it returns the same `b`; the
state after the second call differs from the state after the first at most
in the upstream iterator (filter and skip: all other fields are those of the
state after the first call; chain: same index, same sources before it),
and that upstream is related to the same remaining elements as after the
first call, so the upstream position is the same; and `get` returns the same
element after two `has_next` calls as after one. When moreover a repeated
`has_next` of the upstream leaves the upstream as it is
(`HasNextSettles R`), the state after the second call is the state after the
first, and any number of successive `has_next` calls returns `b` and ends
in the state that the first call left. -/
theorem c33_has_next_is_idempotent (R : ANVIterator σ α → List (Option α) → Prop)
    (hR : IsProducer R) :
    (∀ (fuel : Nat) (st : FilterState σ α) (xs : List (Option α)),
      R st.base_iterator xs → xs.length < fuel →
      ∃ (b : Bool) (st1 st2 : FilterState σ α) (zs : List (Option α)) (e : Option α),
        (filter_with fuel (some st)).callHasNext = some (b, filter_with fuel (some st1)) ∧
        (filter_with fuel (some st1)).callHasNext = some (b, filter_with fuel (some st2)) ∧
        st2 = { st1 with base_iterator := st2.base_iterator } ∧
        R st1.base_iterator zs ∧ R st2.base_iterator zs ∧
        (filter_with fuel (some st1)).callGet.map Prod.fst = some e ∧
        (filter_with fuel (some st2)).callGet.map Prod.fst = some e ∧
        (HasNextSettles R → st2 = st1 ∧
          ∀ n, (filter_with fuel (some st)).has_next_calls n =
            some (b, filter_with fuel (some st1)))) ∧
    (∀ (st : SkipState σ α) (xs : List (Option α)), R st.base_iterator xs →
      ∃ (b : Bool) (st1 st2 : SkipState σ α) (zs : List (Option α)) (e : Option α),
        (skip_with (some st)).callHasNext = some (b, skip_with (some st1)) ∧
        (skip_with (some st1)).callHasNext = some (b, skip_with (some st2)) ∧
        st2 = { st1 with base_iterator := st2.base_iterator } ∧
        R st1.base_iterator zs ∧ R st2.base_iterator zs ∧
        (skip_with (some st1)).callGet.map Prod.fst = some e ∧
        (skip_with (some st2)).callGet.map Prod.fst = some e ∧
        (HasNextSettles R → st2 = st1 ∧
          ∀ n, (skip_with (some st)).has_next_calls n = some (b, skip_with (some st1)))) ∧
    (∀ (st : ChainState σ α) (pre post : List (ANVIterator σ α))
        (xss : List (List (Option α))),
      st.iterators = pre ++ post → st.current_iterator_index = pre.length →
      List.Forall₂ R post xss →
      ∃ (b : Bool) (st1 st2 : ChainState σ α) (pre1 post1 post2 : List (ANVIterator σ α))
        (xss1 : List (List (Option α))) (e : Option α),
        (chain_with (some st)).callHasNext = some (b, chain_with (some st1)) ∧
        (chain_with (some st1)).callHasNext = some (b, chain_with (some st2)) ∧
        st1 = { iterators := pre1 ++ post1, current_iterator_index := pre1.length } ∧
        st2 = { iterators := pre1 ++ post2, current_iterator_index := pre1.length } ∧
        List.Forall₂ R post1 xss1 ∧ List.Forall₂ R post2 xss1 ∧
        (chain_with (some st1)).callGet.map Prod.fst = some e ∧
        (chain_with (some st2)).callGet.map Prod.fst = some e ∧
        (HasNextSettles R → st2 = st1 ∧
          ∀ n, (chain_with (some st)).has_next_calls n = some (b, chain_with (some st1)))) := by
  refine ⟨?_, ?_, ?_⟩
  · intro fuel st xs h hl
    obtain ⟨st1, st2, zs, e, a1, a2, a3, a4, a5, a6, a7, a8⟩ :=
      filter_has_next_twice hR fuel st xs h hl
    have c1 : (filter_with fuel (some st)).callHasNext =
        some (st1.current_matches, filter_with fuel (some st1)) := by
      simp [a1]
    have c2 : (filter_with fuel (some st1)).callHasNext =
        some (st1.current_matches, filter_with fuel (some st2)) := by
      simp [a2]
    refine ⟨st1.current_matches, st1, st2, zs, e, c1, c2, a3, a4, a5, ?_, ?_, ?_⟩
    · simpa using a6
    · simpa using a7
    · intro hs
      have h21 := a8 hs
      rw [h21] at c2
      exact ⟨h21, has_next_calls_of_twice _ _ _ c1 c2⟩
  · intro st xs h
    obtain ⟨b, st1, st2, zs, e, a1, a2, a3, a4, a5, a6, a7, a8⟩ :=
      skip_has_next_twice hR st xs h
    have c1 : (skip_with (some st)).callHasNext = some (b, skip_with (some st1)) := by
      simp [a1]
    have c2 : (skip_with (some st1)).callHasNext = some (b, skip_with (some st2)) := by
      simp [a2]
    refine ⟨b, st1, st2, zs, e, c1, c2, a3, a4, a5, ?_, ?_, ?_⟩
    · simpa using a6
    · simpa using a7
    · intro hs
      have h21 := a8 hs
      rw [h21] at c2
      exact ⟨h21, has_next_calls_of_twice _ _ _ c1 c2⟩
  · intro st pre post xss hi hx h
    obtain ⟨b, pre1, post1, post2, xss1, e, a1, a2, a3, a4, a5, a6, a7⟩ :=
      chain_has_next_twice hR st pre post xss hi hx h
    have c1 : (chain_with (some st)).callHasNext = some (b, chain_with (some
        { iterators := pre1 ++ post1, current_iterator_index := pre1.length })) := by
      simp [a1]
    have c2 : (chain_with (some
        { iterators := pre1 ++ post1, current_iterator_index := pre1.length })).callHasNext =
        some (b, chain_with (some
          { iterators := pre1 ++ post2, current_iterator_index := pre1.length })) := by
      simp [a2]
    refine ⟨b, _, _, pre1, post1, post2, xss1, e, c1, c2, rfl, rfl, a3, a4, ?_, ?_, ?_⟩
    · simpa using a5
    · simpa using a6
    · intro hs
      have h21 := a7 hs
      rw [h21] at c2
      exact ⟨by rw [h21], has_next_calls_of_twice _ _ _ c1 c2⟩

end HasNextIdempotence

theorem c33_has_next_is_idempotent_witness :
    IsProducer (@RepeatRel Nat) ∧ HasNextSettles (@RepeatRel Nat) ∧
    RepeatRel (repeat_with (some { value := 7, total_count := 2, current_count := 0 }))
      [some 7, some 7] ∧
    ∃ (b : Bool) (st1 : FilterState (RepeatState Nat) Nat),
      ∀ n, (filter_with 3 (some
          { base_iterator :=
              repeat_with (some { value := 7, total_count := 2, current_count := 0 }),
            filter := fun x => x == 7, current_element := none, has_current := false,
            current_matches := true })).has_next_calls n =
        some (b, filter_with 3 (some st1)) := by
  refine ⟨repeatRel_isProducer, repeatRel_settles, ⟨_, rfl, rfl⟩, ?_⟩
  obtain ⟨b, st1, st2, zs, e, -, -, -, -, -, -, -, h⟩ :=
    (c33_has_next_is_idempotent (@RepeatRel Nat) repeatRel_isProducer).1 3
      { base_iterator :=
          repeat_with (some { value := 7, total_count := 2, current_count := 0 }),
        filter := fun x => x == 7, current_element := none, has_current := false,
        current_matches := true }
      [some 7, some 7] ⟨_, rfl, rfl⟩ (by decide)
  exact ⟨b, st1, (h repeatRel_settles).2⟩

section BstInsertHeap

variable {α : Type}

theorem bst_addrs_length :
    ∀ t : ANVBinarySearchTreeNode α, t.addrs.length = t.count
  | .null => rfl
  | .node a e l r pp => by
    simp only [ANVBinarySearchTreeNode.addrs, ANVBinarySearchTreeNode.count,
      List.length_append, List.length_cons, bst_addrs_length l, bst_addrs_length r]
    omega

theorem nodup_bounded_length (N : Nat) (l : List Nat) (hn : l.Nodup)
    (hb : ∀ a ∈ l, 0 < a ∧ a < N) : l.length ≤ N - 1 := by
  have hsub : l.toFinset ⊆ Finset.Ico 1 N := by
    intro a ha
    have := hb a (List.mem_toFinset.1 ha)
    simp only [Finset.mem_Ico]
    omega
  have hc := Finset.card_le_card hsub
  rw [List.toFinset_card_of_nodup hn, Nat.card_Ico] at hc
  exact hc

theorem insert_link_of_ne (cmp : α → α → Int) (d : α) (a : Nat) (m : BstMem α) (q x : Nat)
    (hq : x ≠ q) (ha : x ≠ a) : anv_bst_insert_link cmp d a m q x = m x := by
  simp only [anv_bst_insert_link]
  split_ifs
  · rw [bst_set_left_of_ne _ _ _ _ hq, bst_set_parent_of_ne _ _ _ _ ha]
    simp [anv_bst_store_node_create, ha]
  · rw [bst_set_right_of_ne _ _ _ _ hq, bst_set_parent_of_ne _ _ _ _ ha]
    simp [anv_bst_store_node_create, ha]

theorem insert_link_new (cmp : α → α → Int) (d : α) (a : Nat) (m : BstMem α) (q : Nat)
    (hqa : q ≠ a) :
    anv_bst_insert_link cmp d a m q a =
      { data := d, left := none, right := none, parent := some q } := by
  simp only [anv_bst_insert_link]
  split_ifs
  · rw [bst_set_left_of_ne _ _ _ _ (Ne.symm hqa)]
    simp [bst_set_parent, anv_bst_store_node_create]
  · rw [bst_set_right_of_ne _ _ _ _ (Ne.symm hqa)]
    simp [bst_set_parent, anv_bst_store_node_create]

theorem insert_link_parent_lt (cmp : α → α → Int) (d : α) (a : Nat) (m : BstMem α) (q : Nat)
    (hqa : q ≠ a) (hc : cmp d (m q).data < 0) :
    anv_bst_insert_link cmp d a m q q = { m q with left := some a } := by
  have h1 : bst_set_parent (anv_bst_store_node_create m a d) a (some q) q = m q := by
    rw [bst_set_parent_of_ne _ _ _ _ hqa]
    simp [anv_bst_store_node_create, hqa]
  simp only [anv_bst_insert_link, h1, hc, if_true]
  simp [bst_set_left, h1]

theorem insert_link_parent_ge (cmp : α → α → Int) (d : α) (a : Nat) (m : BstMem α) (q : Nat)
    (hqa : q ≠ a) (hc : ¬ cmp d (m q).data < 0) :
    anv_bst_insert_link cmp d a m q q = { m q with right := some a } := by
  have h1 : bst_set_parent (anv_bst_store_node_create m a d) a (some q) q = m q := by
    rw [bst_set_parent_of_ne _ _ _ _ hqa]
    simp [anv_bst_store_node_create, hqa]
  simp only [anv_bst_insert_link, h1, hc, if_false]
  simp [bst_set_right, h1]

theorem bst_insert_descend_addrs (cmp : α → α → Int) (d : α) (a : Nat)
    (t : ANVBinarySearchTreeNode α) :
    ∀ (parent : Option Nat) (t1 : ANVBinarySearchTreeNode α),
      bst_insert_descend cmp d a t parent = some t1 → List.Perm t1.addrs (a :: t.addrs) := by
  induction t with
  | null =>
    intro parent t1 h
    simp only [bst_insert_descend, Option.some.injEq] at h
    subst h
    simp [ANVBinarySearchTreeNode.addrs]
  | node c e l r pp ihl ihr =>
    intro parent t1 h
    simp only [bst_insert_descend] at h
    split_ifs at h with c0 c1
    · cases hl : bst_insert_descend cmp d a l (some c) with
      | none => simp [hl] at h
      | some l1 =>
        simp only [hl, Option.map_some', Option.some.injEq] at h
        subst h
        simp only [ANVBinarySearchTreeNode.addrs]
        exact (List.Perm.append_right _ (ihl _ _ hl))
    · cases hr : bst_insert_descend cmp d a r (some c) with
      | none => simp [hr] at h
      | some r1 =>
        simp only [hr, Option.map_some', Option.some.injEq] at h
        subst h
        simp only [ANVBinarySearchTreeNode.addrs]
        have h1 : List.Perm (l.addrs ++ c :: r1.addrs) (l.addrs ++ c :: a :: r.addrs) :=
          List.Perm.append_left _ (List.Perm.cons _ (ihr _ _ hr))
        have h2 : List.Perm (l.addrs ++ c :: a :: r.addrs) (a :: (l.addrs ++ c :: r.addrs)) := by
          have := @List.perm_middle _ a (l.addrs ++ [c]) r.addrs
          simpa using this
        exact h1.trans h2

theorem insert_loop_spec (cmp : α → α → Int) (d : α) (a : Nat) (m : BstMem α)
    (t : ANVBinarySearchTreeNode α) :
    ∀ (c : Nat) (par par0 : Option Nat) (fuel : Nat),
      BstRep m (some c) par t → t.addrs.Nodup → a ∉ t.addrs → t.count < fuel →
      (bst_insert_finds cmp d t = true ∧
        ∃ x, anv_bst_insert_loop cmp d m fuel (some c) par0 = some (true, x)) ∨
      (bst_insert_finds cmp d t = false ∧
        ∃ q t1, anv_bst_insert_loop cmp d m fuel (some c) par0 = some (false, some q) ∧
          q ∈ t.addrs ∧ (∀ par1, bst_insert_descend cmp d a t par1 = some t1) ∧
          BstRep (anv_bst_insert_link cmp d a m q) (some c) par t1) := by
  induction t with
  | null => intro c par par0 fuel h; cases h
  | node c0 e l r pp ihl ihr =>
    intro c par par0 fuel h hn ha hf
    cases fuel with
    | zero => omega
    | succ n =>
      obtain ⟨h1, h2, h3, h4, h5, h6⟩ := h
      obtain ⟨n1, n2, n3, n4, n5⟩ := node_addrs_nodup _ _ _ _ _ hn
      simp only [Option.some.injEq] at h1
      subst h1
      have hca : c ≠ a := fun e1 => ha (e1 ▸ mem_addrs_root _ _ _ _ _)
      have hal : a ∉ l.addrs := fun e1 => ha (mem_addrs_left _ _ _ _ _ e1)
      have har : a ∉ r.addrs := fun e1 => ha (mem_addrs_right _ _ _ _ _ e1)
      simp only [ANVBinarySearchTreeNode.count] at hf
      simp only [anv_bst_insert_loop, bst_insert_finds, bst_insert_descend, h3]
      by_cases c0 : cmp d e = 0
      · left
        simp [c0]
      by_cases c1 : cmp d e < 0
      · simp only [c0, c1, if_true, if_false]
        have hce : cmp d (m c).data < 0 := by rw [h3]; exact c1
        have hfr : ∀ q, q ∈ l.addrs → ∀ x ∈ r.addrs,
            anv_bst_insert_link cmp d a m q x = m x := fun q hq x hx =>
          insert_link_of_ne cmp d a m q x (fun e1 => n5 q hq (e1 ▸ hx))
            (fun e1 => har (e1 ▸ hx))
        cases l with
        | null =>
          have hl : (m c).left = none := h5
          obtain ⟨k, rfl⟩ : ∃ k, n = k + 1 := ⟨n - 1, by omega⟩
          right
          refine ⟨rfl, c, .node c e (.node a d .null .null (some c)) r pp, ?_,
            mem_addrs_root _ _ _ _ _, fun _ => rfl, ?_⟩
          · rw [hl]
            rfl
          · have hc := insert_link_parent_lt cmp d a m c hca hce
            have hnew := insert_link_new cmp d a m c hca
            refine ⟨rfl, h2, by rw [hc]; exact h3, by rw [hc]; exact h4, ?_, ?_⟩
            · rw [hc]
              exact ⟨rfl, rfl, by rw [hnew], by rw [hnew], by rw [hnew]; rfl,
                by rw [hnew]; rfl⟩
            · rw [hc]
              exact BstRep.congr (fun x hx => insert_link_of_ne cmp d a m c x
                (fun e1 => n4 (e1 ▸ hx)) (fun e1 => har (e1 ▸ hx))) h6
        | node lc le ll lr lpp =>
          have hl : (m c).left = some lc := h5.1
          rw [hl] at h5 ⊢
          rcases ihl lc (some c) (some c) n h5 n1 hal (by omega) with
            ⟨f, x, e1⟩ | ⟨f, q, l1, e1, hq, e2, hr⟩
          · left
            exact ⟨f, x, e1⟩
          · right
            refine ⟨f, q, .node c e l1 r pp, e1, mem_addrs_left _ _ _ _ _ hq,
              fun _ => by rw [e2]; rfl, ?_⟩
            have hc : anv_bst_insert_link cmp d a m q c = m c :=
              insert_link_of_ne cmp d a m q c (fun e1 => n3 (e1 ▸ hq)) hca
            refine ⟨rfl, h2, by rw [hc]; exact h3, by rw [hc]; exact h4, ?_, ?_⟩
            · rw [hc, hl]
              exact hr
            · rw [hc]
              exact BstRep.congr (hfr q hq) h6
      · simp only [c0, c1, if_false]
        have hce : ¬ cmp d (m c).data < 0 := by rw [h3]; exact c1
        have hfr : ∀ q, q ∈ r.addrs → ∀ x ∈ l.addrs,
            anv_bst_insert_link cmp d a m q x = m x := fun q hq x hx =>
          insert_link_of_ne cmp d a m q x (fun e1 => n5 x hx (e1 ▸ hq))
            (fun e1 => hal (e1 ▸ hx))
        cases r with
        | null =>
          have hl : (m c).right = none := h6
          obtain ⟨k, rfl⟩ : ∃ k, n = k + 1 := ⟨n - 1, by omega⟩
          right
          refine ⟨rfl, c, .node c e l (.node a d .null .null (some c)) pp, ?_,
            mem_addrs_root _ _ _ _ _, fun _ => rfl, ?_⟩
          · rw [hl]
            rfl
          · have hc := insert_link_parent_ge cmp d a m c hca hce
            have hnew := insert_link_new cmp d a m c hca
            refine ⟨rfl, h2, by rw [hc]; exact h3, by rw [hc]; exact h4, ?_, ?_⟩
            · rw [hc]
              exact BstRep.congr (fun x hx => insert_link_of_ne cmp d a m c x
                (fun e1 => n3 (e1 ▸ hx)) (fun e1 => hal (e1 ▸ hx))) h5
            · rw [hc]
              exact ⟨rfl, rfl, by rw [hnew], by rw [hnew], by rw [hnew]; rfl,
                by rw [hnew]; rfl⟩
        | node rc re rl rr rpp =>
          have hl : (m c).right = some rc := h6.1
          rw [hl] at h6 ⊢
          rcases ihr rc (some c) (some c) n h6 n2 har (by omega) with
            ⟨f, x, e1⟩ | ⟨f, q, r1, e1, hq, e2, hr⟩
          · left
            exact ⟨f, x, e1⟩
          · right
            refine ⟨f, q, .node c e l r1 pp, e1, mem_addrs_right _ _ _ _ _ hq,
              fun _ => by rw [e2]; rfl, ?_⟩
            have hc : anv_bst_insert_link cmp d a m q c = m c :=
              insert_link_of_ne cmp d a m q c (fun e1 => n4 (e1 ▸ hq)) hca
            refine ⟨rfl, h2, by rw [hc]; exact h3, by rw [hc]; exact h4, ?_, ?_⟩
            · rw [hc]
              exact BstRep.congr (hfr q hq) h5
            · rw [hc, hl]
              exact hr

end BstInsertHeap
section BstFuel

variable {α : Type}

theorem insert_loop_mono (cmp : α → α → Int) (d : α) (m : BstMem α) :
    ∀ (n k : Nat) (cur par : Option Nat) (r : Bool × Option Nat), n ≤ k →
      anv_bst_insert_loop cmp d m n cur par = some r →
      anv_bst_insert_loop cmp d m k cur par = some r := by
  intro n
  induction n with
  | zero => intro k cur par r _ h; simp [anv_bst_insert_loop] at h
  | succ n ih =>
    intro k cur par r hk h
    obtain ⟨k, rfl⟩ : ∃ j, k = j + 1 := ⟨k - 1, by omega⟩
    cases cur with
    | none => simpa [anv_bst_insert_loop] using h
    | some c =>
      simp only [anv_bst_insert_loop] at h ⊢
      split_ifs at h ⊢
      · exact h
      · exact ih k _ _ r (by omega) h
      · exact ih k _ _ r (by omega) h

theorem store_insert_mono (n k : Nat) (hk : n ≤ k) (tree : Option (BstStore α))
    (data : Option α) (newp : Option Nat) (r : Int × Option (BstStore α))
    (h : anv_bst_store_insert n tree data newp = some r) :
    anv_bst_store_insert k tree data newp = some r := by
  cases tree with
  | none => exact h
  | some t =>
    cases data with
    | none => exact h
    | some d =>
      simp only [anv_bst_store_insert] at h ⊢
      cases hr : t.root with
      | none => simpa [hr] using h
      | some rt =>
        simp only [hr] at h ⊢
        cases hl : anv_bst_insert_loop t.compare d t.mem n (some rt) none with
        | none => simp [hl] at h
        | some x =>
          rw [insert_loop_mono t.compare d t.mem n k _ _ x hk hl]
          rw [hl] at h
          exact h

theorem node_min_mono (m : BstMem α) :
    ∀ (n k : Nat) (a x : Nat), n ≤ k → anv_bst_node_min m n a = some x →
      anv_bst_node_min m k a = some x := by
  intro n
  induction n with
  | zero => intro k a x _ h; simp [anv_bst_node_min] at h
  | succ n ih =>
    intro k a x hk h
    obtain ⟨k, rfl⟩ : ∃ j, k = j + 1 := ⟨k - 1, by omega⟩
    simp only [anv_bst_node_min] at h ⊢
    cases hl : (m a).left with
    | none => simpa [hl] using h
    | some l =>
      simp only [hl] at h ⊢
      exact ih k _ _ (by omega) h

theorem node_remove_mono (n k : Nat) (hk : n ≤ k) (tree : BstStore α) (node : Nat)
    (r : BstStore α) (h : anv_bst_node_remove_with_parent n tree node = some r) :
    anv_bst_node_remove_with_parent k tree node = some r := by
  simp only [anv_bst_node_remove_with_parent] at h ⊢
  cases hl : (tree.mem node).left with
  | none => simpa [hl] using h
  | some l =>
    simp only [hl] at h ⊢
    cases hr : (tree.mem node).right with
    | none => simpa [hr] using h
    | some rt =>
      simp only [hr] at h ⊢
      cases hm : anv_bst_node_min tree.mem n rt with
      | none => simp [hm] at h
      | some s =>
        rw [node_min_mono tree.mem n k rt s hk hm]
        rw [hm] at h
        exact h

theorem remove_loop_mono (d : α) :
    ∀ (n k : Nat) (tree : BstStore α) (cur : Option Nat) (r : Int × BstStore α), n ≤ k →
      anv_bst_remove_loop d n tree cur = some r →
      anv_bst_remove_loop d k tree cur = some r := by
  intro n
  induction n with
  | zero => intro k tree cur r _ h; simp [anv_bst_remove_loop] at h
  | succ n ih =>
    intro k tree cur r hk h
    obtain ⟨k, rfl⟩ : ∃ j, k = j + 1 := ⟨k - 1, by omega⟩
    cases cur with
    | none => simpa [anv_bst_remove_loop] using h
    | some c =>
      simp only [anv_bst_remove_loop] at h ⊢
      split_ifs at h ⊢
      · cases hm : anv_bst_node_remove_with_parent n tree c with
        | none => simp [hm] at h
        | some s =>
          rw [node_remove_mono n k (by omega) tree c s hm]
          rw [hm] at h
          exact h
      · exact ih k _ _ r (by omega) h
      · exact ih k _ _ r (by omega) h

theorem store_remove_mono (n k : Nat) (hk : n ≤ k) (tree : Option (BstStore α))
    (data : Option α) (r : Int × Option (BstStore α))
    (h : anv_bst_remove n tree data = some r) :
    anv_bst_remove k tree data = some r := by
  cases tree with
  | none => exact h
  | some t =>
    cases data with
    | none => exact h
    | some d =>
      simp only [anv_bst_remove] at h ⊢
      cases hl : anv_bst_remove_loop d n t t.root with
      | none => simp [hl] at h
      | some x =>
        rw [remove_loop_mono d n k t _ x hk hl]
        rw [hl] at h
        exact h

end BstFuel
section BstWellFormedSteps

variable {α : Type}

theorem BstRep.unique {m : BstMem α} :
    ∀ {t t2 : ANVBinarySearchTreeNode α} {p par : Option Nat},
      BstRep m p par t → BstRep m p par t2 → t = t2
  | .null, .null, _, _, _, _ => rfl
  | .null, .node _ _ _ _ _, _, _, h, h2 => by
    have h1 : _ = none := h
    rw [h1] at h2
    cases h2.1
  | .node _ _ _ _ _, .null, _, _, h, h2 => by
    have h1 : _ = none := h2
    rw [h1] at h
    cases h.1
  | .node a d l r pp, .node a2 d2 l2 r2 pp2, p, par, h, h2 => by
    obtain ⟨h1, k2, k3, k4, k5, k6⟩ := h
    obtain ⟨g1, g2, g3, g4, g5, g6⟩ := h2
    rw [h1] at g1
    simp only [Option.some.injEq] at g1
    subst g1
    rw [BstRep.unique k5 g5, BstRep.unique k6 g6, k2, g2, ← k3, ← g3]

theorem BstRep.null_of_none {m : BstMem α} {par : Option Nat}
    {t : ANVBinarySearchTreeNode α} (h : BstRep m none par t) : t = .null := by
  cases t with
  | null => rfl
  | node a d l r pp => cases h.1

theorem store_insert_wf (st : BstStore α) (hwf : BstWellFormed st) (fuel : Nat)
    (data : Option α) (newp : Option Nat) (hfresh : bst_alloc_fresh st newp)
    (hfuel : st.size < fuel) :
    ∃ rc st1, anv_bst_store_insert fuel (some st) data newp = some (rc, some st1) ∧
      st1.compare = st.compare ∧ BstWellFormed st1 := by
  have hwf0 := hwf
  obtain ⟨t, hrep, hnd, hb, ho, hs⟩ := hwf
  cases data with
  | none => exact ⟨-1, st, rfl, rfl, hwf0⟩
  | some d =>
    cases hroot : st.root with
    | none =>
      rw [hroot] at hrep
      have ht := hrep.null_of_none
      subst ht
      cases newp with
      | none => exact ⟨-1, st, by simp [anv_bst_store_insert, hroot], rfl, hwf0⟩
      | some a =>
        refine ⟨0, { st with mem := anv_bst_store_node_create st.mem a d, root := some a,
                             size := size_wrap (st.size + 1) },
          by simp only [anv_bst_store_insert, hroot], rfl,
          .node a d .null .null none, ?_, by simp [ANVBinarySearchTreeNode.addrs], ?_, ?_, ?_⟩
        · exact ⟨rfl, rfl, by simp [anv_bst_store_node_create],
            by simp [anv_bst_store_node_create], by simp [anv_bst_store_node_create, BstRep],
            by simp [anv_bst_store_node_create, BstRep]⟩
        · intro x hx
          simp only [ANVBinarySearchTreeNode.addrs, List.nil_append, List.mem_singleton] at hx
          subst hx
          exact (hfresh x rfl).1
        · simp [BstOrdered, anv_bst_node_inorder]
        · simp only [hs, ANVBinarySearchTreeNode.count]
          rfl
    | some rt =>
      rw [hroot] at hrep
      obtain ⟨a0, ha0⟩ : ∃ a0, a0 ∉ t.addrs := by
        obtain ⟨x, hx⟩ := Infinite.exists_not_mem_finset t.addrs.toFinset
        exact ⟨x, fun h => hx (List.mem_toFinset.2 h)⟩
      have hpick : ∃ a, a ∉ t.addrs ∧ ∀ b, newp = some b → b = a := by
        cases newp with
        | none => exact ⟨a0, ha0, fun b hb => by cases hb⟩
        | some b =>
          exact ⟨b, (hfresh b rfl).2 t (hroot ▸ hrep), fun c hc => by cases hc; rfl⟩
      obtain ⟨a, ha, hnew⟩ := hpick
      rcases insert_loop_spec st.compare d a st.mem t rt none none fuel hrep hnd ha
          (by omega) with ⟨_, x, e1⟩ | ⟨hf, q, t1, e1, hq, e2, hr⟩
      · exact ⟨1, st, by simp only [anv_bst_store_insert, hroot, e1], rfl, hwf0⟩
      · cases newp with
        | none => exact ⟨-1, st, by simp only [anv_bst_store_insert, hroot, e1], rfl, hwf0⟩
        | some b =>
          have hb2 := hnew b rfl
          subst hb2
          obtain ⟨t2, e3, ho2, -, hc2⟩ :=
            bst_insert_descend_ordered st.compare d b t none ho hf
          have ht : t2 = t1 := by
            have := e2 none
            rw [e3] at this
            exact Option.some.inj this
          subst ht
          have hperm := bst_insert_descend_addrs st.compare d b t none t2 e3
          have hnd2 : (b :: t.addrs).Nodup := List.nodup_cons.2 ⟨ha, hnd⟩
          have hb3 : ∀ x ∈ b :: t.addrs, 0 < x ∧ x < 18446744073709551616 := by
            intro x hx
            rcases List.mem_cons.1 hx with h1 | h1
            · subst h1
              exact (hfresh x rfl).1
            · exact hb x h1
          have hlen := nodup_bounded_length _ _ hnd2 hb3
          simp only [List.length_cons, bst_addrs_length] at hlen
          refine ⟨0, { st with mem := anv_bst_insert_link st.compare d b st.mem q,
                               size := size_wrap (st.size + 1) },
            by simp only [anv_bst_store_insert, hroot, e1], rfl, t2, ?_,
            hperm.nodup_iff.2 hnd2, fun x hx => hb3 x (hperm.mem_iff.1 hx), ho2, ?_⟩
          · rw [hroot]
            exact hr
          · simp only [hc2, hs, size_wrap]
            exact Nat.mod_eq_of_lt (by omega)

theorem store_insert_returned_wf (st st1 : BstStore α) (hwf : BstWellFormed st) (fuel : Nat)
    (data : Option α) (newp : Option Nat) (rc : Int) (hfresh : bst_alloc_fresh st newp)
    (h : anv_bst_store_insert fuel (some st) data newp = some (rc, some st1)) :
    st1.compare = st.compare ∧ BstWellFormed st1 := by
  obtain ⟨rc2, st2, e, hc, hw⟩ :=
    store_insert_wf st hwf (max fuel (st.size + 1)) data newp hfresh (by omega)
  have := store_insert_mono fuel (max fuel (st.size + 1)) (by omega) _ _ _ _ h
  rw [e] at this
  simp only [Option.some.injEq, Prod.mk.injEq] at this
  obtain ⟨-, rfl⟩ := this
  exact ⟨hc, hw⟩

theorem store_remove_wf (st : BstStore α) (hcmp : IsTotalCompare st.compare)
    (hwf : BstWellFormed st) (fuel : Nat) (data : Option α) (hfuel : st.size < fuel) :
    ∃ rc st1, anv_bst_remove fuel (some st) data = some (rc, some st1) ∧
      st1.compare = st.compare ∧ BstWellFormed st1 := by
  have hwf0 := hwf
  obtain ⟨t, hrep, hnd, hb, ho, hs⟩ := hwf
  cases data with
  | none => exact ⟨-1, st, rfl, rfl, hwf0⟩
  | some d =>
    by_cases h1 : anv_bst_contains_loop st.compare d t = 1
    · obtain ⟨st1, k1, k2, k3, k4, k5, k6⟩ := remove_loop_present d t st .root fuel hrep hnd
        (fun q hq => by cases hq) (fun q u hq => by cases hq) h1 (by omega)
      obtain ⟨pre, e, post, s1, s2, s3⟩ := bst_remove_key_split st.compare d t h1
      have hk6 : st1.root = (bst_remove_key st.compare d t).ptr := k6
      have hlen : (bst_remove_key st.compare d t).count + 1 = t.count := by
        rw [node_count_eq_inorder_length, node_count_eq_inorder_length, s1, s3]
        simp only [List.length_append, List.length_cons]
        omega
      have hk1 : anv_bst_remove_loop d fuel st st.root = some (0, st1) := k1
      have hadd := bst_remove_key_addrs st.compare d t hnd
      refine ⟨0, st1, by simp only [anv_bst_remove, hk1, Option.map_some'], k3,
        bst_remove_key st.compare d t, ?_, hadd.1, fun x hx => hb x (hadd.2 x hx), ?_, ?_⟩
      · rw [hk6]
        exact k4
      · rw [k3]
        exact bst_remove_key_ordered hcmp d t ho
      · rw [k2]
        omega
    · have k1 : anv_bst_remove_loop d fuel st st.root = some (-1, st) :=
        remove_loop_absent d st t _ _ fuel hrep (by omega) h1
      exact ⟨-1, st, by simp only [anv_bst_remove, k1, Option.map_some'], rfl, hwf0⟩

theorem store_remove_returned_wf (st st1 : BstStore α) (hcmp : IsTotalCompare st.compare)
    (hwf : BstWellFormed st) (fuel : Nat) (data : Option α) (rc : Int)
    (h : anv_bst_remove fuel (some st) data = some (rc, some st1)) :
    st1.compare = st.compare ∧ BstWellFormed st1 := by
  obtain ⟨rc2, st2, e, hc, hw⟩ :=
    store_remove_wf st hcmp hwf (max fuel (st.size + 1)) data (by omega)
  have := store_remove_mono fuel (max fuel (st.size + 1)) (by omega) _ _ _ h
  rw [e] at this
  simp only [Option.some.injEq, Prod.mk.injEq] at this
  obtain ⟨-, rfl⟩ := this
  exact ⟨hc, hw⟩

theorem node_destroy_returns (m : BstMem α) (t : ANVBinarySearchTreeNode α) :
    ∀ (p par : Option Nat) (fuel : Nat), BstRep m p par t → t.count < fuel →
      ∃ xs, anv_bst_store_node_destroy_recursive m fuel p = some xs ∧
        List.Perm xs t.addrs := by
  induction t with
  | null =>
    intro p par fuel h hf
    have hp : p = none := h
    subst hp
    obtain ⟨k, rfl⟩ : ∃ k, fuel = k + 1 := ⟨fuel - 1, by omega⟩
    exact ⟨[], rfl, List.Perm.refl _⟩
  | node a e l r pp ihl ihr =>
    intro p par fuel h hf
    obtain ⟨h1, h2, h3, h4, h5, h6⟩ := h
    subst h1
    simp only [ANVBinarySearchTreeNode.count] at hf
    obtain ⟨k, rfl⟩ : ∃ k, fuel = k + 1 := ⟨fuel - 1, by omega⟩
    obtain ⟨xs, e1, p1⟩ := ihl _ _ k h5 (by omega)
    obtain ⟨ys, e2, p2⟩ := ihr _ _ k h6 (by omega)
    refine ⟨xs ++ ys ++ [a], by simp only [anv_bst_store_node_destroy_recursive, e1, e2], ?_⟩
    simp only [ANVBinarySearchTreeNode.addrs, List.append_assoc]
    exact List.Perm.append p1 (by
      have : List.Perm (ys ++ [a]) (a :: ys) := List.perm_append_singleton a ys
      exact this.trans (List.Perm.cons a p2))

theorem store_clear_returned_wf (st st1 : BstStore α) (fuel : Nat)
    (h : anv_bst_store_clear fuel (some st) = some (some st1)) :
    st1.compare = st.compare ∧ BstWellFormed st1 := by
  simp only [anv_bst_store_clear] at h
  cases hd : anv_bst_store_node_destroy_recursive st.mem fuel st.root with
  | none => simp [hd] at h
  | some xs =>
    simp only [hd, Option.map_some', Option.some.injEq] at h
    subst h
    exact ⟨rfl, .null, rfl, by simp [ANVBinarySearchTreeNode.addrs],
      by simp [ANVBinarySearchTreeNode.addrs], trivial, rfl⟩

theorem reachable_wf {compare : α → α → Int} (hcmp : IsTotalCompare compare)
    (st : BstStore α) (h : BstReachable compare st) :
    st.compare = compare ∧ BstWellFormed st := by
  induction h with
  | create m =>
    exact ⟨rfl, .null, rfl, by simp [ANVBinarySearchTreeNode.addrs],
      by simp [ANVBinarySearchTreeNode.addrs], trivial, rfl⟩
  | insert st st1 fuel data newp rc _ hfresh hcall ih =>
    obtain ⟨hc, hw⟩ := store_insert_returned_wf st st1 ih.2 fuel data newp rc hfresh hcall
    exact ⟨hc.trans ih.1, hw⟩
  | remove st st1 fuel data rc _ hcall ih =>
    obtain ⟨hc, hw⟩ :=
      store_remove_returned_wf st st1 (ih.1 ▸ hcmp) ih.2 fuel data rc hcall
    exact ⟨hc.trans ih.1, hw⟩
  | clear st st1 fuel _ hcall ih =>
    obtain ⟨hc, hw⟩ := store_clear_returned_wf st st1 fuel hcall
    exact ⟨hc.trans ih.1, hw⟩

end BstWellFormedSteps
section BstReachableClaim

variable {α : Type}

theorem bst_fresh_of_rep (st : BstStore α) (t : ANVBinarySearchTreeNode α)
    (h : BstRep st.mem st.root none t) (a : Nat)
    (ha : (0 < a ∧ a < 18446744073709551616) ∧ a ∉ t.addrs) :
    bst_alloc_fresh st (some a) := by
  intro b hb
  simp only [Option.some.injEq] at hb
  subst hb
  exact ⟨ha.1, fun t2 h2 => by rw [← BstRep.unique h h2]; exact ha.2⟩

theorem bst_store_example_reachable : BstReachable int_compare bst_store_example_4 := by
  have r0 : BstReachable int_compare bst_store_example_0 := BstReachable.create _
  have r1 : BstReachable int_compare bst_store_example_1 :=
    BstReachable.insert bst_store_example_0 _ 5 (some 5) (some 100) 0 r0
      (bst_fresh_of_rep _ .null (by decide) 100 (by decide)) rfl
  have r2 : BstReachable int_compare bst_store_example_2 :=
    BstReachable.insert bst_store_example_1 _ 5 (some 3) (some 101) 0 r1
      (bst_fresh_of_rep _ (.node 100 5 .null .null none) (by decide) 101 (by decide)) rfl
  have r3 : BstReachable int_compare bst_store_example_3 :=
    BstReachable.insert bst_store_example_2 _ 5 (some 8) (some 102) 0 r2
      (bst_fresh_of_rep _ (.node 100 5 (.node 101 3 .null .null (some 100)) .null none)
        (by decide) 102 (by decide)) rfl
  exact BstReachable.remove bst_store_example_3 _ 5 (some 5) 0 r3 rfl

/-- C37. For a comparator that is a total order (`IsTotalCompare`), every
tree that `anv_bst_create` followed by any sequence of returning
`anv_bst_insert`, `anv_bst_remove` and `anv_bst_clear` calls leads to (any
arguments, null ones included, any allocation result that is null or an
address not held by a node of the tree) satisfies the invariant: the node
memory holds a tree below `root` in which the parent pointer of every child
is the address of its parent and that of the root is null, the nodes are
distinct, every key in the left subtree of a node compares less than the
key of the node and every key in the right subtree greater, and `size` is
the number of nodes; the comparator is the one given to `anv_bst_create`.
From every such tree each of the three calls returns (with any fuel above
`size`), so the sequences can always be continued. -/
theorem c37_reachable_trees_keep_invariant (compare : α → α → Int)
    (hcmp : IsTotalCompare compare) (st : BstStore α) (hreach : BstReachable compare st) :
    (∃ t : ANVBinarySearchTreeNode α, BstRep st.mem st.root none t ∧ t.addrs.Nodup ∧
      BstOrdered compare t ∧ st.size = t.count) ∧
    st.compare = compare ∧
    (∀ (fuel : Nat) (data : Option α) (newp : Option Nat), st.size < fuel →
      bst_alloc_fresh st newp →
      ∃ rc st1, anv_bst_store_insert fuel (some st) data newp = some (rc, some st1)) ∧
    (∀ (fuel : Nat) (data : Option α), st.size < fuel →
      ∃ rc st1, anv_bst_remove fuel (some st) data = some (rc, some st1)) ∧
    (∀ fuel : Nat, st.size < fuel →
      ∃ st1, anv_bst_store_clear fuel (some st) = some (some st1)) := by
  obtain ⟨hc, hw⟩ := reachable_wf hcmp st hreach
  have hw0 := hw
  obtain ⟨t, hrep, hnd, hb, ho, hs⟩ := hw
  refine ⟨⟨t, hrep, hnd, hc ▸ ho, hs⟩, hc, ?_, ?_, ?_⟩
  · intro fuel data newp hf hfresh
    obtain ⟨rc, st1, e, -, -⟩ := store_insert_wf st hw0 fuel data newp hfresh hf
    exact ⟨rc, st1, e⟩
  · intro fuel data hf
    obtain ⟨rc, st1, e, -, -⟩ := store_remove_wf st (hc ▸ hcmp) hw0 fuel data hf
    exact ⟨rc, st1, e⟩
  · intro fuel hf
    obtain ⟨xs, e, -⟩ := node_destroy_returns st.mem t st.root none fuel hrep (by omega)
    exact ⟨{ st with root := none, size := 0 },
      by simp only [anv_bst_store_clear, e, Option.map_some']⟩

end BstReachableClaim

theorem c37_reachable_trees_keep_invariant_witness :
    IsTotalCompare int_compare ∧ BstReachable int_compare bst_store_example_4 ∧
    (∃ t : ANVBinarySearchTreeNode Int,
      BstRep bst_store_example_4.mem bst_store_example_4.root none t ∧ t.addrs.Nodup ∧
        BstOrdered int_compare t ∧ bst_store_example_4.size = t.count) :=
  ⟨int_compare_isTotalCompare, bst_store_example_reachable,
    (c37_reachable_trees_keep_invariant int_compare int_compare_isTotalCompare
      bst_store_example_4 bst_store_example_reachable).1⟩

end Anvil
